import Mathlib

/-!
# gflags-learn: a shallow embedding of the flag registry, the typed value box
and the command-line scan

Conventions of the embedding.

* C strings are lists of characters: the terminating NUL is the end of the list, and a
  character stands for one byte of the text.
* A `FlagValue` carries the content of the cell it points to, tagged by its kind; every box
  has a cell of its own (as `DEFINE_VARIABLE` arranges).  Integers are `Int`/`Nat`; the
  range checks of the code are explicit.
* A pointer to a `CommandLineFlag` is an index into the object store of the registry.  A
  `std::map` is the key-ordered list of its entries; the two `std::map<string, string>` of
  the parser, which the sources never iterate, are partial functions.
* Code that can leave defined behaviour returns `Except Fault`: a failed `assert`, an index
  outside the vector, a store through a null pointer.  Loops and the one recursion take a
  bound on their depth, and running into it is the fault `outOfFuel`.
* `strtoll`, `strtoull` and `printf("%d")` follow glibc; `strtod` and `printf("%.17g")` are
  parameters (`Libc`).
* The mutex is not modelled: every function runs with the registry lock held by the one
  thread there is.  A function that updates an object through a pointer returns the new
  object, or the new state that holds it.
-/

namespace gflags

/-! ## C strings and the libc functions the sources call -/

/-- A C string: the characters before the terminating NUL. -/
abbrev CStr := List Char

/-- Ways in which the C++ code leaves defined behaviour (or the model runs out of fuel). -/
inductive Fault where
  | outOfFuel
  | outOfBounds
  | nullDeref
  | assertion
  deriving DecidableEq

/-- The libc `strcmp`: sign of the first differing byte, shorter string first. -/
def strcmp : CStr → CStr → Int
  | [], [] => 0
  | [], _ :: _ => -1
  | _ :: _, [] => 1
  | a :: as, b :: bs => if a = b then strcmp as bs else (a.toNat : Int) - (b.toNat : Int)

/-- The libc `strcasecmp` (C locale): `strcmp` after ASCII lower-casing. -/
def strcasecmp (a b : CStr) : Int :=
  strcmp (a.map Char.toLower) (b.map Char.toLower)

/-- The comparator `StringCmp` of gflags.h: `strcmp(s1, s2) < 0`. -/
def StringCmp (s1 s2 : CStr) : Bool := decide (strcmp s1 s2 < 0)

/-- The libc `strchr(s, c) != NULL`. -/
def strchr_found (s : CStr) (c : Char) : Bool := s.contains c

/-- The libc `strstr(h, n) != NULL`. -/
def strstr_found : CStr → CStr → Bool
  | [], n => n.isEmpty
  | c :: cs, n => n.isPrefixOf (c :: cs) || strstr_found cs n

/-- The libc `isspace` in the C locale: space, \t, \n, \v, \f, \r. -/
def isspace (c : Char) : Bool := c = ' ' || (9 ≤ c.toNat && c.toNat ≤ 13)

/-- Value of a character as a digit in a base up to 36, as `strtol` reads it. -/
def digitValue (c : Char) : Option Nat :=
  if 48 ≤ c.toNat ∧ c.toNat ≤ 57 then some (c.toNat - 48)
  else if 97 ≤ c.toNat ∧ c.toNat ≤ 122 then some (c.toNat - 97 + 10)
  else if 65 ≤ c.toNat ∧ c.toNat ≤ 90 then some (c.toNat - 65 + 10)
  else none

/-- The digit value of `c` when it is a digit of `base`. -/
def digitIn (base : Nat) (c : Char) : Option Nat :=
  match digitValue c with
  | some d => if d < base then some d else none
  | none => none

/-- Longest run of digits of `base`: the accumulated value and the number of characters read. -/
def scanDigits (base : Nat) : CStr → Nat → Nat → Nat × Nat
  | [], acc, n => (acc, n)
  | c :: cs, acc, n =>
    match digitIn base c with
    | some d => scanDigits base cs (acc * base + d) (n + 1)
    | none => (acc, n)

/-- What the `strtol` family reads off a text: sign, magnitude, and `end - nptr`. -/
structure ScanNum where
  negative : Bool
  magnitude : Nat
  consumed : Nat
  deriving DecidableEq

/-- The subject sequence of the `strtol` family (glibc, base 10 or 16): leading
`isspace` characters, an optional sign, for base 16 an optional `0x`/`0X`, then
digits.  Without a digit nothing is converted (`end = nptr`), except that in
`0x` followed by no hexadecimal digit the `0` is the numeral (`end` at the `x`). -/
def scanNumber (nptr : CStr) (base : Nat) : ScanNum :=
  let ws := (nptr.takeWhile isspace).length
  let s1 := nptr.dropWhile isspace
  let sign : Bool × CStr × Nat :=
    match s1 with
    | '-' :: r => (true, r, 1)
    | '+' :: r => (false, r, 1)
    | _ => (false, s1, 0)
  let pfx : CStr × Nat :=
    match sign.2.1 with
    | '0' :: x :: r => if base = 16 ∧ (x = 'x' ∨ x = 'X') then (r, 2) else (sign.2.1, 0)
    | _ => (sign.2.1, 0)
  let ds := scanDigits base pfx.1 0 0
  if ds.2 = 0 then
    if pfx.2 = 2 then ⟨sign.1, 0, ws + sign.2.2 + 1⟩ else ⟨sign.1, 0, 0⟩
  else ⟨sign.1, ds.1, ws + sign.2.2 + pfx.2 + ds.2⟩

/-- Result of a `strtoXXX` call: the value, `end - nptr`, and whether `errno` was set. -/
structure StrtoResult (α : Type) where
  value : α
  endp : Nat
  errno : Bool

/-- The libc `strtoll` (used as `strto64`): clamps to the int64 range and sets `errno`
(ERANGE) on overflow. -/
def strtoll (nptr : CStr) (base : Nat) : StrtoResult Int :=
  let r := scanNumber nptr base
  if r.negative then
    if r.magnitude > 2 ^ 63 then ⟨-(2 ^ 63 : Int), r.consumed, true⟩
    else ⟨-(r.magnitude : Int), r.consumed, false⟩
  else
    if r.magnitude > 2 ^ 63 - 1 then ⟨(2 ^ 63 - 1 : Int), r.consumed, true⟩
    else ⟨(r.magnitude : Int), r.consumed, false⟩

/-- The libc `strtoull` (used as `strtou64`): clamps to `ULLONG_MAX` and sets `errno` on
overflow of the magnitude; a leading minus sign negates the result modulo 2^64. -/
def strtoull (nptr : CStr) (base : Nat) : StrtoResult Nat :=
  let r := scanNumber nptr base
  if r.magnitude > 2 ^ 64 - 1 then ⟨2 ^ 64 - 1, r.consumed, true⟩
  else if r.negative then ⟨(2 ^ 64 - r.magnitude) % 2 ^ 64, r.consumed, false⟩
  else ⟨r.magnitude, r.consumed, false⟩

/-- A C `double`, as its 64-bit IEEE-754 pattern. -/
structure Double where
  bits : Nat
  deriving DecidableEq

/-- NaN: exponent all ones, fraction non-zero. -/
def Double.isNaN (d : Double) : Bool :=
  (d.bits / 2 ^ 52) % 2 ^ 11 = 2047 && d.bits % 2 ^ 52 ≠ 0

/-- The C `==` on doubles: false on NaN, `+0.0 == -0.0`. -/
def Double.eq (a b : Double) : Bool :=
  !a.isNaN && !b.isNaN && (a.bits = b.bits || (a.bits % 2 ^ 63 = 0 && b.bits % 2 ^ 63 = 0))

/-- The two floating-point routines of libc that the sources call; they are
parameters of the development. -/
structure Libc where
  /-- The call `strtod(value, &end)`: the value, `end - value`, whether `errno` was set. -/
  strtod : CStr → StrtoResult Double
  /-- The call `snprintf(buf, 64, "%.17g", d)`. -/
  snprintf_g17 : Double → CStr

/-- The `printf` conversion `%u`/`%llu`: the decimal numeral. -/
def printf_u (n : Nat) : CStr := Nat.toDigits 10 n

/-- The `printf` conversion `%d`/`%lld`: the decimal numeral with a minus sign. -/
def printf_d (v : Int) : CStr :=
  if v < 0 then '-' :: Nat.toDigits 10 v.natAbs else Nat.toDigits 10 v.natAbs

/-- The constant `kError` of gflags.h. -/
def kError : CStr := "ERROR: ".toList

/-! ## FlagValue (gflags_value.cc) -/

/-- The enum `ValueType` of gflags.h. -/
inductive ValueType where
  | FV_BOOL
  | FV_INT32
  | FV_UINT32
  | FV_INT64
  | FV_UINT64
  | FV_DOUBLE
  | FV_STRING
  deriving DecidableEq

/-- The enum `FlagSettingMode` of gflags.h. -/
inductive FlagSettingMode where
  | SET_FLAGS_VALUE
  | SET_FLAG_IF_DEFAULT
  | SET_FLAGS_DEFAULT
  deriving DecidableEq

/-- The storage cell a `FlagValue` points to, read through its `type_` tag
(`VALUE_AS(type)`). -/
inductive Cell where
  | bool (b : Bool)
  | int32 (v : Int)
  | uint32 (v : Nat)
  | int64 (v : Int)
  | uint64 (v : Nat)
  | double (v : Double)
  | string (s : CStr)
  deriving DecidableEq

/-- The class `FlagValue`: the address `value_buffer_`, the cell found there (its
constructor is `type_`), and `owns_value_`.  Every box has a cell of its own. -/
structure FlagValue where
  value_buffer_ : Nat
  cell : Cell
  owns_value_ : Bool
  deriving DecidableEq

/-- The accessor `FlagValue::Type()`. -/
def FlagValue.Type_ (fv : FlagValue) : ValueType :=
  match fv.cell with
  | .bool _ => .FV_BOOL
  | .int32 _ => .FV_INT32
  | .uint32 _ => .FV_UINT32
  | .int64 _ => .FV_INT64
  | .uint64 _ => .FV_UINT64
  | .double _ => .FV_DOUBLE
  | .string _ => .FV_STRING

/-- The arrays `kTrue` and `kFalse` of `ParseFrom`, paired by index. -/
def kTrueFalse : List (CStr × CStr) :=
  [("1".toList, "0".toList), ("t".toList, "f".toList), ("true".toList, "false".toList),
   ("y".toList, "n".toList), ("yes".toList, "no".toList)]

/-- The loop of `ParseFrom` over `kTrue[i]`, `kFalse[i]`. -/
def parseBoolLoop : List (CStr × CStr) → CStr → Option Bool
  | [], _ => none
  | (t, f) :: rest, value =>
    if strcasecmp value t = 0 then some true
    else if strcasecmp value f = 0 then some false
    else parseBoolLoop rest value

/-- The base chosen by `ParseFrom`: 16 when the text starts with `0x` or `0X`, else 10. -/
def parseBase (value : CStr) : Nat :=
  match value with
  | '0' :: x :: _ => if x = 'x' ∨ x = 'X' then 16 else 10
  | _ => 10

/-- The loop `while (*value == ' ') value++` of the unsigned kinds. -/
def skipSpaces (value : CStr) : CStr := value.dropWhile (fun c => c = ' ')

/-- The method `FlagValue::ParseFrom`: whether the text was accepted, and the box after the call. -/
def FlagValue.ParseFrom (libc : Libc) (fv : FlagValue) (value : CStr) : Bool × FlagValue :=
  match fv.cell with
  | .bool _ =>
    match parseBoolLoop kTrueFalse value with
    | some b => (true, { fv with cell := .bool b })
    | none => (false, fv)
  | .string _ => (true, { fv with cell := .string value })
  | .int32 _ =>
    if value = [] then (false, fv) else
    let r := strtoll value (parseBase value)
    if r.errno ∨ r.endp ≠ value.length then (false, fv)
    else if r.value < -(2 ^ 31 : Int) ∨ (2 ^ 31 - 1 : Int) < r.value then (false, fv)
    else (true, { fv with cell := .int32 r.value })
  | .uint32 _ =>
    if value = [] then (false, fv) else
    let value1 := skipSpaces value
    if value1.head? = some '-' then (false, fv) else
    let r := strtoull value1 (parseBase value)
    if r.errno ∨ r.endp ≠ value1.length then (false, fv)
    else if 2 ^ 32 - 1 < r.value then (false, fv)
    else (true, { fv with cell := .uint32 r.value })
  | .int64 _ =>
    if value = [] then (false, fv) else
    let r := strtoll value (parseBase value)
    if r.errno ∨ r.endp ≠ value.length then (false, fv)
    else (true, { fv with cell := .int64 r.value })
  | .uint64 _ =>
    if value = [] then (false, fv) else
    let value1 := skipSpaces value
    if value1.head? = some '-' then (false, fv) else
    let r := strtoull value1 (parseBase value)
    if r.errno ∨ r.endp ≠ value1.length then (false, fv)
    else (true, { fv with cell := .uint64 r.value })
  | .double _ =>
    if value = [] then (false, fv) else
    let r := libc.strtod value
    if r.errno ∨ r.endp ≠ value.length then (false, fv)
    else (true, { fv with cell := .double r.value })

/-- The method `FlagValue::ToString`. -/
def FlagValue.ToString (libc : Libc) (fv : FlagValue) : CStr :=
  match fv.cell with
  | .bool b => if b then "true".toList else "false".toList
  | .int32 v => printf_d v
  | .uint32 v => printf_u v
  | .int64 v => printf_d v
  | .uint64 v => printf_u v
  | .double v => libc.snprintf_g17 v
  | .string s => s

/-- The method `FlagValue::TypeName`: the entry of the table `types` at `type_ * 7`. -/
def FlagValue.TypeName (fv : FlagValue) : CStr :=
  match fv.cell with
  | .bool _ => "bool".toList
  | .int32 _ => "int32".toList
  | .uint32 _ => "uint32".toList
  | .int64 _ => "int64".toList
  | .uint64 _ => "uint64".toList
  | .double _ => "double".toList
  | .string _ => "string".toList

/-- The method `FlagValue::Equal`: false when the kinds differ, else `==` on the cells. -/
def FlagValue.Equal (a x : FlagValue) : Bool :=
  match a.cell, x.cell with
  | .bool u, .bool v => u = v
  | .int32 u, .int32 v => u = v
  | .uint32 u, .uint32 v => u = v
  | .int64 u, .int64 v => u = v
  | .uint64 u, .uint64 v => u = v
  | .double u, .double v => Double.eq u v
  | .string u, .string v => u = v
  | _, _ => false

/-- The method `FlagValue::New`: a fresh owned box of the same kind holding zero.  The
address of the fresh cell plays no role and is 0 in the model. -/
def FlagValue.New (fv : FlagValue) : FlagValue :=
  match fv.cell with
  | .bool _ => ⟨0, .bool false, true⟩
  | .int32 _ => ⟨0, .int32 0, true⟩
  | .uint32 _ => ⟨0, .uint32 0, true⟩
  | .int64 _ => ⟨0, .int64 0, true⟩
  | .uint64 _ => ⟨0, .uint64 0, true⟩
  | .double _ => ⟨0, .double ⟨0⟩, true⟩
  | .string _ => ⟨0, .string [], true⟩

/-- The method `FlagValue::CopyFrom`: `assert(type_ == x.type_)`, then the cell of `x`
is stored into the cell of the receiver. -/
def FlagValue.CopyFrom (fv x : FlagValue) : Except Fault FlagValue :=
  if fv.Type_ = x.Type_ then .ok { fv with cell := x.cell } else .error .assertion

/-- The method `FlagValue::Validate`: the validator called on the name and the cell. -/
def FlagValue.Validate (fv : FlagValue) (flagname : CStr) (fn : CStr → Cell → Bool) : Bool :=
  fn flagname fv.cell

/-! ## CommandLineFlag (gflags_commandline.cc) -/

/-- A validator function pointer (`ValidateFnProto`, non-null): its address and the
function found there, which reads the flag name and the typed cell.  A validator is taken
to be a function of these two arguments, with no effect of its own. -/
structure ValidateFn where
  addr : Nat
  fn : CStr → Cell → Bool

/-- The class `CommandLineFlag`.  A null `validate_fn_proto_` is `none`; `help_` is never
null (`RegisterCommandLineFlag` replaces a null help text by the empty string). -/
structure CommandLineFlag where
  name_ : CStr
  help_ : CStr
  file_ : CStr
  modified_ : Bool
  defvalue_ : FlagValue
  current_ : FlagValue
  validate_fn_proto_ : Option ValidateFn

namespace CommandLineFlag

/-- The accessor `CommandLineFlag::name()`. -/
def name (f : CommandLineFlag) : CStr := f.name_

/-- The accessor `CommandLineFlag::help()`. -/
def help (f : CommandLineFlag) : CStr := f.help_

/-- The accessor `CommandLineFlag::filename()`. -/
def filename (f : CommandLineFlag) : CStr := f.file_

/-- The accessor `CommandLineFlag::current_value()`. -/
def current_value (libc : Libc) (f : CommandLineFlag) : CStr := f.current_.ToString libc

/-- The accessor `CommandLineFlag::default_value()`. -/
def default_value (libc : Libc) (f : CommandLineFlag) : CStr := f.defvalue_.ToString libc

/-- The accessor `CommandLineFlag::type_name()`. -/
def type_name (f : CommandLineFlag) : CStr := f.defvalue_.TypeName

/-- The accessor `CommandLineFlag::validate_function()`. -/
def validate_function (f : CommandLineFlag) : Option ValidateFn := f.validate_fn_proto_

/-- The accessor `CommandLineFlag::flag_ptr()`. -/
def flag_ptr (f : CommandLineFlag) : Nat := f.current_.value_buffer_

/-- The accessor `CommandLineFlag::Type()`: the kind of the default box. -/
def Type_ (f : CommandLineFlag) : ValueType := f.defvalue_.Type_

/-- The method `CommandLineFlag::Validate`. -/
def Validate (f : CommandLineFlag) (value : FlagValue) : Bool :=
  match f.validate_function with
  | none => true
  | some fn => value.Validate f.name fn.fn

/-- The method `CommandLineFlag::ValidateCurrent`. -/
def ValidateCurrent (f : CommandLineFlag) : Bool := f.Validate f.current_

/-- The accessor `CommandLineFlag::Modified()`. -/
def Modified (f : CommandLineFlag) : Bool := f.modified_

/-- The method `CommandLineFlag::UpdateModifiedBit`. -/
def UpdateModifiedBit (f : CommandLineFlag) : CommandLineFlag :=
  if !f.modified_ && !f.current_.Equal f.defvalue_ then { f with modified_ := true } else f

/-- The method `CommandLineFlag::CopyFrom`. -/
def CopyFrom (f src : CommandLineFlag) : Except Fault CommandLineFlag := do
  let f1 := if f.modified_ ≠ src.modified_ then { f with modified_ := src.modified_ } else f
  let cur ← if !f1.current_.Equal src.current_ then f1.current_.CopyFrom src.current_
            else pure f1.current_
  let dflt ← if !f1.defvalue_.Equal src.defvalue_ then f1.defvalue_.CopyFrom src.defvalue_
             else pure f1.defvalue_
  pure { f1 with current_ := cur, defvalue_ := dflt, validate_fn_proto_ := src.validate_fn_proto_ }

end CommandLineFlag

/-! ## TryParseLocked (gflags_util.cc) and FlagRegistry.SetFlagLocked (gflags_regist.cc) -/

/-- The call `StringAppendF(msg, ...)` under `if (msg)`: appends when `msg` is non-null. -/
def appendMsg (msg : Option CStr) (text : CStr) : Option CStr :=
  msg.map (fun m => m ++ text)

/-- What `TryParseLocked` leaves behind: its return value, the box `*flag_value`, `*msg`. -/
structure TryParseResult where
  ok : Bool
  flag_value : FlagValue
  msg : Option CStr

/-- The function `TryParseLocked`: parse into a fresh box, validate it, and only then
copy it into `*flag_value`. -/
def TryParseLocked (libc : Libc) (flag : CommandLineFlag) (flag_value : FlagValue)
    (value : CStr) (msg : Option CStr) : Except Fault TryParseResult :=
  let tentative := flag_value.New.ParseFrom libc value
  if !tentative.1 then
    .ok ⟨false, flag_value, appendMsg msg (kError ++ "illegal value '".toList ++ value ++
      "' specified for ".toList ++ flag.type_name ++ " flag '".toList ++ flag.name ++ "'\n".toList)⟩
  else if !flag.Validate tentative.2 then
    .ok ⟨false, flag_value, appendMsg msg (kError ++ "failed validation of new value '".toList ++
      tentative.2.ToString libc ++ "' for flag '".toList ++ flag.name ++ "'\n".toList)⟩
  else do
    let copied ← flag_value.CopyFrom tentative.2
    pure ⟨true, copied, appendMsg msg (flag.name ++ " set to ".toList ++ copied.ToString libc ++
      "\n".toList)⟩

/-- What `SetFlagLocked` leaves behind: its return value, the object `*flag`, `*msg`. -/
structure SetFlagResult where
  ok : Bool
  flag : CommandLineFlag
  msg : Option CStr

/-- The method `FlagRegistry::SetFlagLocked`.  It touches only `*flag` and `*msg`.  In the
`SET_FLAG_IF_DEFAULT` branch for an already modified flag the source stores through `msg`
without a null test: a null `msg` is a fault there. -/
def FlagRegistry.SetFlagLocked (libc : Libc) (flag : CommandLineFlag) (value : CStr)
    (set_mode : FlagSettingMode) (msg : Option CStr) : Except Fault SetFlagResult :=
  let flag := flag.UpdateModifiedBit
  match set_mode with
  | .SET_FLAGS_VALUE => do
    let r ← TryParseLocked libc flag flag.current_ value msg
    if !r.ok then pure ⟨false, { flag with current_ := r.flag_value }, r.msg⟩
    else pure ⟨true, { flag with current_ := r.flag_value, modified_ := true }, r.msg⟩
  | .SET_FLAG_IF_DEFAULT =>
    if !flag.modified_ then do
      let r ← TryParseLocked libc flag flag.current_ value msg
      if !r.ok then pure ⟨false, { flag with current_ := r.flag_value }, r.msg⟩
      else pure ⟨true, { flag with current_ := r.flag_value, modified_ := true }, r.msg⟩
    else
      match msg with
      | none => .error .nullDeref
      | some _ => .ok ⟨true, flag, some (flag.name ++ " set to ".toList ++ flag.current_value libc)⟩
  | .SET_FLAGS_DEFAULT => do
    let r ← TryParseLocked libc flag flag.defvalue_ value msg
    let flag1 := { flag with defvalue_ := r.flag_value }
    if !r.ok then pure ⟨false, flag1, r.msg⟩
    else if !flag1.modified_ then do
      let r2 ← TryParseLocked libc flag1 flag1.current_ value none
      pure ⟨true, { flag1 with current_ := r2.flag_value }, r.msg⟩
    else pure ⟨true, flag1, r.msg⟩

/-! ## FlagRegistry (gflags_regist.cc) -/

/-- Lookup `std::map::find` in a map kept as its key-ordered list of entries: the value
under the key equivalent to `k` for the comparator. -/
def mapFind {K V : Type} (lt : K → K → Bool) : List (K × V) → K → Option V
  | [], _ => none
  | (k1, v1) :: rest, k => if !lt k k1 && !lt k1 k then some v1 else mapFind lt rest k

/-- Insertion `std::map::insert`: the map after the call, the value the returned iterator
points to, and whether the pair was inserted (it is not when the key is present). -/
def mapInsert {K V : Type} (lt : K → K → Bool) : List (K × V) → K → V → List (K × V) × V × Bool
  | [], k, v => ([(k, v)], v, true)
  | (k1, v1) :: rest, k, v =>
    if lt k k1 then ((k, v) :: (k1, v1) :: rest, v, true)
    else if lt k1 k then
      let r := mapInsert lt rest k v
      ((k1, v1) :: r.1, r.2.1, r.2.2)
    else ((k1, v1) :: rest, v1, false)

/-- Assignment `m[k] = v` on a `std::map`. -/
def mapAssign {K V : Type} (lt : K → K → Bool) : List (K × V) → K → V → List (K × V)
  | [], k, v => [(k, v)]
  | (k1, v1) :: rest, k, v =>
    if lt k k1 then (k, v) :: (k1, v1) :: rest
    else if lt k1 k then (k1, v1) :: mapAssign lt rest k v
    else (k1, v) :: rest

/-- The class `FlagRegistry`: the flag objects it owns (`objs`, a pointer to a flag is its
index there), the map `flags_` from name to flag pointer, and the map `flags_by_ptr_` from
the address of the current-value cell to flag pointer. -/
structure FlagRegistry where
  objs : List CommandLineFlag
  flags_ : List (CStr × Nat)
  flags_by_ptr_ : List (Nat × Nat)

/-- The registry made by `new FlagRegistry`. -/
def FlagRegistry.empty : FlagRegistry := ⟨[], [], []⟩

/-- Dereference of a flag pointer. -/
def FlagRegistry.deref (reg : FlagRegistry) (p : Nat) : Except Fault CommandLineFlag :=
  match reg.objs[p]? with
  | some f => .ok f
  | none => .error .nullDeref

/-- Store through a flag pointer. -/
def FlagRegistry.store (reg : FlagRegistry) (p : Nat) (f : CommandLineFlag) : FlagRegistry :=
  { reg with objs := reg.objs.set p f }

/-- What `ReportError` did: the text written to stderr and the status passed to
`gflags_exitfunc`, if it was called. -/
structure Report where
  stderr : CStr
  exit_status : Option Nat

/-- The enum `DieWhenReporting`. -/
inductive DieWhenReporting where
  | DIE
  | DO_NOT_DIE
  deriving DecidableEq

/-- The function `ReportError`, on the already formatted text. -/
def ReportError (should_die : DieWhenReporting) (text : CStr) : Report :=
  ⟨text, if should_die = .DIE then some 1 else none⟩

/-- What `RegisterFlag` leaves behind: the registry, and the error report if there was one.
The registry is the one the code goes on with when `gflags_exitfunc` returns. -/
structure RegisterOutcome where
  registry : FlagRegistry
  report : Option Report

/-- The method `FlagRegistry::RegisterFlag`.  The object `*flag` is placed in the object
store here (in the source its caller has allocated it), so its pointer is the next index. -/
def FlagRegistry.RegisterFlag (reg : FlagRegistry) (flag : CommandLineFlag) :
    Except Fault RegisterOutcome := do
  let p := reg.objs.length
  let reg1 : FlagRegistry := { reg with objs := reg.objs ++ [flag] }
  let ins := mapInsert StringCmp reg1.flags_ flag.name p
  let reg2 : FlagRegistry := { reg1 with flags_ := ins.1 }
  let report ←
    if ins.2.2 = false then do
      let first ← reg2.deref ins.2.1
      if strcmp first.filename flag.filename ≠ 0 then
        pure (some (ReportError .DIE ("ERROR: flag '".toList ++ flag.name ++
          "' was defined more than once (in files '".toList ++ first.filename ++
          "' and '".toList ++ flag.filename ++ "').\n".toList)))
      else
        pure (some (ReportError .DIE ("ERROR: something wrong with flag '".toList ++ flag.name ++
          "' in file '".toList ++ flag.filename ++ "'.  One possibility: file '".toList ++
          flag.filename ++
          "' is being linked both statically and dynamically into this executable.\n".toList)))
    else pure none
  let by_ptr := mapAssign (fun a b => decide (a < b)) reg2.flags_by_ptr_ flag.flag_ptr p
  let reg3 : FlagRegistry := { reg2 with flags_by_ptr_ := by_ptr }
  pure ⟨reg3, report⟩

/-- The call `std::replace(begin, end, '-', '_')`. -/
def replaceDashes (name : CStr) : CStr := name.map (fun c => if c = '-' then '_' else c)

/-- The recursion of `FindFlagLocked`, with a bound on its depth; `none` when the bound is
reached. -/
def FindFlagLockedFuel (reg : FlagRegistry) : Nat → CStr → Option (Option Nat)
  | 0, _ => none
  | fuel + 1, name =>
    match mapFind StringCmp reg.flags_ name with
    | none =>
      if !strchr_found name '-' then some none
      else FindFlagLockedFuel reg fuel (replaceDashes name)
    | some p => some (some p)

/-- The method `FlagRegistry::FindFlagLocked`: the flag pointer, or `none` for NULL.  The
depth bound is the number of dashes in the name plus one, which the recursion never
reaches (`FindFlagLocked_eq`). -/
def FlagRegistry.FindFlagLocked (reg : FlagRegistry) (name : CStr) : Option Nat :=
  (FindFlagLockedFuel reg (name.count '-' + 2) name).join

/-- The method `FlagRegistry::FindFlagViaPtrLocked`. -/
def FlagRegistry.FindFlagViaPtrLocked (reg : FlagRegistry) (flag_ptr : Nat) : Option Nat :=
  mapFind (fun a b => decide (a < b)) reg.flags_by_ptr_ flag_ptr

/-- What `SplitArgumentLocked` leaves behind: the returned flag pointer (`none` for NULL),
`*key`, `*v` (`none` for NULL) and `*error_message` (left empty when there is no error). -/
structure SplitResult where
  flag : Option Nat
  key : CStr
  v : Option CStr
  error_message : CStr
  deriving DecidableEq

/-- The method `FlagRegistry::SplitArgumentLocked`. -/
def FlagRegistry.SplitArgumentLocked (reg : FlagRegistry) (arg : CStr) :
    Except Fault SplitResult := do
  let key : CStr := arg.takeWhile (fun c => c ≠ '=')
  let v : Option CStr :=
    if strchr_found arg '=' then some ((arg.dropWhile (fun c => c ≠ '=')).drop 1) else none
  let flag_name := key
  match reg.FindFlagLocked flag_name with
  | none =>
    match flag_name with
    | 'n' :: 'o' :: rest =>
      match reg.FindFlagLocked rest with
      | none =>
        pure ⟨none, key, v, kError ++ "unknown command line flag '".toList ++ key ++ "'\n".toList⟩
      | some p => do
        let flag ← reg.deref p
        if flag.Type_ ≠ .FV_BOOL then
          pure ⟨none, key, v, kError ++ "boolean value (".toList ++ key ++
            ") specified for ".toList ++ flag.type_name ++ " command line flag\n".toList⟩
        else pure ⟨some p, rest, some "0".toList, []⟩
    | _ =>
      pure ⟨none, key, v, kError ++ "unknown command line flag '".toList ++ key ++ "'\n".toList⟩
  | some p =>
    match v with
    | none => do
      let flag ← reg.deref p
      if flag.Type_ = .FV_BOOL then pure ⟨some p, key, some "1".toList, []⟩
      else pure ⟨some p, key, none, []⟩
    | some val => pure ⟨some p, key, some val, []⟩

/-! ## CommandLineFlagParser (gflags_commandline.cc) -/

/-- A `std::map<string, string>` that the sources only read and write by key (never
iterate): the partial function from key to value. -/
abbrev StrMap := CStr → Option CStr

/-- The empty `std::map<string, string>`. -/
def StrMap.empty : StrMap := fun _ => none

/-- Assignment `m[k] = v`. -/
def StrMap.assign (m : StrMap) (k v : CStr) : StrMap := fun x => if x = k then some v else m x

/-- Read `m[k]`, which yields the empty string for an absent key. -/
def StrMap.at (m : StrMap) (k : CStr) : CStr := (m k).getD []

/-- The class `CommandLineFlagParser`: the registry it works on (with the flag objects),
`error_flags_` and `undefined_names_`. -/
structure CommandLineFlagParser where
  registry_ : FlagRegistry
  error_flags_ : StrMap
  undefined_names_ : StrMap

/-- The method `CommandLineFlagParser::ProcessSingleOptionLocked`, on a flag pointer: the
returned string and the parser after the call.  `SetFlagLocked` works on `*flag`, which is
stored back whatever it returns. -/
def CommandLineFlagParser.ProcessSingleOptionLocked (libc : Libc) (self : CommandLineFlagParser)
    (flag : Nat) (value : Option CStr) (set_mode : FlagSettingMode) :
    Except Fault (CStr × CommandLineFlagParser) :=
  match value with
  | none => .ok ([], self)
  | some v => do
    let obj ← self.registry_.deref flag
    let r ← FlagRegistry.SetFlagLocked libc obj v set_mode (some [])
    let reg := self.registry_.store flag r.flag
    if !r.ok then
      let errors := self.error_flags_.assign r.flag.name (r.msg.getD [])
      pure ([], { self with registry_ := reg, error_flags_ := errors })
    else pure (r.msg.getD [], { self with registry_ := reg })

/-- The variables of `ParseNewCommandLineFlags` during the scan: the vector `*argv` (its
length is `*argc`), the index `i`, `first_nonopt`, the parser, and what was written to
`cout`. -/
structure ScanState where
  argv : List CStr
  i : Nat
  first_nonopt : Nat
  psr : CommandLineFlagParser
  cout : CStr

/-- The state of the scan when `ParseNewCommandLineFlags` enters its loop: `i = 1`,
`first_nonopt = *argc`. -/
def ScanState.init (self : CommandLineFlagParser) (argv : List CStr) : ScanState :=
  ⟨argv, 1, argv.length, self, []⟩

/-- The test `arg[0] != '-' || arg[1] == '\0'`: the token is a program argument. -/
def isProgramArgument (arg : CStr) : Bool :=
  match arg with
  | '-' :: _ :: _ => false
  | _ => true

/-- The two steps `arg++` that skip one or two leading dashes of an option token. -/
def stripDashes (arg : CStr) : CStr :=
  let arg1 := arg.drop 1
  if arg1.head? = some '-' then arg1.drop 1 else arg1

/-- The test `flag->help()[0] > '\001'` on a (signed) `char`. -/
def helpIsUseful (help : CStr) : Bool :=
  match help with
  | [] => false
  | c :: _ => 1 < c.toNat && c.toNat < 128

/-- The text stored in `error_flags_[key]` when a flag has no argument left. -/
def missingArgumentMessage (token : CStr) (help : CStr) : CStr :=
  kError ++ "flag '".toList ++ token ++ "'".toList ++ " is missing its argument".toList ++
    (if helpIsUseful help then "; flag description: ".toList ++ help else []) ++ "\n".toList

/-- One pass through the body of the `for` loop of `ParseNewCommandLineFlags`, entered with
`i < first_nonopt`.  The result says whether the body left the loop by `break`, and gives the
state after the body and, when the loop goes on, after the `i++` of the loop header. -/
def scanBody (libc : Libc) (s : ScanState) : Except Fault (Bool × ScanState) :=
  match s.argv[s.i]? with
  | none => .error .outOfBounds
  | some arg =>
    if isProgramArgument arg then
      .ok (false, { s with argv := s.argv.eraseIdx s.i ++ [arg], first_nonopt := s.first_nonopt - 1 })
    else
      let arg1 := stripDashes arg
      if arg1 = [] then .ok (true, { s with first_nonopt := s.i + 1 })
      else do
        let r ← s.psr.registry_.SplitArgumentLocked arg1
        match r.flag with
        | none =>
          let undefined := s.psr.undefined_names_.assign r.key []
          let errors := s.psr.error_flags_.assign r.key r.error_message
          let psr1 := { s.psr with undefined_names_ := undefined, error_flags_ := errors }
          pure (false, { s with i := s.i + 1, psr := psr1 })
        | some flag =>
          match r.v with
          | none => do
            let obj ← s.psr.registry_.deref flag
            if obj.Type_ = .FV_BOOL then .error .assertion
            else if s.i + 1 ≥ s.first_nonopt then
              let errors := s.psr.error_flags_.assign r.key (missingArgumentMessage arg obj.help)
              pure (true, { s with psr := { s.psr with error_flags_ := errors } })
            else
              match s.argv[s.i + 1]? with
              | none => .error .outOfBounds
              | some value => do
                let warn : CStr :=
                  if value.head? = some '-' && obj.Type_ = .FV_STRING &&
                      (strstr_found obj.help "true".toList || strstr_found obj.help "false".toList)
                  then "Did you really mean to set flag '".toList ++ obj.name ++
                    "' to the value '".toList ++ value ++ "'?".toList
                  else []
                let q ← s.psr.ProcessSingleOptionLocked libc flag (some value) .SET_FLAGS_VALUE
                pure (false, { s with i := s.i + 2, psr := q.2, cout := s.cout ++ warn })
          | some value => do
            let q ← s.psr.ProcessSingleOptionLocked libc flag (some value) .SET_FLAGS_VALUE
            pure (false, { s with i := s.i + 1, psr := q.2 })

/-- The `for` loop of `ParseNewCommandLineFlags`, with a bound on the number of passes. -/
def scanLoop (libc : Libc) : Nat → ScanState → Except Fault ScanState
  | 0, s => if s.i < s.first_nonopt then .error .outOfFuel else .ok s
  | fuel + 1, s =>
    if s.i < s.first_nonopt then do
      let r ← scanBody libc s
      if r.1 then pure r.2 else scanLoop libc fuel r.2
    else .ok s

/-- What `ParseNewCommandLineFlags` leaves behind: the returned index, the caller's vector
`*argv` (its length is the caller's `*argc`), the parser, and what was written to `cout`. -/
structure ParseOutcome where
  result : Nat
  argv : List CStr
  psr : CommandLineFlagParser
  cout : CStr

/-- The method `CommandLineFlagParser::ParseNewCommandLineFlags`.  The loop gets `*argc`
passes, which it never uses up. -/
def CommandLineFlagParser.ParseNewCommandLineFlags (libc : Libc) (self : CommandLineFlagParser)
    (argv : List CStr) (remove_flags : Bool) : Except Fault ParseOutcome := do
  let s ← scanLoop libc argv.length (ScanState.init self argv)
  if remove_flags then
    if s.first_nonopt = 0 ∨ s.argv.length < s.first_nonopt then .error .outOfBounds
    else
      match s.argv[0]? with
      | none => .error .outOfBounds
      | some argv0 =>
        pure ⟨1, (s.argv.set (s.first_nonopt - 1) argv0).drop (s.first_nonopt - 1), s.psr, s.cout⟩
  else pure ⟨s.first_nonopt, s.argv, s.psr, s.cout⟩

/-- The loop of `ValidateFlags` over the entries of `flags_`. -/
def validateFlagsLoop (reg : FlagRegistry) (all : Bool) :
    List (CStr × Nat) → StrMap → Except Fault StrMap
  | [], errors => .ok errors
  | (_, p) :: rest, errors => do
    let flag ← reg.deref p
    if (all || !flag.Modified) && !flag.ValidateCurrent then
      if (errors.at flag.name).isEmpty then
        validateFlagsLoop reg all rest (errors.assign flag.name
          (kError ++ "--".toList ++ flag.name ++ " must be set on the commandline".toList ++
            (if !flag.Modified then " (default value fails validation)".toList else []) ++
            "\n".toList))
      else validateFlagsLoop reg all rest errors
    else validateFlagsLoop reg all rest errors

/-- The method `CommandLineFlagParser::ValidateFlags`. -/
def CommandLineFlagParser.ValidateFlags (self : CommandLineFlagParser) (all : Bool) :
    Except Fault CommandLineFlagParser := do
  let errors ← validateFlagsLoop self.registry_ all self.registry_.flags_ self.error_flags_
  pure { self with error_flags_ := errors }

/-- The method `CommandLineFlagParser::ValidateUnmodifiedFlags`. -/
def CommandLineFlagParser.ValidateUnmodifiedFlags (self : CommandLineFlagParser) :
    Except Fault CommandLineFlagParser :=
  self.ValidateFlags false

/-! ## Gflags (gflags.cc) -/

/-- The class `Gflags`, with the function-level static `called_set_argv` of `SetArgv`. -/
structure Gflags where
  argv0 : CStr
  cmdline : CStr
  argvs : List CStr
  argv_sum : Nat
  program_usage : CStr
  version_string : CStr
  called_set_argv : Bool

/-- The constructor `Gflags::Gflags()`, before any call of `SetArgv`. -/
def Gflags.new : Gflags := ⟨"UNKNOWN".toList, [], [], 0, [], [], false⟩

/-- The loop of `SetArgv` that builds `cmdline`: the tokens joined by single spaces. -/
def joinArgv : List CStr → CStr
  | [] => []
  | [a] => a
  | a :: b :: rest => a ++ ' ' :: joinArgv (b :: rest)

/-- The value a (signed) `char` adds to the `uint32` sum. -/
def charAsInt (c : Char) : Int := if c.toNat < 128 then c.toNat else (c.toNat : Int) - 256

/-- The loop `argv_sum += *c` of `SetArgv`, in `uint32` arithmetic. -/
def sumChars (cmdline : CStr) : Nat :=
  cmdline.foldl (fun acc c => (((acc : Int) + charAsInt c) % (2 ^ 32 : Int)).toNat) 0

/-- The method `Gflags::SetArgv`. -/
def Gflags.SetArgv (g : Gflags) (argv : List CStr) : Except Fault Gflags :=
  if g.called_set_argv then .ok g
  else
    match argv with
    | [] => .error .assertion
    | a0 :: _ =>
      let line := joinArgv argv
      .ok { g with called_set_argv := true, argv0 := a0, cmdline := line, argvs := g.argvs ++ argv,
                   argv_sum := sumChars line }

/-- What `ParseCommandLineFlagsInternal` leaves behind: the `Gflags` object and the outcome
of the scan followed by the validation pass (the parser is a local of the function). -/
structure InternalOutcome where
  gflags : Gflags
  result : Nat
  argv : List CStr
  psr : CommandLineFlagParser

/-- The method `Gflags::ParseCommandLineFlagsInternal`, on the global registry. -/
def Gflags.ParseCommandLineFlagsInternal (libc : Libc) (g : Gflags) (registry : FlagRegistry)
    (argv : List CStr) (remove_flags : Bool) (_do_report : Bool) : Except Fault InternalOutcome := do
  let g1 ← g.SetArgv argv
  let fresh : CommandLineFlagParser := ⟨registry, StrMap.empty, StrMap.empty⟩
  let out ← fresh.ParseNewCommandLineFlags libc argv remove_flags
  let parser1 ← out.psr.ValidateUnmodifiedFlags
  pure ⟨g1, out.result, out.argv, parser1⟩

/-- The method `Gflags::ParseCommandLineFlags`. -/
def Gflags.ParseCommandLineFlags (libc : Libc) (g : Gflags) (registry : FlagRegistry)
    (argv : List CStr) (remove_flags : Bool) : Except Fault InternalOutcome :=
  g.ParseCommandLineFlagsInternal libc registry argv remove_flags true

/-- The template `Gflags::RegisterCommandLineFlag`: builds the two boxes over the given
storage (not owned) and the flag object, and registers it. -/
def Gflags.RegisterCommandLineFlag (reg : FlagRegistry) (name help filename : CStr)
    (current_storage : Nat × Cell) (defvalue_storage : Nat × Cell) : Except Fault RegisterOutcome :=
  let current : FlagValue := ⟨current_storage.1, current_storage.2, false⟩
  let defvalue : FlagValue := ⟨defvalue_storage.1, defvalue_storage.2, false⟩
  reg.RegisterFlag ⟨name, help, filename, false, defvalue, current, none⟩

/-! ## Invariants and notions used to state the properties -/

/-- The representation invariant of a registry: `flags_` is ordered by its comparator (it is
a `std::map`), every entry points to a flag object that carries the entry's key as its name,
and the two boxes of every flag object have the same kind. -/
def FlagRegistry.WellFormed (reg : FlagRegistry) : Prop :=
  reg.flags_.Pairwise (fun a b => StringCmp a.1 b.1 = true) ∧
  (∀ e ∈ reg.flags_, reg.objs[e.2]?.map CommandLineFlag.name_ = some e.1) ∧
  (∀ f ∈ reg.objs, f.current_.Type_ = f.defvalue_.Type_)

/-- Two registries with the same maps and with flag objects that agree on everything a set
operation on the current value leaves alone: name, help, file, default box, validator, and
the kind of the current box. -/
def FlagRegistry.SameFlags (r1 r2 : FlagRegistry) : Prop :=
  r2.flags_ = r1.flags_ ∧ r2.flags_by_ptr_ = r1.flags_by_ptr_ ∧
  List.Forall₂ (fun f g : CommandLineFlag => g.name_ = f.name_ ∧ g.help_ = f.help_ ∧
    g.file_ = f.file_ ∧ g.defvalue_ = f.defvalue_ ∧
    g.validate_fn_proto_ = f.validate_fn_proto_ ∧ g.current_.Type_ = f.current_.Type_)
    r1.objs r2.objs

/-- The token, scanned as an option, comes back from `SplitArgumentLocked` with a flag and
without a value: the scan takes its value from the next slot of the vector. -/
def FlagRegistry.needsSeparateValue (reg : FlagRegistry) (token : CStr) : Bool :=
  match reg.SplitArgumentLocked (stripDashes token) with
  | .ok r => r.flag.isSome && r.v.isNone
  | .error _ => false

/-- The states in which the scan started in `s0` stands at the head of its loop: `s0`, and
every state that a pass through the body which does not `break` leads to. -/
inductive ScanReaches (libc : Libc) (s0 : ScanState) : ScanState → Prop where
  | start : ScanReaches libc s0 s0
  | pass (s s1 : ScanState) : ScanReaches libc s0 s → s.i < s.first_nonopt →
      scanBody libc s = .ok (false, s1) → ScanReaches libc s0 s1

instance (reg : FlagRegistry) : Decidable reg.WellFormed := by
  unfold FlagRegistry.WellFormed; infer_instance

/-! ## Example programs -/

/-- A libc for the examples, none of which has a `double` flag: its `strtod` converts
nothing and reports an error. -/
def exampleLibc : Libc := ⟨fun _ => ⟨⟨0⟩, 0, true⟩, fun _ => []⟩

/-- A flag object as `DEFINE_VARIABLE` makes it: current and default storage hold the same
value, at the addresses `addr` and `addr + 1`. -/
def defineFlag (name : String) (file : String) (addr : Nat) (value : Cell) : CommandLineFlag :=
  ⟨name.toList, [], file.toList, false, ⟨addr + 1, value, false⟩, ⟨addr, value, false⟩, none⟩

/-- The registry of a program that defines the int32 flags `a`, `b` and `my_flag`, the string
flag `needs_value` and the boolean flag `verbose` (default true), in this order. -/
def exampleRegistry : FlagRegistry :=
  { objs := [defineFlag "a" "main.cc" 100 (.int32 0), defineFlag "b" "main.cc" 102 (.int32 0),
             defineFlag "my_flag" "main.cc" 104 (.int32 0),
             defineFlag "needs_value" "main.cc" 106 (.string []),
             defineFlag "verbose" "main.cc" 108 (.bool true)],
    flags_ := [("a".toList, 0), ("b".toList, 1), ("my_flag".toList, 2),
               ("needs_value".toList, 3), ("verbose".toList, 4)],
    flags_by_ptr_ := [(100, 0), (102, 1), (104, 2), (106, 3), (108, 4)] }

/-- A parser over the example registry, as `ParseCommandLineFlagsInternal` creates it. -/
def exampleParser : CommandLineFlagParser := ⟨exampleRegistry, StrMap.empty, StrMap.empty⟩

/-- The bounds that hold whenever the scan stands at the head of its loop. -/
def ScanState.InBounds (s : ScanState) : Prop :=
  1 ≤ s.i ∧ s.i ≤ s.first_nonopt ∧ s.first_nonopt ≤ s.argv.length

/-- The message `RegisterFlag` reports for a name that is already registered. -/
def duplicateFlagMessage (name firstFile file : CStr) : CStr :=
  if firstFile = file then
    "ERROR: something wrong with flag '".toList ++ name ++ "' in file '".toList ++ file ++
      "'.  One possibility: file '".toList ++ file ++
      "' is being linked both statically and dynamically into this executable.\n".toList
  else
    "ERROR: flag '".toList ++ name ++ "' was defined more than once (in files '".toList ++
      firstFile ++ "' and '".toList ++ file ++ "').\n".toList

/-- The vector `[--a=1, pos1, --b=2, pos2]` that follows `prog` in the partitioning example. -/
def exampleArgs : List CStr := ["--a=1".toList, "pos1".toList, "--b=2".toList, "pos2".toList]

/-- A registry whose flags were registered, through `RegisterCommandLineFlag`, under names
with a dash: the boolean flag `dry-run` and the int32 flag `nodry_run`. -/
def dashRegistry : FlagRegistry :=
  { objs := [defineFlag "dry-run" "main.cc" 100 (.bool true),
             defineFlag "nodry_run" "main.cc" 102 (.int32 0)],
    flags_ := [("dry-run".toList, 0), ("nodry_run".toList, 1)],
    flags_by_ptr_ := [(100, 0), (102, 1)] }

/-- A registry with the int32 flag `log-level` and the boolean flag `nolog_level`. -/
def levelRegistry : FlagRegistry :=
  { objs := [defineFlag "log-level" "main.cc" 100 (.int32 0),
             defineFlag "nolog_level" "main.cc" 102 (.bool false)],
    flags_ := [("log-level".toList, 0), ("nolog_level".toList, 1)],
    flags_by_ptr_ := [(100, 0), (102, 1)] }

/-- The validator `ValidateTimeout` of main.cc: `timeout > 0` on an int32 flag. -/
def ValidateTimeout : ValidateFn :=
  ⟨4096, fun _ c => match c with
    | .int32 timeout => decide (timeout > 0)
    | _ => false⟩

/-- A flag `timeout` as in main.cc, here with the default 0, and `ValidateTimeout` attached. -/
def timeoutFlag : CommandLineFlag :=
  { defineFlag "timeout" "main.cc" 100 (.int32 0) with validate_fn_proto_ := some ValidateTimeout }

/-- The registry of a program that defines only `timeoutFlag`. -/
def timeoutRegistry : FlagRegistry :=
  { objs := [timeoutFlag], flags_ := [("timeout".toList, 0)], flags_by_ptr_ := [(100, 0)] }

/-- The flag `timeout` after a successful `--timeout=5`. -/
def timeoutFlagSet : CommandLineFlag :=
  { timeoutFlag with current_ := ⟨100, .int32 5, false⟩, modified_ := true }

/-- The flag `a` of the example registry after a successful `--a=1`. -/
def exampleFlagSet : CommandLineFlag :=
  { defineFlag "a" "main.cc" 100 (.int32 0) with current_ := ⟨100, .int32 1, false⟩, modified_ := true }

/-- The state of the scan of `[prog, --a=1, --needs_value]` over the example registry after
the pass over `--a=1`. -/
def exampleScanState : ScanState :=
  ⟨["prog".toList, "--a=1".toList, "--needs_value".toList], 2, 3,
   ⟨exampleRegistry.store 0 exampleFlagSet, StrMap.empty, StrMap.empty⟩, []⟩

/-! ## Numerals as texts: notions used to state the properties of `ParseFrom` and `ToString` -/

/-- A decimal digit: one of the characters `0` to `9`. -/
def isDecimalDigit (c : Char) : Bool := decide (48 ≤ c.toNat ∧ c.toNat ≤ 57)

/-- The number that a text of decimal digits denotes, most significant digit first. -/
def decimalValue (ds : CStr) : Nat := ds.foldl (fun acc c => acc * 10 + (c.toNat - 48)) 0

/-- A hexadecimal digit: `0` to `9`, `a` to `f` or `A` to `F`. -/
def isHexDigit (c : Char) : Bool :=
  decide ((48 ≤ c.toNat ∧ c.toNat ≤ 57) ∨ (97 ≤ c.toNat ∧ c.toNat ≤ 102) ∨
    (65 ≤ c.toNat ∧ c.toNat ≤ 70))

/-- The value of one hexadecimal digit. -/
def hexDigitValue (c : Char) : Nat :=
  if c.toNat ≤ 57 then c.toNat - 48 else if c.toNat ≤ 70 then c.toNat - 55 else c.toNat - 87

/-- The number that a text of hexadecimal digits denotes, most significant digit first. -/
def hexValue (ds : CStr) : Nat := ds.foldl (fun acc c => acc * 16 + hexDigitValue c) 0

/-- The decimal numeral of the claim on decimal texts: an optional `-`, then the digits. -/
def decimalNumeral (neg : Bool) (ds : CStr) : CStr := if neg then '-' :: ds else ds

/-- The integer that `decimalNumeral neg ds` denotes. -/
def decimalNumeralValue (neg : Bool) (ds : CStr) : Int :=
  if neg then -(decimalValue ds : Int) else (decimalValue ds : Int)

/-- The texts that set a boolean flag, in lower case. -/
def kTrueWords : List CStr :=
  ["1".toList, "t".toList, "true".toList, "y".toList, "yes".toList]

/-- The texts that clear a boolean flag, in lower case. -/
def kFalseWords : List CStr :=
  ["0".toList, "f".toList, "false".toList, "n".toList, "no".toList]

/-- The values that the C++ type of a cell can hold: the integers of the model are unbounded,
those of `int32`, `uint32`, `int64` and `uint64` are not. -/
def Cell.inRange : Cell → Bool
  | .int32 v => decide (-(2 ^ 31 : Int) ≤ v ∧ v ≤ 2 ^ 31 - 1)
  | .uint32 v => decide (v ≤ 2 ^ 32 - 1)
  | .int64 v => decide (-(2 ^ 63 : Int) ≤ v ∧ v ≤ 2 ^ 63 - 1)
  | .uint64 v => decide (v ≤ 2 ^ 64 - 1)
  | _ => true

/-- The flag `a` of the example registry after the program has stored 5 into `FLAGS_a`
directly: the current value differs from the default, and no set operation has run. -/
def bypassedFlag : CommandLineFlag :=
  { defineFlag "a" "main.cc" 100 (.int32 0) with current_ := ⟨100, .int32 5, false⟩ }

/-- Equality of two texts ignoring the case of ASCII letters. -/
def eqIgnoreCase (a b : CStr) : Bool := decide (a.map Char.toLower = b.map Char.toLower)

/-! ## Gflags: RegisterFlagValidator (gflags.h) and GetCommandLineOption (gflags.cc) -/

/-- The comparison `==` of two `ValidateFnProto` values: both null, or the same address. -/
def sameValidateFn : Option ValidateFn → Option ValidateFn → Bool
  | none, none => true
  | some a, some b => decide (a.addr = b.addr)
  | _, _ => false

/-- What `RegisterFlagValidator` leaves behind: its return value, the registry (with the flag
objects), and what it wrote to `cout`. -/
structure ValidatorOutcome where
  ok : Bool
  registry : FlagRegistry
  cout : CStr

/-- The template `Gflags::RegisterFlagValidator`, on the global registry.  The text that
`cout << flag_ptr` writes for an address is the parameter `showPtr`. -/
def Gflags.RegisterFlagValidator (showPtr : Nat → CStr) (registry : FlagRegistry)
    (flag_ptr : Nat) (validate_fn : Option ValidateFn) : Except Fault ValidatorOutcome :=
  match registry.FindFlagViaPtrLocked flag_ptr with
  | none =>
    .ok ⟨false, registry, "Ignoring RegisterValidateFunction() for flag pointer ".toList ++
      showPtr flag_ptr ++ ": no flag found at that address".toList⟩
  | some p => do
    let flag ← registry.deref p
    if sameValidateFn validate_fn flag.validate_function then pure ⟨true, registry, []⟩
    else if validate_fn.isSome && flag.validate_function.isSome then
      pure ⟨false, registry, "Ignoring RegisterValidateFunction() for flag '".toList ++
        flag.name ++ "': validate-fn already registered".toList⟩
    else pure ⟨true, registry.store p { flag with validate_fn_proto_ := validate_fn }, []⟩

/-- The method `Gflags::GetCommandLineOption`, on the global registry: the return value and
the string `*value` after the call.  A null `name` is `none`; a null `value` (`none`) fails
the `assert`. -/
def Gflags.GetCommandLineOption (libc : Libc) (registry : FlagRegistry) (name : Option CStr)
    (value : Option CStr) : Except Fault (Bool × Option CStr) :=
  match name with
  | none => .ok (false, value)
  | some name =>
    match value with
    | none => .error .assertion
    | some out =>
      match registry.FindFlagLocked name with
      | none => .ok (false, some out)
      | some p => do
        let flag ← registry.deref p
        pure (true, some (flag.current_value libc))

/-! ## More notions used to state the properties -/

/-- A sequence of calls of `RegisterFlag`, one for each flag of the list in its order, none
of which reports an error: the registry they leave, or `none` when a call reports an error
(which is fatal) or faults. -/
def registerAll : FlagRegistry → List CommandLineFlag → Option FlagRegistry
  | reg, [] => some reg
  | reg, f :: fs =>
    match reg.RegisterFlag f with
    | .ok ⟨reg1, none⟩ => registerAll reg1 fs
    | _ => none

/-- The representation invariant of the map `flags_by_ptr_`: it is ordered by address (it is
a `std::map`), every entry points to a flag object whose current-value storage is at the
entry's address, and the address of every flag object is a key of the map. -/
def FlagRegistry.PtrIndexed (reg : FlagRegistry) : Prop :=
  reg.flags_by_ptr_.Pairwise (fun a b => a.1 < b.1) ∧
  (∀ e ∈ reg.flags_by_ptr_, reg.objs[e.2]?.map CommandLineFlag.flag_ptr = some e.1) ∧
  (∀ f ∈ reg.objs, (reg.FindFlagViaPtrLocked f.flag_ptr).isSome = true)

instance (reg : FlagRegistry) : Decidable reg.PtrIndexed := by
  unfold FlagRegistry.PtrIndexed; infer_instance

/-- What the pass of the scan over one option token does to the parser, when the token is not
`--` and does not take its value from the next slot: `SplitArgumentLocked`, then either the
two records for an unresolved name or `ProcessSingleOptionLocked` in `SET_FLAGS_VALUE` mode. -/
def CommandLineFlagParser.applyToken (libc : Libc) (psr : CommandLineFlagParser) (tok : CStr) :
    Except Fault CommandLineFlagParser := do
  let r ← psr.registry_.SplitArgumentLocked (stripDashes tok)
  match r.flag with
  | none =>
    pure ⟨psr.registry_, psr.error_flags_.assign r.key r.error_message,
      psr.undefined_names_.assign r.key []⟩
  | some flag =>
    match r.v with
    | none => pure psr
    | some value => do
      let q ← psr.ProcessSingleOptionLocked libc flag (some value) .SET_FLAGS_VALUE
      pure q.2

/-- The option tokens of a vector: they start with `-` and are longer than that. -/
def optionTokens (tokens : List CStr) : List CStr := tokens.filter (fun t => !isProgramArgument t)

/-- Two flags of different names built over the same current-value storage, at address 100. -/
def sharedStorageFlags : List CommandLineFlag :=
  [defineFlag "x" "main.cc" 100 (.int32 0),
   ⟨"y".toList, [], "main.cc".toList, false, ⟨201, .int32 0, false⟩, ⟨100, .int32 0, false⟩, none⟩]

/-- The registry after the two flags of `sharedStorageFlags` were registered. -/
def sharedStorageRegistry : FlagRegistry :=
  { objs := sharedStorageFlags, flags_ := [("x".toList, 0), ("y".toList, 1)],
    flags_by_ptr_ := [(100, 1)] }

/-- A validator other than `ValidateTimeout`: it accepts every value. -/
def ValidateAnything : ValidateFn := ⟨8192, fun _ _ => true⟩

/-- A text for an address, for the examples. -/
def exampleShowPtr (p : Nat) : CStr := '0' :: 'x' :: Nat.toDigits 16 p

/-- The tokens the scan has yet to visit: the slots from `i` up to the boundary
`first_nonopt`. -/
def ScanState.window (s : ScanState) : List CStr := (s.argv.drop s.i).take (s.first_nonopt - s.i)

/-- The text `ParseNewCommandLineFlags` stores for an option token whose key resolves to no
flag. -/
def unknownFlagMessage (key : CStr) : CStr :=
  kError ++ "unknown command line flag '".toList ++ key ++ "'\n".toList

/-- The key that `SplitArgumentLocked` cuts from an option token: the text between the
leading dashes and the first `=`. -/
def tokenKey (tok : CStr) : CStr := (stripDashes tok).takeWhile (fun c => c ≠ '=')

/-- The state of the scan of `[prog, --a=1, --, --b=2]` over the example registry after the
pass over `--a=1`. -/
def doubleDashScanState : ScanState :=
  ⟨["prog".toList, "--a=1".toList, "--".toList, "--b=2".toList], 2, 4,
   ⟨exampleRegistry.store 0 exampleFlagSet, StrMap.empty, StrMap.empty⟩, []⟩

/-- The flag `timeout` after a write of -1 to its variable that `SetFlagLocked` has seen
(the modified bit is on), which `ValidateTimeout` rejects. -/
def timeoutFlagBad : CommandLineFlag :=
  { timeoutFlag with current_ := ⟨100, .int32 (-1), false⟩, modified_ := true }

/-! ## More example programs -/

/-- A validator that accepts only the value true of a boolean flag. -/
def ValidateIsTrue : ValidateFn :=
  ⟨12288, fun _ c => match c with
    | .bool b => b
    | _ => false⟩

/-- A registry with the boolean flag `k=v`, registered through `RegisterCommandLineFlag`
under a name with a `=`, and the boolean flag `strict` (default true) with the validator
`ValidateIsTrue`. -/
def negationRegistry : FlagRegistry :=
  { objs := [defineFlag "k=v" "main.cc" 100 (.bool true),
             { defineFlag "strict" "main.cc" 102 (.bool true) with
               validate_fn_proto_ := some ValidateIsTrue }],
    flags_ := [("k=v".toList, 0), ("strict".toList, 1)],
    flags_by_ptr_ := [(100, 0), (102, 1)] }

/-- The quiet NaN that `strtod` returns for the text `nan`. -/
def quietNaN : Double := ⟨0x7FF8000000000000⟩

/-- A libc for the examples with a `double` flag: its `strtod` converts the text `nan` to
the quiet NaN, as the C library does, and is not asked about any other text (it reports an
error there); `%.17g` prints a NaN as `nan`. -/
def nanLibc : Libc :=
  ⟨fun s => if s = "nan".toList then ⟨quietNaN, 3, false⟩ else ⟨⟨0⟩, 0, true⟩,
   fun d => if d.isNaN then "nan".toList else []⟩

/-- A flag `scale` of kind double with the default 0.0, as `DEFINE_double` makes it. -/
def scaleFlag : CommandLineFlag := defineFlag "scale" "main.cc" 100 (.double ⟨0⟩)

/-- The state of the scan of `[prog, pos, --needs_value]` over the example registry after
the pass over `pos`, which has moved it behind the boundary. -/
def missingArgumentScanState : ScanState :=
  ⟨["prog".toList, "--needs_value".toList, "pos".toList], 1, 2, exampleParser, []⟩

/-! ## Lemmas -/

/-! ## Lemmas on the value box and on single-flag operations -/

theorem FlagValue.New_Type (fv : FlagValue) : fv.New.Type_ = fv.Type_ := by
  cases fv with
  | mk a c o => cases c <;> rfl

theorem FlagValue.ParseFrom_Type (libc : Libc) (fv : FlagValue) (value : CStr) :
    (fv.ParseFrom libc value).2.Type_ = fv.Type_ := by
  cases fv with
  | mk a c o =>
    cases c <;> simp only [FlagValue.ParseFrom] <;> (repeat' split) <;> rfl

theorem FlagValue.CopyFrom_ok (fv x : FlagValue) (h : fv.Type_ = x.Type_) :
    fv.CopyFrom x = .ok { fv with cell := x.cell } := by
  simp [FlagValue.CopyFrom, h]

theorem CommandLineFlag.UpdateModifiedBit_current (f : CommandLineFlag) :
    f.UpdateModifiedBit.current_ = f.current_ := by
  unfold CommandLineFlag.UpdateModifiedBit; split <;> rfl

theorem CommandLineFlag.UpdateModifiedBit_defvalue (f : CommandLineFlag) :
    f.UpdateModifiedBit.defvalue_ = f.defvalue_ := by
  unfold CommandLineFlag.UpdateModifiedBit; split <;> rfl

theorem CommandLineFlag.UpdateModifiedBit_name (f : CommandLineFlag) :
    f.UpdateModifiedBit.name_ = f.name_ := by
  unfold CommandLineFlag.UpdateModifiedBit; split <;> rfl

theorem CommandLineFlag.UpdateModifiedBit_validate (f : CommandLineFlag) :
    f.UpdateModifiedBit.validate_fn_proto_ = f.validate_fn_proto_ := by
  unfold CommandLineFlag.UpdateModifiedBit; split <;> rfl

/-- The three exits of `TryParseLocked`, by the outcome of the tentative parse and of the
validator: it never faults, since the tentative box has the kind of `*flag_value`. -/
theorem TryParseLocked_eq (libc : Libc) (flag : CommandLineFlag) (fv : FlagValue)
    (value : CStr) (msg : Option CStr) :
    ∃ r, TryParseLocked libc flag fv value msg = .ok r ∧
      ((r.ok = false ∧ r.flag_value = fv ∧
          ((fv.New.ParseFrom libc value).1 = false ∨
            flag.Validate (fv.New.ParseFrom libc value).2 = false)) ∨
       (r.ok = true ∧ r.flag_value = { fv with cell := (fv.New.ParseFrom libc value).2.cell } ∧
          (fv.New.ParseFrom libc value).1 = true ∧
          flag.Validate (fv.New.ParseFrom libc value).2 = true)) := by
  unfold TryParseLocked
  by_cases h1 : (fv.New.ParseFrom libc value).1 = true
  · by_cases h2 : flag.Validate (fv.New.ParseFrom libc value).2 = true
    · have ht : fv.Type_ = (fv.New.ParseFrom libc value).2.Type_ := by
        rw [FlagValue.ParseFrom_Type, FlagValue.New_Type]
      simp [h1, h2, FlagValue.CopyFrom_ok _ _ ht, bind, Except.bind, pure, Except.pure]
    · simp [h1, h2]
  · simp [h1]

theorem Except_bind_ok {ε α β : Type} (x : Except ε α) (f : α → Except ε β) (b : β) :
    bind x f = .ok b ↔ ∃ a, x = .ok a ∧ f a = .ok b := by
  cases x <;> simp [bind, Except.bind]

theorem TryParseLocked_fail (libc : Libc) (flag : CommandLineFlag) (fv : FlagValue)
    (value : CStr) (msg : Option CStr) (r : TryParseResult)
    (h : TryParseLocked libc flag fv value msg = .ok r) (hf : r.ok = false) :
    r.flag_value = fv := by
  obtain ⟨r1, h1, hc⟩ := TryParseLocked_eq libc flag fv value msg
  rw [h1] at h
  cases h
  rcases hc with ⟨_, h2, _⟩ | ⟨h2, _⟩
  · exact h2
  · rw [h2] at hf; cases hf

/-- In `SET_FLAGS_VALUE` mode `SetFlagLocked` always returns, with one of two outcomes. -/
theorem SetFlagLocked_value_eq (libc : Libc) (f : CommandLineFlag) (v : CStr) (msg : Option CStr) :
    ∃ r, FlagRegistry.SetFlagLocked libc f v .SET_FLAGS_VALUE msg = .ok r ∧
      ((r.ok = false ∧ r.flag = f.UpdateModifiedBit ∧
          ((f.current_.New.ParseFrom libc v).1 = false ∨
            f.Validate (f.current_.New.ParseFrom libc v).2 = false)) ∨
       (r.ok = true ∧
          r.flag = { f.UpdateModifiedBit with
                     current_ := { f.current_ with cell := (f.current_.New.ParseFrom libc v).2.cell },
                     modified_ := true } ∧
          (f.current_.New.ParseFrom libc v).1 = true ∧
          f.Validate (f.current_.New.ParseFrom libc v).2 = true)) := by
  obtain ⟨t, ht, hc⟩ := TryParseLocked_eq libc f.UpdateModifiedBit
    f.UpdateModifiedBit.current_ v msg
  have hval : ∀ x, f.UpdateModifiedBit.Validate x = f.Validate x := by
    intro x
    simp [CommandLineFlag.Validate, CommandLineFlag.validate_function, CommandLineFlag.name,
      CommandLineFlag.UpdateModifiedBit_validate, CommandLineFlag.UpdateModifiedBit_name]
  rw [CommandLineFlag.UpdateModifiedBit_current, hval] at hc
  unfold FlagRegistry.SetFlagLocked
  simp only [ht, bind, Except.bind, pure, Except.pure]
  rcases hc with ⟨h1, h2, h3⟩ | ⟨h1, h2, h3, h4⟩
  · rw [if_pos (by simp [h1])]
    refine ⟨_, rfl, Or.inl ⟨rfl, ?_, h3⟩⟩
    simp [h2, ← CommandLineFlag.UpdateModifiedBit_current f]
  · rw [if_neg (by simp [h1])]
    refine ⟨_, rfl, Or.inr ⟨rfl, ?_, h3, h4⟩⟩
    simp [h2]

theorem FlagRegistry.deref_eq_ok (reg : FlagRegistry) (p : Nat) (f : CommandLineFlag) :
    reg.deref p = .ok f ↔ reg.objs[p]? = some f := by
  unfold FlagRegistry.deref
  cases h : reg.objs[p]? <;> simp

theorem FlagRegistry.deref_of_lt (reg : FlagRegistry) (p : Nat) (h : p < reg.objs.length) :
    ∃ f, reg.deref p = .ok f := by
  unfold FlagRegistry.deref
  rw [List.getElem?_eq_getElem h]
  exact ⟨_, rfl⟩

theorem FlagRegistry.deref_eq_error (reg : FlagRegistry) (p : Nat) (e : Fault) :
    reg.deref p = .error e ↔ reg.objs.length ≤ p ∧ e = .nullDeref := by
  unfold FlagRegistry.deref
  cases h : reg.objs[p]? with
  | none =>
    rw [List.getElem?_eq_none_iff] at h
    simp [h, eq_comm]
  | some f =>
    have := (List.getElem?_eq_some_iff.1 h).1
    simp
    omega

theorem FlagRegistry.deref_store_same (reg : FlagRegistry) (p : Nat) (f : CommandLineFlag)
    (h : p < reg.objs.length) : (reg.store p f).deref p = .ok f := by
  simp [FlagRegistry.deref, FlagRegistry.store, List.getElem?_set, h]

theorem FlagRegistry.deref_store_other (reg : FlagRegistry) (p q : Nat) (f : CommandLineFlag)
    (h : p ≠ q) : (reg.store p f).deref q = reg.deref q := by
  simp [FlagRegistry.deref, FlagRegistry.store, List.getElem?_set, h]

theorem FlagRegistry.SameFlags.refl (r : FlagRegistry) : r.SameFlags r := by
  refine ⟨rfl, rfl, ?_⟩
  induction r.objs with
  | nil => exact List.Forall₂.nil
  | cons f fs ih => exact List.Forall₂.cons ⟨rfl, rfl, rfl, rfl, rfl, rfl⟩ ih

theorem FlagRegistry.SameFlags.trans {r1 r2 r3 : FlagRegistry} (h12 : r1.SameFlags r2)
    (h23 : r2.SameFlags r3) : r1.SameFlags r3 := by
  obtain ⟨a1, b1, c1⟩ := h12
  obtain ⟨a2, b2, c2⟩ := h23
  refine ⟨a2.trans a1, b2.trans b1, ?_⟩
  generalize r1.objs = l1 at c1
  generalize r2.objs = l2 at c1 c2
  generalize r3.objs = l3 at c2
  induction c1 generalizing l3 with
  | nil => cases c2; exact List.Forall₂.nil
  | cons h _ ih =>
    cases c2 with
    | cons h2 t2 =>
      refine List.Forall₂.cons ?_ (ih _ t2)
      obtain ⟨x1, x2, x3, x4, x5, x6⟩ := h
      obtain ⟨y1, y2, y3, y4, y5, y6⟩ := h2
      exact ⟨y1.trans x1, y2.trans x2, y3.trans x3, y4.trans x4, y5.trans x5, y6.trans x6⟩

theorem FlagRegistry.SameFlags.length {r1 r2 : FlagRegistry} (h : r1.SameFlags r2) :
    r2.objs.length = r1.objs.length := h.2.2.length_eq.symm

/-- Corresponding pointers of two registries with the same flags. -/
theorem FlagRegistry.SameFlags.deref {r1 r2 : FlagRegistry} (h : r1.SameFlags r2) (p : Nat)
    (f : CommandLineFlag) (hf : r1.deref p = .ok f) :
    ∃ g, r2.deref p = .ok g ∧ g.name_ = f.name_ ∧ g.help_ = f.help_ ∧ g.file_ = f.file_ ∧
      g.defvalue_ = f.defvalue_ ∧ g.validate_fn_proto_ = f.validate_fn_proto_ ∧
      g.current_.Type_ = f.current_.Type_ := by
  obtain ⟨_, _, c⟩ := h
  rw [FlagRegistry.deref_eq_ok] at hf
  simp only [FlagRegistry.deref_eq_ok]
  generalize r1.objs = l1 at c hf
  generalize r2.objs = l2 at c
  induction c generalizing p with
  | nil => simp at hf
  | cons h _ ih =>
    cases p with
    | zero => simp at hf; subst hf; exact ⟨_, by simp, h⟩
    | succ n => simp only [List.getElem?_cons_succ] at hf ⊢; exact ih n hf

theorem FlagRegistry.SameFlags.deref_error {r1 r2 : FlagRegistry} (h : r1.SameFlags r2) (p : Nat)
    (e : Fault) (hf : r1.deref p = .error e) : r2.deref p = .error e := by
  have hl := h.length
  rw [FlagRegistry.deref_eq_error] at hf ⊢
  exact ⟨by omega, hf.2⟩

theorem FlagRegistry.FindFlagLocked_congr (r1 r2 : FlagRegistry) (h : r2.flags_ = r1.flags_)
    (name : CStr) : r2.FindFlagLocked name = r1.FindFlagLocked name := by
  unfold FlagRegistry.FindFlagLocked
  congr 1
  generalize List.count '-' name + 2 = fuel
  induction fuel generalizing name with
  | zero => rfl
  | succ n ih => simp only [FindFlagLockedFuel, h, ih]

/-- The outcome of `SplitArgumentLocked` depends on the maps, the kinds and nothing else. -/
theorem FlagRegistry.SameFlags.split {r1 r2 : FlagRegistry} (h : r1.SameFlags r2) (arg : CStr) :
    r2.SplitArgumentLocked arg = r1.SplitArgumentLocked arg := by
  unfold FlagRegistry.SplitArgumentLocked
  simp only [FlagRegistry.FindFlagLocked_congr r1 r2 h.1]
  have key : ∀ (p : Nat) (k : CommandLineFlag → Except Fault SplitResult),
      (∀ a b : CommandLineFlag, a.Type_ = b.Type_ → a.type_name = b.type_name → k a = k b) →
      (r2.deref p >>= k) = (r1.deref p >>= k) := by
    intro p k hk
    cases h1 : r1.deref p with
    | error e => rw [h.deref_error p e h1]
    | ok f =>
      obtain ⟨g, hg, _, _, _, hdv, _⟩ := h.deref p f h1
      rw [hg]
      simp only [bind, Except.bind]
      exact hk _ _ (by simp [CommandLineFlag.Type_, hdv]) (by simp [CommandLineFlag.type_name, hdv])
  split
  · split
    · split
      · rfl
      · apply key
        intro a b h1 h2
        simp [h1, h2]
    · rfl
  · split
    · apply key
      intro a b h1 h2
      simp [h1]
    · rfl

theorem FlagRegistry.SameFlags.store (reg : FlagRegistry) (p : Nat) (f g : CommandLineFlag)
    (hf : reg.deref p = .ok f)
    (hg : g.name_ = f.name_ ∧ g.help_ = f.help_ ∧ g.file_ = f.file_ ∧ g.defvalue_ = f.defvalue_ ∧
      g.validate_fn_proto_ = f.validate_fn_proto_ ∧ g.current_.Type_ = f.current_.Type_) :
    reg.SameFlags (reg.store p g) := by
  refine ⟨rfl, rfl, ?_⟩
  rw [FlagRegistry.deref_eq_ok] at hf
  simp only [FlagRegistry.store]
  generalize reg.objs = l at hf
  induction l generalizing p with
  | nil => simp at hf
  | cons x xs ih =>
    cases p with
    | zero =>
      simp at hf; subst hf
      exact List.Forall₂.cons hg (FlagRegistry.SameFlags.refl ⟨xs, [], []⟩).2.2
    | succ n =>
      simp only [List.getElem?_cons_succ] at hf
      exact List.Forall₂.cons ⟨rfl, rfl, rfl, rfl, rfl, rfl⟩ (ih n hf)

theorem FlagRegistry.SameFlags.wellFormed {r1 r2 : FlagRegistry} (h : r1.SameFlags r2)
    (hwf : r1.WellFormed) : r2.WellFormed := by
  obtain ⟨w1, w2, w3⟩ := hwf
  refine ⟨by rw [h.1]; exact w1, ?_, ?_⟩
  · intro e he
    rw [h.1] at he
    have := w2 e he
    cases h1 : r1.objs[e.2]? with
    | none => simp [h1] at this
    | some f =>
      simp [h1] at this
      obtain ⟨g, hg, hn, _⟩ := h.deref e.2 f ((FlagRegistry.deref_eq_ok _ _ _).2 h1)
      rw [FlagRegistry.deref_eq_ok] at hg
      simp [hg, hn, this]
  · intro g hg
    obtain ⟨n, hn, rfl⟩ := List.getElem_of_mem hg
    have hn1 : n < r1.objs.length := by rw [← h.length]; exact hn
    obtain ⟨g1, hg1, _, _, _, hd, _, hc⟩ := h.deref n (r1.objs[n])
      ((FlagRegistry.deref_eq_ok _ _ _).2 (List.getElem?_eq_getElem hn1))
    rw [FlagRegistry.deref_eq_ok, List.getElem?_eq_getElem hn] at hg1
    cases hg1
    rw [hc, hd]
    exact w3 _ (List.getElem_mem hn1)

theorem mapFind_mem {K V : Type} (lt : K → K → Bool) (m : List (K × V)) (k : K) (v : V)
    (h : mapFind lt m k = some v) : ∃ k1, (k1, v) ∈ m ∧ lt k k1 = false ∧ lt k1 k = false := by
  induction m with
  | nil => simp [mapFind] at h
  | cons e rest ih =>
    obtain ⟨k1, v1⟩ := e
    simp only [mapFind] at h
    split at h
    · rename_i hc
      simp at h hc
      subst h
      exact ⟨k1, by simp, hc.1, hc.2⟩
    · obtain ⟨k2, h2, h3⟩ := ih h
      exact ⟨k2, by simp [h2], h3⟩

theorem FindFlagLockedFuel_mem (reg : FlagRegistry) (fuel : Nat) (name : CStr) (p : Nat)
    (h : FindFlagLockedFuel reg fuel name = some (some p)) : ∃ k, (k, p) ∈ reg.flags_ := by
  induction fuel generalizing name with
  | zero => simp [FindFlagLockedFuel] at h
  | succ n ih =>
    simp only [FindFlagLockedFuel] at h
    split at h
    · split at h
      · simp at h
      · exact ih _ h
    · rename_i q hq
      simp at h; subst h
      obtain ⟨k, hk, _⟩ := mapFind_mem _ _ _ _ hq
      exact ⟨k, hk⟩

theorem FlagRegistry.FindFlagLocked_mem (reg : FlagRegistry) (name : CStr) (p : Nat)
    (h : reg.FindFlagLocked name = some p) : ∃ k, (k, p) ∈ reg.flags_ := by
  unfold FlagRegistry.FindFlagLocked at h
  cases h1 : FindFlagLockedFuel reg (List.count '-' name + 2) name with
  | none => simp [h1] at h
  | some o =>
    simp [h1] at h
    subst h
    exact FindFlagLockedFuel_mem _ _ _ _ h1

theorem FlagRegistry.WellFormed.ptr_valid {reg : FlagRegistry} (hwf : reg.WellFormed)
    (k : CStr) (p : Nat) (h : (k, p) ∈ reg.flags_) :
    ∃ f, reg.deref p = .ok f ∧ f.name_ = k ∧ f.current_.Type_ = f.defvalue_.Type_ := by
  have := hwf.2.1 (k, p) h
  cases h1 : reg.objs[p]? with
  | none => simp [h1] at this
  | some f =>
    simp [h1] at this
    obtain ⟨hlt, hget⟩ := List.getElem?_eq_some_iff.1 h1
    exact ⟨f, (FlagRegistry.deref_eq_ok _ _ _).2 h1, this,
      hwf.2.2 f (hget ▸ List.getElem_mem hlt)⟩

theorem FlagRegistry.WellFormed.find_valid {reg : FlagRegistry} (hwf : reg.WellFormed)
    (name : CStr) (p : Nat) (h : reg.FindFlagLocked name = some p) :
    ∃ f, reg.deref p = .ok f ∧ f.current_.Type_ = f.defvalue_.Type_ := by
  obtain ⟨k, hk⟩ := reg.FindFlagLocked_mem name p h
  obtain ⟨f, hf, _, hc⟩ := hwf.ptr_valid k p hk
  exact ⟨f, hf, hc⟩

/-- On a well-formed registry `SplitArgumentLocked` returns, and a flag it returns is a
valid pointer. -/
theorem FlagRegistry.WellFormed.split_ok {reg : FlagRegistry} (hwf : reg.WellFormed)
    (arg : CStr) : ∃ r, reg.SplitArgumentLocked arg = .ok r ∧
      ∀ p, r.flag = some p → ∃ f, reg.deref p = .ok f ∧ f.current_.Type_ = f.defvalue_.Type_ := by
  unfold FlagRegistry.SplitArgumentLocked
  simp only []
  split
  · split
    · split
      · exact ⟨_, rfl, by simp⟩
      · rename_i p hp
        obtain ⟨f, hf, hc⟩ := hwf.find_valid _ p hp
        simp only [hf, bind, Except.bind]
        split
        · exact ⟨_, rfl, by simp⟩
        · refine ⟨_, rfl, ?_⟩
          intro q hq
          simp at hq; subst hq
          exact ⟨f, hf, hc⟩
    · exact ⟨_, rfl, by simp⟩
  · rename_i p hp
    obtain ⟨f, hf, hc⟩ := hwf.find_valid _ p hp
    split
    · simp only [hf, bind, Except.bind]
      split
      all_goals
        refine ⟨_, rfl, ?_⟩
        intro q hq
        simp at hq; subst hq
        exact ⟨f, hf, hc⟩
    · refine ⟨_, rfl, ?_⟩
      intro q hq
      simp at hq; subst hq
      exact ⟨f, hf, hc⟩

theorem CommandLineFlag.UpdateModifiedBit_help (f : CommandLineFlag) :
    f.UpdateModifiedBit.help_ = f.help_ := by
  unfold CommandLineFlag.UpdateModifiedBit; split <;> rfl

theorem CommandLineFlag.UpdateModifiedBit_file (f : CommandLineFlag) :
    f.UpdateModifiedBit.file_ = f.file_ := by
  unfold CommandLineFlag.UpdateModifiedBit; split <;> rfl

theorem FlagValue.Type_cell (a b : FlagValue) (h : a.cell = b.cell) : a.Type_ = b.Type_ := by
  unfold FlagValue.Type_; rw [h]

/-- What a set operation in `SET_FLAGS_VALUE` mode leaves alone. -/
theorem SetFlagLocked_value_frame (libc : Libc) (f : CommandLineFlag) (v : CStr)
    (msg : Option CStr) (r : SetFlagResult)
    (h : FlagRegistry.SetFlagLocked libc f v .SET_FLAGS_VALUE msg = .ok r) :
    r.flag.name_ = f.name_ ∧ r.flag.help_ = f.help_ ∧ r.flag.file_ = f.file_ ∧
      r.flag.defvalue_ = f.defvalue_ ∧ r.flag.validate_fn_proto_ = f.validate_fn_proto_ ∧
      r.flag.current_.Type_ = f.current_.Type_ := by
  obtain ⟨r1, h1, hc⟩ := SetFlagLocked_value_eq libc f v msg
  rw [h1] at h; cases h
  rcases hc with ⟨_, h2, _⟩ | ⟨_, h2, _⟩
  · rw [h2]
    exact ⟨f.UpdateModifiedBit_name, f.UpdateModifiedBit_help, f.UpdateModifiedBit_file,
      f.UpdateModifiedBit_defvalue, f.UpdateModifiedBit_validate,
      by rw [f.UpdateModifiedBit_current]⟩
  · rw [h2]
    refine ⟨f.UpdateModifiedBit_name, f.UpdateModifiedBit_help, f.UpdateModifiedBit_file,
      f.UpdateModifiedBit_defvalue, f.UpdateModifiedBit_validate, ?_⟩
    have := FlagValue.ParseFrom_Type libc f.current_.New v
    rw [FlagValue.New_Type] at this
    rw [← this]
    exact FlagValue.Type_cell _ _ rfl

/-- `ProcessSingleOptionLocked` on a valid flag pointer, in `SET_FLAGS_VALUE` mode: the flag
object is replaced by the one `SetFlagLocked` leaves, and a failure is recorded under the
flag's name. -/
theorem ProcessSingleOptionLocked_value (libc : Libc) (psr : CommandLineFlagParser) (p : Nat)
    (v : CStr) (obj : CommandLineFlag) (hobj : psr.registry_.deref p = .ok obj) :
    ∃ r, FlagRegistry.SetFlagLocked libc obj v .SET_FLAGS_VALUE (some []) = .ok r ∧
      psr.ProcessSingleOptionLocked libc p (some v) .SET_FLAGS_VALUE =
        .ok (if r.ok then r.msg.getD [] else [],
          ⟨psr.registry_.store p r.flag,
           if r.ok then psr.error_flags_ else psr.error_flags_.assign obj.name (r.msg.getD []),
           psr.undefined_names_⟩) ∧
      psr.registry_.SameFlags (psr.registry_.store p r.flag) := by
  obtain ⟨r, hr, _⟩ := SetFlagLocked_value_eq libc obj v (some [])
  have hfr := SetFlagLocked_value_frame libc obj v (some []) r hr
  refine ⟨r, hr, ?_, FlagRegistry.SameFlags.store _ p obj r.flag hobj hfr⟩
  unfold CommandLineFlagParser.ProcessSingleOptionLocked
  simp only [hobj, hr, bind, Except.bind, pure, Except.pure]
  cases hok : r.ok <;> simp [CommandLineFlag.name, hfr.1]

theorem isProgramArgument_eq_false (t : CStr) :
    isProgramArgument t = false ↔ t.head? = some '-' ∧ 1 < t.length := by
  unfold isProgramArgument
  split
  · simp
  · rename_i h
    simp only [true_iff, not_and, Bool.true_eq_false, false_iff]
    intro h1
    cases t with
    | nil => simp at h1
    | cons c cs =>
      simp at h1; subst h1
      cases cs with
      | nil => simp
      | cons d ds => exact absurd rfl (h d ds)

theorem stripDashes_eq_nil (t : CStr) (h : isProgramArgument t = false) :
    stripDashes t = [] ↔ t = "--".toList := by
  rw [isProgramArgument_eq_false] at h
  match t, h with
  | [c], h => simp at h
  | c :: d :: rest, h =>
    simp at h; subst h
    unfold stripDashes
    by_cases hd : d = '-'
    · subst hd; cases rest <;> simp
    · simp [hd]

theorem FlagRegistry.SameFlags.needsSeparateValue {r1 r2 : FlagRegistry} (h : r1.SameFlags r2)
    (t : CStr) : r2.needsSeparateValue t = r1.needsSeparateValue t := by
  unfold FlagRegistry.needsSeparateValue
  rw [h.split]

theorem scanBody_positional (libc : Libc) (s : ScanState) (arg : CStr)
    (h : s.argv[s.i]? = some arg) (hp : isProgramArgument arg = true) :
    scanBody libc s = .ok (false,
      { s with argv := s.argv.eraseIdx s.i ++ [arg], first_nonopt := s.first_nonopt - 1 }) := by
  unfold scanBody
  simp [h, hp]

/-- A pass over an option token that is not `--` and takes no value from the next slot:
the scan moves on by one token; the parser has the same flags, up to their current values. -/
theorem scanBody_inline (libc : Libc) (s : ScanState) (arg : CStr)
    (h : s.argv[s.i]? = some arg) (hopt : isProgramArgument arg = false)
    (hne : arg ≠ "--".toList) (hwf : s.psr.registry_.WellFormed)
    (hns : s.psr.registry_.needsSeparateValue arg = false) :
    ∃ psr1, scanBody libc s = .ok (false, { s with i := s.i + 1, psr := psr1 }) ∧
      s.psr.registry_.SameFlags psr1.registry_ := by
  have hne2 : stripDashes arg ≠ [] := fun hx => hne ((stripDashes_eq_nil arg hopt).1 hx)
  obtain ⟨r, hr, hp⟩ := hwf.split_ok (stripDashes arg)
  unfold FlagRegistry.needsSeparateValue at hns
  rw [hr] at hns
  unfold scanBody
  simp only [h, hopt, hne2, hr, bind, Except.bind, pure, Except.pure, Bool.false_eq_true,
    if_false]
  cases hflag : r.flag with
  | none => exact ⟨_, rfl, FlagRegistry.SameFlags.refl _⟩
  | some p =>
    cases hv : r.v with
    | none => simp [hflag, hv] at hns
    | some value =>
      obtain ⟨obj, hobj, _⟩ := hp p hflag
      obtain ⟨q, _, hq, hsame⟩ := ProcessSingleOptionLocked_value libc s.psr p value obj hobj
      simp only [hq]
      exact ⟨_, rfl, hsame⟩

theorem scanLoop_done (libc : Libc) (fuel : Nat) (s : ScanState) (h : ¬ s.i < s.first_nonopt) :
    scanLoop libc fuel s = .ok s := by
  cases fuel <;> simp [scanLoop, h]

theorem scanLoop_pass (libc : Libc) (fuel : Nat) (s s1 : ScanState) (h : s.i < s.first_nonopt)
    (hb : scanBody libc s = .ok (false, s1)) :
    scanLoop libc (fuel + 1) s = scanLoop libc fuel s1 := by
  simp [scanLoop, h, hb, bind, Except.bind]

theorem scanLoop_break (libc : Libc) (fuel : Nat) (s s1 : ScanState) (h : s.i < s.first_nonopt)
    (hb : scanBody libc s = .ok (true, s1)) :
    scanLoop libc (fuel + 1) s = .ok s1 := by
  simp [scanLoop, h, hb, bind, Except.bind, pure, Except.pure]

theorem getElem?_middle (prog : CStr) (done todo : List CStr) (t : CStr) (poss : List CStr) :
    (prog :: (done ++ t :: todo ++ poss))[1 + done.length]? = some t := by
  rw [Nat.add_comm, List.getElem?_cons_succ, List.append_assoc,
    List.getElem?_append_right (Nat.le_refl _)]
  simp

theorem eraseIdx_middle (prog : CStr) (done todo : List CStr) (t : CStr) (poss : List CStr) :
    (prog :: (done ++ t :: todo ++ poss)).eraseIdx (1 + done.length) ++ [t] =
      prog :: (done ++ todo ++ (poss ++ [t])) := by
  rw [Nat.add_comm, List.eraseIdx_cons_succ, List.append_assoc,
    List.eraseIdx_append_of_length_le (Nat.le_refl _)]
  simp

/-- The scan over tokens none of which is `--` or takes its value from the next slot: a
stable partition of the tokens not yet scanned. -/
theorem scanLoop_partition (libc : Libc) (prog : CStr) (psr0 : CommandLineFlagParser)
    (hwf0 : psr0.registry_.WellFormed) :
    ∀ (todo done poss : List CStr) (psr : CommandLineFlagParser) (cout : CStr) (fuel : Nat),
      psr0.registry_.SameFlags psr.registry_ →
      (∀ t ∈ todo, t ≠ "--".toList) →
      (∀ t ∈ todo, isProgramArgument t = false → psr0.registry_.needsSeparateValue t = false) →
      todo.length ≤ fuel →
      ∃ psr1, scanLoop libc fuel ⟨prog :: (done ++ todo ++ poss), 1 + done.length,
          1 + done.length + todo.length, psr, cout⟩ =
        .ok ⟨prog :: ((done ++ todo.filter (fun t => !isProgramArgument t)) ++
              (poss ++ todo.filter isProgramArgument)),
            1 + (done ++ todo.filter (fun t => !isProgramArgument t)).length,
            1 + (done ++ todo.filter (fun t => !isProgramArgument t)).length, psr1, cout⟩ ∧
        psr0.registry_.SameFlags psr1.registry_ := by
  intro todo
  induction todo with
  | nil =>
    intro done poss psr cout fuel hs _ _ _
    refine ⟨psr, ?_, hs⟩
    rw [scanLoop_done]
    · simp
    · simp
  | cons t todo ih =>
    intro done poss psr cout fuel hs hdd hsep hfuel
    cases fuel with
    | zero => simp at hfuel
    | succ fuel =>
      have hlt : 1 + done.length < 1 + done.length + (t :: todo).length := by simp
      have hget := getElem?_middle prog done todo t poss
      by_cases hp : isProgramArgument t = true
      · have hb := scanBody_positional libc
          ⟨prog :: (done ++ t :: todo ++ poss), 1 + done.length,
            1 + done.length + (t :: todo).length, psr, cout⟩ t hget hp
        rw [scanLoop_pass libc fuel _ _ hlt hb]
        simp only [eraseIdx_middle]
        have hfn : 1 + done.length + (t :: todo).length - 1 = 1 + done.length + todo.length := by
          simp
        rw [hfn]
        obtain ⟨psr1, h1, h2⟩ := ih done (poss ++ [t]) psr cout fuel hs
          (fun x hx => hdd x (List.mem_cons_of_mem _ hx))
          (fun x hx => hsep x (List.mem_cons_of_mem _ hx)) (by simpa using hfuel)
        refine ⟨psr1, ?_, h2⟩
        rw [h1]
        simp [List.filter_cons, hp]
      · have hp2 : isProgramArgument t = false := by simpa using hp
        have hwf := hs.wellFormed hwf0
        have hns : psr.registry_.needsSeparateValue t = false := by
          rw [hs.needsSeparateValue]; exact hsep t (List.mem_cons_self _ _) hp2
        obtain ⟨psr2, hb, hsame⟩ := scanBody_inline libc
          ⟨prog :: (done ++ t :: todo ++ poss), 1 + done.length,
            1 + done.length + (t :: todo).length, psr, cout⟩ t hget hp2
          (hdd t (List.mem_cons_self _ _)) hwf hns
        rw [scanLoop_pass libc fuel _ _ hlt hb]
        obtain ⟨psr1, h1, h2⟩ := ih (done ++ [t]) poss psr2 cout fuel (hs.trans hsame)
          (fun x hx => hdd x (List.mem_cons_of_mem _ hx))
          (fun x hx => hsep x (List.mem_cons_of_mem _ hx)) (by simpa using hfuel)
        refine ⟨psr1, ?_, h2⟩
        have e1 : (⟨prog :: (done ++ t :: todo ++ poss), 1 + done.length + 1,
            1 + done.length + (t :: todo).length, psr2, cout⟩ : ScanState) =
            ⟨prog :: (done ++ [t] ++ todo ++ poss), 1 + (done ++ [t]).length,
              1 + (done ++ [t]).length + todo.length, psr2, cout⟩ := by
          simp; omega
        rw [e1, h1]
        simp [List.filter_cons, hp2]

theorem isProgramArgument_eq_true (t : CStr) :
    isProgramArgument t = true ↔ (t.head? ≠ some '-' ∨ t = "-".toList) := by
  have h := isProgramArgument_eq_false t
  cases hp : isProgramArgument t
  · have h2 := h.1 hp
    simp only [Bool.false_eq_true, false_iff, not_or, not_not]
    refine ⟨h2.1, ?_⟩
    intro he
    rw [he] at h2
    simp at h2
  · simp only [true_iff]
    by_cases hh : t.head? = some '-'
    · right
      have : ¬ 1 < t.length := fun hl => by
        have := h.2 ⟨hh, hl⟩
        rw [hp] at this; cases this
      match t, hh, this with
      | [c], hh, _ => simp at hh; subst hh; rfl
      | c :: d :: r, _, hl => simp at hl
    · left; exact hh

theorem filter_option_tokens (rest : List CStr) :
    rest.filter (fun t => !isProgramArgument t) =
      rest.filter (fun t => decide (t.head? = some '-' ∧ 1 < t.length)) := by
  apply List.filter_congr
  intro t _
  cases hp : isProgramArgument t
  · simp [(isProgramArgument_eq_false t).1 hp]
  · have : ¬ (t.head? = some '-' ∧ 1 < t.length) := fun hc => by
      rw [(isProgramArgument_eq_false t).2 hc] at hp; cases hp
    simp [this]

theorem filter_positional_tokens (rest : List CStr) :
    rest.filter isProgramArgument =
      rest.filter (fun t => decide (t.head? ≠ some '-' ∨ t = "-".toList)) := by
  apply List.filter_congr
  intro t _
  cases hp : isProgramArgument t
  · have : ¬ (t.head? ≠ some '-' ∨ t = "-".toList) := fun hc => by
      rw [(isProgramArgument_eq_true t).2 hc] at hp; cases hp
    simpa using this
  · simpa using (isProgramArgument_eq_true t).1 hp

/-- The scan of a whole vector under the conditions of `scanLoop_partition`. -/
theorem scanLoop_init_partition (libc : Libc) (self : CommandLineFlagParser) (prog : CStr)
    (rest : List CStr) (hwf : self.registry_.WellFormed)
    (hdd : ∀ t ∈ rest, t ≠ "--".toList)
    (hsep : ∀ t ∈ rest, isProgramArgument t = false →
      self.registry_.needsSeparateValue t = false) :
    ∃ psr1, scanLoop libc (prog :: rest).length (ScanState.init self (prog :: rest)) =
        .ok ⟨prog :: (rest.filter (fun t => !isProgramArgument t) ++ rest.filter isProgramArgument),
          1 + (rest.filter (fun t => !isProgramArgument t)).length,
          1 + (rest.filter (fun t => !isProgramArgument t)).length, psr1, []⟩ ∧
      self.registry_.SameFlags psr1.registry_ := by
  obtain ⟨psr1, h1, h2⟩ := scanLoop_partition libc prog self hwf rest [] [] self []
    (prog :: rest).length (FlagRegistry.SameFlags.refl _) hdd hsep (by simp)
  refine ⟨psr1, ?_, h2⟩
  have e : ScanState.init self (prog :: rest) =
      ⟨prog :: ([] ++ rest ++ []), 1 + ([] : List CStr).length,
        1 + ([] : List CStr).length + rest.length, self, []⟩ := by
    simp [ScanState.init, Nat.add_comm]
  rw [e, h1]
  simp

theorem set_drop_boundary {α : Type} (x p : α) (opts poss : List α) :
    ((x :: (opts ++ poss)).set opts.length p).drop opts.length = p :: poss := by
  induction opts generalizing x with
  | nil => simp
  | cons o os ih => simpa using ih o

theorem char_toNat_injective (a b : Char) (h : a.toNat = b.toNat) : a = b := by
  apply Char.ext
  exact UInt32.toNat.inj h

theorem strcmp_self (a : CStr) : strcmp a a = 0 := by
  induction a with
  | nil => rfl
  | cons c cs ih => simp [strcmp, ih]

theorem strcmp_eq_zero (a b : CStr) (h : strcmp a b = 0) : a = b := by
  induction a generalizing b with
  | nil => cases b with
    | nil => rfl
    | cons d ds => simp [strcmp] at h
  | cons c cs ih => cases b with
    | nil => simp [strcmp] at h
    | cons d ds =>
      simp only [strcmp] at h
      split at h
      · rename_i hcd
        rw [hcd, ih ds h]
      · rename_i hcd
        exact absurd (char_toNat_injective c d (by omega)) hcd

theorem strcmp_antisymm (a b : CStr) : strcmp b a = - strcmp a b := by
  induction a generalizing b with
  | nil => cases b <;> simp [strcmp]
  | cons c cs ih => cases b with
    | nil => simp [strcmp]
    | cons d ds =>
      simp only [strcmp]
      by_cases hcd : c = d
      · subst hcd; simp [ih]
      · have hdc : ¬ d = c := fun h => hcd h.symm
        simp [hcd, hdc]

theorem strcmp_lt_trans (a b c : CStr) (h1 : strcmp a b < 0) (h2 : strcmp b c < 0) :
    strcmp a c < 0 := by
  induction a generalizing b c with
  | nil =>
    cases b with
    | nil => simp [strcmp] at h1
    | cons y ys => cases c with
      | nil => simp [strcmp] at h2
      | cons z zs => simp [strcmp]
  | cons x xs ih =>
    cases b with
    | nil => simp [strcmp] at h1
    | cons y ys => cases c with
      | nil => simp [strcmp] at h2
      | cons z zs =>
        simp only [strcmp] at h1 h2 ⊢
        by_cases hxy : x = y
        · subst hxy
          by_cases hxz : x = z
          · subst hxz
            simp only [if_true] at h1 h2 ⊢
            exact ih _ _ h1 h2
          · simp only [hxz, if_false, if_true] at h1 h2 ⊢
            exact h2
        · by_cases hyz : y = z
          · subst hyz
            simp only [hxy, if_false] at h1 ⊢
            exact h1
          · simp only [hxy, hyz, if_false] at h1 h2
            have hxz : x ≠ z := by
              intro h; subst h; omega
            simp only [hxz, if_false]
            omega

theorem StringCmp_irrefl (a : CStr) : StringCmp a a = false := by
  simp [StringCmp, strcmp_self]

theorem StringCmp_trans (a b c : CStr) (h1 : StringCmp a b = true) (h2 : StringCmp b c = true) :
    StringCmp a c = true := by
  simp only [StringCmp, decide_eq_true_eq] at *
  exact strcmp_lt_trans a b c h1 h2

theorem StringCmp_asymm (a b : CStr) (h1 : StringCmp a b = true) : StringCmp b a = false := by
  simp only [StringCmp, decide_eq_true_eq, decide_eq_false_iff_not] at *
  rw [strcmp_antisymm]; omega

/-- Keys equivalent for the comparator `StringCmp` are equal strings. -/
theorem StringCmp_equiv (a b : CStr) (h1 : StringCmp a b = false) (h2 : StringCmp b a = false) :
    a = b := by
  simp only [StringCmp, decide_eq_false_iff_not] at *
  rw [strcmp_antisymm a b] at h2
  exact strcmp_eq_zero a b (by omega)

theorem mapFind_eq_some (m : List (CStr × Nat)) (k : CStr) (p : Nat)
    (h : mapFind StringCmp m k = some p) : (k, p) ∈ m := by
  obtain ⟨k1, hk, h1, h2⟩ := mapFind_mem _ _ _ _ h
  rw [StringCmp_equiv k k1 h1 h2]; exact hk

theorem mapFind_of_mem (m : List (CStr × Nat)) (k : CStr) (p : Nat)
    (hs : m.Pairwise (fun a b => StringCmp a.1 b.1 = true)) (h : (k, p) ∈ m) :
    mapFind StringCmp m k = some p := by
  induction m with
  | nil => simp at h
  | cons e rest ih =>
    obtain ⟨k1, v1⟩ := e
    rw [List.pairwise_cons] at hs
    simp only [mapFind]
    rcases List.mem_cons.1 h with h1 | h1
    · cases h1
      simp [StringCmp_irrefl]
    · have hlt := hs.1 _ h1
      simp only at hlt
      have : StringCmp k k1 = false := StringCmp_asymm _ _ hlt
      simp [hlt, this, ih hs.2 h1]

/-- The message `ValidateFlags` stores for a flag that fails validation. -/
theorem validateFlagsLoop_spec (reg : FlagRegistry) (all : Bool) :
    ∀ (l : List (CStr × Nat)) (errors : StrMap),
      (∀ e ∈ l, ∃ f, reg.deref e.2 = .ok f ∧ f.name_ = e.1) →
      l.Pairwise (fun a b => a.1 ≠ b.1) →
      ∃ errors1, validateFlagsLoop reg all l errors = .ok errors1 ∧
        (∀ k, (∀ e ∈ l, e.1 ≠ k) → errors1 k = errors k) ∧
        (∀ k p f, (k, p) ∈ l → reg.deref p = .ok f →
          errors1 k =
            if (all || !f.Modified) && !f.ValidateCurrent && (errors.at k).isEmpty then
              some (kError ++ "--".toList ++ k ++ " must be set on the commandline".toList ++
                (if !f.Modified then " (default value fails validation)".toList else []) ++
                "\n".toList)
            else errors k) := by
  intro l
  induction l with
  | nil =>
    intro errors _ _
    exact ⟨errors, rfl, fun _ _ => rfl, fun k p f h => by simp at h⟩
  | cons e rest ih =>
    intro errors hv hp
    obtain ⟨k0, p0⟩ := e
    obtain ⟨f0, hf0, hn0⟩ := hv (k0, p0) (List.mem_cons_self _ _)
    simp only at hf0 hn0
    rw [List.pairwise_cons] at hp
    have hv2 : ∀ e ∈ rest, ∃ f, reg.deref e.2 = .ok f ∧ f.name_ = e.1 :=
      fun e he => hv e (List.mem_cons_of_mem _ he)
    -- the map after the pass over the first entry
    obtain ⟨errors0, he0, hstep⟩ : ∃ errors0 : StrMap,
        validateFlagsLoop reg all ((k0, p0) :: rest) errors =
          validateFlagsLoop reg all rest errors0 ∧
        errors0 = (if (all || !f0.Modified) && !f0.ValidateCurrent && (errors.at k0).isEmpty then
            errors.assign k0 (kError ++ "--".toList ++ k0 ++
              " must be set on the commandline".toList ++
              (if !f0.Modified then " (default value fails validation)".toList else []) ++
              "\n".toList)
          else errors) := by
      refine ⟨_, ?_, rfl⟩
      simp only [validateFlagsLoop, hf0, bind, Except.bind, CommandLineFlag.name, hn0]
      by_cases c1 : ((all || !f0.Modified) && !f0.ValidateCurrent) = true
      · by_cases c2 : (errors.at k0).isEmpty = true
        · simp [c1, c2]
        · simp [c1, c2]
      · simp only [Bool.not_eq_true] at c1; simp [c1]
    obtain ⟨errors1, h1, h2, h3⟩ := ih errors0 hv2 hp.2
    refine ⟨errors1, he0.trans h1, ?_, ?_⟩
    · intro k hk
      have hk0 : k0 ≠ k := hk (k0, p0) (List.mem_cons_self _ _)
      rw [h2 k (fun e he => hk e (List.mem_cons_of_mem _ he)), hstep]
      split
      · simp [StrMap.assign, Ne.symm hk0]
      · rfl
    · intro k p f hmem hf
      rcases List.mem_cons.1 hmem with hx | hx
      · cases hx
        rw [hf0] at hf; cases hf
        rw [h2 k0 (fun e he => (hp.1 e he).symm), hstep]
        split
        · simp [StrMap.assign]
        · rfl
      · have hk0 : k0 ≠ k := hp.1 (k, p) hx
        rw [h3 k p f hx hf]
        have e1 : errors0 k = errors k := by
          rw [hstep]; split
          · simp [StrMap.assign, Ne.symm hk0]
          · rfl
        have e2 : errors0.at k = errors.at k := by simp [StrMap.at, e1]
        rw [e1, e2]

theorem FlagRegistry.WellFormed.keys_distinct {reg : FlagRegistry} (hwf : reg.WellFormed) :
    reg.flags_.Pairwise (fun a b => a.1 ≠ b.1) := by
  refine hwf.1.imp ?_
  intro a b h hab
  rw [hab, StringCmp_irrefl] at h
  cases h

theorem FlagRegistry.WellFormed.entries_valid {reg : FlagRegistry} (hwf : reg.WellFormed) :
    ∀ e ∈ reg.flags_, ∃ f, reg.deref e.2 = .ok f ∧ f.name_ = e.1 := by
  intro e he
  obtain ⟨f, h1, h2, _⟩ := hwf.ptr_valid e.1 e.2 he
  exact ⟨f, h1, h2⟩

/-- On a well-formed registry `ValidateFlags` returns; it changes `error_flags_` only, and
under the name of a registered flag it stores a message exactly when the flag fails its
validator, is unmodified (or `all` is asked for), and has no message yet. -/
theorem ValidateFlags_spec (self : CommandLineFlagParser) (all : Bool)
    (hwf : self.registry_.WellFormed) :
    ∃ errors1, self.ValidateFlags all = .ok { self with error_flags_ := errors1 } ∧
      (∀ k, (∀ e ∈ self.registry_.flags_, e.1 ≠ k) → errors1 k = self.error_flags_ k) ∧
      (∀ k p f, (k, p) ∈ self.registry_.flags_ → self.registry_.deref p = .ok f →
        errors1 k =
          if (all || !f.Modified) && !f.ValidateCurrent && (self.error_flags_.at k).isEmpty then
            some (kError ++ "--".toList ++ k ++ " must be set on the commandline".toList ++
              (if !f.Modified then " (default value fails validation)".toList else []) ++
              "\n".toList)
          else self.error_flags_ k) := by
  obtain ⟨errors1, h1, h2, h3⟩ := validateFlagsLoop_spec self.registry_ all
    self.registry_.flags_ self.error_flags_ hwf.entries_valid hwf.keys_distinct
  refine ⟨errors1, ?_, h2, h3⟩
  simp [CommandLineFlagParser.ValidateFlags, h1, bind, Except.bind, pure, Except.pure]

/-- A successful set in `SET_FLAGS_VALUE` mode leaves the flag modified, holding the parsed
value, which its validator accepts. -/
theorem SetFlagLocked_value_success (libc : Libc) (f : CommandLineFlag) (v : CStr)
    (msg : Option CStr) (r : SetFlagResult)
    (h : FlagRegistry.SetFlagLocked libc f v .SET_FLAGS_VALUE msg = .ok r) (hok : r.ok = true) :
    r.flag.Modified = true ∧ r.flag.ValidateCurrent = true ∧
      r.flag.current_.cell = (f.current_.New.ParseFrom libc v).2.cell ∧
      (f.current_.New.ParseFrom libc v).1 = true := by
  obtain ⟨r1, h1, hc⟩ := SetFlagLocked_value_eq libc f v msg
  rw [h1] at h; cases h
  rcases hc with ⟨h2, _⟩ | ⟨_, h2, h3, h4⟩
  · rw [h2] at hok; cases hok
  · rw [h2]
    refine ⟨rfl, ?_, rfl, h3⟩
    simp only [CommandLineFlag.ValidateCurrent, CommandLineFlag.Validate,
      CommandLineFlag.validate_function, CommandLineFlag.name,
      CommandLineFlag.UpdateModifiedBit_validate, CommandLineFlag.UpdateModifiedBit_name] at h4 ⊢
    cases hv : f.validate_fn_proto_ with
    | none => rfl
    | some fn => simpa [hv, FlagValue.Validate] using h4

/-- With removal, the scan under the conditions of `scanLoop_partition`. -/
theorem parse_removal_partition (libc : Libc) (self : CommandLineFlagParser) (prog : CStr)
    (rest : List CStr) (hwf : self.registry_.WellFormed)
    (hdd : ∀ t ∈ rest, t ≠ "--".toList)
    (hsep : ∀ t ∈ rest, t.head? = some '-' ∧ 1 < t.length →
      self.registry_.needsSeparateValue t = false) :
    ∃ out, self.ParseNewCommandLineFlags libc (prog :: rest) true = .ok out ∧
      out.result = 1 ∧
      out.argv = prog :: rest.filter (fun t => decide (t.head? ≠ some '-' ∨ t = "-".toList)) ∧
      self.registry_.SameFlags out.psr.registry_ := by
  obtain ⟨psr1, h1, h2⟩ := scanLoop_init_partition libc self prog rest hwf hdd
    (fun t ht hp => hsep t ht ((isProgramArgument_eq_false t).1 hp))
  unfold CommandLineFlagParser.ParseNewCommandLineFlags
  simp only [h1, bind, Except.bind, pure, Except.pure, if_true]
  have hlen : ¬ (1 + (rest.filter (fun t => !isProgramArgument t)).length = 0 ∨
      (prog :: (rest.filter (fun t => !isProgramArgument t) ++
        rest.filter isProgramArgument)).length <
        1 + (rest.filter (fun t => !isProgramArgument t)).length) := by
    simp; omega
  rw [if_neg hlen]
  simp only [List.getElem?_cons_zero, Nat.add_sub_cancel_left, set_drop_boundary,
    filter_positional_tokens]
  exact ⟨_, rfl, rfl, rfl, h2⟩

theorem parse_removal_result (libc : Libc) (self : CommandLineFlagParser) (argv : List CStr)
    (out : ParseOutcome) (h : self.ParseNewCommandLineFlags libc argv true = .ok out) :
    out.result = 1 := by
  unfold CommandLineFlagParser.ParseNewCommandLineFlags at h
  cases hs : scanLoop libc argv.length (ScanState.init self argv) with
  | error e => simp [hs, bind, Except.bind] at h
  | ok s =>
    simp only [hs, bind, Except.bind, pure, Except.pure, if_true] at h
    split at h
    · cases h
    · split at h
      · cases h
      · cases h; rfl

theorem internal_removal_result (libc : Libc) (g : Gflags) (registry : FlagRegistry)
    (argv : List CStr) (out : InternalOutcome)
    (h : g.ParseCommandLineFlags libc registry argv true = .ok out) : out.result = 1 := by
  unfold Gflags.ParseCommandLineFlags Gflags.ParseCommandLineFlagsInternal at h
  cases h1 : g.SetArgv argv with
  | error e => simp [h1, bind, Except.bind] at h
  | ok g1 =>
    simp only [h1, bind, Except.bind] at h
    split at h
    · cases h
    · rename_i o ho
      have := parse_removal_result libc _ argv o ho
      split at h
      · cases h
      · simp only [pure, Except.pure] at h
        cases h
        exact this

theorem SetArgv_ok (g : Gflags) (prog : CStr) (rest : List CStr) :
    ∃ g1, g.SetArgv (prog :: rest) = .ok g1 := by
  unfold Gflags.SetArgv
  split
  · exact ⟨_, rfl⟩
  · exact ⟨_, rfl⟩

/-- The whole of `ParseCommandLineFlags` with removal, under the conditions of
`scanLoop_partition`. -/
theorem internal_removal_partition (libc : Libc) (g : Gflags) (registry : FlagRegistry)
    (prog : CStr) (rest : List CStr) (hwf : registry.WellFormed)
    (hdd : ∀ t ∈ rest, t ≠ "--".toList)
    (hsep : ∀ t ∈ rest, t.head? = some '-' ∧ 1 < t.length →
      registry.needsSeparateValue t = false) :
    ∃ out, g.ParseCommandLineFlags libc registry (prog :: rest) true = .ok out ∧
      out.result = 1 ∧
      out.argv = prog :: rest.filter (fun t => decide (t.head? ≠ some '-' ∨ t = "-".toList)) := by
  obtain ⟨g1, hg⟩ := SetArgv_ok g prog rest
  obtain ⟨o, ho, hr, ha, hs⟩ := parse_removal_partition libc
    ⟨registry, StrMap.empty, StrMap.empty⟩ prog rest hwf hdd hsep
  obtain ⟨e1, hv, _⟩ := ValidateFlags_spec o.psr false (hs.wellFormed hwf)
  unfold Gflags.ParseCommandLineFlags Gflags.ParseCommandLineFlagsInternal
  simp only [hg, ho, CommandLineFlagParser.ValidateUnmodifiedFlags, hv, bind, Except.bind, pure,
    Except.pure]
  exact ⟨_, rfl, hr, ha⟩

/-- A flag that `SplitArgumentLocked` returns without a value is not boolean. -/
theorem split_without_value_not_bool (reg : FlagRegistry) (arg : CStr) (r : SplitResult)
    (p : Nat) (obj : CommandLineFlag) (h : reg.SplitArgumentLocked arg = .ok r)
    (hflag : r.flag = some p) (hv : r.v = none) (hobj : reg.deref p = .ok obj) :
    obj.Type_ ≠ .FV_BOOL := by
  unfold FlagRegistry.SplitArgumentLocked at h
  simp only [] at h
  split at h
  · split at h
    · split at h
      · cases h; simp at hflag
      · rename_i q hq
        cases hd : reg.deref q with
        | error e => simp [hd, bind, Except.bind] at h
        | ok f =>
          simp only [hd, bind, Except.bind, pure, Except.pure] at h
          split at h
          · cases h; simp at hflag
          · cases h; simp at hv
    · cases h; simp at hflag
  · rename_i q hq
    split at h
    · cases hd : reg.deref q with
      | error e => simp [hd, bind, Except.bind] at h
      | ok f =>
        simp only [hd, bind, Except.bind, pure, Except.pure] at h
        split at h
        · cases h; simp at hv
        · rename_i hnb
          cases h
          simp at hflag; subst hflag
          rw [hobj] at hd; cases hd
          exact hnb
    · cases h; simp at hv

/-- The pass that finds a flag without a value and no slot left before the boundary:
the message is stored under the key and the loop is left. -/
theorem scanBody_missing_argument (libc : Libc) (s : ScanState) (tok : CStr) (r : SplitResult)
    (p : Nat) (obj : CommandLineFlag)
    (hget : s.argv[s.i]? = some tok) (hopt : isProgramArgument tok = false)
    (hne : tok ≠ "--".toList)
    (hsplit : s.psr.registry_.SplitArgumentLocked (stripDashes tok) = .ok r)
    (hflag : r.flag = some p) (hv : r.v = none) (hobj : s.psr.registry_.deref p = .ok obj)
    (hlast : s.first_nonopt ≤ s.i + 1) :
    scanBody libc s = .ok (true, { s with psr := { s.psr with
      error_flags_ := s.psr.error_flags_.assign r.key (missingArgumentMessage tok obj.help) } }) := by
  have hne2 : stripDashes tok ≠ [] := fun hx => hne ((stripDashes_eq_nil tok hopt).1 hx)
  have hnb := split_without_value_not_bool _ _ r p obj hsplit hflag hv hobj
  unfold scanBody
  simp only [hget, hopt, hne2, hsplit, bind, Except.bind, pure, Except.pure, Bool.false_eq_true,
    if_false, hflag, hv, hobj, hnb]
  rw [if_pos (by omega)]

/-- The pass over an option token that carries its value: `SetFlagLocked` is applied to the
flag at once, and the scan moves on by one token. -/
theorem scanBody_apply (libc : Libc) (s : ScanState) (tok : CStr) (r : SplitResult)
    (p : Nat) (v : CStr) (obj : CommandLineFlag)
    (hget : s.argv[s.i]? = some tok) (hopt : isProgramArgument tok = false)
    (hne : tok ≠ "--".toList)
    (hsplit : s.psr.registry_.SplitArgumentLocked (stripDashes tok) = .ok r)
    (hflag : r.flag = some p) (hv : r.v = some v) (hobj : s.psr.registry_.deref p = .ok obj) :
    ∃ res, FlagRegistry.SetFlagLocked libc obj v .SET_FLAGS_VALUE (some []) = .ok res ∧
      scanBody libc s = .ok (false, { s with i := s.i + 1, psr :=
        ⟨s.psr.registry_.store p res.flag,
         if res.ok then s.psr.error_flags_ else s.psr.error_flags_.assign obj.name (res.msg.getD []),
         s.psr.undefined_names_⟩ }) := by
  have hne2 : stripDashes tok ≠ [] := fun hx => hne ((stripDashes_eq_nil tok hopt).1 hx)
  obtain ⟨res, hres, hq, _⟩ := ProcessSingleOptionLocked_value libc s.psr p v obj hobj
  refine ⟨res, hres, ?_⟩
  unfold scanBody
  simp only [hget, hopt, hne2, hsplit, bind, Except.bind, pure, Except.pure, Bool.false_eq_true,
    if_false, hflag, hv, hq]

/-- A pass that stays in the loop keeps the bounds and the length of the vector, and brings
the index strictly closer to the boundary. -/
theorem scanBody_pass_bounds (libc : Libc) (s s1 : ScanState) (hi : s.i < s.first_nonopt)
    (hb : s.InBounds) (h : scanBody libc s = .ok (false, s1)) :
    s1.InBounds ∧ s1.argv.length = s.argv.length ∧
      s1.first_nonopt - s1.i < s.first_nonopt - s.i := by
  obtain ⟨b1, b2, b3⟩ := hb
  unfold scanBody at h
  split at h
  · cases h
  · rename_i arg harg
    split at h
    · cases h
      have hlt : s.i < s.argv.length := by omega
      refine ⟨⟨b1, by simp only; omega, ?_⟩, ?_, by simp only; omega⟩
      · simp [List.length_eraseIdx, hlt]; omega
      · simp [List.length_eraseIdx, hlt]; omega
    · simp only [] at h
      split at h
      · cases h
      · cases hs : s.psr.registry_.SplitArgumentLocked (stripDashes arg) with
        | error e => simp [hs, bind, Except.bind] at h
        | ok r =>
          simp only [hs, bind, Except.bind, pure, Except.pure] at h
          split at h
          · cases h
            exact ⟨⟨by simp only; omega, by simp only; omega, b3⟩, rfl, by simp only; omega⟩
          · split at h
            · split at h
              · cases h
              · split at h
                · cases h
                · split at h
                  · cases h
                  · rename_i hlast
                    split at h
                    · cases h
                    · split at h
                      · cases h
                      · cases h
                        exact ⟨⟨by simp only; omega, by simp only; omega, b3⟩, rfl,
                          by simp only; omega⟩
            · split at h
              · cases h
              · cases h
                exact ⟨⟨by simp only; omega, by simp only; omega, b3⟩, rfl, by simp only; omega⟩

theorem ScanState.init_inBounds (self : CommandLineFlagParser) (prog : CStr) (rest : List CStr) :
    (ScanState.init self (prog :: rest)).InBounds := by
  simp [ScanState.InBounds, ScanState.init]

/-- A state the scan reaches is in bounds, has a vector of the original length, and the
loop run from the start is the loop run from that state, with enough passes left. -/
theorem ScanReaches.loop_eq (libc : Libc) (s0 s : ScanState) (h : ScanReaches libc s0 s)
    (hb : s0.InBounds) (fuel : Nat) (hfuel : s0.first_nonopt - s0.i ≤ fuel) :
    s.InBounds ∧ s.argv.length = s0.argv.length ∧
      ∃ fuel1, s.first_nonopt - s.i ≤ fuel1 ∧ scanLoop libc fuel s0 = scanLoop libc fuel1 s := by
  induction h with
  | start => exact ⟨hb, rfl, fuel, hfuel, rfl⟩
  | pass s s1 _ hi hbody ih =>
    obtain ⟨ib, il, f1, hf1, heq⟩ := ih
    obtain ⟨jb, jl, jm⟩ := scanBody_pass_bounds libc s s1 hi ib hbody
    refine ⟨jb, jl.trans il, ?_⟩
    cases f1 with
    | zero => omega
    | succ f2 =>
      refine ⟨f2, by omega, ?_⟩
      rw [heq, scanLoop_pass libc f2 s s1 hi hbody]

theorem replaceDashes_no_dash (name : CStr) : strchr_found (replaceDashes name) '-' = false := by
  unfold strchr_found replaceDashes
  induction name with
  | nil => rfl
  | cons c cs ih =>
    simp only [List.map_cons, List.contains_cons] at ih ⊢
    rw [ih]
    by_cases hc : c = '-'
    · subst hc; decide
    · simp [hc, Ne.symm hc]

/-- The recursion of `FindFlagLocked` never reaches its depth bound: the method is an exact
lookup, followed on a miss by an exact lookup of the name with dashes replaced. -/
theorem FlagRegistry.FindFlagLocked_eq (reg : FlagRegistry) (name : CStr) :
    reg.FindFlagLocked name =
      match mapFind StringCmp reg.flags_ name with
      | some p => some p
      | none =>
        if strchr_found name '-' then mapFind StringCmp reg.flags_ (replaceDashes name)
        else none := by
  unfold FlagRegistry.FindFlagLocked
  simp only [FindFlagLockedFuel]
  cases h1 : mapFind StringCmp reg.flags_ name with
  | some p => rfl
  | none =>
    by_cases hd : strchr_found name '-' = true
    · simp only [hd, Bool.not_true, Bool.false_eq_true, if_false, if_true]
      cases h2 : mapFind StringCmp reg.flags_ (replaceDashes name) with
      | some p => rfl
      | none => simp [replaceDashes_no_dash]
    · simp [hd]

/-- The recursive equation of the source. -/
theorem FlagRegistry.FindFlagLocked_rec (reg : FlagRegistry) (name : CStr) :
    reg.FindFlagLocked name =
      match mapFind StringCmp reg.flags_ name with
      | none =>
        if !strchr_found name '-' then none else reg.FindFlagLocked (replaceDashes name)
      | some p => some p := by
  rw [FlagRegistry.FindFlagLocked_eq reg name]
  cases h1 : mapFind StringCmp reg.flags_ name with
  | some p => rfl
  | none =>
    by_cases hd : strchr_found name '-' = true
    · simp only [hd, Bool.not_true, Bool.false_eq_true, if_false, if_true]
      rw [FlagRegistry.FindFlagLocked_eq reg (replaceDashes name)]
      cases h2 : mapFind StringCmp reg.flags_ (replaceDashes name) with
      | some p => rfl
      | none => simp [replaceDashes_no_dash]
    · simp [hd]

theorem FlagRegistry.FindFlagLocked_of_find (reg : FlagRegistry) (name : CStr) (p : Nat)
    (h : mapFind StringCmp reg.flags_ name = some p) : reg.FindFlagLocked name = some p := by
  rw [FlagRegistry.FindFlagLocked_eq, h]

theorem not_eq_of_contains {c : Char} {cs : List Char}
    (h : (c :: cs).contains '=' = false) : decide (c ≠ '=') = true ∧ cs.contains '=' = false := by
  simp only [List.contains_cons, Bool.or_eq_false_iff] at h
  refine ⟨?_, h.2⟩
  have hc : c ≠ '=' := by
    intro hx; subst hx; simp at h
  exact decide_eq_true hc

theorem takeWhile_no_eq (a : CStr) (h : strchr_found a '=' = false) :
    a.takeWhile (fun c => c ≠ '=') = a := by
  unfold strchr_found at h
  induction a with
  | nil => rfl
  | cons c cs ih =>
    obtain ⟨hc, h2⟩ := not_eq_of_contains h
    rw [List.takeWhile_cons, hc, if_pos rfl, ih h2]

theorem takeWhile_inline (k v : CStr) (h : strchr_found k '=' = false) :
    (k ++ '=' :: v).takeWhile (fun c => c ≠ '=') = k := by
  unfold strchr_found at h
  induction k with
  | nil => simp
  | cons c cs ih =>
    obtain ⟨hc, h2⟩ := not_eq_of_contains h
    rw [List.cons_append, List.takeWhile_cons, hc, if_pos rfl, ih h2]

theorem dropWhile_inline (k v : CStr) (h : strchr_found k '=' = false) :
    ((k ++ '=' :: v).dropWhile (fun c => c ≠ '=')).drop 1 = v := by
  unfold strchr_found at h
  induction k with
  | nil => simp
  | cons c cs ih =>
    obtain ⟨hc, h2⟩ := not_eq_of_contains h
    rw [List.cons_append, List.dropWhile_cons, hc, if_pos rfl, ih h2]

theorem strchr_found_inline (k v : CStr) : strchr_found (k ++ '=' :: v) '=' = true := by
  simp [strchr_found]

/-- A token `name=value` whose name resolves directly: the flag, the name as key, the value. -/
theorem split_inline (reg : FlagRegistry) (k v : CStr) (p : Nat)
    (hk : strchr_found k '=' = false) (hfind : reg.FindFlagLocked k = some p) :
    reg.SplitArgumentLocked (k ++ '=' :: v) = .ok ⟨some p, k, some v, []⟩ := by
  unfold FlagRegistry.SplitArgumentLocked
  simp only [takeWhile_inline k v hk, dropWhile_inline k v hk, strchr_found_inline, hfind,
    if_true]
  rfl

/-- The negation form `no<x>` of a boolean flag `x`. -/
theorem split_negation_bool (reg : FlagRegistry) (x : CStr) (p : Nat) (obj : CommandLineFlag)
    (hx : strchr_found x '=' = false)
    (hno : reg.FindFlagLocked ('n' :: 'o' :: x) = none)
    (hfind : mapFind StringCmp reg.flags_ x = some p) (hobj : reg.deref p = .ok obj)
    (hbool : obj.Type_ = .FV_BOOL) :
    reg.SplitArgumentLocked ('n' :: 'o' :: x) = .ok ⟨some p, x, some "0".toList, []⟩ := by
  have hx2 : strchr_found ('n' :: 'o' :: x) '=' = false := by
    unfold strchr_found at hx ⊢
    simp only [List.contains_cons, hx]
    decide
  unfold FlagRegistry.SplitArgumentLocked
  simp only [takeWhile_no_eq _ hx2, hx2, hno, reg.FindFlagLocked_of_find x p hfind, hobj, hbool,
    bind, Except.bind, pure, Except.pure]
  simp

/-- The negation form `no<x>` of a flag `x` that is not boolean. -/
theorem split_negation_not_bool (reg : FlagRegistry) (x : CStr) (p : Nat)
    (obj : CommandLineFlag) (hx : strchr_found x '=' = false)
    (hno : reg.FindFlagLocked ('n' :: 'o' :: x) = none)
    (hfind : mapFind StringCmp reg.flags_ x = some p) (hobj : reg.deref p = .ok obj)
    (hbool : obj.Type_ ≠ .FV_BOOL) :
    reg.SplitArgumentLocked ('n' :: 'o' :: x) =
      .ok ⟨none, 'n' :: 'o' :: x, none, kError ++ "boolean value (".toList ++ ('n' :: 'o' :: x) ++
        ") specified for ".toList ++ obj.type_name ++ " command line flag\n".toList⟩ := by
  have hx2 : strchr_found ('n' :: 'o' :: x) '=' = false := by
    unfold strchr_found at hx ⊢
    simp only [List.contains_cons, hx]
    decide
  unfold FlagRegistry.SplitArgumentLocked
  simp only [takeWhile_no_eq _ hx2, hx2, hno, reg.FindFlagLocked_of_find x p hfind, hobj,
    bind, Except.bind, pure, Except.pure]
  simp [hbool]

/-- The pass over an option token that resolves to no flag: the key goes to
`undefined_names_`, the message to `error_flags_`, and the scan moves on by one token. -/
theorem scanBody_unresolved (libc : Libc) (s : ScanState) (tok : CStr) (r : SplitResult)
    (hget : s.argv[s.i]? = some tok) (hopt : isProgramArgument tok = false)
    (hne : tok ≠ "--".toList)
    (hsplit : s.psr.registry_.SplitArgumentLocked (stripDashes tok) = .ok r)
    (hflag : r.flag = none) :
    scanBody libc s = .ok (false, { s with i := s.i + 1, psr :=
      ⟨s.psr.registry_, s.psr.error_flags_.assign r.key r.error_message,
       s.psr.undefined_names_.assign r.key []⟩ }) := by
  have hne2 : stripDashes tok ≠ [] := fun hx => hne ((stripDashes_eq_nil tok hopt).1 hx)
  unfold scanBody
  simp only [hget, hopt, hne2, hsplit, bind, Except.bind, pure, Except.pure, Bool.false_eq_true,
    if_false, hflag]

/-- The scan of a vector `[prog, tok]` whose one pass stays in the loop. -/
theorem parse_single_token (libc : Libc) (self : CommandLineFlagParser) (prog tok : CStr)
    (s1 : ScanState)
    (hb : scanBody libc (ScanState.init self [prog, tok]) = .ok (false, s1))
    (hi : s1.i = 2) (hf : s1.first_nonopt = 2) :
    self.ParseNewCommandLineFlags libc [prog, tok] false =
      .ok ⟨2, s1.argv, s1.psr, s1.cout⟩ := by
  unfold CommandLineFlagParser.ParseNewCommandLineFlags
  have h0 : (ScanState.init self [prog, tok]).i < (ScanState.init self [prog, tok]).first_nonopt := by
    simp [ScanState.init]
  have : scanLoop libc [prog, tok].length (ScanState.init self [prog, tok]) = .ok s1 := by
    show scanLoop libc (1 + 1) _ = _
    rw [scanLoop_pass libc 1 _ s1 h0 hb, scanLoop_done]
    omega
  simp only [this, bind, Except.bind, pure, Except.pure, Bool.false_eq_true, if_false, hf]

theorem stripDashes_two (a : CStr) : stripDashes ('-' :: '-' :: a) = a := by
  simp [stripDashes]

theorem isProgramArgument_two (a : CStr) : isProgramArgument ('-' :: '-' :: a) = false := rfl

/-- Inserting under a key that an ordered map already holds changes nothing and returns the
entry found. -/
theorem mapInsert_present (m : List (CStr × Nat)) (k : CStr) (v p0 : Nat)
    (hs : m.Pairwise (fun a b => StringCmp a.1 b.1 = true))
    (h : mapFind StringCmp m k = some p0) : mapInsert StringCmp m k v = (m, p0, false) := by
  induction m with
  | nil => simp [mapFind] at h
  | cons e rest ih =>
    obtain ⟨k1, v1⟩ := e
    rw [List.pairwise_cons] at hs
    simp only [mapFind] at h
    simp only [mapInsert]
    by_cases h1 : StringCmp k k1 = true
    · exfalso
      have h1' : StringCmp k1 k = false := StringCmp_asymm _ _ h1
      simp only [h1, h1', Bool.not_true, Bool.false_and, Bool.false_eq_true, if_false] at h
      have hmem := mapFind_eq_some rest k p0 h
      have := hs.1 _ hmem
      simp only at this
      rw [StringCmp_asymm _ _ this] at h1
      cases h1
    · have h1f : StringCmp k k1 = false := by simpa using h1
      by_cases h2 : StringCmp k1 k = true
      · simp only [h1f, h2, Bool.not_true, Bool.and_false, Bool.false_eq_true, if_false,
          if_true] at h ⊢
        rw [ih hs.2 h]
      · have h2f : StringCmp k1 k = false := by simpa using h2
        simp only [h1f, h2f, Bool.not_false, Bool.and_self, if_true] at h
        cases h
        simp [h1f, h2f]

/-- Inserting under a key that the map does not hold stores the pair. -/
theorem mapInsert_absent (m : List (CStr × Nat)) (k : CStr) (v : Nat)
    (h : mapFind StringCmp m k = none) :
    (mapInsert StringCmp m k v).2 = (v, true) ∧
      mapFind StringCmp (mapInsert StringCmp m k v).1 k = some v := by
  induction m with
  | nil => simp [mapInsert, mapFind, StringCmp_irrefl]
  | cons e rest ih =>
    obtain ⟨k1, v1⟩ := e
    simp only [mapFind] at h
    simp only [mapInsert]
    by_cases h1 : StringCmp k k1 = true
    · simp [h1, mapFind, StringCmp_irrefl]
    · have h1f : StringCmp k k1 = false := by simpa using h1
      by_cases h2 : StringCmp k1 k = true
      · simp only [h1f, h2, Bool.not_true, Bool.and_false, Bool.false_eq_true, if_false] at h
        obtain ⟨i1, i2⟩ := ih h
        simp only [h1f, h2, Bool.false_eq_true, if_false, if_true, mapFind, Bool.not_true,
          Bool.and_false]
        exact ⟨i1, i2⟩
      · have h2f : StringCmp k1 k = false := by simpa using h2
        simp [h1f, h2f] at h

theorem deref_append_old (reg : FlagRegistry) (fs : List CommandLineFlag) (m1 : List (CStr × Nat))
    (m2 : List (Nat × Nat)) (p : Nat) (f : CommandLineFlag) (h : reg.deref p = .ok f) :
    FlagRegistry.deref ⟨reg.objs ++ fs, m1, m2⟩ p = .ok f := by
  rw [FlagRegistry.deref_eq_ok] at h ⊢
  have hlt := (List.getElem?_eq_some_iff.1 h).1
  simp only
  rw [List.getElem?_append_left hlt]
  exact h

theorem deref_append_new (reg : FlagRegistry) (f : CommandLineFlag) (m1 : List (CStr × Nat))
    (m2 : List (Nat × Nat)) :
    FlagRegistry.deref ⟨reg.objs ++ [f], m1, m2⟩ reg.objs.length = .ok f := by
  rw [FlagRegistry.deref_eq_ok]
  simp

theorem RegisterFlag_duplicate (reg : FlagRegistry) (flag first : CommandLineFlag) (p0 : Nat)
    (hs : reg.flags_.Pairwise (fun a b => StringCmp a.1 b.1 = true))
    (hfind : mapFind StringCmp reg.flags_ flag.name = some p0)
    (hfirst : reg.deref p0 = .ok first) :
    reg.RegisterFlag flag = .ok
      ⟨⟨reg.objs ++ [flag], reg.flags_,
          mapAssign (fun a b => decide (a < b)) reg.flags_by_ptr_ flag.flag_ptr reg.objs.length⟩,
        some ⟨duplicateFlagMessage flag.name first.filename flag.filename, some 1⟩⟩ := by
  unfold FlagRegistry.RegisterFlag
  simp only [mapInsert_present reg.flags_ flag.name reg.objs.length p0 hs hfind,
    deref_append_old reg [flag] _ _ p0 first hfirst, bind, Except.bind, pure, Except.pure,
    if_true, ReportError, duplicateFlagMessage]
  by_cases hf : first.filename = flag.filename
  · simp [hf, strcmp_self]
  · have : strcmp first.filename flag.filename ≠ 0 := fun h => hf (strcmp_eq_zero _ _ h)
    simp [hf, this]

theorem RegisterFlag_fresh (reg : FlagRegistry) (flag : CommandLineFlag)
    (hfind : mapFind StringCmp reg.flags_ flag.name = none) :
    ∃ out, reg.RegisterFlag flag = .ok out ∧ out.report = none ∧
      out.registry.objs = reg.objs ++ [flag] ∧
      mapFind StringCmp out.registry.flags_ flag.name = some reg.objs.length ∧
      out.registry.deref reg.objs.length = .ok flag := by
  obtain ⟨h1, h2⟩ := mapInsert_absent reg.flags_ flag.name reg.objs.length hfind
  have h3 : (mapInsert StringCmp reg.flags_ flag.name reg.objs.length).2.2 = true := by rw [h1]
  unfold FlagRegistry.RegisterFlag
  simp only [h3, bind, Except.bind, pure, Except.pure, Bool.true_eq_false, if_false]
  exact ⟨_, rfl, rfl, rfl, h2, deref_append_new reg flag _ _⟩

theorem UpdateModifiedBit_overwritten (f : CommandLineFlag) (c : FlagValue) :
    ({ f.UpdateModifiedBit with current_ := c, modified_ := true } : CommandLineFlag) =
      { f with current_ := c, modified_ := true } := by
  unfold CommandLineFlag.UpdateModifiedBit; split <;> rfl

theorem bool_box_of_Type (fv : FlagValue) (h : fv.Type_ = .FV_BOOL) : ∃ b, fv.cell = .bool b := by
  unfold FlagValue.Type_ at h
  cases hc : fv.cell <;> simp [hc] at h
  exact ⟨_, rfl⟩

/-- Setting a boolean flag that has no validator from the text `0`. -/
theorem SetFlagLocked_bool_zero (libc : Libc) (obj : CommandLineFlag)
    (hcur : obj.current_.Type_ = .FV_BOOL) (hnoval : obj.validate_function = none) :
    ∃ msg, FlagRegistry.SetFlagLocked libc obj "0".toList .SET_FLAGS_VALUE (some []) =
      .ok ⟨true, { obj with current_ := { obj.current_ with cell := .bool false },
                            modified_ := true }, msg⟩ := by
  obtain ⟨b, hb⟩ := bool_box_of_Type _ hcur
  have hparse : obj.current_.New.ParseFrom libc "0".toList = (true, ⟨0, .bool false, true⟩) := by
    simp only [FlagValue.New, hb, FlagValue.ParseFrom]
    rfl
  obtain ⟨r, hr, hc⟩ := SetFlagLocked_value_eq libc obj "0".toList (some [])
  rw [hparse] at hc
  have hvalid : obj.Validate ⟨0, .bool false, true⟩ = true := by
    simp only [CommandLineFlag.Validate, hnoval]
  rcases hc with ⟨_, _, h3⟩ | ⟨h1, h2, _⟩
  · rcases h3 with h3 | h3
    · cases h3
    · rw [hvalid] at h3; cases h3
  · refine ⟨r.msg, ?_⟩
    rw [hr]
    rw [UpdateModifiedBit_overwritten] at h2
    cases r
    simp only at h1 h2
    subst h1 h2
    rfl

theorem mapInsert_mem (m : List (CStr × Nat)) (k : CStr) (v : Nat) (e : CStr × Nat)
    (h : e ∈ (mapInsert StringCmp m k v).1) : e ∈ m ∨ e = (k, v) := by
  induction m with
  | nil => simp [mapInsert] at h; exact Or.inr h
  | cons e1 rest ih =>
    obtain ⟨k1, v1⟩ := e1
    simp only [mapInsert] at h
    split at h
    · rcases List.mem_cons.1 h with h1 | h1
      · exact Or.inr h1
      · exact Or.inl h1
    · split at h
      · rcases List.mem_cons.1 h with h1 | h1
        · exact Or.inl (h1 ▸ List.mem_cons_self _ _)
        · rcases ih h1 with h2 | h2
          · exact Or.inl (List.mem_cons_of_mem _ h2)
          · exact Or.inr h2
      · exact Or.inl h

theorem mapInsert_old_mem (m : List (CStr × Nat)) (k : CStr) (v : Nat) (e : CStr × Nat)
    (h : e ∈ m) : e ∈ (mapInsert StringCmp m k v).1 := by
  induction m with
  | nil => simp at h
  | cons e1 rest ih =>
    obtain ⟨k1, v1⟩ := e1
    simp only [mapInsert]
    split
    · exact List.mem_cons_of_mem _ h
    · split
      · rcases List.mem_cons.1 h with h1 | h1
        · exact h1 ▸ List.mem_cons_self _ _
        · exact List.mem_cons_of_mem _ (ih h1)
      · exact h

/-- Insertion keeps the map ordered. -/
theorem mapInsert_pairwise (m : List (CStr × Nat)) (k : CStr) (v : Nat)
    (hs : m.Pairwise (fun a b => StringCmp a.1 b.1 = true)) :
    (mapInsert StringCmp m k v).1.Pairwise (fun a b => StringCmp a.1 b.1 = true) := by
  induction m with
  | nil => simp [mapInsert]
  | cons e1 rest ih =>
    obtain ⟨k1, v1⟩ := e1
    have hs2 := List.pairwise_cons.1 hs
    simp only [mapInsert]
    split
    · rename_i hlt
      refine List.pairwise_cons.2 ⟨?_, hs⟩
      intro e he
      rcases List.mem_cons.1 he with h1 | h1
      · rw [h1]; exact hlt
      · exact StringCmp_trans _ _ _ hlt (hs2.1 e h1)
    · split
      · rename_i hgt
        refine List.pairwise_cons.2 ⟨?_, ih hs2.2⟩
        intro e he
        rcases mapInsert_mem rest k v e he with h1 | h1
        · exact hs2.1 e h1
        · rw [h1]; exact hgt
      · exact hs

theorem FlagRegistry.empty_wellFormed : FlagRegistry.empty.WellFormed := by
  refine ⟨List.Pairwise.nil, ?_, ?_⟩ <;> intro e he <;> cases he

/-- Registration, `RegisterFlag`, keeps the registry well-formed, also when it reports a
duplicate. -/
theorem RegisterFlag_wellFormed (reg : FlagRegistry) (flag : CommandLineFlag)
    (out : RegisterOutcome) (hwf : reg.WellFormed)
    (hkind : flag.current_.Type_ = flag.defvalue_.Type_)
    (h : reg.RegisterFlag flag = .ok out) : out.registry.WellFormed := by
  have key : out.registry.objs = reg.objs ++ [flag] ∧
      out.registry.flags_ = (mapInsert StringCmp reg.flags_ flag.name reg.objs.length).1 := by
    unfold FlagRegistry.RegisterFlag at h
    simp only [bind, Except.bind, pure, Except.pure] at h
    repeat' (split at h)
    all_goals first | (cases h; exact ⟨rfl, rfl⟩) | cases h
  obtain ⟨w1, w2, w3⟩ := hwf
  refine ⟨by rw [key.2]; exact mapInsert_pairwise _ _ _ w1, ?_, ?_⟩
  · intro e he
    rw [key.2] at he
    rw [key.1]
    rcases mapInsert_mem _ _ _ _ he with h1 | h1
    · have h2 := w2 e h1
      cases h3 : reg.objs[e.2]? with
      | none => simp [h3] at h2
      | some f =>
        have hlt := (List.getElem?_eq_some_iff.1 h3).1
        rw [List.getElem?_append_left hlt, h3]
        simpa [h3] using h2
    · rw [h1]
      simp [CommandLineFlag.name]
  · intro f hf
    rw [key.1] at hf
    rcases List.mem_append.1 hf with h1 | h1
    · exact w3 f h1
    · simp at h1; rw [h1]; exact hkind

/-- An option token that carries `=value` never takes its value from the next slot. -/
theorem needsSeparateValue_inline (reg : FlagRegistry) (t : CStr)
    (h : strchr_found (stripDashes t) '=' = true) : reg.needsSeparateValue t = false := by
  unfold FlagRegistry.needsSeparateValue
  cases hs : reg.SplitArgumentLocked (stripDashes t) with
  | error e => rfl
  | ok r =>
    simp only
    unfold FlagRegistry.SplitArgumentLocked at hs
    simp only [h, if_true, bind, Except.bind, pure, Except.pure] at hs
    repeat' (split at hs)
    all_goals first | (cases hs; rfl) | cases hs

/-- The example registry is what registering its five flags, in their order, leaves. -/
theorem exampleRegistry_registered :
    (do
      let r0 ← Gflags.RegisterCommandLineFlag FlagRegistry.empty "a".toList [] "main.cc".toList
        (100, .int32 0) (101, .int32 0)
      let r1 ← Gflags.RegisterCommandLineFlag r0.registry "b".toList [] "main.cc".toList
        (102, .int32 0) (103, .int32 0)
      let r2 ← Gflags.RegisterCommandLineFlag r1.registry "my_flag".toList [] "main.cc".toList
        (104, .int32 0) (105, .int32 0)
      let r3 ← Gflags.RegisterCommandLineFlag r2.registry "needs_value".toList []
        "main.cc".toList (106, .string []) (107, .string [])
      let r4 ← Gflags.RegisterCommandLineFlag r3.registry "verbose".toList [] "main.cc".toList
        (108, .bool true) (109, .bool true)
      pure (r4.registry, [r0.report.isNone, r1.report.isNone, r2.report.isNone,
        r3.report.isNone, r4.report.isNone])) =
    (.ok (exampleRegistry, [true, true, true, true, true]) : Except Fault _) := rfl

/-- The registry `dashRegistry` is what registering its two flags leaves. -/
theorem dashRegistry_registered :
    (do
      let r0 ← Gflags.RegisterCommandLineFlag FlagRegistry.empty "dry-run".toList []
        "main.cc".toList (100, .bool true) (101, .bool true)
      let r1 ← Gflags.RegisterCommandLineFlag r0.registry "nodry_run".toList []
        "main.cc".toList (102, .int32 0) (103, .int32 0)
      pure (r1.registry, [r0.report.isNone, r1.report.isNone])) =
    (.ok (dashRegistry, [true, true]) : Except Fault _) := rfl

/-- The registry `levelRegistry` is what registering its two flags leaves. -/
theorem levelRegistry_registered :
    (do
      let r0 ← Gflags.RegisterCommandLineFlag FlagRegistry.empty "log-level".toList []
        "main.cc".toList (100, .int32 0) (101, .int32 0)
      let r1 ← Gflags.RegisterCommandLineFlag r0.registry "nolog_level".toList []
        "main.cc".toList (102, .bool false) (103, .bool false)
      pure (r1.registry, [r0.report.isNone, r1.report.isNone])) =
    (.ok (levelRegistry, [true, true]) : Except Fault _) := rfl

/-! ## Lemmas on numerals, `strtoll`, `strtoull` and `ParseFrom` -/

theorem digitIn_decimal (c : Char) (h : isDecimalDigit c = true) :
    digitIn 10 c = some (c.toNat - 48) := by
  simp only [isDecimalDigit, decide_eq_true_eq] at h
  simp only [digitIn, digitValue, h, and_self, if_true]
  rw [if_pos (by omega)]

theorem digitIn_hex (c : Char) (h : isHexDigit c = true) :
    digitIn 16 c = some (hexDigitValue c) := by
  simp only [isHexDigit, decide_eq_true_eq] at h
  unfold digitIn digitValue hexDigitValue
  rcases h with h | h | h
  · rw [if_pos h]; simp only []; rw [if_pos (by omega), if_pos (by omega)]
  · rw [if_neg (by omega), if_pos (by omega)]; simp only []
    rw [if_pos (by omega), if_neg (by omega), if_neg (by omega)]
    congr 1; omega
  · rw [if_neg (by omega), if_neg (by omega), if_pos (by omega)]; simp only []
    rw [if_pos (by omega), if_neg (by omega), if_pos (by omega)]
    congr 1; omega

theorem scanDigits_all (base : Nat) (val : Char → Nat) (ds : CStr)
    (h : ∀ c ∈ ds, digitIn base c = some (val c)) (acc n : Nat) :
    scanDigits base ds acc n = (ds.foldl (fun a c => a * base + val c) acc, n + ds.length) := by
  induction ds generalizing acc n with
  | nil => rfl
  | cons c cs ih =>
    rw [scanDigits, h c (List.mem_cons_self _ _)]
    simp only [List.foldl_cons, List.length_cons]
    rw [ih (fun x hx => h x (List.mem_cons_of_mem _ hx))]
    congr 1; omega

theorem scanDigits_decimal (ds : CStr) (h : ∀ c ∈ ds, isDecimalDigit c = true) :
    scanDigits 10 ds 0 0 = (decimalValue ds, ds.length) := by
  rw [scanDigits_all 10 (fun c => c.toNat - 48) ds (fun c hc => digitIn_decimal c (h c hc))]
  simp [decimalValue]

theorem scanDigits_hex (ds : CStr) (h : ∀ c ∈ ds, isHexDigit c = true) :
    scanDigits 16 ds 0 0 = (hexValue ds, ds.length) := by
  rw [scanDigits_all 16 hexDigitValue ds (fun c hc => digitIn_hex c (h c hc))]
  simp [hexValue]

theorem decimalDigit_facts (c : Char) (h : isDecimalDigit c = true) :
    isspace c = false ∧ c ≠ '-' ∧ c ≠ '+' ∧ c ≠ 'x' ∧ c ≠ 'X' ∧ c ≠ ' ' := by
  simp only [isDecimalDigit, decide_eq_true_eq] at h
  refine ⟨?_, ?_, ?_, ?_, ?_, ?_⟩
  · have h1 : c ≠ ' ' := by rintro rfl; simp at h
    simp [isspace, h1]; omega
  all_goals (rintro rfl; simp at h)

theorem scanNumber_decimal (ds : CStr) (hne : ds ≠ []) (h : ∀ c ∈ ds, isDecimalDigit c = true) :
    scanNumber ds 10 = ⟨false, decimalValue ds, ds.length⟩ := by
  cases ds with
  | nil => exact absurd rfl hne
  | cons c cs =>
    obtain ⟨hsp, hm, hp, _, _, _⟩ := decimalDigit_facts c (h c (List.mem_cons_self _ _))
    have hd := scanDigits_decimal _ h
    unfold scanNumber
    simp only [List.takeWhile_cons, List.dropWhile_cons, hsp, Bool.false_eq_true, if_false,
      List.length_nil]
    by_cases h0 : c = '0'
    · subst h0
      cases cs with
      | nil => simp [hd]
      | cons x r => simp [hd]
    · simp [hm, hp, h0, hd]

theorem scanNumber_neg_decimal (ds : CStr) (hne : ds ≠ [])
    (h : ∀ c ∈ ds, isDecimalDigit c = true) :
    scanNumber ('-' :: ds) 10 = ⟨true, decimalValue ds, 1 + ds.length⟩ := by
  cases ds with
  | nil => exact absurd rfl hne
  | cons c cs =>
    have hd := scanDigits_decimal _ h
    have hsp : isspace '-' = false := by decide
    unfold scanNumber
    simp only [List.takeWhile_cons, List.dropWhile_cons, hsp, Bool.false_eq_true, if_false,
      List.length_nil]
    by_cases h0 : c = '0'
    · subst h0
      cases cs with
      | nil => simp [hd]
      | cons x r => simp [hd]
    · simp [h0, hd]

theorem scanNumber_hex (x : Char) (hs : CStr) (hx : x = 'x' ∨ x = 'X') (hne : hs ≠ [])
    (h : ∀ c ∈ hs, isHexDigit c = true) :
    scanNumber ('0' :: x :: hs) 16 = ⟨false, hexValue hs, 2 + hs.length⟩ := by
  have hd := scanDigits_hex _ h
  have hsp : isspace '0' = false := by decide
  have hl : hs.length ≠ 0 := by simpa using hne
  unfold scanNumber
  simp only [List.takeWhile_cons, List.dropWhile_cons, hsp, Bool.false_eq_true, if_false,
    List.length_nil]
  simp [hx, hd, hl]

/-- With nothing to convert, `scanNumber` consumes nothing. -/
theorem scanNumber_nil (base : Nat) : scanNumber [] base = ⟨false, 0, 0⟩ := by
  unfold scanNumber
  simp [scanDigits]

theorem skipSpaces_cons (c : Char) (cs : CStr) (h : c ≠ ' ') : skipSpaces (c :: cs) = c :: cs := by
  simp [skipSpaces, List.dropWhile_cons, h]

/-- A signed 32-bit box on a text that `strtoll` consumes in full as `(neg, m)`. -/
theorem ParseFrom_int32_of_scan (libc : Libc) (a : Nat) (v0 : Int) (o : Bool) (text : CStr)
    (neg : Bool) (m : Nat) (hne : text ≠ [])
    (hs : scanNumber text (parseBase text) = ⟨neg, m, text.length⟩) :
    FlagValue.ParseFrom libc ⟨a, .int32 v0, o⟩ text =
      if -(2 ^ 31 : Int) ≤ (if neg then -(m : Int) else (m : Int)) ∧
          (if neg then -(m : Int) else (m : Int)) ≤ 2 ^ 31 - 1
      then (true, ⟨a, .int32 (if neg then -(m : Int) else (m : Int)), o⟩)
      else (false, ⟨a, .int32 v0, o⟩) := by
  simp only [FlagValue.ParseFrom, hne, if_false, strtoll, hs]
  cases neg
  · simp only [Bool.false_eq_true, if_false]
    by_cases h1 : m > 2 ^ 63 - 1
    · rw [if_pos h1]; simp only [true_or, if_true]
      rw [if_neg (by omega)]
    · rw [if_neg h1]; simp only [Bool.false_eq_true, ne_eq, not_true_eq_false, or_self, if_false]
      by_cases h2 : (m : Int) ≤ 2 ^ 31 - 1
      · rw [if_neg (by omega), if_pos (by omega)]
      · rw [if_pos (by omega), if_neg (by omega)]
  · simp only [if_true]
    by_cases h1 : m > 2 ^ 63
    · rw [if_pos h1]; simp only [true_or, if_true]
      rw [if_neg (by omega)]
    · rw [if_neg h1]; simp only [Bool.false_eq_true, ne_eq, not_true_eq_false, or_self, if_false]
      by_cases h2 : -(2 ^ 31 : Int) ≤ -(m : Int)
      · rw [if_neg (by omega), if_pos (by omega)]
      · rw [if_pos (by omega), if_neg (by omega)]

/-- A signed 64-bit box on a text that `strtoll` consumes in full as `(neg, m)`. -/
theorem ParseFrom_int64_of_scan (libc : Libc) (a : Nat) (v0 : Int) (o : Bool) (text : CStr)
    (neg : Bool) (m : Nat) (hne : text ≠ [])
    (hs : scanNumber text (parseBase text) = ⟨neg, m, text.length⟩) :
    FlagValue.ParseFrom libc ⟨a, .int64 v0, o⟩ text =
      if -(2 ^ 63 : Int) ≤ (if neg then -(m : Int) else (m : Int)) ∧
          (if neg then -(m : Int) else (m : Int)) ≤ 2 ^ 63 - 1
      then (true, ⟨a, .int64 (if neg then -(m : Int) else (m : Int)), o⟩)
      else (false, ⟨a, .int64 v0, o⟩) := by
  simp only [FlagValue.ParseFrom, hne, if_false, strtoll, hs]
  cases neg
  · simp only [Bool.false_eq_true, if_false]
    by_cases h1 : m > 2 ^ 63 - 1
    · rw [if_pos h1]; simp only [true_or, if_true]
      rw [if_neg (by omega)]
    · rw [if_neg h1]; simp only [Bool.false_eq_true, ne_eq, not_true_eq_false, or_self, if_false]
      rw [if_pos (by omega)]
  · simp only [if_true]
    by_cases h1 : m > 2 ^ 63
    · rw [if_pos h1]; simp only [true_or, if_true]
      rw [if_neg (by omega)]
    · rw [if_neg h1]; simp only [Bool.false_eq_true, ne_eq, not_true_eq_false, or_self, if_false]
      rw [if_pos (by omega)]

/-- An unsigned 32-bit box on a text without leading space or sign that `strtoull` consumes in
full as `m`. -/
theorem ParseFrom_uint32_of_scan (libc : Libc) (a : Nat) (v0 : Nat) (o : Bool) (text : CStr)
    (m : Nat) (hne : text ≠ []) (hsk : skipSpaces text = text) (hmin : text.head? ≠ some '-')
    (hs : scanNumber text (parseBase text) = ⟨false, m, text.length⟩) :
    FlagValue.ParseFrom libc ⟨a, .uint32 v0, o⟩ text =
      if m ≤ 2 ^ 32 - 1 then (true, ⟨a, .uint32 m, o⟩) else (false, ⟨a, .uint32 v0, o⟩) := by
  simp only [FlagValue.ParseFrom, hne, if_false, hsk, hmin, strtoull, hs]
  by_cases h1 : m > 2 ^ 64 - 1
  · rw [if_pos h1]; simp only [true_or, if_true]
    rw [if_neg (by omega)]
  · rw [if_neg h1]
    simp only [Bool.false_eq_true, if_false, ne_eq, not_true_eq_false, or_self]
    by_cases h2 : m ≤ 2 ^ 32 - 1
    · rw [if_neg (by omega), if_pos h2]
    · rw [if_pos (by omega), if_neg h2]

/-- An unsigned 64-bit box on a text without leading space or sign that `strtoull` consumes in
full as `m`. -/
theorem ParseFrom_uint64_of_scan (libc : Libc) (a : Nat) (v0 : Nat) (o : Bool) (text : CStr)
    (m : Nat) (hne : text ≠ []) (hsk : skipSpaces text = text) (hmin : text.head? ≠ some '-')
    (hs : scanNumber text (parseBase text) = ⟨false, m, text.length⟩) :
    FlagValue.ParseFrom libc ⟨a, .uint64 v0, o⟩ text =
      if m ≤ 2 ^ 64 - 1 then (true, ⟨a, .uint64 m, o⟩) else (false, ⟨a, .uint64 v0, o⟩) := by
  simp only [FlagValue.ParseFrom, hne, if_false, hsk, hmin, strtoull, hs]
  by_cases h1 : m > 2 ^ 64 - 1
  · rw [if_pos h1]; simp only [true_or, if_true]
    rw [if_neg (by omega)]
  · rw [if_neg h1]
    simp only [Bool.false_eq_true, if_false, ne_eq, not_true_eq_false, or_self]
    rw [if_pos (by omega)]

/-- The unsigned kinds refuse a text whose first character after the spaces is `-`. -/
theorem ParseFrom_unsigned_minus (libc : Libc) (fv : FlagValue) (text : CStr)
    (hk : fv.Type_ = .FV_UINT32 ∨ fv.Type_ = .FV_UINT64)
    (hm : (skipSpaces text).head? = some '-') :
    fv.ParseFrom libc text = (false, fv) := by
  have hne : text ≠ [] := by
    rintro rfl
    simp [skipSpaces] at hm
  cases fv with
  | mk a c o =>
    cases c <;> simp [FlagValue.Type_] at hk <;> simp [FlagValue.ParseFrom, hne, hm]

theorem parseBase_decimal (ds : CStr) (h : ∀ c ∈ ds, isDecimalDigit c = true) :
    parseBase ds = 10 := by
  unfold parseBase
  split
  · rename_i x r
    obtain ⟨_, _, _, h1, h2, _⟩ := decimalDigit_facts x (h x (by simp))
    simp [h1, h2]
  · rfl

theorem parseBase_minus (ds : CStr) : parseBase ('-' :: ds) = 10 := by
  unfold parseBase
  split
  · rename_i heq; cases heq
  · rfl

theorem parseBase_hex (x : Char) (hs : CStr) (hx : x = 'x' ∨ x = 'X') :
    parseBase ('0' :: x :: hs) = 16 := by
  simp [parseBase, hx]

/-- The scan of a decimal numeral: its sign, the value of its digits, all of its length. -/
theorem scanNumber_decimalNumeral (neg : Bool) (ds : CStr) (hne : ds ≠ [])
    (h : ∀ c ∈ ds, isDecimalDigit c = true) :
    scanNumber (decimalNumeral neg ds) (parseBase (decimalNumeral neg ds)) =
      ⟨neg, decimalValue ds, (decimalNumeral neg ds).length⟩ := by
  cases neg
  · simp only [decimalNumeral, Bool.false_eq_true, if_false]
    rw [parseBase_decimal ds h, scanNumber_decimal ds hne h]
  · simp only [decimalNumeral, if_true]
    rw [parseBase_minus, scanNumber_neg_decimal ds hne h, List.length_cons, Nat.add_comm]

theorem decimalNumeral_ne_nil (neg : Bool) (ds : CStr) (hne : ds ≠ []) :
    decimalNumeral neg ds ≠ [] := by
  cases neg <;> simp [decimalNumeral, hne]

theorem decimal_head (ds : CStr) (hne : ds ≠ []) (h : ∀ c ∈ ds, isDecimalDigit c = true) :
    skipSpaces ds = ds ∧ ds.head? ≠ some '-' := by
  cases ds with
  | nil => exact absurd rfl hne
  | cons c cs =>
    obtain ⟨_, h1, _, _, _, h2⟩ := decimalDigit_facts c (h c (List.mem_cons_self _ _))
    exact ⟨skipSpaces_cons c cs h2, by simpa using h1⟩

/-- The scan of `0x` or `0X` followed by hexadecimal digits. -/
theorem scanNumber_hexNumeral (x : Char) (hs : CStr) (hx : x = 'x' ∨ x = 'X') (hne : hs ≠ [])
    (h : ∀ c ∈ hs, isHexDigit c = true) :
    scanNumber ('0' :: x :: hs) (parseBase ('0' :: x :: hs)) =
      ⟨false, hexValue hs, ('0' :: x :: hs).length⟩ := by
  rw [parseBase_hex x hs hx, scanNumber_hex x hs hx hne h]
  simp only [List.length_cons]
  congr 1; omega

theorem digitChar_decimal (k : Nat) (hk : k < 10) : (Nat.digitChar k).toNat = 48 + k := by
  interval_cases k <;> rfl

theorem decimalValue_append_singleton (ds : CStr) (d : Char) :
    decimalValue (ds ++ [d]) = decimalValue ds * 10 + (d.toNat - 48) := by
  simp [decimalValue, List.foldl_append]

/-- What `Nat.toDigitsCore 10` puts in front of the digits it was given. -/
theorem toDigitsCore_decimal (fuel : Nat) : ∀ (n : Nat) (acc : List Char), n < fuel →
    ∃ ds, Nat.toDigitsCore 10 fuel n acc = ds ++ acc ∧ ds ≠ [] ∧
      (∀ c ∈ ds, isDecimalDigit c = true) ∧ decimalValue ds = n ∧
      (ds.head? = some '0' → ds = ['0']) := by
  induction fuel with
  | zero => intro n acc h; omega
  | succ fuel ih =>
    intro n acc h
    have hd : (Nat.digitChar (n % 10)).toNat = 48 + n % 10 :=
      digitChar_decimal _ (Nat.mod_lt _ (by decide))
    have hdig : isDecimalDigit (Nat.digitChar (n % 10)) = true := by
      simp only [isDecimalDigit, decide_eq_true_eq, hd]; omega
    simp only [Nat.toDigitsCore]
    by_cases h0 : n / 10 = 0
    · rw [if_pos h0]
      refine ⟨[Nat.digitChar (n % 10)], rfl, by simp, ?_, ?_, fun _ => ?_⟩
      · intro c hc
        simp only [List.mem_singleton] at hc
        rw [hc]; exact hdig
      · simp only [decimalValue, List.foldl_cons, List.foldl_nil, hd]; omega
      · have hn : n % 10 = 0 := by
          rename_i hh
          simp only [List.head?_cons, Option.some.injEq] at hh
          have := congrArg Char.toNat hh
          rw [hd] at this
          simp at this
          omega
        rw [hn]; rfl
    · rw [if_neg h0]
      obtain ⟨ds, h1, h2, h3, h4, h5⟩ := ih (n / 10) (Nat.digitChar (n % 10) :: acc) (by omega)
      refine ⟨ds ++ [Nat.digitChar (n % 10)], by simp [h1], by simp, ?_, ?_, ?_⟩
      · intro c hc
        rcases List.mem_append.1 hc with hc | hc
        · exact h3 c hc
        · simp only [List.mem_singleton] at hc
          rw [hc]; exact hdig
      · rw [decimalValue_append_singleton, h4, hd]; omega
      · intro hh
        cases ds with
        | nil => exact absurd rfl h2
        | cons c cs =>
          have := h5 (by simpa using hh)
          rw [this] at h4
          simp [decimalValue] at h4
          omega

/-- The decimal numeral of `n`: digits only, at least one, of value `n`, and no leading zero
except for the numeral `0` itself. -/
theorem toDigits_decimal (n : Nat) :
    Nat.toDigits 10 n ≠ [] ∧ (∀ c ∈ Nat.toDigits 10 n, isDecimalDigit c = true) ∧
      decimalValue (Nat.toDigits 10 n) = n ∧
      ((Nat.toDigits 10 n).head? = some '0' → Nat.toDigits 10 n = ['0']) := by
  obtain ⟨ds, h1, h2, h3, h4, h5⟩ := toDigitsCore_decimal (n + 1) n [] (Nat.lt_succ_self n)
  rw [List.append_nil] at h1
  unfold Nat.toDigits
  rw [h1]
  exact ⟨h2, h3, h4, h5⟩

theorem printf_d_eq (v : Int) :
    printf_d v = decimalNumeral (decide (v < 0)) (Nat.toDigits 10 v.natAbs) := by
  unfold printf_d decimalNumeral
  by_cases h : v < 0 <;> simp [h]

theorem signed_natAbs (v : Int) :
    (if decide (v < 0) = true then -((v.natAbs : Nat) : Int) else ((v.natAbs : Nat) : Int)) = v := by
  by_cases h : v < 0
  · simp only [h, decide_True, if_true]; omega
  · simp only [h, decide_False, Bool.false_eq_true, if_false]; omega

/-- A signed 32-bit box reads back what `printf("%d")` wrote. -/
theorem ParseFrom_printf_d_int32 (libc : Libc) (a : Nat) (v0 v : Int) (o : Bool)
    (h : -(2 ^ 31 : Int) ≤ v ∧ v ≤ 2 ^ 31 - 1) :
    FlagValue.ParseFrom libc ⟨a, .int32 v0, o⟩ (printf_d v) = (true, ⟨a, .int32 v, o⟩) := by
  obtain ⟨h1, h2, h3, _⟩ := toDigits_decimal v.natAbs
  have hs := scanNumber_decimalNumeral (decide (v < 0)) _ h1 h2
  rw [h3] at hs
  rw [printf_d_eq, ParseFrom_int32_of_scan libc a v0 o _ _ _ (decimalNumeral_ne_nil _ _ h1) hs,
    signed_natAbs, if_pos h]

/-- A signed 64-bit box reads back what `printf("%ld")` wrote. -/
theorem ParseFrom_printf_d_int64 (libc : Libc) (a : Nat) (v0 v : Int) (o : Bool)
    (h : -(2 ^ 63 : Int) ≤ v ∧ v ≤ 2 ^ 63 - 1) :
    FlagValue.ParseFrom libc ⟨a, .int64 v0, o⟩ (printf_d v) = (true, ⟨a, .int64 v, o⟩) := by
  obtain ⟨h1, h2, h3, _⟩ := toDigits_decimal v.natAbs
  have hs := scanNumber_decimalNumeral (decide (v < 0)) _ h1 h2
  rw [h3] at hs
  rw [printf_d_eq, ParseFrom_int64_of_scan libc a v0 o _ _ _ (decimalNumeral_ne_nil _ _ h1) hs,
    signed_natAbs, if_pos h]

/-- An unsigned 32-bit box reads back what `printf("%u")` wrote. -/
theorem ParseFrom_printf_u_uint32 (libc : Libc) (a : Nat) (v0 v : Nat) (o : Bool)
    (h : v ≤ 2 ^ 32 - 1) :
    FlagValue.ParseFrom libc ⟨a, .uint32 v0, o⟩ (printf_u v) = (true, ⟨a, .uint32 v, o⟩) := by
  obtain ⟨h1, h2, h3, _⟩ := toDigits_decimal v
  have hs := scanNumber_decimalNumeral false _ h1 h2
  rw [h3] at hs
  obtain ⟨h4, h5⟩ := decimal_head _ h1 h2
  unfold printf_u
  rw [ParseFrom_uint32_of_scan libc a v0 o _ v h1 h4 h5 hs, if_pos h]

/-- An unsigned 64-bit box reads back what `printf("%lu")` wrote. -/
theorem ParseFrom_printf_u_uint64 (libc : Libc) (a : Nat) (v0 v : Nat) (o : Bool)
    (h : v ≤ 2 ^ 64 - 1) :
    FlagValue.ParseFrom libc ⟨a, .uint64 v0, o⟩ (printf_u v) = (true, ⟨a, .uint64 v, o⟩) := by
  obtain ⟨h1, h2, h3, _⟩ := toDigits_decimal v
  have hs := scanNumber_decimalNumeral false _ h1 h2
  rw [h3] at hs
  obtain ⟨h4, h5⟩ := decimal_head _ h1 h2
  unfold printf_u
  rw [ParseFrom_uint64_of_scan libc a v0 o _ v h1 h4 h5 hs, if_pos h]

/-! ## Lemmas on `SetFlagLocked` in every mode -/

theorem CommandLineFlag.UpdateModifiedBit_Validate (f : CommandLineFlag) (x : FlagValue) :
    f.UpdateModifiedBit.Validate x = f.Validate x := by
  simp [CommandLineFlag.Validate, CommandLineFlag.validate_function, CommandLineFlag.name,
    CommandLineFlag.UpdateModifiedBit_validate, CommandLineFlag.UpdateModifiedBit_name]

theorem CommandLineFlag.UpdateModifiedBit_of_modified (f : CommandLineFlag)
    (h : f.modified_ = true) : f.UpdateModifiedBit = f := by
  simp [CommandLineFlag.UpdateModifiedBit, h]

/-- The modified bit after `UpdateModifiedBit`: set already, or current differs from default. -/
theorem CommandLineFlag.UpdateModifiedBit_modified (f : CommandLineFlag) :
    f.UpdateModifiedBit.modified_ = (f.modified_ || !f.current_.Equal f.defvalue_) := by
  unfold CommandLineFlag.UpdateModifiedBit
  cases hm : f.modified_ <;> cases he : f.current_.Equal f.defvalue_ <;> simp [hm, he]

/-- A false return of `SetFlagLocked`, in any mode, leaves the object as `UpdateModifiedBit`
made it at the entry of the call. -/
theorem SetFlagLocked_false_eq (libc : Libc) (flag : CommandLineFlag) (value : CStr)
    (set_mode : FlagSettingMode) (msg : Option CStr) (r : SetFlagResult)
    (h : FlagRegistry.SetFlagLocked libc flag value set_mode msg = .ok r) (hfalse : r.ok = false) :
    r.flag = flag.UpdateModifiedBit := by
  unfold FlagRegistry.SetFlagLocked at h
  cases set_mode with
  | SET_FLAGS_VALUE =>
    obtain ⟨t, ht, _⟩ := TryParseLocked_eq libc flag.UpdateModifiedBit
      flag.UpdateModifiedBit.current_ value msg
    simp only [ht, bind, Except.bind, pure, Except.pure] at h
    by_cases hk : t.ok = true
    · simp [hk] at h; subst h; simp at hfalse
    · have hk2 : t.ok = false := by simpa using hk
      simp [hk2] at h; subst h
      simp [TryParseLocked_fail _ _ _ _ _ _ ht hk2]
  | SET_FLAG_IF_DEFAULT =>
    obtain ⟨t, ht, _⟩ := TryParseLocked_eq libc flag.UpdateModifiedBit
      flag.UpdateModifiedBit.current_ value msg
    by_cases hm : flag.UpdateModifiedBit.modified_ = true
    · simp only [hm] at h
      cases msg with
      | none => simp at h
      | some m => simp at h; subst h; simp at hfalse
    · have hm2 : flag.UpdateModifiedBit.modified_ = false := by simpa using hm
      simp only [hm2, ht, bind, Except.bind, pure, Except.pure] at h
      by_cases hk : t.ok = true
      · simp [hk] at h; subst h; simp at hfalse
      · have hk2 : t.ok = false := by simpa using hk
        simp [hk2] at h; subst h
        simp only [TryParseLocked_fail _ _ _ _ _ _ ht hk2]
        rw [← hm2]
  | SET_FLAGS_DEFAULT =>
    obtain ⟨t, ht, _⟩ := TryParseLocked_eq libc flag.UpdateModifiedBit
      flag.UpdateModifiedBit.defvalue_ value msg
    simp only [ht, bind, Except.bind, pure, Except.pure] at h
    by_cases hk : t.ok = true
    · exfalso
      simp only [hk, Bool.not_true, Bool.false_eq_true, if_false] at h
      split at h
      · split at h
        · cases h
        · cases h; simp at hfalse
      · cases h; simp at hfalse
    · have hk2 : t.ok = false := by simpa using hk
      simp [hk2] at h; subst h
      simp [TryParseLocked_fail _ _ _ _ _ _ ht hk2]

/-- The validator sees the name of the flag and the cell of the box, nothing else. -/
theorem CommandLineFlag.Validate_congr (f g : CommandLineFlag) (x y : FlagValue)
    (hn : f.name_ = g.name_) (hv : f.validate_fn_proto_ = g.validate_fn_proto_)
    (hc : x.cell = y.cell) : f.Validate x = g.Validate y := by
  simp only [CommandLineFlag.Validate, CommandLineFlag.validate_function, CommandLineFlag.name,
    FlagValue.Validate, hn, hv, hc]

/-- Whatever the mode and the outcome, `SetFlagLocked` leaves in current storage either the
box from before the call or a value that the validator of the flag accepts. -/
theorem SetFlagLocked_current_validated (libc : Libc) (flag : CommandLineFlag) (value : CStr)
    (set_mode : FlagSettingMode) (msg : Option CStr) (r : SetFlagResult)
    (h : FlagRegistry.SetFlagLocked libc flag value set_mode msg = .ok r) :
    r.flag.current_ = flag.current_ ∨ r.flag.ValidateCurrent = true := by
  have hval : ∀ (t : TryParseResult) (g : CommandLineFlag) (m : Option CStr),
      g.name_ = flag.name_ → g.validate_fn_proto_ = flag.validate_fn_proto_ →
      g.current_ = flag.current_ →
      TryParseLocked libc g g.current_ value m = .ok t →
      ∀ g2 : CommandLineFlag, g2.name_ = flag.name_ →
        g2.validate_fn_proto_ = flag.validate_fn_proto_ → g2.current_ = t.flag_value →
        g2.current_ = flag.current_ ∨ g2.ValidateCurrent = true := by
    intro t g m hn hv hc ht g2 hn2 hv2 hc2
    obtain ⟨t1, ht1, hcase⟩ := TryParseLocked_eq libc g g.current_ value m
    rw [ht1] at ht; cases ht
    rcases hcase with ⟨_, h2, _⟩ | ⟨_, h2, _, h4⟩
    · left; rw [hc2, h2, hc]
    · right
      unfold CommandLineFlag.ValidateCurrent
      rw [← h4]
      exact CommandLineFlag.Validate_congr _ _ _ _ (hn2.trans hn.symm) (hv2.trans hv.symm)
        (by rw [hc2, h2])
  have hn := CommandLineFlag.UpdateModifiedBit_name flag
  have hv := CommandLineFlag.UpdateModifiedBit_validate flag
  have hc := CommandLineFlag.UpdateModifiedBit_current flag
  unfold FlagRegistry.SetFlagLocked at h
  cases set_mode with
  | SET_FLAGS_VALUE =>
    simp only [] at h
    obtain ⟨t, ht, h2⟩ := (Except_bind_ok _ _ _).1 h
    refine hval t _ msg hn hv hc ht r.flag ?_ ?_ ?_
    all_goals (split at h2 <;> cases h2 <;> first | exact hn | exact hv | rfl)
  | SET_FLAG_IF_DEFAULT =>
    simp only [] at h
    split at h
    · obtain ⟨t, ht, h2⟩ := (Except_bind_ok _ _ _).1 h
      refine hval t _ msg hn hv hc ht r.flag ?_ ?_ ?_
      all_goals (split at h2 <;> cases h2 <;> first | exact hn | exact hv | rfl)
    · split at h
      · cases h
      · cases h; exact Or.inl hc
  | SET_FLAGS_DEFAULT =>
    simp only [] at h
    obtain ⟨t, ht, h2⟩ := (Except_bind_ok _ _ _).1 h
    split at h2
    · cases h2; exact Or.inl hc
    · split at h2
      · obtain ⟨t2, ht2, h3⟩ := (Except_bind_ok _ _ _).1 h2
        cases h3
        exact hval t2 _ none hn hv hc ht2 _ hn hv rfl
      · cases h2; exact Or.inl hc

theorem FlagValue.New_congr (a b : FlagValue) (h : a.Type_ = b.Type_) : a.New = b.New := by
  cases a with
  | mk a1 c1 o1 =>
    cases b with
    | mk a2 c2 o2 =>
      cases c1 <;> cases c2 <;> first | rfl | (simp [FlagValue.Type_] at h)

/-- A second `SetFlagLocked` in `SET_FLAGS_VALUE` mode with a text that the first one accepted
succeeds and leaves the object as the first one left it. -/
theorem SetFlagLocked_value_twice (libc : Libc) (f : CommandLineFlag) (v : CStr)
    (msg1 msg2 : Option CStr) (r1 : SetFlagResult)
    (h1 : FlagRegistry.SetFlagLocked libc f v .SET_FLAGS_VALUE msg1 = .ok r1)
    (hok : r1.ok = true) :
    r1.flag.modified_ = true ∧
      ∃ r2, FlagRegistry.SetFlagLocked libc r1.flag v .SET_FLAGS_VALUE msg2 = .ok r2 ∧
        r2.ok = true ∧ r2.flag = r1.flag := by
  obtain ⟨r, hr, hc⟩ := SetFlagLocked_value_eq libc f v msg1
  rw [hr] at h1; cases h1
  rcases hc with ⟨h2, _⟩ | ⟨_, h2, h3, h4⟩
  · rw [h2] at hok; cases hok
  · have hmod : r1.flag.modified_ = true := by rw [h2]
    have hcur : r1.flag.current_ =
        { f.current_ with cell := (f.current_.New.ParseFrom libc v).2.cell } := by rw [h2]
    have hnew : r1.flag.current_.New = f.current_.New := by
      apply FlagValue.New_congr
      rw [hcur]
      have := FlagValue.ParseFrom_Type libc f.current_.New v
      rw [FlagValue.New_Type] at this
      rw [← this]
      simp [FlagValue.Type_]
    have hvalid : ∀ x, r1.flag.Validate x = f.Validate x := by
      intro x
      rw [h2]
      exact (CommandLineFlag.Validate_congr _ _ _ _ (CommandLineFlag.UpdateModifiedBit_name f)
        (CommandLineFlag.UpdateModifiedBit_validate f) rfl)
    refine ⟨hmod, ?_⟩
    obtain ⟨r2, hr2, hc2⟩ := SetFlagLocked_value_eq libc r1.flag v msg2
    rw [hnew, hvalid] at hc2
    refine ⟨r2, hr2, ?_⟩
    rcases hc2 with ⟨_, _, h5 | h5⟩ | ⟨h5, h6, _, _⟩
    · rw [h3] at h5; cases h5
    · rw [h4] at h5; cases h5
    · refine ⟨h5, ?_⟩
      rw [h6, CommandLineFlag.UpdateModifiedBit_of_modified _ hmod]
      rw [h2]

/-! ## Lemmas on the boolean words, on texts of spaces and on `ToString` -/

/-- Against a lower-case word, `strcasecmp` is 0 exactly for the texts that lower-case to it. -/
theorem strcasecmp_eq_zero_iff (value w : CStr) (hw : w.map Char.toLower = w) :
    strcasecmp value w = 0 ↔ value.map Char.toLower = w := by
  unfold strcasecmp
  rw [hw]
  constructor
  · exact strcmp_eq_zero _ _
  · intro h; rw [h]; exact strcmp_self _

/-- The loop of `ParseFrom` over `kTrue` and `kFalse`, by the lower-cased text. -/
theorem parseBoolLoop_kTrueFalse (value : CStr) :
    parseBoolLoop kTrueFalse value =
      if value.map Char.toLower ∈ kTrueWords then some true
      else if value.map Char.toLower ∈ kFalseWords then some false
      else none := by
  simp only [kTrueFalse, parseBoolLoop]
  simp only [strcasecmp_eq_zero_iff value "1".toList rfl, strcasecmp_eq_zero_iff value "0".toList rfl,
    strcasecmp_eq_zero_iff value "t".toList rfl, strcasecmp_eq_zero_iff value "f".toList rfl,
    strcasecmp_eq_zero_iff value "true".toList rfl,
    strcasecmp_eq_zero_iff value "false".toList rfl,
    strcasecmp_eq_zero_iff value "y".toList rfl, strcasecmp_eq_zero_iff value "n".toList rfl,
    strcasecmp_eq_zero_iff value "yes".toList rfl, strcasecmp_eq_zero_iff value "no".toList rfl]
  generalize value.map Char.toLower = l
  by_cases h1 : l = "1".toList
  · subst h1; rfl
  by_cases h2 : l = "0".toList
  · subst h2; rfl
  by_cases h3 : l = "t".toList
  · subst h3; rfl
  by_cases h4 : l = "f".toList
  · subst h4; rfl
  by_cases h5 : l = "true".toList
  · subst h5; rfl
  by_cases h6 : l = "false".toList
  · subst h6; rfl
  by_cases h7 : l = "y".toList
  · subst h7; rfl
  by_cases h8 : l = "n".toList
  · subst h8; rfl
  by_cases h9 : l = "yes".toList
  · subst h9; rfl
  by_cases h10 : l = "no".toList
  · subst h10; rfl
  rw [if_neg h1, if_neg h2, if_neg h3, if_neg h4, if_neg h5, if_neg h6, if_neg h7, if_neg h8,
    if_neg h9, if_neg h10, if_neg (by
      simp only [kTrueWords, List.mem_cons, List.mem_nil_iff, or_false]
      exact fun h => h.elim h1 (fun h => h.elim h3 (fun h => h.elim h5 (fun h => h.elim h7 h9)))),
    if_neg (by
      simp only [kFalseWords, List.mem_cons, List.mem_nil_iff, or_false]
      exact fun h => h.elim h2 (fun h => h.elim h4 (fun h => h.elim h6 (fun h => h.elim h8 h10))))]

theorem skipSpaces_replicate (k : Nat) (c : Char) (rest : CStr) (hc : c ≠ ' ') :
    skipSpaces (List.replicate k ' ' ++ c :: rest) = c :: rest := by
  induction k with
  | zero => simpa using skipSpaces_cons c rest hc
  | succ k ih =>
    rw [List.replicate_succ, List.cons_append]
    unfold skipSpaces at ih ⊢
    rw [List.dropWhile_cons]
    simpa using ih

theorem eqIgnoreCase_kTrueWords (text : CStr) :
    (∃ w ∈ kTrueWords, eqIgnoreCase text w = true) ↔ text.map Char.toLower ∈ kTrueWords := by
  have hw : ∀ w ∈ kTrueWords, w.map Char.toLower = w := by decide
  constructor
  · rintro ⟨w, h1, h2⟩
    simp only [eqIgnoreCase, decide_eq_true_eq] at h2
    rw [h2, hw w h1]; exact h1
  · intro h
    exact ⟨_, h, by simp only [eqIgnoreCase, decide_eq_true_eq]; exact (hw _ h).symm⟩

theorem eqIgnoreCase_kFalseWords (text : CStr) :
    (∃ w ∈ kFalseWords, eqIgnoreCase text w = true) ↔ text.map Char.toLower ∈ kFalseWords := by
  have hw : ∀ w ∈ kFalseWords, w.map Char.toLower = w := by decide
  constructor
  · rintro ⟨w, h1, h2⟩
    simp only [eqIgnoreCase, decide_eq_true_eq] at h2
    rw [h2, hw w h1]; exact h1
  · intro h
    exact ⟨_, h, by simp only [eqIgnoreCase, decide_eq_true_eq]; exact (hw _ h).symm⟩

/-- The three outcomes of `ParseFrom` on a boolean box. -/
theorem ParseFrom_bool (libc : Libc) (a : Nat) (b0 o : Bool) (text : CStr) :
    FlagValue.ParseFrom libc ⟨a, .bool b0, o⟩ text =
      if text.map Char.toLower ∈ kTrueWords then (true, ⟨a, .bool true, o⟩)
      else if text.map Char.toLower ∈ kFalseWords then (true, ⟨a, .bool false, o⟩)
      else (false, ⟨a, .bool b0, o⟩) := by
  simp only [FlagValue.ParseFrom, parseBoolLoop_kTrueFalse]
  by_cases h1 : text.map Char.toLower ∈ kTrueWords
  · simp only [h1, if_true]
  · by_cases h2 : text.map Char.toLower ∈ kFalseWords
    · simp only [h1, h2, if_true, if_false]
    · simp only [h1, h2, if_false]

/-- The four integral kinds on a decimal numeral: success exactly in the range of the kind
(and without `-` for the unsigned kinds), storing the value of the numeral. -/
theorem ParseFrom_decimalNumeral (libc : Libc) (a : Nat) (o : Bool) (i0 : Int) (u0 : Nat)
    (neg : Bool) (ds : CStr) (hne : ds ≠ []) (hds : ∀ c ∈ ds, isDecimalDigit c = true) :
    (FlagValue.ParseFrom libc ⟨a, .int32 i0, o⟩ (decimalNumeral neg ds) =
        if -(2 ^ 31 : Int) ≤ decimalNumeralValue neg ds ∧ decimalNumeralValue neg ds ≤ 2 ^ 31 - 1
        then (true, ⟨a, .int32 (decimalNumeralValue neg ds), o⟩)
        else (false, ⟨a, .int32 i0, o⟩)) ∧
      (FlagValue.ParseFrom libc ⟨a, .uint32 u0, o⟩ (decimalNumeral neg ds) =
        if neg = false ∧ 0 ≤ decimalNumeralValue neg ds ∧ decimalNumeralValue neg ds ≤ 2 ^ 32 - 1
        then (true, ⟨a, .uint32 (decimalNumeralValue neg ds).toNat, o⟩)
        else (false, ⟨a, .uint32 u0, o⟩)) ∧
      (FlagValue.ParseFrom libc ⟨a, .int64 i0, o⟩ (decimalNumeral neg ds) =
        if -(2 ^ 63 : Int) ≤ decimalNumeralValue neg ds ∧ decimalNumeralValue neg ds ≤ 2 ^ 63 - 1
        then (true, ⟨a, .int64 (decimalNumeralValue neg ds), o⟩)
        else (false, ⟨a, .int64 i0, o⟩)) ∧
      (FlagValue.ParseFrom libc ⟨a, .uint64 u0, o⟩ (decimalNumeral neg ds) =
        if neg = false ∧ 0 ≤ decimalNumeralValue neg ds ∧ decimalNumeralValue neg ds ≤ 2 ^ 64 - 1
        then (true, ⟨a, .uint64 (decimalNumeralValue neg ds).toNat, o⟩)
        else (false, ⟨a, .uint64 u0, o⟩)) := by
  have hs := scanNumber_decimalNumeral neg ds hne hds
  have hn := decimalNumeral_ne_nil neg ds hne
  refine ⟨?_, ?_, ?_, ?_⟩
  · rw [ParseFrom_int32_of_scan libc a i0 o _ _ _ hn hs]; rfl
  · cases neg
    · obtain ⟨h4, h5⟩ := decimal_head ds hne hds
      have hs2 : scanNumber ds (parseBase ds) = ⟨false, decimalValue ds, ds.length⟩ := hs
      simp only [decimalNumeral, decimalNumeralValue, Bool.false_eq_true, if_false]
      rw [ParseFrom_uint32_of_scan libc a u0 o ds _ hne h4 h5 hs2]
      by_cases h : decimalValue ds ≤ 2 ^ 32 - 1
      · rw [if_pos h, if_pos ⟨trivial, by omega, by omega⟩]; simp
      · rw [if_neg h, if_neg (by omega)]
    · simp only [decimalNumeral, if_true]
      rw [ParseFrom_unsigned_minus libc ⟨a, .uint32 u0, o⟩ ('-' :: ds) (Or.inl rfl)
        (by rw [skipSpaces_cons _ _ (by decide)]; rfl)]
      simp
  · rw [ParseFrom_int64_of_scan libc a i0 o _ _ _ hn hs]; rfl
  · cases neg
    · obtain ⟨h4, h5⟩ := decimal_head ds hne hds
      have hs2 : scanNumber ds (parseBase ds) = ⟨false, decimalValue ds, ds.length⟩ := hs
      simp only [decimalNumeral, decimalNumeralValue, Bool.false_eq_true, if_false]
      rw [ParseFrom_uint64_of_scan libc a u0 o ds _ hne h4 h5 hs2]
      by_cases h : decimalValue ds ≤ 2 ^ 64 - 1
      · rw [if_pos h, if_pos ⟨trivial, by omega, by omega⟩]; simp
      · rw [if_neg h, if_neg (by omega)]
    · simp only [decimalNumeral, if_true]
      rw [ParseFrom_unsigned_minus libc ⟨a, .uint64 u0, o⟩ ('-' :: ds) (Or.inr rfl)
        (by rw [skipSpaces_cons _ _ (by decide)]; rfl)]
      simp

/-- The four integral kinds on `0x` or `0X` followed by hexadecimal digits: success exactly
in the range of the kind, storing the base-16 value of the digits. -/
theorem ParseFrom_hexNumeral (libc : Libc) (a : Nat) (o : Bool) (i0 : Int) (u0 : Nat)
    (x : Char) (hs : CStr) (hx : x = 'x' ∨ x = 'X') (hne : hs ≠ [])
    (hds : ∀ c ∈ hs, isHexDigit c = true) :
    (FlagValue.ParseFrom libc ⟨a, .int32 i0, o⟩ ('0' :: x :: hs) =
        if hexValue hs ≤ 2 ^ 31 - 1 then (true, ⟨a, .int32 (hexValue hs), o⟩)
        else (false, ⟨a, .int32 i0, o⟩)) ∧
      (FlagValue.ParseFrom libc ⟨a, .uint32 u0, o⟩ ('0' :: x :: hs) =
        if hexValue hs ≤ 2 ^ 32 - 1 then (true, ⟨a, .uint32 (hexValue hs), o⟩)
        else (false, ⟨a, .uint32 u0, o⟩)) ∧
      (FlagValue.ParseFrom libc ⟨a, .int64 i0, o⟩ ('0' :: x :: hs) =
        if hexValue hs ≤ 2 ^ 63 - 1 then (true, ⟨a, .int64 (hexValue hs), o⟩)
        else (false, ⟨a, .int64 i0, o⟩)) ∧
      (FlagValue.ParseFrom libc ⟨a, .uint64 u0, o⟩ ('0' :: x :: hs) =
        if hexValue hs ≤ 2 ^ 64 - 1 then (true, ⟨a, .uint64 (hexValue hs), o⟩)
        else (false, ⟨a, .uint64 u0, o⟩)) := by
  have hsc := scanNumber_hexNumeral x hs hx hne hds
  have hn : ('0' :: x :: hs) ≠ [] := by simp
  have hsk : skipSpaces ('0' :: x :: hs) = '0' :: x :: hs := skipSpaces_cons _ _ (by decide)
  have hh : ('0' :: x :: hs).head? ≠ some '-' := by simp
  refine ⟨?_, ?_, ?_, ?_⟩
  · rw [ParseFrom_int32_of_scan libc a i0 o _ _ _ hn hsc]
    simp only [Bool.false_eq_true, if_false]
    by_cases h : hexValue hs ≤ 2 ^ 31 - 1
    · rw [if_pos h, if_pos (by omega)]
    · rw [if_neg h, if_neg (by omega)]
  · exact ParseFrom_uint32_of_scan libc a u0 o _ _ hn hsk hh hsc
  · rw [ParseFrom_int64_of_scan libc a i0 o _ _ _ hn hsc]
    simp only [Bool.false_eq_true, if_false]
    by_cases h : hexValue hs ≤ 2 ^ 63 - 1
    · rw [if_pos h, if_pos (by omega)]
    · rw [if_neg h, if_neg (by omega)]
  · exact ParseFrom_uint64_of_scan libc a u0 o _ _ hn hsk hh hsc

/-- The base that `ParseFrom` reads an integer in: 16 behind `0x` or `0X`, else 10. -/
theorem parseBase_eq (text : CStr) :
    (parseBase text = 16 ↔ "0x".toList <+: text ∨ "0X".toList <+: text) ∧
      (parseBase text = 10 ↔ ¬ ("0x".toList <+: text ∨ "0X".toList <+: text)) := by
  have key : parseBase text = if "0x".toList <+: text ∨ "0X".toList <+: text then 16 else 10 := by
    unfold parseBase
    split
    · rename_i x r
      by_cases hx : x = 'x' ∨ x = 'X'
      · rw [if_pos hx, if_pos]
        rcases hx with rfl | rfl
        · left; exact ⟨r, rfl⟩
        · right; exact ⟨r, rfl⟩
      · rw [if_neg hx, if_neg]
        rintro (⟨t, ht⟩ | ⟨t, ht⟩)
        · simp at ht; exact hx (Or.inl ht.1.symm)
        · simp at ht; exact hx (Or.inr ht.1.symm)
    · rename_i hno
      rw [if_neg]
      rintro (⟨t, ht⟩ | ⟨t, ht⟩)
      · exact hno 'x' t ht.symm
      · exact hno 'X' t ht.symm
  rw [key]
  by_cases h : "0x".toList <+: text ∨ "0X".toList <+: text
  · rw [if_pos h]
    exact ⟨⟨fun _ => h, fun _ => rfl⟩, ⟨fun h2 => absurd h2 (by decide), fun h2 => absurd h h2⟩⟩
  · rw [if_neg h]
    exact ⟨⟨fun h2 => absurd h2 (by decide), fun h2 => absurd h2 h⟩, ⟨fun _ => h, fun _ => rfl⟩⟩

theorem skipSpaces_spaces (k : Nat) : skipSpaces (List.replicate k ' ') = [] := by
  simp [skipSpaces]

theorem scanNumber_spaces (k base : Nat) :
    scanNumber (List.replicate k ' ') base = ⟨false, 0, 0⟩ := by
  have h1 : (List.replicate k ' ').dropWhile isspace = [] := by
    simp [isspace]
  unfold scanNumber
  simp [h1, scanDigits]

theorem parseBase_spaces (k : Nat) : parseBase (List.replicate (k + 1) ' ') = 10 := by
  rw [List.replicate_succ]
  unfold parseBase
  split
  · rename_i heq; cases heq
  · rfl

/-- On a text of one or more spaces the unsigned kinds skip the spaces, convert nothing, find
the whole of the rest consumed and store 0; the signed kinds, which do not skip, refuse it. -/
theorem ParseFrom_spaces (libc : Libc) (a : Nat) (o : Bool) (i0 : Int) (u0 : Nat) (k : Nat) :
    FlagValue.ParseFrom libc ⟨a, .uint32 u0, o⟩ (List.replicate (k + 1) ' ') =
        (true, ⟨a, .uint32 0, o⟩) ∧
      FlagValue.ParseFrom libc ⟨a, .uint64 u0, o⟩ (List.replicate (k + 1) ' ') =
        (true, ⟨a, .uint64 0, o⟩) ∧
      FlagValue.ParseFrom libc ⟨a, .int32 i0, o⟩ (List.replicate (k + 1) ' ') =
        (false, ⟨a, .int32 i0, o⟩) ∧
      FlagValue.ParseFrom libc ⟨a, .int64 i0, o⟩ (List.replicate (k + 1) ' ') =
        (false, ⟨a, .int64 i0, o⟩) := by
  have hne : List.replicate (k + 1) ' ' ≠ [] := by simp [List.replicate_succ]
  have h0 : scanNumber [] 10 = ⟨false, 0, 0⟩ := scanNumber_nil 10
  refine ⟨?_, ?_, ?_, ?_⟩
  · simp [FlagValue.ParseFrom, hne, skipSpaces_spaces, parseBase_spaces, strtoull, h0]
  · simp [FlagValue.ParseFrom, hne, skipSpaces_spaces, parseBase_spaces, strtoull, h0]
  · simp [FlagValue.ParseFrom, hne, parseBase_spaces, strtoll, scanNumber_spaces]
  · simp [FlagValue.ParseFrom, hne, parseBase_spaces, strtoll, scanNumber_spaces]

/-- The text `ToString` returns is a function of the cell of the box. -/
theorem FlagValue.ToString_congr (libc : Libc) (x y : FlagValue) (h : x.cell = y.cell) :
    x.ToString libc = y.ToString libc := by
  unfold FlagValue.ToString
  rw [h]

/-- The text of `printf("%d")`: `-` for a negative value and no other sign, then the canonical
digits of the absolute value. -/
theorem printf_d_canonical (v : Int) :
    ∃ ds, printf_d v = decimalNumeral (decide (v < 0)) ds ∧ ds ≠ [] ∧
      (∀ c ∈ ds, isDecimalDigit c = true) ∧ decimalNumeralValue (decide (v < 0)) ds = v ∧
      (ds.head? = some '0' → ds = ['0']) := by
  obtain ⟨h1, h2, h3, h4⟩ := toDigits_decimal v.natAbs
  refine ⟨Nat.toDigits 10 v.natAbs, printf_d_eq v, h1, h2, ?_, h4⟩
  unfold decimalNumeralValue
  rw [h3]
  exact signed_natAbs v

/-- The text of `printf("%u")`: the canonical digits of the value, no sign. -/
theorem printf_u_canonical (v : Nat) :
    printf_u v ≠ [] ∧ (∀ c ∈ printf_u v, isDecimalDigit c = true) ∧
      decimalValue (printf_u v) = v ∧ ((printf_u v).head? = some '0' → printf_u v = ['0']) :=
  toDigits_decimal v

/-- A failed `ParseFrom` leaves the box as it was, whatever its kind. -/
theorem FlagValue.ParseFrom_false (libc : Libc) (fv : FlagValue) (text : CStr)
    (h : (fv.ParseFrom libc text).1 = false) : (fv.ParseFrom libc text).2 = fv := by
  cases fv with
  | mk a c o =>
    cases c <;> simp only [FlagValue.ParseFrom] at h ⊢ <;> (repeat' split) <;>
      first
      | rfl
      | (exfalso; (repeat' split at h) <;> first | contradiction | simp_all)

/-- A signed box accepts a text only if `strtoll` consumed all of it, and it is not empty. -/
theorem ParseFrom_signed_true (libc : Libc) (a : Nat) (o : Bool) (i0 : Int) (text : CStr) :
    ((FlagValue.ParseFrom libc ⟨a, .int32 i0, o⟩ text).1 = true →
        text ≠ [] ∧ (strtoll text (parseBase text)).endp = text.length ∧
          (strtoll text (parseBase text)).errno = false) ∧
      ((FlagValue.ParseFrom libc ⟨a, .int64 i0, o⟩ text).1 = true →
        text ≠ [] ∧ (strtoll text (parseBase text)).endp = text.length ∧
          (strtoll text (parseBase text)).errno = false) := by
  constructor
  · intro h
    simp only [FlagValue.ParseFrom] at h
    split at h
    · simp at h
    · rename_i hne
      split at h
      · simp at h
      · rename_i hc
        simp only [not_or, ne_eq, not_not, Bool.not_eq_true] at hc
        exact ⟨hne, hc.2, hc.1⟩
  · intro h
    simp only [FlagValue.ParseFrom] at h
    split at h
    · simp at h
    · rename_i hne
      split at h
      · simp at h
      · rename_i hc
        simp only [not_or, ne_eq, not_not, Bool.not_eq_true] at hc
        exact ⟨hne, hc.2, hc.1⟩

/-- An unsigned box accepts a text only if `strtoull` consumed all that follows the leading
spaces, and the text is not empty. -/
theorem ParseFrom_unsigned_true (libc : Libc) (a : Nat) (o : Bool) (u0 : Nat) (text : CStr) :
    ((FlagValue.ParseFrom libc ⟨a, .uint32 u0, o⟩ text).1 = true →
        text ≠ [] ∧
          (strtoull (skipSpaces text) (parseBase text)).endp = (skipSpaces text).length ∧
          (strtoull (skipSpaces text) (parseBase text)).errno = false) ∧
      ((FlagValue.ParseFrom libc ⟨a, .uint64 u0, o⟩ text).1 = true →
        text ≠ [] ∧
          (strtoull (skipSpaces text) (parseBase text)).endp = (skipSpaces text).length ∧
          (strtoull (skipSpaces text) (parseBase text)).errno = false) := by
  constructor
  · intro h
    simp only [FlagValue.ParseFrom] at h
    split at h
    · simp at h
    · rename_i hne
      split at h
      · simp at h
      · split at h
        · simp at h
        · rename_i hc
          simp only [not_or, ne_eq, not_not, Bool.not_eq_true] at hc
          exact ⟨hne, hc.2, hc.1⟩
  · intro h
    simp only [FlagValue.ParseFrom] at h
    split at h
    · simp at h
    · rename_i hne
      split at h
      · simp at h
      · split at h
        · simp at h
        · rename_i hc
          simp only [not_or, ne_eq, not_not, Bool.not_eq_true] at hc
          exact ⟨hne, hc.2, hc.1⟩

/-- The text `ToString` gives for an integer box consists of decimal digits and of `-`. -/
theorem integer_ToString_chars (libc : Libc) (fv : FlagValue)
    (hk : fv.Type_ = .FV_INT32 ∨ fv.Type_ = .FV_UINT32 ∨ fv.Type_ = .FV_INT64 ∨
      fv.Type_ = .FV_UINT64) :
    ∀ c ∈ fv.ToString libc, c = '-' ∨ isDecimalDigit c = true := by
  have hd : ∀ v : Int, ∀ c ∈ printf_d v, c = '-' ∨ isDecimalDigit c = true := by
    intro v c hc
    obtain ⟨ds, h1, _, h3, _, _⟩ := printf_d_canonical v
    rw [h1] at hc
    unfold decimalNumeral at hc
    split at hc
    · rcases List.mem_cons.1 hc with rfl | hc
      · exact Or.inl rfl
      · exact Or.inr (h3 c hc)
    · exact Or.inr (h3 c hc)
  have hu : ∀ v : Nat, ∀ c ∈ printf_u v, c = '-' ∨ isDecimalDigit c = true :=
    fun v c hc => Or.inr ((printf_u_canonical v).2.1 c hc)
  cases fv with
  | mk a c o =>
    cases c with
    | int32 v => exact hd v
    | uint32 v => exact hu v
    | int64 v => exact hd v
    | uint64 v => exact hu v
    | bool b => simp [FlagValue.Type_] at hk
    | double b => simp [FlagValue.Type_] at hk
    | string b => simp [FlagValue.Type_] at hk

/-! ## Lemmas on the modified bit, on the two default modes and on `CopyFrom` -/

theorem CommandLineFlag.UpdateModifiedBit_mono (f : CommandLineFlag) (h : f.modified_ = true) :
    f.UpdateModifiedBit.modified_ = true := by
  rw [CommandLineFlag.UpdateModifiedBit_of_modified f h]; exact h

/-- Whatever `TryParseLocked` returns, it returns. -/
theorem TryParseLocked_ok (libc : Libc) (flag : CommandLineFlag) (fv : FlagValue)
    (value : CStr) (msg : Option CStr) : ∃ r, TryParseLocked libc flag fv value msg = .ok r := by
  obtain ⟨r, h, _⟩ := TryParseLocked_eq libc flag fv value msg
  exact ⟨r, h⟩

/-- In no mode does `SetFlagLocked` reset the modified bit. -/
theorem SetFlagLocked_modified_mono (libc : Libc) (flag : CommandLineFlag) (value : CStr)
    (set_mode : FlagSettingMode) (msg : Option CStr) (r : SetFlagResult)
    (h : FlagRegistry.SetFlagLocked libc flag value set_mode msg = .ok r)
    (hm : flag.modified_ = true) : r.flag.modified_ = true := by
  have hu := CommandLineFlag.UpdateModifiedBit_mono flag hm
  unfold FlagRegistry.SetFlagLocked at h
  cases set_mode with
  | SET_FLAGS_VALUE =>
    simp only [] at h
    obtain ⟨t, _, h2⟩ := (Except_bind_ok _ _ _).1 h
    split at h2 <;> cases h2
    · exact hu
    · rfl
  | SET_FLAG_IF_DEFAULT =>
    simp only [] at h
    split at h
    · obtain ⟨t, _, h2⟩ := (Except_bind_ok _ _ _).1 h
      split at h2 <;> cases h2
      · exact hu
      · rfl
    · split at h
      · cases h
      · cases h; exact hu
  | SET_FLAGS_DEFAULT =>
    simp only [] at h
    obtain ⟨t, _, h2⟩ := (Except_bind_ok _ _ _).1 h
    split at h2
    · cases h2; exact hu
    · split at h2
      · obtain ⟨t2, _, h3⟩ := (Except_bind_ok _ _ _).1 h2
        cases h3; exact hu
      · cases h2; exact hu

/-- The function `SetFlagLocked` returns in every mode, except in `SET_FLAG_IF_DEFAULT` mode
with a null `msg` on a flag that `UpdateModifiedBit` finds modified. -/
theorem SetFlagLocked_returns (libc : Libc) (flag : CommandLineFlag) (value : CStr)
    (set_mode : FlagSettingMode) (msg : Option CStr)
    (h : set_mode = .SET_FLAG_IF_DEFAULT → flag.UpdateModifiedBit.modified_ = true →
      msg ≠ none) :
    ∃ r, FlagRegistry.SetFlagLocked libc flag value set_mode msg = .ok r := by
  unfold FlagRegistry.SetFlagLocked
  cases set_mode with
  | SET_FLAGS_VALUE =>
    obtain ⟨t, ht⟩ := TryParseLocked_ok libc flag.UpdateModifiedBit
      flag.UpdateModifiedBit.current_ value msg
    simp only [ht, bind, Except.bind, pure, Except.pure]
    split <;> exact ⟨_, rfl⟩
  | SET_FLAG_IF_DEFAULT =>
    obtain ⟨t, ht⟩ := TryParseLocked_ok libc flag.UpdateModifiedBit
      flag.UpdateModifiedBit.current_ value msg
    simp only [ht, bind, Except.bind, pure, Except.pure]
    split
    · split <;> exact ⟨_, rfl⟩
    · rename_i hm
      have hm2 : flag.UpdateModifiedBit.modified_ = true := by simpa using hm
      cases msg with
      | none => exact absurd rfl (h rfl hm2)
      | some m => exact ⟨_, rfl⟩
  | SET_FLAGS_DEFAULT =>
    obtain ⟨t, ht⟩ := TryParseLocked_ok libc flag.UpdateModifiedBit
      flag.UpdateModifiedBit.defvalue_ value msg
    simp only [ht, bind, Except.bind, pure, Except.pure]
    split
    · exact ⟨_, rfl⟩
    · split
      · obtain ⟨t2, ht2⟩ := TryParseLocked_ok libc
          { flag.UpdateModifiedBit with defvalue_ := t.flag_value }
          flag.UpdateModifiedBit.current_ value none
        simp only [ht2]
        exact ⟨_, rfl⟩
      · exact ⟨_, rfl⟩

/-- The method `CopyFrom` of a flag gives the receiver the modified bit of the source. -/
theorem CommandLineFlag.CopyFrom_modified (f src g : CommandLineFlag)
    (h : f.CopyFrom src = .ok g) : g.modified_ = src.modified_ := by
  unfold CommandLineFlag.CopyFrom at h
  simp only [bind, Except.bind, pure, Except.pure] at h
  by_cases hm : f.modified_ = src.modified_
  · simp only [hm, ne_eq, not_true_eq_false, if_false] at h
    repeat' (split at h)
    all_goals first | (cases h; rfl) | cases h
  · simp only [hm, ne_eq, not_false_eq_true, if_true] at h
    repeat' (split at h)
    all_goals first | (cases h; rfl) | cases h

/-- In `SET_FLAG_IF_DEFAULT` mode, on a flag that `UpdateModifiedBit` finds modified,
`SetFlagLocked` stores the text `name set to value` through `msg` and returns true, leaving
the flag as `UpdateModifiedBit` made it; through a null `msg` the store is a fault. -/
theorem SetFlagLocked_if_default_modified (libc : Libc) (flag : CommandLineFlag) (value : CStr)
    (msg : Option CStr) (hm : flag.UpdateModifiedBit.modified_ = true) :
    FlagRegistry.SetFlagLocked libc flag value .SET_FLAG_IF_DEFAULT msg =
      match msg with
      | none => .error .nullDeref
      | some _ => .ok ⟨true, flag.UpdateModifiedBit,
          some (flag.name ++ " set to ".toList ++ flag.current_value libc)⟩ := by
  unfold FlagRegistry.SetFlagLocked
  simp only [hm, Bool.not_true, Bool.false_eq_true, if_false]
  cases msg with
  | none => rfl
  | some m =>
    simp [CommandLineFlag.name, CommandLineFlag.current_value,
      CommandLineFlag.UpdateModifiedBit_name, CommandLineFlag.UpdateModifiedBit_current]

/-- In `SET_FLAG_IF_DEFAULT` mode, on a flag that `UpdateModifiedBit` finds unmodified,
`SetFlagLocked` does what it does in `SET_FLAGS_VALUE` mode. -/
theorem SetFlagLocked_if_default_unmodified (libc : Libc) (flag : CommandLineFlag)
    (value : CStr) (msg : Option CStr) (hm : flag.UpdateModifiedBit.modified_ = false) :
    FlagRegistry.SetFlagLocked libc flag value .SET_FLAG_IF_DEFAULT msg =
      FlagRegistry.SetFlagLocked libc flag value .SET_FLAGS_VALUE msg := by
  unfold FlagRegistry.SetFlagLocked
  simp only [hm, Bool.not_false, if_true]

/-- The outcomes of `SetFlagLocked` in `SET_FLAGS_DEFAULT` mode on a flag whose two boxes have
the same kind: it always returns; it returns true exactly when the text parses and the
validator accepts the value; then the default box holds the value, and the current box
holds it too when `UpdateModifiedBit` found the flag unmodified and is untouched otherwise;
the modified bit is the one `UpdateModifiedBit` left. -/
theorem SetFlagLocked_default_eq (libc : Libc) (f : CommandLineFlag) (v : CStr)
    (msg : Option CStr) (hkind : f.current_.Type_ = f.defvalue_.Type_) :
    ∃ r, FlagRegistry.SetFlagLocked libc f v .SET_FLAGS_DEFAULT msg = .ok r ∧
      ((r.ok = false ∧ r.flag = f.UpdateModifiedBit ∧
          ((f.defvalue_.New.ParseFrom libc v).1 = false ∨
            f.Validate (f.defvalue_.New.ParseFrom libc v).2 = false)) ∨
       (r.ok = true ∧
          (f.defvalue_.New.ParseFrom libc v).1 = true ∧
          f.Validate (f.defvalue_.New.ParseFrom libc v).2 = true ∧
          r.flag.defvalue_ = { f.defvalue_ with cell := (f.defvalue_.New.ParseFrom libc v).2.cell } ∧
          (f.UpdateModifiedBit.modified_ = false →
            r.flag.current_ =
              { f.current_ with cell := (f.defvalue_.New.ParseFrom libc v).2.cell }) ∧
          (f.UpdateModifiedBit.modified_ = true → r.flag.current_ = f.current_) ∧
          r.flag.modified_ = f.UpdateModifiedBit.modified_ ∧
          r.flag.name_ = f.name_ ∧ r.flag.help_ = f.help_ ∧ r.flag.file_ = f.file_ ∧
          r.flag.validate_fn_proto_ = f.validate_fn_proto_)) := by
  obtain ⟨t, ht, hc⟩ := TryParseLocked_eq libc f.UpdateModifiedBit
    f.UpdateModifiedBit.defvalue_ v msg
  rw [CommandLineFlag.UpdateModifiedBit_defvalue, CommandLineFlag.UpdateModifiedBit_Validate]
    at hc
  unfold FlagRegistry.SetFlagLocked
  simp only [ht, bind, Except.bind, pure, Except.pure]
  rcases hc with ⟨h1, h2, h3⟩ | ⟨h1, h2, h3, h4⟩
  · rw [if_pos (by simp [h1])]
    refine ⟨_, rfl, Or.inl ⟨rfl, ?_, h3⟩⟩
    simp only [h2, ← CommandLineFlag.UpdateModifiedBit_defvalue f]
  · rw [if_neg (by simp [h1])]
    by_cases hm : f.UpdateModifiedBit.modified_ = true
    · rw [if_neg (by simp [hm])]
      refine ⟨_, rfl, Or.inr ⟨rfl, h3, h4, h2, fun hx => ?_, fun _ => ?_, rfl, ?_, ?_, ?_, ?_⟩⟩
      · rw [hm] at hx; cases hx
      · exact CommandLineFlag.UpdateModifiedBit_current f
      · exact CommandLineFlag.UpdateModifiedBit_name f
      · exact CommandLineFlag.UpdateModifiedBit_help f
      · exact CommandLineFlag.UpdateModifiedBit_file f
      · exact CommandLineFlag.UpdateModifiedBit_validate f
    · have hm2 : f.UpdateModifiedBit.modified_ = false := by simpa using hm
      rw [if_pos (by simp [hm2])]
      obtain ⟨t2, ht2, hc2⟩ := TryParseLocked_eq libc
        { f.UpdateModifiedBit with defvalue_ := t.flag_value }
        f.UpdateModifiedBit.current_ v none
      have hnew : f.UpdateModifiedBit.current_.New = f.defvalue_.New := by
        rw [CommandLineFlag.UpdateModifiedBit_current]
        exact FlagValue.New_congr _ _ hkind
      have hval : ∀ x, CommandLineFlag.Validate
          { f.UpdateModifiedBit with defvalue_ := t.flag_value } x = f.Validate x := fun x =>
        CommandLineFlag.Validate_congr _ _ _ _ (CommandLineFlag.UpdateModifiedBit_name f)
          (CommandLineFlag.UpdateModifiedBit_validate f) rfl
      rw [hnew, hval, CommandLineFlag.UpdateModifiedBit_current] at hc2
      simp only [ht2]
      rcases hc2 with ⟨_, _, h5 | h5⟩ | ⟨_, h6, _, _⟩
      · rw [h3] at h5; cases h5
      · rw [h4] at h5; cases h5
      · refine ⟨_, rfl, Or.inr ⟨rfl, h3, h4, h2, fun _ => h6, fun hx => ?_, rfl, ?_, ?_, ?_, ?_⟩⟩
        · rw [hm2] at hx; cases hx
        · exact CommandLineFlag.UpdateModifiedBit_name f
        · exact CommandLineFlag.UpdateModifiedBit_help f
        · exact CommandLineFlag.UpdateModifiedBit_file f
        · exact CommandLineFlag.UpdateModifiedBit_validate f

/-! ## Lemmas on the command line and its checksum -/

/-- The loop `argv_sum += *c` from a start value below `2^32`: the sum modulo `2^32`. -/
theorem sumChars_foldl (l : CStr) : ∀ acc : Nat, acc < 2 ^ 32 →
    l.foldl (fun (acc : Nat) c => (((acc : Int) + charAsInt c) % (2 ^ 32 : Int)).toNat) acc =
      (((acc : Int) + (l.map charAsInt).sum) % (2 ^ 32 : Int)).toNat := by
  induction l with
  | nil =>
    intro acc h
    simp only [List.foldl_nil, List.map_nil, List.sum_nil, add_zero]
    rw [Int.emod_eq_of_lt (by omega) (by omega)]
    simp
  | cons c cs ih =>
    intro acc _
    have hnn : 0 ≤ ((acc : Int) + charAsInt c) % (2 ^ 32 : Int) :=
      Int.emod_nonneg _ (by norm_num)
    have hlt : ((acc : Int) + charAsInt c) % (2 ^ 32 : Int) < 2 ^ 32 :=
      Int.emod_lt_of_pos _ (by norm_num)
    simp only [List.foldl_cons, List.map_cons, List.sum_cons]
    rw [ih _ (by omega), Int.toNat_of_nonneg hnn, Int.emod_add_emod, add_assoc]

/-- The checksum of a command line: the sum of its characters, as signed `char`s, modulo
`2^32`. -/
theorem sumChars_eq (l : CStr) :
    sumChars l = ((l.map charAsInt).sum % (2 ^ 32 : Int)).toNat := by
  unfold sumChars
  rw [sumChars_foldl l 0 (by norm_num)]
  simp

/-- The checksum does not see the order of the characters. -/
theorem sumChars_perm (l1 l2 : CStr) (h : l1.Perm l2) : sumChars l1 = sumChars l2 := by
  rw [sumChars_eq, sumChars_eq, (h.map charAsInt).sum_eq]

/-- The joined command line holds the characters of the tokens and one space for every token
but the first. -/
theorem joinArgv_perm_flatten (l : List CStr) :
    (joinArgv l).Perm (l.flatten ++ List.replicate (l.length - 1) ' ') := by
  induction l with
  | nil => simp [joinArgv]
  | cons a rest ih =>
    cases rest with
    | nil => simp [joinArgv]
    | cons b rest2 =>
      simp only [joinArgv, List.flatten_cons, List.length_cons, Nat.add_sub_cancel] at ih ⊢
      rw [List.replicate_succ, List.append_assoc]
      refine List.Perm.append_left a ?_
      refine (List.Perm.cons ' ' ih).trans ?_
      exact (@List.perm_middle _ ' ' (b ++ rest2.flatten)
        (List.replicate rest2.length ' ')).symm

/-- The joined lines of two vectors with the same tokens, in whatever order, have the same
characters. -/
theorem joinArgv_perm (l1 l2 : List CStr) (h : l1.Perm l2) :
    (joinArgv l1).Perm (joinArgv l2) := by
  refine (joinArgv_perm_flatten l1).trans (List.Perm.trans ?_ (joinArgv_perm_flatten l2).symm)
  rw [h.length_eq]
  exact List.Perm.append_right _ h.flatten

/-- The first call of `SetArgv` on a non-empty vector. -/
theorem SetArgv_first (g : Gflags) (argv : List CStr) (h : g.called_set_argv = false)
    (hne : argv ≠ []) :
    ∃ g1, g.SetArgv argv = .ok g1 ∧ g1.cmdline = joinArgv argv ∧
      g1.argv_sum = sumChars (joinArgv argv) ∧ g1.called_set_argv = true ∧
      g1.argv0 = argv.head hne := by
  cases argv with
  | nil => exact absurd rfl hne
  | cons a0 rest =>
    unfold Gflags.SetArgv
    simp only [h, Bool.false_eq_true, if_false]
    exact ⟨_, rfl, rfl, rfl, rfl, rfl⟩

/-! ## Lemmas on the map `flags_by_ptr_` and on sequences of registrations -/

theorem ptrFind_mem (m : List (Nat × Nat)) (a q : Nat)
    (h : mapFind (fun a b => decide (a < b)) m a = some q) : (a, q) ∈ m := by
  obtain ⟨k1, hk, h1, h2⟩ := mapFind_mem _ _ _ _ h
  simp only [decide_eq_false_iff_not] at h1 h2
  have : a = k1 := by omega
  rw [this]; exact hk

theorem mapAssign_find_same (m : List (Nat × Nat)) (a q : Nat) :
    mapFind (fun a b => decide (a < b)) (mapAssign (fun a b => decide (a < b)) m a q) a =
      some q := by
  induction m with
  | nil => simp [mapAssign, mapFind]
  | cons e rest ih =>
    obtain ⟨k1, v1⟩ := e
    simp only [mapAssign]
    by_cases h1 : a < k1
    · simp [h1, mapFind]
    · by_cases h2 : k1 < a
      · simp only [h1, h2, decide_True, decide_False, if_true, Bool.false_eq_true, if_false,
          mapFind, Bool.not_true, Bool.not_false, Bool.and_false]
        exact ih
      · simp [h1, h2, mapFind]

theorem mapAssign_find_other (m : List (Nat × Nat)) (a q b : Nat) (hb : b ≠ a) :
    mapFind (fun a b => decide (a < b)) (mapAssign (fun a b => decide (a < b)) m a q) b =
      mapFind (fun a b => decide (a < b)) m b := by
  induction m with
  | nil =>
    simp only [mapAssign, mapFind]
    rw [if_neg]
    simp only [Bool.and_eq_true, Bool.not_eq_true', decide_eq_false_iff_not, not_and, not_not]
    omega
  | cons e rest ih =>
    obtain ⟨k1, v1⟩ := e
    simp only [mapAssign]
    by_cases h1 : a < k1
    · simp only [h1, decide_True, if_true]
      rw [mapFind, if_neg]
      simp only [Bool.and_eq_true, Bool.not_eq_true', decide_eq_false_iff_not, not_and, not_not]
      omega
    · by_cases h2 : k1 < a
      · simp only [h1, h2, decide_True, decide_False, if_true, Bool.false_eq_true, if_false]
        simp only [mapFind, ih]
      · have hk : k1 = a := by omega
        subst hk
        simp only [h1, decide_False, Bool.false_eq_true, if_false, mapFind]
        have hc : ¬ ((!decide (b < k1) && !decide (k1 < b)) = true) := by
          simp only [Bool.and_eq_true, Bool.not_eq_true', decide_eq_false_iff_not, not_and,
            not_not]
          omega
        rw [if_neg hc, if_neg hc]

theorem mapAssign_mem (m : List (Nat × Nat)) (a q : Nat) (e : Nat × Nat)
    (h : e ∈ mapAssign (fun a b => decide (a < b)) m a q) : e = (a, q) ∨ e ∈ m := by
  induction m with
  | nil => simp [mapAssign] at h; exact Or.inl h
  | cons e1 rest ih =>
    obtain ⟨k1, v1⟩ := e1
    simp only [mapAssign] at h
    split at h
    · rcases List.mem_cons.1 h with h1 | h1
      · exact Or.inl h1
      · exact Or.inr h1
    · split at h
      · rcases List.mem_cons.1 h with h1 | h1
        · exact Or.inr (h1 ▸ List.mem_cons_self _ _)
        · rcases ih h1 with h2 | h2
          · exact Or.inl h2
          · exact Or.inr (List.mem_cons_of_mem _ h2)
      · rename_i h1 h2
        simp only [decide_eq_true_eq] at h1 h2
        have hk : k1 = a := by omega
        rcases List.mem_cons.1 h with h3 | h3
        · exact Or.inl (by rw [h3, hk])
        · exact Or.inr (List.mem_cons_of_mem _ h3)

theorem mapAssign_mem_key (m : List (Nat × Nat)) (a q : Nat) (e : Nat × Nat)
    (hs : m.Pairwise (fun x y => x.1 < y.1))
    (h : e ∈ mapAssign (fun a b => decide (a < b)) m a q) : e = (a, q) ∨ (e ∈ m ∧ e.1 ≠ a) := by
  induction m with
  | nil => simp [mapAssign] at h; exact Or.inl h
  | cons e1 rest ih =>
    obtain ⟨k1, v1⟩ := e1
    have hs2 := List.pairwise_cons.1 hs
    simp only [mapAssign] at h
    split at h
    · rename_i h1
      simp only [decide_eq_true_eq] at h1
      rcases List.mem_cons.1 h with h3 | h3
      · exact Or.inl h3
      · refine Or.inr ⟨h3, ?_⟩
        rcases List.mem_cons.1 h3 with h4 | h4
        · rw [h4]; simp only; omega
        · have := hs2.1 e h4; simp only at this; omega
    · split at h
      · rename_i h1 h2
        simp only [decide_eq_true_eq] at h1 h2
        rcases List.mem_cons.1 h with h3 | h3
        · refine Or.inr ⟨h3 ▸ List.mem_cons_self _ _, ?_⟩
          rw [h3]; simp only; omega
        · rcases ih hs2.2 h3 with h4 | h4
          · exact Or.inl h4
          · exact Or.inr ⟨List.mem_cons_of_mem _ h4.1, h4.2⟩
      · rename_i h1 h2
        simp only [decide_eq_true_eq] at h1 h2
        have hk : k1 = a := by omega
        rcases List.mem_cons.1 h with h3 | h3
        · exact Or.inl (by rw [h3, hk])
        · refine Or.inr ⟨List.mem_cons_of_mem _ h3, ?_⟩
          have := hs2.1 e h3; simp only at this; omega

theorem mapAssign_pairwise (m : List (Nat × Nat)) (a q : Nat)
    (hs : m.Pairwise (fun x y => x.1 < y.1)) :
    (mapAssign (fun a b => decide (a < b)) m a q).Pairwise (fun x y => x.1 < y.1) := by
  induction m with
  | nil => simp [mapAssign]
  | cons e1 rest ih =>
    obtain ⟨k1, v1⟩ := e1
    have hs2 := List.pairwise_cons.1 hs
    simp only [mapAssign]
    split
    · rename_i h1
      simp only [decide_eq_true_eq] at h1
      refine List.pairwise_cons.2 ⟨?_, hs⟩
      intro e he
      rcases List.mem_cons.1 he with h3 | h3
      · rw [h3]; exact h1
      · have := hs2.1 e h3; simp only at this ⊢; omega
    · split
      · rename_i h1 h2
        simp only [decide_eq_true_eq] at h1 h2
        refine List.pairwise_cons.2 ⟨?_, ih hs2.2⟩
        intro e he
        rcases mapAssign_mem rest a q e he with h3 | h3
        · rw [h3]; exact h2
        · exact hs2.1 e h3
      · rename_i h1 h2
        exact List.pairwise_cons.2 ⟨fun e he => hs2.1 e he, hs2.2⟩

theorem ptrFind_of_mem (m : List (Nat × Nat)) (a q : Nat)
    (hs : m.Pairwise (fun x y => x.1 < y.1)) (h : (a, q) ∈ m) :
    mapFind (fun a b => decide (a < b)) m a = some q := by
  induction m with
  | nil => simp at h
  | cons e rest ih =>
    obtain ⟨k1, v1⟩ := e
    rw [List.pairwise_cons] at hs
    simp only [mapFind]
    rcases List.mem_cons.1 h with h1 | h1
    · cases h1; simp
    · have := hs.1 _ h1
      simp only at this
      rw [if_neg]
      · exact ih hs.2 h1
      · simp only [Bool.and_eq_true, Bool.not_eq_true', decide_eq_false_iff_not, not_and,
          not_not]
        omega

theorem mapInsert_inserted (m : List (CStr × Nat)) (k : CStr) (v : Nat)
    (h : (mapInsert StringCmp m k v).2.2 = true) : (k, v) ∈ (mapInsert StringCmp m k v).1 := by
  induction m with
  | nil => simp [mapInsert]
  | cons e rest ih =>
    obtain ⟨k1, v1⟩ := e
    simp only [mapInsert] at h ⊢
    split
    · simp
    · rename_i h1
      split
      · rename_i h2
        simp only [h1, h2, if_false, if_true] at h
        exact List.mem_cons_of_mem _ (ih h)
      · rename_i h2
        simp [h1, h2] at h

/-- What a call of `RegisterFlag` that reports no error has done. -/
theorem RegisterFlag_ok_none (reg reg1 : FlagRegistry) (flag : CommandLineFlag)
    (h : reg.RegisterFlag flag = .ok ⟨reg1, none⟩) :
    reg1.objs = reg.objs ++ [flag] ∧
      reg1.flags_ = (mapInsert StringCmp reg.flags_ flag.name reg.objs.length).1 ∧
      (mapInsert StringCmp reg.flags_ flag.name reg.objs.length).2.2 = true ∧
      reg1.flags_by_ptr_ = mapAssign (fun a b => decide (a < b)) reg.flags_by_ptr_
        flag.flag_ptr reg.objs.length := by
  unfold FlagRegistry.RegisterFlag at h
  simp only [bind, Except.bind, pure, Except.pure] at h
  cases hins : (mapInsert StringCmp reg.flags_ flag.name reg.objs.length).2.2 with
  | false =>
    exfalso
    simp only [hins, if_true] at h
    repeat' (split at h)
    all_goals cases h
  | true =>
    simp only [hins, Bool.true_eq_false, if_false] at h
    cases h
    exact ⟨rfl, rfl, rfl, rfl⟩

/-- The state of the two maps after a sequence of registrations: every flag object is found
under its name, and a lookup by address finds the flag object registered last among those
whose current-value storage is at the address. -/
theorem registerAll_invariant (fs : List CommandLineFlag) :
    ∀ reg reg1 : FlagRegistry, registerAll reg fs = some reg1 →
      reg.flags_.Pairwise (fun a b => StringCmp a.1 b.1 = true) →
      (∀ i f, reg.objs[i]? = some f → (f.name_, i) ∈ reg.flags_) →
      (∀ a i, mapFind (fun a b => decide (a < b)) reg.flags_by_ptr_ a = some i ↔
        (reg.objs[i]?.map CommandLineFlag.flag_ptr = some a ∧
          ∀ j, i < j → reg.objs[j]?.map CommandLineFlag.flag_ptr ≠ some a)) →
      reg1.objs = reg.objs ++ fs ∧
      reg1.flags_.Pairwise (fun a b => StringCmp a.1 b.1 = true) ∧
      (∀ i f, reg1.objs[i]? = some f → (f.name_, i) ∈ reg1.flags_) ∧
      (∀ a i, mapFind (fun a b => decide (a < b)) reg1.flags_by_ptr_ a = some i ↔
        (reg1.objs[i]?.map CommandLineFlag.flag_ptr = some a ∧
          ∀ j, i < j → reg1.objs[j]?.map CommandLineFlag.flag_ptr ≠ some a)) := by
  induction fs with
  | nil =>
    intro reg reg1 h hs hn hp
    simp only [registerAll, Option.some.injEq] at h
    subst h
    exact ⟨by simp, hs, hn, hp⟩
  | cons f fs ih =>
    intro reg reg1 h hs hn hp
    simp only [registerAll] at h
    split at h
    · rename_i reg2 hreg
      obtain ⟨ho, hf, hins, hb⟩ := RegisterFlag_ok_none reg reg2 f hreg
      have hs2 : reg2.flags_.Pairwise (fun a b => StringCmp a.1 b.1 = true) := by
        rw [hf]; exact mapInsert_pairwise _ _ _ hs
      have hn2 : ∀ i g, reg2.objs[i]? = some g → (g.name_, i) ∈ reg2.flags_ := by
        intro i g hg
        rw [ho] at hg
        rw [hf]
        by_cases hi : i < reg.objs.length
        · rw [List.getElem?_append_left hi] at hg
          exact mapInsert_old_mem _ _ _ _ (hn i g hg)
        · have hlen := (List.getElem?_eq_some_iff.1 hg).1
          simp only [List.length_append, List.length_singleton] at hlen
          have hi2 : i = reg.objs.length := by omega
          subst hi2
          simp at hg
          subst hg
          exact mapInsert_inserted _ _ _ hins
      have hp2 : ∀ a i, mapFind (fun a b => decide (a < b)) reg2.flags_by_ptr_ a = some i ↔
          (reg2.objs[i]?.map CommandLineFlag.flag_ptr = some a ∧
            ∀ j, i < j → reg2.objs[j]?.map CommandLineFlag.flag_ptr ≠ some a) := by
        intro a i
        rw [hb, ho]
        have hlast : (reg.objs ++ [f])[reg.objs.length]? = some f := by simp
        have hnone : ∀ j, reg.objs.length < j → (reg.objs ++ [f])[j]? = none := by
          intro j hj
          apply List.getElem?_eq_none
          simp only [List.length_append, List.length_singleton]; omega
        have hold : ∀ j, j < reg.objs.length → (reg.objs ++ [f])[j]? = reg.objs[j]? :=
          fun j hj => List.getElem?_append_left hj
        by_cases ha : a = f.flag_ptr
        · subst ha
          rw [mapAssign_find_same]
          constructor
          · intro hi
            simp only [Option.some.injEq] at hi
            subst hi
            refine ⟨by rw [hlast]; rfl, fun j hj => ?_⟩
            rw [hnone j hj]; simp
          · rintro ⟨h1, h2⟩
            by_cases hi : i < reg.objs.length
            · exact absurd (by rw [hlast]; rfl) (h2 reg.objs.length hi)
            · by_cases hi2 : i = reg.objs.length
              · rw [hi2]
              · rw [hnone i (by omega)] at h1; simp at h1
        · rw [mapAssign_find_other _ _ _ _ ha, hp a i]
          constructor
          · rintro ⟨h1, h2⟩
            have hi : i < reg.objs.length := by
              cases hx : reg.objs[i]? with
              | none => rw [hx] at h1; simp at h1
              | some g => exact (List.getElem?_eq_some_iff.1 hx).1
            refine ⟨by rw [hold i hi]; exact h1, fun j hj => ?_⟩
            by_cases hj2 : j < reg.objs.length
            · rw [hold j hj2]; exact h2 j hj
            · by_cases hj3 : j = reg.objs.length
              · rw [hj3, hlast]
                simp only [Option.map_some', ne_eq, Option.some.injEq]
                exact fun hx => ha hx.symm
              · rw [hnone j (by omega)]; simp
          · rintro ⟨h1, h2⟩
            have hi : i < reg.objs.length := by
              by_cases hi : i < reg.objs.length
              · exact hi
              · exfalso
                by_cases hi2 : i = reg.objs.length
                · rw [hi2, hlast] at h1
                  simp only [Option.map_some', Option.some.injEq] at h1
                  exact ha h1.symm
                · rw [hnone i (by omega)] at h1; simp at h1
            refine ⟨by rw [← hold i hi]; exact h1, fun j hj => ?_⟩
            by_cases hj2 : j < reg.objs.length
            · rw [← hold j hj2]; exact h2 j hj
            · rw [List.getElem?_eq_none (by omega)]; simp
      obtain ⟨r1, r2, r3, r4⟩ := ih reg2 reg1 h hs2 hn2 hp2
      refine ⟨?_, r2, r3, r4⟩
      rw [r1, ho, List.append_assoc]; rfl
    · cases h

theorem FlagRegistry.PtrIndexed.lookup_valid {reg : FlagRegistry} (h : reg.PtrIndexed) (a p : Nat)
    (hf : reg.FindFlagViaPtrLocked a = some p) :
    ∃ f, reg.deref p = .ok f ∧ f.flag_ptr = a := by
  have hm := ptrFind_mem _ _ _ hf
  have := h.2.1 (a, p) hm
  cases hx : reg.objs[p]? with
  | none => simp [hx] at this
  | some f =>
    simp only [hx, Option.map_some', Option.some.injEq] at this
    exact ⟨f, (FlagRegistry.deref_eq_ok _ _ _).2 hx, this⟩

/-- The lookup by address finds nothing exactly when no flag object has its current-value
storage at the address. -/
theorem FlagRegistry.PtrIndexed.find_none {reg : FlagRegistry} (h : reg.PtrIndexed) (a : Nat) :
    reg.FindFlagViaPtrLocked a = none ↔ ∀ f ∈ reg.objs, f.flag_ptr ≠ a := by
  constructor
  · intro hn f hf ha
    have := h.2.2 f hf
    rw [ha, hn] at this
    cases this
  · intro hall
    cases hx : reg.FindFlagViaPtrLocked a with
    | none => rfl
    | some p =>
      obtain ⟨f, hf, ha⟩ := h.lookup_valid a p hx
      rw [FlagRegistry.deref_eq_ok] at hf
      obtain ⟨hlt, hget⟩ := List.getElem?_eq_some_iff.1 hf
      exact absurd ha (hall f (hget ▸ List.getElem_mem hlt))

theorem FlagRegistry.empty_ptrIndexed : FlagRegistry.empty.PtrIndexed := by
  refine ⟨List.Pairwise.nil, ?_, ?_⟩ <;> intro e he <;> cases he

/-- Registration keeps the invariant of `flags_by_ptr_`, also when it reports a duplicate
name. -/
theorem RegisterFlag_ptrIndexed (reg : FlagRegistry) (flag : CommandLineFlag)
    (out : RegisterOutcome) (hp : reg.PtrIndexed) (h : reg.RegisterFlag flag = .ok out) :
    out.registry.PtrIndexed := by
  have key : out.registry.objs = reg.objs ++ [flag] ∧
      out.registry.flags_by_ptr_ = mapAssign (fun a b => decide (a < b)) reg.flags_by_ptr_
        flag.flag_ptr reg.objs.length := by
    unfold FlagRegistry.RegisterFlag at h
    simp only [bind, Except.bind, pure, Except.pure] at h
    repeat' (split at h)
    all_goals first | (cases h; exact ⟨rfl, rfl⟩) | cases h
  obtain ⟨p1, p2, p3⟩ := hp
  refine ⟨by rw [key.2]; exact mapAssign_pairwise _ _ _ p1, ?_, ?_⟩
  · intro e he
    rw [key.2] at he
    rw [key.1]
    rcases mapAssign_mem _ _ _ _ he with h1 | h1
    · rw [h1]; simp
    · have h2 := p2 e h1
      cases h3 : reg.objs[e.2]? with
      | none => simp [h3] at h2
      | some f =>
        have hlt := (List.getElem?_eq_some_iff.1 h3).1
        rw [List.getElem?_append_left hlt, h3]
        simpa [h3] using h2
  · intro f hf
    rw [key.1] at hf
    unfold FlagRegistry.FindFlagViaPtrLocked
    rw [key.2]
    by_cases ha : f.flag_ptr = flag.flag_ptr
    · rw [ha, mapAssign_find_same]; rfl
    · rw [mapAssign_find_other _ _ _ _ ha]
      rcases List.mem_append.1 hf with h1 | h1
      · exact p3 f h1
      · simp at h1; rw [h1] at ha; exact absurd rfl ha

/-- A store through a flag pointer of an object with the same storage address keeps the
invariant of `flags_by_ptr_`. -/
theorem FlagRegistry.PtrIndexed.store_ptrIndexed {reg : FlagRegistry} (h : reg.PtrIndexed) (p : Nat)
    (f g : CommandLineFlag) (hf : reg.deref p = .ok f) (hg : g.flag_ptr = f.flag_ptr) :
    (reg.store p g).PtrIndexed := by
  rw [FlagRegistry.deref_eq_ok] at hf
  have hlt := (List.getElem?_eq_some_iff.1 hf).1
  have hmap : ∀ q : Nat, (reg.objs.set p g)[q]?.map CommandLineFlag.flag_ptr =
      reg.objs[q]?.map CommandLineFlag.flag_ptr := by
    intro q
    by_cases hq : p = q
    · subst hq
      rw [List.getElem?_set_self hlt, hf]
      simp [hg]
    · rw [List.getElem?_set_ne (l := reg.objs) (a := g) hq]
  obtain ⟨p1, p2, p3⟩ := h
  refine ⟨p1, ?_, ?_⟩
  · intro e he
    show (reg.objs.set p g)[e.2]?.map CommandLineFlag.flag_ptr = some e.1
    rw [hmap]; exact p2 e he
  · intro x hx
    show (mapFind (fun a b => decide (a < b)) reg.flags_by_ptr_ x.flag_ptr).isSome = true
    have hx2 : x ∈ reg.objs.set p g := hx
    rcases List.mem_or_eq_of_mem_set hx2 with h1 | h1
    · exact p3 x h1
    · rw [h1, hg]
      obtain ⟨_, hget⟩ := List.getElem?_eq_some_iff.1 hf
      exact p3 f (hget ▸ List.getElem_mem hlt)

/-! ## Lemmas on the scan: the token `--`, unresolved names, and the scan as a fold -/

/-- The pass over the token `--`: the boundary is set behind it and the loop is left. -/
theorem scanBody_double_dash (libc : Libc) (s : ScanState)
    (hget : s.argv[s.i]? = some "--".toList) :
    scanBody libc s = .ok (true, { s with first_nonopt := s.i + 1 }) := by
  unfold scanBody
  simp only [hget]
  rfl

/-- A name that neither `FindFlagLocked` nor the negation form resolves: the key, the value
and the unknown-flag message that `SplitArgumentLocked` returns. -/
theorem split_unknown (reg : FlagRegistry) (arg : CStr)
    (h1 : reg.FindFlagLocked (arg.takeWhile (fun c => c ≠ '=')) = none)
    (h2 : ∀ x, arg.takeWhile (fun c => c ≠ '=') = 'n' :: 'o' :: x → reg.FindFlagLocked x = none) :
    ∃ v, reg.SplitArgumentLocked arg = .ok ⟨none, arg.takeWhile (fun c => c ≠ '='), v,
      kError ++ "unknown command line flag '".toList ++ arg.takeWhile (fun c => c ≠ '=') ++
        "'\n".toList⟩ := by
  unfold FlagRegistry.SplitArgumentLocked
  simp only [h1, pure, Except.pure]
  split
  · rename_i x hx
    rw [h2 x hx]
    exact ⟨_, rfl⟩
  · exact ⟨_, rfl⟩

/-- A pass over an option token that is not `--` and takes no value from the next slot does
to the parser what `applyToken` does. -/
theorem scanBody_inline_eq (libc : Libc) (s : ScanState) (arg : CStr)
    (h : s.argv[s.i]? = some arg) (hopt : isProgramArgument arg = false)
    (hne : arg ≠ "--".toList) (hwf : s.psr.registry_.WellFormed)
    (hns : s.psr.registry_.needsSeparateValue arg = false) :
    ∃ psr1, scanBody libc s = .ok (false, { s with i := s.i + 1, psr := psr1 }) ∧
      s.psr.applyToken libc arg = .ok psr1 ∧
      s.psr.registry_.SameFlags psr1.registry_ := by
  have hne2 : stripDashes arg ≠ [] := fun hx => hne ((stripDashes_eq_nil arg hopt).1 hx)
  obtain ⟨r, hr, hp⟩ := hwf.split_ok (stripDashes arg)
  unfold FlagRegistry.needsSeparateValue at hns
  rw [hr] at hns
  unfold scanBody CommandLineFlagParser.applyToken
  simp only [h, hopt, hne2, hr, bind, Except.bind, pure, Except.pure, Bool.false_eq_true,
    if_false]
  cases hflag : r.flag with
  | none => exact ⟨_, rfl, rfl, FlagRegistry.SameFlags.refl _⟩
  | some p =>
    cases hv : r.v with
    | none => simp [hflag, hv] at hns
    | some value =>
      obtain ⟨obj, hobj, _⟩ := hp p hflag
      obtain ⟨q, _, hq, hsame⟩ := ProcessSingleOptionLocked_value libc s.psr p value obj hobj
      simp only [hq]
      exact ⟨_, rfl, rfl, hsame⟩

/-- The scan over tokens none of which is `--` or takes its value from the next slot: a
stable partition of the tokens, and the parser that `applyToken`, applied to the option
tokens from left to right, leaves. -/
theorem scanLoop_partition_fold (libc : Libc) (prog : CStr) (psr0 : CommandLineFlagParser)
    (hwf0 : psr0.registry_.WellFormed) :
    ∀ (todo done poss : List CStr) (psr : CommandLineFlagParser) (cout : CStr) (fuel : Nat),
      psr0.registry_.SameFlags psr.registry_ →
      (∀ t ∈ todo, t ≠ "--".toList) →
      (∀ t ∈ todo, isProgramArgument t = false → psr0.registry_.needsSeparateValue t = false) →
      todo.length ≤ fuel →
      ∃ psr1, scanLoop libc fuel ⟨prog :: (done ++ todo ++ poss), 1 + done.length,
          1 + done.length + todo.length, psr, cout⟩ =
        .ok ⟨prog :: ((done ++ optionTokens todo) ++ (poss ++ todo.filter isProgramArgument)),
            1 + (done ++ optionTokens todo).length,
            1 + (done ++ optionTokens todo).length, psr1, cout⟩ ∧
        (optionTokens todo).foldlM (fun q t => q.applyToken libc t) psr = .ok psr1 ∧
        psr0.registry_.SameFlags psr1.registry_ := by
  intro todo
  induction todo with
  | nil =>
    intro done poss psr cout fuel hs _ _ _
    refine ⟨psr, ?_, rfl, hs⟩
    rw [scanLoop_done]
    · simp [optionTokens]
    · simp
  | cons t todo ih =>
    intro done poss psr cout fuel hs hdd hsep hfuel
    cases fuel with
    | zero => simp at hfuel
    | succ fuel =>
      have hlt : 1 + done.length < 1 + done.length + (t :: todo).length := by simp
      have hget := getElem?_middle prog done todo t poss
      by_cases hp : isProgramArgument t = true
      · have hb := scanBody_positional libc
          ⟨prog :: (done ++ t :: todo ++ poss), 1 + done.length,
            1 + done.length + (t :: todo).length, psr, cout⟩ t hget hp
        rw [scanLoop_pass libc fuel _ _ hlt hb]
        simp only [eraseIdx_middle]
        have hfn : 1 + done.length + (t :: todo).length - 1 = 1 + done.length + todo.length := by
          simp
        rw [hfn]
        obtain ⟨psr1, h1, h2, h3⟩ := ih done (poss ++ [t]) psr cout fuel hs
          (fun x hx => hdd x (List.mem_cons_of_mem _ hx))
          (fun x hx => hsep x (List.mem_cons_of_mem _ hx)) (by simpa using hfuel)
        refine ⟨psr1, ?_, ?_, h3⟩
        · rw [h1]
          simp [optionTokens, List.filter_cons, hp]
        · simpa [optionTokens, List.filter_cons, hp] using h2
      · have hp2 : isProgramArgument t = false := by simpa using hp
        have hwf := hs.wellFormed hwf0
        have hns : psr.registry_.needsSeparateValue t = false := by
          rw [hs.needsSeparateValue]; exact hsep t (List.mem_cons_self _ _) hp2
        obtain ⟨psr2, hb, happ, hsame⟩ := scanBody_inline_eq libc
          ⟨prog :: (done ++ t :: todo ++ poss), 1 + done.length,
            1 + done.length + (t :: todo).length, psr, cout⟩ t hget hp2
          (hdd t (List.mem_cons_self _ _)) hwf hns
        rw [scanLoop_pass libc fuel _ _ hlt hb]
        obtain ⟨psr1, h1, h2, h3⟩ := ih (done ++ [t]) poss psr2 cout fuel (hs.trans hsame)
          (fun x hx => hdd x (List.mem_cons_of_mem _ hx))
          (fun x hx => hsep x (List.mem_cons_of_mem _ hx)) (by simpa using hfuel)
        refine ⟨psr1, ?_, ?_, h3⟩
        · have e1 : (⟨prog :: (done ++ t :: todo ++ poss), 1 + done.length + 1,
              1 + done.length + (t :: todo).length, psr2, cout⟩ : ScanState) =
              ⟨prog :: (done ++ [t] ++ todo ++ poss), 1 + (done ++ [t]).length,
                1 + (done ++ [t]).length + todo.length, psr2, cout⟩ := by
            simp; omega
          rw [e1, h1]
          simp [optionTokens, List.filter_cons, hp2]
        · have e2 : optionTokens (t :: todo) = t :: optionTokens todo := by
            simp [optionTokens, List.filter_cons, hp2]
          rw [e2, List.foldlM_cons]
          simp only at happ
          rw [happ]
          exact h2

/-- Without removal, `ParseNewCommandLineFlags` on a vector in which no token is `--` or
takes its value from the next slot: the parser it leaves is the one that `applyToken`,
applied to the option tokens from left to right, leaves. -/
theorem parse_fold (libc : Libc) (self : CommandLineFlagParser) (prog : CStr)
    (rest : List CStr) (hwf : self.registry_.WellFormed)
    (hdd : ∀ t ∈ rest, t ≠ "--".toList)
    (hsep : ∀ t ∈ rest, isProgramArgument t = false →
      self.registry_.needsSeparateValue t = false) :
    ∃ psr1, (optionTokens rest).foldlM (fun q t => q.applyToken libc t) self = .ok psr1 ∧
      self.ParseNewCommandLineFlags libc (prog :: rest) false =
        .ok ⟨1 + (optionTokens rest).length,
          prog :: (optionTokens rest ++ rest.filter isProgramArgument), psr1, []⟩ ∧
      self.registry_.SameFlags psr1.registry_ := by
  obtain ⟨psr1, h1, h2, h3⟩ := scanLoop_partition_fold libc prog self hwf rest [] [] self []
    (prog :: rest).length (FlagRegistry.SameFlags.refl _) hdd hsep (by simp)
  refine ⟨psr1, h2, ?_, h3⟩
  have e : ScanState.init self (prog :: rest) =
      ⟨prog :: ([] ++ rest ++ []), 1 + ([] : List CStr).length,
        1 + ([] : List CStr).length + rest.length, self, []⟩ := by
    simp [ScanState.init, Nat.add_comm]
  unfold CommandLineFlagParser.ParseNewCommandLineFlags
  rw [e, h1]
  simp [bind, Except.bind, pure, Except.pure]

/-- Whatever `ProcessSingleOptionLocked` does with a value in `SET_FLAGS_VALUE` mode, the
registry it leaves has the same flags. -/
theorem ProcessSingleOptionLocked_sameFlags (libc : Libc) (psr : CommandLineFlagParser)
    (p : Nat) (v : CStr) (q : CStr × CommandLineFlagParser)
    (h : psr.ProcessSingleOptionLocked libc p (some v) .SET_FLAGS_VALUE = .ok q) :
    psr.registry_.SameFlags q.2.registry_ := by
  cases hobj : psr.registry_.deref p with
  | error e =>
    simp [CommandLineFlagParser.ProcessSingleOptionLocked, hobj, bind, Except.bind] at h
  | ok obj =>
    obtain ⟨r, _, hq, hsame⟩ := ProcessSingleOptionLocked_value libc psr p v obj hobj
    rw [hq] at h
    cases h
    exact hsame

/-- A pass through the body of the loop leaves a registry with the same flags. -/
theorem scanBody_sameFlags (libc : Libc) (s s1 : ScanState) (b : Bool)
    (h : scanBody libc s = .ok (b, s1)) : s.psr.registry_.SameFlags s1.psr.registry_ := by
  unfold scanBody at h
  split at h
  · cases h
  · rename_i arg harg
    split at h
    · cases h
      exact FlagRegistry.SameFlags.refl _
    · simp only [] at h
      split at h
      · cases h
        exact FlagRegistry.SameFlags.refl _
      · cases hs : s.psr.registry_.SplitArgumentLocked (stripDashes arg) with
        | error e => simp [hs, bind, Except.bind] at h
        | ok r =>
          simp only [hs, bind, Except.bind, pure, Except.pure] at h
          split at h
          · cases h
            exact FlagRegistry.SameFlags.refl _
          · split at h
            · split at h
              · cases h
              · split at h
                · cases h
                · split at h
                  · cases h
                    exact FlagRegistry.SameFlags.refl _
                  · split at h
                    · cases h
                    · split at h
                      · cases h
                      · rename_i q hq
                        cases h
                        exact ProcessSingleOptionLocked_sameFlags libc _ _ _ q hq
            · split at h
              · cases h
              · rename_i q hq
                cases h
                exact ProcessSingleOptionLocked_sameFlags libc _ _ _ q hq

/-- Every state the scan reaches has a registry with the same flags as the one it started
with. -/
theorem ScanReaches.sameFlags (libc : Libc) (s0 s : ScanState) (h : ScanReaches libc s0 s) :
    s0.psr.registry_.SameFlags s.psr.registry_ := by
  induction h with
  | start => exact FlagRegistry.SameFlags.refl _
  | pass s s1 _ _ hbody ih => exact ih.trans (scanBody_sameFlags libc s s1 false hbody)

/-- What `ParseNewCommandLineFlags` returns once its loop has come to an end in a state
within bounds. -/
theorem parse_of_loop (libc : Libc) (self : CommandLineFlagParser) (argv : List CStr)
    (remove_flags : Bool) (s1 : ScanState)
    (h : scanLoop libc argv.length (ScanState.init self argv) = .ok s1)
    (hb : 1 ≤ s1.first_nonopt ∧ s1.first_nonopt ≤ s1.argv.length) :
    ∃ out, self.ParseNewCommandLineFlags libc argv remove_flags = .ok out ∧
      out.psr = s1.psr ∧ out.cout = s1.cout ∧
      (remove_flags = false → out.result = s1.first_nonopt ∧ out.argv = s1.argv) := by
  unfold CommandLineFlagParser.ParseNewCommandLineFlags
  simp only [h, bind, Except.bind, pure, Except.pure]
  cases remove_flags with
  | false => exact ⟨_, rfl, rfl, rfl, fun _ => ⟨rfl, rfl⟩⟩
  | true =>
    have hlen : ¬ (s1.first_nonopt = 0 ∨ s1.argv.length < s1.first_nonopt) := by omega
    have h0 : 0 < s1.argv.length := by omega
    simp only [if_true, if_neg hlen, List.getElem?_eq_getElem h0]
    exact ⟨_, rfl, rfl, rfl, fun h => by cases h⟩

/-- A vector within the bounds of the scan, cut at the index and at the boundary. -/
theorem ScanState.InBounds.argv_eq (s : ScanState) (hb : s.InBounds) :
    ∃ prog done poss, s.argv = prog :: (done ++ s.window ++ poss) ∧
      s.i = 1 + done.length ∧ s.first_nonopt = 1 + done.length + s.window.length := by
  obtain ⟨b1, b2, b3⟩ := hb
  cases hargv : s.argv with
  | nil => rw [hargv] at b3; simp at b3; omega
  | cons prog tl =>
    rw [hargv] at b3
    simp only [List.length_cons] at b3
    obtain ⟨j, hj⟩ : ∃ j, s.i = j + 1 := ⟨s.i - 1, by omega⟩
    refine ⟨prog, tl.take j, tl.drop (s.first_nonopt - 1), ?_, ?_, ?_⟩
    · unfold ScanState.window
      rw [hargv, hj, List.drop_succ_cons]
      have e1 : tl.drop (s.first_nonopt - 1) = (tl.drop j).drop (s.first_nonopt - (j + 1)) := by
        rw [List.drop_drop]
        congr 1
        omega
      rw [e1, List.append_assoc, List.take_append_drop, List.take_append_drop]
    · simp [List.length_take]; omega
    · unfold ScanState.window
      rw [hargv]
      simp [List.length_take]
      omega

/-- The scan run from a state within bounds, when none of the tokens it has yet to visit is
`--` or takes its value from the next slot: the loop ends, and the parser it leaves is the
one that `applyToken`, applied to the option tokens among them from left to right, leaves;
the boundary stands behind these option tokens. -/
theorem scanLoop_fold_from (libc : Libc) (s : ScanState) (hb : s.InBounds)
    (hwf : s.psr.registry_.WellFormed)
    (hdd : ∀ t ∈ s.window, t ≠ "--".toList)
    (hsep : ∀ t ∈ s.window, isProgramArgument t = false →
      s.psr.registry_.needsSeparateValue t = false)
    (fuel : Nat) (hfuel : s.first_nonopt - s.i ≤ fuel) :
    ∃ s1, scanLoop libc fuel s = .ok s1 ∧
      (optionTokens s.window).foldlM (fun q t => q.applyToken libc t) s.psr = .ok s1.psr ∧
      s1.first_nonopt = s.i + (optionTokens s.window).length ∧
      s1.argv.length = s.argv.length ∧ s1.cout = s.cout ∧
      s.psr.registry_.SameFlags s1.psr.registry_ := by
  obtain ⟨prog, done, poss, hargv, hi, hf⟩ := ScanState.InBounds.argv_eq s hb
  obtain ⟨psr1, h1, h2, h3⟩ := scanLoop_partition_fold libc prog s.psr hwf s.window done poss
    s.psr s.cout fuel (FlagRegistry.SameFlags.refl _) hdd hsep (by omega)
  have e : s = ⟨prog :: (done ++ s.window ++ poss), 1 + done.length,
      1 + done.length + s.window.length, s.psr, s.cout⟩ := by
    cases s
    simp only at hargv hi hf
    simp only [ScanState.mk.injEq, and_true]
    exact ⟨hargv, hi, hf⟩
  rw [← e] at h1
  refine ⟨_, h1, h2, ?_, ?_, rfl, h3⟩
  · simp only [List.length_append]
    omega
  · rw [hargv]
    have hlen : (optionTokens s.window).length + (s.window.filter isProgramArgument).length =
        s.window.length := by
      unfold optionTokens
      have := List.length_eq_length_filter_add (l := s.window) isProgramArgument
      omega
    simp only [List.length_cons, List.length_append]
    omega

/-- A flag that `SplitArgumentLocked` returns is the target of an entry of `flags_`. -/
theorem split_flag_mem (reg : FlagRegistry) (arg : CStr) (r : SplitResult) (p : Nat)
    (h : reg.SplitArgumentLocked arg = .ok r) (hflag : r.flag = some p) :
    ∃ k, (k, p) ∈ reg.flags_ := by
  unfold FlagRegistry.SplitArgumentLocked at h
  simp only [] at h
  split at h
  · split at h
    · split at h
      · cases h; cases hflag
      · rename_i q hq
        cases hd : reg.deref q with
        | error e => simp [hd, bind, Except.bind] at h
        | ok f =>
          simp only [hd, bind, Except.bind, pure, Except.pure] at h
          split at h
          · cases h; cases hflag
          · cases h; cases hflag
            exact reg.FindFlagLocked_mem _ _ hq
    · cases h; cases hflag
  · rename_i q hq
    have hm := reg.FindFlagLocked_mem _ _ hq
    split at h
    · cases hd : reg.deref q with
      | error e => simp [hd, bind, Except.bind] at h
      | ok f =>
        simp only [hd, bind, Except.bind, pure, Except.pure] at h
        split at h
        · cases h; cases hflag; exact hm
        · cases h; cases hflag; exact hm
    · cases h; cases hflag; exact hm

/-- When `SplitArgumentLocked` returns no flag, the key is the text before the first `=`. -/
theorem split_none_key (reg : FlagRegistry) (arg : CStr) (r : SplitResult)
    (h : reg.SplitArgumentLocked arg = .ok r) (hflag : r.flag = none) :
    r.key = arg.takeWhile (fun c => c ≠ '=') := by
  unfold FlagRegistry.SplitArgumentLocked at h
  simp only [] at h
  split at h
  · split at h
    · split at h
      · cases h; rfl
      · rename_i q hq
        cases hd : reg.deref q with
        | error e => simp [hd, bind, Except.bind] at h
        | ok f =>
          simp only [hd, bind, Except.bind, pure, Except.pure] at h
          split at h
          · cases h; rfl
          · cases h; cases hflag
    · cases h; rfl
  · rename_i q hq
    split at h
    · cases hd : reg.deref q with
      | error e => simp [hd, bind, Except.bind] at h
      | ok f =>
        simp only [hd, bind, Except.bind, pure, Except.pure] at h
        split at h
        · cases h; cases hflag
        · cases h; cases hflag
    · cases h; cases hflag

/-- The name of the flag object behind an entry of `flags_` of a well-formed registry is
found by `FindFlagLocked`. -/
theorem FlagRegistry.WellFormed.name_found {reg : FlagRegistry} (hwf : reg.WellFormed)
    (k : CStr) (p : Nat) (obj : CommandLineFlag) (h : (k, p) ∈ reg.flags_)
    (hobj : reg.deref p = .ok obj) : reg.FindFlagLocked obj.name = some p := by
  obtain ⟨f, hf, hn, _⟩ := hwf.ptr_valid k p h
  rw [hobj] at hf
  cases hf
  apply reg.FindFlagLocked_of_find
  show mapFind StringCmp reg.flags_ obj.name_ = some p
  rw [hn]
  exact mapFind_of_mem _ _ _ hwf.1 h

/-- An option token `--name=value`, or `-name=value`, whose name resolves directly:
`applyToken` is `SetFlagLocked` in `SET_FLAGS_VALUE` mode on the flag, whose object is
replaced by the one it leaves, with a failure recorded under the flag's name. -/
theorem applyToken_inline (libc : Libc) (psr : CommandLineFlagParser) (t name value : CStr)
    (p : Nat) (obj : CommandLineFlag) (ht : stripDashes t = name ++ '=' :: value)
    (hname : strchr_found name '=' = false)
    (hfind : psr.registry_.FindFlagLocked name = some p)
    (hobj : psr.registry_.deref p = .ok obj) :
    ∃ res, FlagRegistry.SetFlagLocked libc obj value .SET_FLAGS_VALUE (some []) = .ok res ∧
      psr.applyToken libc t = .ok ⟨psr.registry_.store p res.flag,
        if res.ok then psr.error_flags_ else psr.error_flags_.assign obj.name (res.msg.getD []),
        psr.undefined_names_⟩ := by
  obtain ⟨res, hres, hq, _⟩ := ProcessSingleOptionLocked_value libc psr p value obj hobj
  refine ⟨res, hres, ?_⟩
  unfold CommandLineFlagParser.applyToken
  rw [ht, split_inline _ name value p hname hfind]
  simp only [bind, Except.bind, pure, Except.pure, hq]

/-- The records of an unknown key survive `applyToken`: `undefined_names_` still holds the
key, and `error_flags_` still holds the unknown-flag message under it. -/
theorem applyToken_keeps_unknown (libc : Libc) (psr psr1 : CommandLineFlagParser)
    (t key : CStr) (hwf : psr.registry_.WellFormed)
    (hdirect : psr.registry_.FindFlagLocked key = none)
    (hneg : ∀ x, key = 'n' :: 'o' :: x → psr.registry_.FindFlagLocked x = none)
    (h : psr.applyToken libc t = .ok psr1)
    (hu : psr.undefined_names_ key = some [])
    (he : psr.error_flags_ key = some (unknownFlagMessage key)) :
    psr1.undefined_names_ key = some [] ∧
      psr1.error_flags_ key = some (unknownFlagMessage key) ∧
      psr.registry_.SameFlags psr1.registry_ := by
  obtain ⟨r, hr, hp⟩ := hwf.split_ok (stripDashes t)
  unfold CommandLineFlagParser.applyToken at h
  simp only [hr, bind, Except.bind, pure, Except.pure] at h
  cases hflag : r.flag with
  | none =>
    simp only [hflag] at h
    cases h
    have hkey := split_none_key _ _ r hr hflag
    refine ⟨?_, ?_, FlagRegistry.SameFlags.refl _⟩
    · simp only [StrMap.assign]
      split
      · rfl
      · exact hu
    · simp only [StrMap.assign]
      split
      · rename_i hk
        rw [hkey] at hk
        subst hk
        obtain ⟨v, hv⟩ := split_unknown psr.registry_ (stripDashes t) hdirect hneg
        rw [hv] at hr
        cases hr
        rfl
      · exact he
  | some p =>
    simp only [hflag] at h
    cases hv : r.v with
    | none =>
      simp only [hv] at h
      cases h
      exact ⟨hu, he, FlagRegistry.SameFlags.refl _⟩
    | some value =>
      simp only [hv] at h
      obtain ⟨obj, hobj, _⟩ := hp p hflag
      obtain ⟨res, _, hq, hsame⟩ := ProcessSingleOptionLocked_value libc psr p value obj hobj
      simp only [hq] at h
      cases h
      refine ⟨hu, ?_, hsame⟩
      obtain ⟨k, hk⟩ := split_flag_mem _ _ r p hr hflag
      have hfound := hwf.name_found k p obj hk hobj
      have hne : key ≠ obj.name := by
        intro hx
        rw [← hx, hdirect] at hfound
        cases hfound
      simp only []
      split
      · exact he
      · simp only [StrMap.assign, if_neg hne]
        exact he

/-- The records of an unknown key survive a sequence of `applyToken` steps. -/
theorem foldlM_applyToken_keeps_unknown (libc : Libc) (key : CStr) :
    ∀ (ts : List CStr) (psr psr1 : CommandLineFlagParser), psr.registry_.WellFormed →
      psr.registry_.FindFlagLocked key = none →
      (∀ x, key = 'n' :: 'o' :: x → psr.registry_.FindFlagLocked x = none) →
      ts.foldlM (fun q t => q.applyToken libc t) psr = .ok psr1 →
      psr.undefined_names_ key = some [] →
      psr.error_flags_ key = some (unknownFlagMessage key) →
      psr1.undefined_names_ key = some [] ∧
        psr1.error_flags_ key = some (unknownFlagMessage key) := by
  intro ts
  induction ts with
  | nil =>
    intro psr psr1 _ _ _ h hu he
    cases h
    exact ⟨hu, he⟩
  | cons t ts ih =>
    intro psr psr1 hwf hdirect hneg h hu he
    rw [List.foldlM_cons] at h
    cases ha : psr.applyToken libc t with
    | error e => simp [ha, bind, Except.bind] at h
    | ok psr2 =>
      simp only [ha, bind, Except.bind] at h
      obtain ⟨hu2, he2, hsame⟩ := applyToken_keeps_unknown libc psr psr2 t key hwf hdirect hneg
        ha hu he
      have hfl := hsame.1
      refine ih psr2 psr1 (hsame.wellFormed hwf) ?_ ?_ h hu2 he2
      · rw [FlagRegistry.FindFlagLocked_congr _ _ hfl]; exact hdirect
      · intro x hx
        rw [FlagRegistry.FindFlagLocked_congr _ _ hfl]; exact hneg x hx

/-! ## Lemmas on the scan as a whole: it returns, and what it keeps -/

/-- A flag that `SplitArgumentLocked` returns is the one `FindFlagLocked` finds under the
returned key. -/
theorem split_key_found (reg : FlagRegistry) (arg : CStr) (r : SplitResult) (p : Nat)
    (h : reg.SplitArgumentLocked arg = .ok r) (hflag : r.flag = some p) :
    reg.FindFlagLocked r.key = some p := by
  unfold FlagRegistry.SplitArgumentLocked at h
  simp only [] at h
  split at h
  · split at h
    · split at h
      · cases h; cases hflag
      · rename_i q hq
        cases hd : reg.deref q with
        | error e => simp [hd, bind, Except.bind] at h
        | ok f =>
          simp only [hd, bind, Except.bind, pure, Except.pure] at h
          split at h
          · cases h; cases hflag
          · cases h; cases hflag
            exact hq
    · cases h; cases hflag
  · rename_i q hq
    split at h
    · cases hd : reg.deref q with
      | error e => simp [hd, bind, Except.bind] at h
      | ok f =>
        simp only [hd, bind, Except.bind, pure, Except.pure] at h
        split at h
        · cases h; cases hflag; exact hq
        · cases h; cases hflag; exact hq
    · cases h; cases hflag; exact hq

/-- The pass over an option token that resolves to a flag and takes its value from the next
slot: `SetFlagLocked` is applied with that slot as the text, and the scan moves on by two
tokens. -/
theorem scanBody_separate (libc : Libc) (s : ScanState) (tok value : CStr) (r : SplitResult)
    (p : Nat) (obj : CommandLineFlag)
    (hget : s.argv[s.i]? = some tok) (hopt : isProgramArgument tok = false)
    (hne : tok ≠ "--".toList)
    (hsplit : s.psr.registry_.SplitArgumentLocked (stripDashes tok) = .ok r)
    (hflag : r.flag = some p) (hv : r.v = none) (hobj : s.psr.registry_.deref p = .ok obj)
    (hnext : s.i + 1 < s.first_nonopt) (hvalue : s.argv[s.i + 1]? = some value) :
    ∃ res, FlagRegistry.SetFlagLocked libc obj value .SET_FLAGS_VALUE (some []) = .ok res ∧
      scanBody libc s = .ok (false, ⟨s.argv, s.i + 2, s.first_nonopt,
        ⟨s.psr.registry_.store p res.flag,
         if res.ok then s.psr.error_flags_ else s.psr.error_flags_.assign obj.name (res.msg.getD []),
         s.psr.undefined_names_⟩,
        s.cout ++
          (if value.head? = some '-' && obj.Type_ = .FV_STRING &&
              (strstr_found obj.help "true".toList || strstr_found obj.help "false".toList)
           then "Did you really mean to set flag '".toList ++ obj.name ++
             "' to the value '".toList ++ value ++ "'?".toList
           else [])⟩) := by
  have hne2 : stripDashes tok ≠ [] := fun hx => hne ((stripDashes_eq_nil tok hopt).1 hx)
  have hnb := split_without_value_not_bool _ _ r p obj hsplit hflag hv hobj
  obtain ⟨res, hres, hq, _⟩ := ProcessSingleOptionLocked_value libc s.psr p value obj hobj
  refine ⟨res, hres, ?_⟩
  unfold scanBody
  simp only [hget, hopt, hne2, hsplit, bind, Except.bind, pure, Except.pure, Bool.false_eq_true,
    if_false, hflag, hv, hobj, hnb, hvalue, hq]
  rw [if_neg (by omega)]

/-- A pass through the body of the loop, entered within bounds over a well-formed registry,
returns, and leaves the boundary within the vector, whose length it keeps. -/
theorem scanBody_total (libc : Libc) (s : ScanState) (hb : s.InBounds)
    (hi : s.i < s.first_nonopt) (hwf : s.psr.registry_.WellFormed) :
    ∃ b s1, scanBody libc s = .ok (b, s1) ∧ 1 ≤ s1.first_nonopt ∧
      s1.first_nonopt ≤ s1.argv.length ∧ s1.argv.length = s.argv.length := by
  have hpass : ∀ s1, scanBody libc s = .ok (false, s1) →
      ∃ b s1, scanBody libc s = .ok (b, s1) ∧ 1 ≤ s1.first_nonopt ∧
        s1.first_nonopt ≤ s1.argv.length ∧ s1.argv.length = s.argv.length := by
    intro s1 h
    obtain ⟨⟨c1, c2, c3⟩, cl, _⟩ := scanBody_pass_bounds libc s s1 hi hb h
    exact ⟨false, s1, h, by omega, c3, cl⟩
  obtain ⟨b1, b2, b3⟩ := hb
  have hlt : s.i < s.argv.length := by omega
  obtain ⟨arg, hget⟩ : ∃ arg, s.argv[s.i]? = some arg := ⟨_, List.getElem?_eq_getElem hlt⟩
  by_cases hp : isProgramArgument arg = true
  · exact hpass _ (scanBody_positional libc s arg hget hp)
  · have hp2 : isProgramArgument arg = false := by simpa using hp
    by_cases hdd : arg = "--".toList
    · subst hdd
      exact ⟨true, _, scanBody_double_dash libc s hget, by simp only; omega, by simp only; omega,
        rfl⟩
    · obtain ⟨r, hr, hvalid⟩ := hwf.split_ok (stripDashes arg)
      cases hflag : r.flag with
      | none => exact hpass _ (scanBody_unresolved libc s arg r hget hp2 hdd hr hflag)
      | some p =>
        obtain ⟨obj, hobj, _⟩ := hvalid p hflag
        cases hv : r.v with
        | some v =>
          obtain ⟨res, _, h⟩ := scanBody_apply libc s arg r p v obj hget hp2 hdd hr hflag hv hobj
          exact hpass _ h
        | none =>
          by_cases hlast : s.first_nonopt ≤ s.i + 1
          · exact ⟨true, _, scanBody_missing_argument libc s arg r p obj hget hp2 hdd hr hflag hv
              hobj hlast, by simp only; omega, b3, rfl⟩
          · have hlt1 : s.i + 1 < s.argv.length := by omega
            obtain ⟨res, _, h⟩ := scanBody_separate libc s arg _ r p obj hget hp2 hdd hr
              hflag hv hobj (by omega) (List.getElem?_eq_getElem hlt1)
            exact hpass _ h

theorem ScanReaches.append (libc : Libc) (s0 s1 s2 : ScanState) (h1 : ScanReaches libc s0 s1)
    (h2 : ScanReaches libc s1 s2) : ScanReaches libc s0 s2 := by
  induction h2 with
  | start => exact h1
  | pass s s3 _ hi hbody ih => exact ScanReaches.pass s s3 ih hi hbody

/-- The loop of the scan, run within bounds over a well-formed registry with as many passes
as slots are left, ends: either at the head of the loop in a state the scan reaches, with
the index at the boundary, or by a `break` in the pass from such a state. -/
theorem scanLoop_total (libc : Libc) :
    ∀ (fuel : Nat) (s : ScanState), s.InBounds → s.psr.registry_.WellFormed →
      s.first_nonopt - s.i ≤ fuel →
      ∃ s1, scanLoop libc fuel s = .ok s1 ∧ 1 ≤ s1.first_nonopt ∧
        s1.first_nonopt ≤ s1.argv.length ∧ s1.argv.length = s.argv.length ∧
        ((ScanReaches libc s s1 ∧ ¬ s1.i < s1.first_nonopt) ∨
          ∃ s2, ScanReaches libc s s2 ∧ s2.i < s2.first_nonopt ∧
            scanBody libc s2 = .ok (true, s1)) := by
  intro fuel
  induction fuel with
  | zero =>
    intro s hb _ hfuel
    have hn : ¬ s.i < s.first_nonopt := by omega
    obtain ⟨b1, b2, b3⟩ := hb
    exact ⟨s, scanLoop_done libc 0 s hn, by omega, b3, rfl, Or.inl ⟨ScanReaches.start, hn⟩⟩
  | succ fuel ih =>
    intro s hb hwf hfuel
    by_cases hi : s.i < s.first_nonopt
    · obtain ⟨b, s1, hbody, c1, c2, c3⟩ := scanBody_total libc s hb hi hwf
      cases b with
      | true =>
        exact ⟨s1, scanLoop_break libc fuel s s1 hi hbody, c1, c2, c3,
          Or.inr ⟨s, ScanReaches.start, hi, hbody⟩⟩
      | false =>
        obtain ⟨hb1, hl1, hm1⟩ := scanBody_pass_bounds libc s s1 hi hb hbody
        have hwf1 := (scanBody_sameFlags libc s s1 false hbody).wellFormed hwf
        obtain ⟨s2, h2, d1, d2, d3, hor⟩ := ih s1 hb1 hwf1 (by omega)
        have hstep : ScanReaches libc s s1 := ScanReaches.pass s s1 ScanReaches.start hi hbody
        refine ⟨s2, ?_, d1, d2, d3.trans hl1, ?_⟩
        · rw [scanLoop_pass libc fuel s s1 hi hbody]; exact h2
        · rcases hor with ⟨hr, hn⟩ | ⟨s3, hr, hi3, hb3⟩
          · exact Or.inl ⟨ScanReaches.append libc s s1 s2 hstep hr, hn⟩
          · exact Or.inr ⟨s3, ScanReaches.append libc s s1 s3 hstep hr, hi3, hb3⟩
    · obtain ⟨b1, b2, b3⟩ := hb
      exact ⟨s, scanLoop_done libc (fuel + 1) s hi, by omega, b3, rfl,
        Or.inl ⟨ScanReaches.start, hi⟩⟩

/-- The records of an unknown key survive `ProcessSingleOptionLocked` on a registered
flag. -/
theorem ProcessSingleOptionLocked_keeps_unknown (libc : Libc) (psr : CommandLineFlagParser)
    (p : Nat) (v key : CStr) (q : CStr × CommandLineFlagParser)
    (hwf : psr.registry_.WellFormed) (hmem : ∃ k, (k, p) ∈ psr.registry_.flags_)
    (hdirect : psr.registry_.FindFlagLocked key = none)
    (h : psr.ProcessSingleOptionLocked libc p (some v) .SET_FLAGS_VALUE = .ok q)
    (hu : psr.undefined_names_ key = some [])
    (he : psr.error_flags_ key = some (unknownFlagMessage key)) :
    q.2.undefined_names_ key = some [] ∧ q.2.error_flags_ key = some (unknownFlagMessage key) := by
  obtain ⟨k, hk⟩ := hmem
  obtain ⟨obj, hobj, _⟩ := hwf.ptr_valid k p hk
  obtain ⟨res, _, hq, _⟩ := ProcessSingleOptionLocked_value libc psr p v obj hobj
  rw [hq] at h
  cases h
  refine ⟨hu, ?_⟩
  have hfound := hwf.name_found k p obj hk hobj
  have hne : key ≠ obj.name := by
    intro hx
    rw [← hx, hdirect] at hfound
    cases hfound
  simp only []
  split
  · exact he
  · simp only [StrMap.assign, if_neg hne]
    exact he

/-- The records of an unknown key survive a pass through the body of the loop. -/
theorem scanBody_keeps_unknown (libc : Libc) (s s1 : ScanState) (b : Bool) (key : CStr)
    (hwf : s.psr.registry_.WellFormed)
    (hdirect : s.psr.registry_.FindFlagLocked key = none)
    (hneg : ∀ x, key = 'n' :: 'o' :: x → s.psr.registry_.FindFlagLocked x = none)
    (h : scanBody libc s = .ok (b, s1))
    (hu : s.psr.undefined_names_ key = some [])
    (he : s.psr.error_flags_ key = some (unknownFlagMessage key)) :
    s1.psr.undefined_names_ key = some [] ∧
      s1.psr.error_flags_ key = some (unknownFlagMessage key) := by
  unfold scanBody at h
  split at h
  · cases h
  · rename_i arg harg
    split at h
    · cases h
      exact ⟨hu, he⟩
    · simp only [] at h
      split at h
      · cases h
        exact ⟨hu, he⟩
      · cases hs : s.psr.registry_.SplitArgumentLocked (stripDashes arg) with
        | error e => simp [hs, bind, Except.bind] at h
        | ok r =>
          simp only [hs, bind, Except.bind, pure, Except.pure] at h
          split at h
          · rename_i hflag
            cases h
            have hkey := split_none_key _ _ r hs hflag
            constructor
            · simp only [StrMap.assign]
              split
              · rfl
              · exact hu
            · simp only [StrMap.assign]
              split
              · rename_i hk
                rw [hkey] at hk
                subst hk
                obtain ⟨v, hv⟩ := split_unknown s.psr.registry_ (stripDashes arg) hdirect hneg
                rw [hv] at hs
                cases hs
                rfl
              · exact he
          · rename_i p hflag
            have hmem := split_flag_mem _ _ r p hs hflag
            have hfound := split_key_found _ _ r p hs hflag
            have hne : key ≠ r.key := by
              intro hx
              rw [← hx, hdirect] at hfound
              cases hfound
            split at h
            · split at h
              · cases h
              · split at h
                · cases h
                · split at h
                  · cases h
                    refine ⟨hu, ?_⟩
                    simp only [StrMap.assign, if_neg hne]
                    exact he
                  · split at h
                    · cases h
                    · split at h
                      · cases h
                      · rename_i q hq
                        cases h
                        exact ProcessSingleOptionLocked_keeps_unknown libc _ _ _ key q hwf hmem
                          hdirect hq hu he
            · split at h
              · cases h
              · rename_i q hq
                cases h
                exact ProcessSingleOptionLocked_keeps_unknown libc _ _ _ key q hwf hmem
                  hdirect hq hu he

/-- The records of an unknown key are in every state the scan reaches from a state that
holds them. -/
theorem ScanReaches.keeps_unknown (libc : Libc) (s0 s : ScanState) (key : CStr)
    (h : ScanReaches libc s0 s) (hwf : s0.psr.registry_.WellFormed)
    (hdirect : s0.psr.registry_.FindFlagLocked key = none)
    (hneg : ∀ x, key = 'n' :: 'o' :: x → s0.psr.registry_.FindFlagLocked x = none)
    (hu : s0.psr.undefined_names_ key = some [])
    (he : s0.psr.error_flags_ key = some (unknownFlagMessage key)) :
    s.psr.undefined_names_ key = some [] ∧
      s.psr.error_flags_ key = some (unknownFlagMessage key) := by
  induction h with
  | start => exact ⟨hu, he⟩
  | pass s s1 hr _ hbody ih =>
    have hsame := ScanReaches.sameFlags libc s0 s hr
    have hfl := hsame.1
    refine scanBody_keeps_unknown libc s s1 false key (hsame.wellFormed hwf) ?_ ?_ hbody ih.1 ih.2
    · rw [FlagRegistry.FindFlagLocked_congr _ _ hfl]; exact hdirect
    · intro x hx
      rw [FlagRegistry.FindFlagLocked_congr _ _ hfl]; exact hneg x hx

/-! ## Lemmas on the cut at the first `=` -/

/-- A name without `=` that resolves to a flag: the flag, the name as key, and the value
`1` for a boolean flag, none for another. -/
theorem split_no_value (reg : FlagRegistry) (name : CStr) (p : Nat) (obj : CommandLineFlag)
    (hname : strchr_found name '=' = false) (hfind : reg.FindFlagLocked name = some p)
    (hobj : reg.deref p = .ok obj) :
    reg.SplitArgumentLocked name =
      .ok ⟨some p, name, if obj.Type_ = .FV_BOOL then some "1".toList else none, []⟩ := by
  unfold FlagRegistry.SplitArgumentLocked
  simp only [takeWhile_no_eq _ hname, hname, hfind, hobj, bind, Except.bind, pure, Except.pure,
    Bool.false_eq_true, if_false]
  split <;> rfl

/-- A text with a `=` is a name without `=`, the `=`, and a rest. -/
theorem cut_at_first_equals (arg : CStr) (h : strchr_found arg '=' = true) :
    ∃ name rest, arg = name ++ '=' :: rest ∧ strchr_found name '=' = false := by
  unfold strchr_found at h ⊢
  induction arg with
  | nil => simp at h
  | cons c cs ih =>
    by_cases hc : c = '='
    · subst hc
      exact ⟨[], cs, rfl, rfl⟩
    · have h2 : cs.contains '=' = true := by
        simp only [List.contains_cons, Bool.or_eq_true] at h
        rcases h with h | h
        · exact absurd (by simpa using h) (Ne.symm hc)
        · exact h
      obtain ⟨name, rest, h3, h4⟩ := ih h2
      refine ⟨c :: name, rest, by rw [h3]; rfl, ?_⟩
      simp only [List.contains_cons, h4, Bool.or_false]
      simpa using Ne.symm hc

/-- The negation form `no<x>=<t>` of a boolean flag `x`: the text `t` plays no role. -/
theorem split_negation_inline (reg : FlagRegistry) (x t : CStr) (p : Nat)
    (obj : CommandLineFlag) (hx : strchr_found x '=' = false)
    (hno : reg.FindFlagLocked ('n' :: 'o' :: x) = none)
    (hfind : mapFind StringCmp reg.flags_ x = some p) (hobj : reg.deref p = .ok obj)
    (hbool : obj.Type_ = .FV_BOOL) :
    reg.SplitArgumentLocked ('n' :: 'o' :: x ++ '=' :: t) =
      .ok ⟨some p, x, some "0".toList, []⟩ := by
  have hx2 : strchr_found ('n' :: 'o' :: x) '=' = false := by
    unfold strchr_found at hx ⊢
    simp only [List.contains_cons, hx]
    decide
  unfold FlagRegistry.SplitArgumentLocked
  simp only [takeWhile_inline _ t hx2, hno, reg.FindFlagLocked_of_find x p hfind, hobj, hbool,
    bind, Except.bind, pure, Except.pure]
  simp

/-- Setting a boolean flag from the text `0` when its validator, if it has one, accepts the
value false. -/
theorem SetFlagLocked_bool_zero_valid (libc : Libc) (obj : CommandLineFlag)
    (hcur : obj.current_.Type_ = .FV_BOOL) (hval : obj.Validate ⟨0, .bool false, true⟩ = true) :
    ∃ msg, FlagRegistry.SetFlagLocked libc obj "0".toList .SET_FLAGS_VALUE (some []) =
      .ok ⟨true, { obj with current_ := { obj.current_ with cell := .bool false },
                            modified_ := true }, msg⟩ := by
  obtain ⟨b, hb⟩ := bool_box_of_Type _ hcur
  have hparse : obj.current_.New.ParseFrom libc "0".toList = (true, ⟨0, .bool false, true⟩) := by
    simp only [FlagValue.New, hb, FlagValue.ParseFrom]
    rfl
  obtain ⟨r, hr, hc⟩ := SetFlagLocked_value_eq libc obj "0".toList (some [])
  rw [hparse] at hc
  rcases hc with ⟨_, _, h3⟩ | ⟨h1, h2, _⟩
  · rcases h3 with h3 | h3
    · cases h3
    · rw [hval] at h3; cases h3
  · refine ⟨r.msg, ?_⟩
    rw [hr]
    rw [UpdateModifiedBit_overwritten] at h2
    cases r
    simp only at h1 h2
    subst h1 h2
    rfl

/-! ## Lemmas on the modified bit and the equality of current and default value -/

theorem FlagValue.Equal_Type (a b : FlagValue) (h : a.Equal b = true) : a.Type_ = b.Type_ := by
  cases a with
  | mk a1 c1 o1 =>
    cases b with
    | mk a2 c2 o2 =>
      cases c1 <;> cases c2 <;> first | rfl | (simp [FlagValue.Equal] at h)

/-- The C `==` on a double and itself: true unless it is a NaN. -/
theorem Double.eq_self (d : Double) : Double.eq d d = !d.isNaN := by
  unfold Double.eq
  cases d.isNaN <;> simp

/-- Two boxes holding the same cell are `Equal`, unless the cell is a double NaN. -/
theorem FlagValue.Equal_of_cell (a b : FlagValue) (h : a.cell = b.cell) :
    a.Equal b = true ∨ ∃ d, a.cell = .double d ∧ b.cell = .double d ∧ d.isNaN = true := by
  cases a with
  | mk a1 c1 o1 =>
    cases b with
    | mk a2 c2 o2 =>
      simp only at h
      subst h
      cases c1 with
      | double d =>
        cases hn : d.isNaN with
        | true => exact Or.inr ⟨d, rfl, rfl, hn⟩
        | false =>
          left
          simp [FlagValue.Equal, Double.eq_self, hn]
      | _ => left; simp [FlagValue.Equal]

/-- After `UpdateModifiedBit`, a flag whose modified bit is false has a current value `Equal`
to its default value. -/
theorem CommandLineFlag.UpdateModifiedBit_equal (f : CommandLineFlag)
    (h : f.UpdateModifiedBit.modified_ = false) : f.current_.Equal f.defvalue_ = true := by
  rw [CommandLineFlag.UpdateModifiedBit_modified] at h
  cases he : f.current_.Equal f.defvalue_
  · simp [he] at h
  · rfl

theorem CommandLineFlag.UpdateModifiedBit_idem (f : CommandLineFlag) :
    f.UpdateModifiedBit.UpdateModifiedBit = f.UpdateModifiedBit := by
  by_cases hc : (!f.modified_ && !f.current_.Equal f.defvalue_) = true
  · simp [CommandLineFlag.UpdateModifiedBit, hc]
  · simp [CommandLineFlag.UpdateModifiedBit, hc]

/-- The function `SetFlagLocked` does on a flag what it does on the flag after
`UpdateModifiedBit`. -/
theorem SetFlagLocked_of_update (libc : Libc) (flag : CommandLineFlag) (value : CStr)
    (set_mode : FlagSettingMode) (msg : Option CStr) :
    FlagRegistry.SetFlagLocked libc flag.UpdateModifiedBit value set_mode msg =
      FlagRegistry.SetFlagLocked libc flag value set_mode msg := by
  unfold FlagRegistry.SetFlagLocked
  simp only [CommandLineFlag.UpdateModifiedBit_idem]

/-- A call of `SetFlagLocked` that returns with the modified bit false, in whatever mode and
with whatever result, leaves a current value that is `Equal` to the default value, or the
very same double NaN in both boxes, which a successful call in `SET_FLAGS_DEFAULT` mode has
just stored there. -/
theorem SetFlagLocked_unmodified_equal (libc : Libc) (flag : CommandLineFlag) (value : CStr)
    (set_mode : FlagSettingMode) (msg : Option CStr) (r : SetFlagResult)
    (h : FlagRegistry.SetFlagLocked libc flag value set_mode msg = .ok r)
    (hm : r.flag.modified_ = false) :
    r.flag.current_.Equal r.flag.defvalue_ = true ∨
      (set_mode = .SET_FLAGS_DEFAULT ∧ r.ok = true ∧
        ∃ d, r.flag.current_.cell = .double d ∧ r.flag.defvalue_.cell = .double d ∧
          d.isNaN = true ∧
          (flag.defvalue_.New.ParseFrom libc value).2.cell = .double d) := by
  have hu : flag.UpdateModifiedBit.modified_ = false := by
    cases hx : flag.UpdateModifiedBit.modified_
    · rfl
    · rw [← SetFlagLocked_of_update] at h
      have := SetFlagLocked_modified_mono libc _ value set_mode msg r h hx
      rw [hm] at this
      cases this
  have he := CommandLineFlag.UpdateModifiedBit_equal flag hu
  by_cases hok : r.ok = true
  · cases set_mode with
    | SET_FLAGS_VALUE =>
      obtain ⟨r1, hr1, hc⟩ := SetFlagLocked_value_eq libc flag value msg
      rw [hr1] at h; cases h
      rcases hc with ⟨h1, _⟩ | ⟨_, h2, _⟩
      · rw [h1] at hok; cases hok
      · rw [h2] at hm; cases hm
    | SET_FLAG_IF_DEFAULT =>
      rw [SetFlagLocked_if_default_unmodified libc flag value msg hu] at h
      obtain ⟨r1, hr1, hc⟩ := SetFlagLocked_value_eq libc flag value msg
      rw [hr1] at h; cases h
      rcases hc with ⟨h1, _⟩ | ⟨_, h2, _⟩
      · rw [h1] at hok; cases hok
      · rw [h2] at hm; cases hm
    | SET_FLAGS_DEFAULT =>
      obtain ⟨r1, hr1, hc⟩ := SetFlagLocked_default_eq libc flag value msg
        (FlagValue.Equal_Type _ _ he)
      rw [hr1] at h; cases h
      rcases hc with ⟨h1, _⟩ | ⟨_, _, _, h4, h5, _⟩
      · rw [h1] at hok; cases hok
      · have h6 := h5 hu
        have hcell : r.flag.current_.cell = r.flag.defvalue_.cell := by rw [h6, h4]
        rcases FlagValue.Equal_of_cell _ _ hcell with h7 | ⟨d, h7, h8, h9⟩
        · exact Or.inl h7
        · refine Or.inr ⟨rfl, hok, d, h7, h8, h9, ?_⟩
          rw [h4] at h8
          exact h8
  · have hok2 : r.ok = false := by simpa using hok
    rw [SetFlagLocked_false_eq libc flag value set_mode msg r h hok2]
    rw [CommandLineFlag.UpdateModifiedBit_current, CommandLineFlag.UpdateModifiedBit_defvalue]
    exact Or.inl he

/-! ## Lemmas on the characters that the `strtol` family consumes -/

/-- When `scanDigits` has read every character, every character is a digit of the base. -/
theorem scanDigits_full (base : Nat) :
    ∀ (l : CStr) (acc n : Nat), (scanDigits base l acc n).2 = n + l.length →
      ∀ c ∈ l, digitIn base c ≠ none := by
  intro l
  induction l with
  | nil => intro _ _ _ c hc; simp at hc
  | cons c cs ih =>
    intro acc n h x hx
    rw [scanDigits] at h
    cases hd : digitIn base c with
    | none =>
      rw [hd] at h
      simp only [List.length_cons] at h
      omega
    | some d =>
      rw [hd] at h
      simp only [List.length_cons] at h
      rcases List.mem_cons.1 hx with rfl | hx
      · rw [hd]; simp
      · exact ih (acc * base + d) (n + 1) (by omega) x hx

theorem digitIn_minus (base : Nat) : digitIn base '-' = none := by
  have : digitValue '-' = none := by decide
  simp [digitIn, this]

/-- A text that `scanDigits` reads in full holds no `-`. -/
theorem scanDigits_full_no_minus (base : Nat) (l : CStr) (acc n : Nat)
    (h : (scanDigits base l acc n).2 = n + l.length) : '-' ∉ l :=
  fun hm => scanDigits_full base l acc n h '-' hm (digitIn_minus base)

theorem scanDigits_zero (base : Nat) :
    ∀ (l : CStr) (acc n : Nat), (scanDigits base l acc n).2 = 0 → n = 0 := by
  intro l
  induction l with
  | nil => intro acc n h; simpa [scanDigits] using h
  | cons c cs ih =>
    intro acc n h
    rw [scanDigits] at h
    cases hd : digitIn base c with
    | none => rw [hd] at h; exact h
    | some d =>
      rw [hd] at h
      have := ih _ _ h
      omega

/-- After the sign: a text that the digits scan, with the optional `0x`, reads in full
holds no `-`. -/
theorem consumed_body_no_minus (base off : Nat) (b : CStr) (r : ScanNum)
    (h1 : ∀ x t, b = '0' :: x :: t → base = 16 ∧ (x = 'x' ∨ x = 'X') →
      r.consumed = if (scanDigits base t 0 0).2 = 0 then off + 1
        else off + 2 + (scanDigits base t 0 0).2)
    (h2 : (∀ x t, b = '0' :: x :: t → ¬ (base = 16 ∧ (x = 'x' ∨ x = 'X'))) →
      r.consumed = if (scanDigits base b 0 0).2 = 0 then 0
        else off + (scanDigits base b 0 0).2)
    (hlen : r.consumed = off + b.length) (hpos : off + b.length ≠ 0) : '-' ∉ b := by
  intro hmem
  by_cases hp : ∃ x t, b = '0' :: x :: t ∧ base = 16 ∧ (x = 'x' ∨ x = 'X')
  · obtain ⟨x, t, hbt, hcond⟩ := hp
    have h := h1 x t hbt hcond
    rw [hlen] at h
    subst hbt
    simp only [List.length_cons] at h
    split at h
    · omega
    · have hfull : (scanDigits base t 0 0).2 = 0 + t.length := by omega
      have hno := scanDigits_full_no_minus base t 0 0 hfull
      rcases List.mem_cons.1 hmem with h3 | h3
      · cases h3
      · rcases List.mem_cons.1 h3 with h4 | h4
        · rcases hcond.2 with rfl | rfl <;> cases h4
        · exact hno h4
  · have h := h2 (fun x t hbt hcond => hp ⟨x, t, hbt, hcond⟩)
    rw [hlen] at h
    split at h
    · omega
    · have hfull : (scanDigits base b 0 0).2 = 0 + b.length := by omega
      exact scanDigits_full_no_minus base b 0 0 hfull hmem

/-- A text that starts with neither white space nor a minus sign and that the `strtol`
family consumes in full holds no `-`. -/
theorem scanNumber_full_no_minus (c : Char) (rest : CStr) (base : Nat)
    (hsp : isspace c = false) (hm : c ≠ '-')
    (h : (scanNumber (c :: rest) base).consumed = (c :: rest).length) :
    '-' ∉ c :: rest := by
  by_cases hplus : c = '+'
  · subst hplus
    have hrest : '-' ∉ rest := by
      refine consumed_body_no_minus base 1 rest (scanNumber ('+' :: rest) base) ?_ ?_ ?_ ?_
      · intro x t hb hcond
        subst hb
        unfold scanNumber
        simp [hsp, hcond]
        split <;> simp_all
      · intro hno
        unfold scanNumber
        cases rest with
        | nil => simp [hsp, scanDigits]
        | cons y r2 =>
          cases r2 with
          | nil =>
            by_cases hy : y = '0'
            · subst hy; simp [hsp]; split <;> simp_all
            · simp [hsp, hy]; split <;> simp_all
          | cons x t =>
            by_cases hy : y = '0'
            · subst hy
              have hc := hno x t rfl
              simp [hsp, hc]
              split <;> simp_all
            · simp [hsp, hy]; split <;> simp_all
      · rw [h]; simp [Nat.add_comm]
      · omega
    intro hmem
    rcases List.mem_cons.1 hmem with h3 | h3
    · cases h3
    · exact hrest h3
  · refine consumed_body_no_minus base 0 (c :: rest) (scanNumber (c :: rest) base) ?_ ?_ ?_ ?_
    · intro x t hb hcond
      cases hb
      unfold scanNumber
      simp [hcond]
      split <;> simp_all
    · intro hno
      unfold scanNumber
      cases rest with
      | nil =>
        by_cases hy : c = '0'
        · subst hy; simp; split <;> simp_all
        · simp [hsp, hy, hm, hplus]; split <;> simp_all
      | cons x t =>
        by_cases hy : c = '0'
        · subst hy
          have hc := hno x t rfl
          by_cases hb16 : base = 16
          · have hx1 : x ≠ 'x' := fun hx => hc ⟨hb16, Or.inl hx⟩
            have hx2 : x ≠ 'X' := fun hx => hc ⟨hb16, Or.inr hx⟩
            simp [hb16, hx1, hx2]
            split <;> simp_all
          · simp [hb16]
            split <;> simp_all
        · simp [hsp, hy, hm, hplus]; split <;> simp_all
    · rw [h]; simp
    · simp

theorem strtoull_endp (l : CStr) (base : Nat) :
    (strtoull l base).endp = (scanNumber l base).consumed := by
  unfold strtoull
  simp only []
  split
  · rfl
  · split <;> rfl

/-- The characters that `skipSpaces` drops are spaces, and what it leaves does not start
with one. -/
theorem skipSpaces_spec (text : CStr) :
    (∀ c, c ∈ text → c ≠ ' ' → c ∈ skipSpaces text) ∧
      ∀ c rest, skipSpaces text = c :: rest → c ≠ ' ' := by
  unfold skipSpaces
  induction text with
  | nil => exact ⟨fun c hc => by simp at hc, fun c rest h => by simp at h⟩
  | cons d ds ih =>
    by_cases hd : d = ' '
    · subst hd
      simp only [List.dropWhile_cons, decide_True, if_true]
      refine ⟨fun c hc hne => ?_, ih.2⟩
      rcases List.mem_cons.1 hc with h | h
      · exact absurd h hne
      · exact ih.1 c h hne
    · have : (List.dropWhile (fun c => decide (c = ' ')) (d :: ds)) = d :: ds := by
        simp [List.dropWhile_cons, hd]
      rw [this]
      refine ⟨fun c hc _ => hc, fun c rest h => ?_⟩
      cases h
      exact hd

/-- What an unsigned box requires of a text that it accepts. -/
theorem ParseFrom_unsigned_accepts (libc : Libc) (fv : FlagValue) (text : CStr)
    (hk : fv.Type_ = .FV_UINT32 ∨ fv.Type_ = .FV_UINT64)
    (h : (fv.ParseFrom libc text).1 = true) :
    text ≠ [] ∧ (skipSpaces text).head? ≠ some '-' ∧
      (scanNumber (skipSpaces text) (parseBase text)).consumed = (skipSpaces text).length := by
  have hguard : (skipSpaces text).head? ≠ some '-' := by
    intro hm
    rw [ParseFrom_unsigned_minus libc fv text hk hm] at h
    cases h
  cases fv with
  | mk a c o =>
    cases c <;> simp [FlagValue.Type_] at hk
    · rename_i u0
      obtain ⟨h1, h2, _⟩ := (ParseFrom_unsigned_true libc a o u0 text).1 h
      exact ⟨h1, hguard, by rw [← strtoull_endp]; exact h2⟩
    · rename_i u0
      obtain ⟨h1, h2, _⟩ := (ParseFrom_unsigned_true libc a o u0 text).2 h
      exact ⟨h1, hguard, by rw [← strtoull_endp]; exact h2⟩

/-- An unsigned box accepts a text with a `-` only if, behind the leading spaces, the text
goes on with a white-space character other than the space. -/
theorem ParseFrom_unsigned_minus_accepted (libc : Libc) (fv : FlagValue) (text : CStr)
    (hk : fv.Type_ = .FV_UINT32 ∨ fv.Type_ = .FV_UINT64)
    (h : (fv.ParseFrom libc text).1 = true) (hmem : '-' ∈ text) :
    ∃ c rest, skipSpaces text = c :: rest ∧ isspace c = true ∧ c ≠ ' ' := by
  obtain ⟨_, hguard, hfull⟩ := ParseFrom_unsigned_accepts libc fv text hk h
  obtain ⟨hkeep, hhead⟩ := skipSpaces_spec text
  have hmem2 := hkeep '-' hmem (by decide)
  cases hs : skipSpaces text with
  | nil => rw [hs] at hmem2; simp at hmem2
  | cons c rest =>
    refine ⟨c, rest, rfl, ?_, hhead c rest hs⟩
    rw [hs] at hguard hfull hmem2
    have hc : c ≠ '-' := by
      intro hx
      subst hx
      exact hguard rfl
    cases hsp : isspace c with
    | true => rfl
    | false => exact absurd hmem2 (scanNumber_full_no_minus c rest _ hsp hc hfull)

/-! ## Lemmas on the end of the scan loop -/

theorem FlagRegistry.deref_not_outOfFuel (reg : FlagRegistry) (p : Nat) :
    reg.deref p ≠ .error .outOfFuel := by
  intro h
  have := (reg.deref_eq_error p _).1 h
  cases this.2

theorem SplitArgumentLocked_not_outOfFuel (reg : FlagRegistry) (arg : CStr) :
    reg.SplitArgumentLocked arg ≠ .error .outOfFuel := by
  intro h
  unfold FlagRegistry.SplitArgumentLocked at h
  simp only [] at h
  split at h
  · split at h
    · split at h
      · cases h
      · rename_i q hq
        cases hd : reg.deref q with
        | error e =>
          simp only [hd, bind, Except.bind] at h
          cases h
          exact reg.deref_not_outOfFuel q hd
        | ok f =>
          simp only [hd, bind, Except.bind, pure, Except.pure] at h
          split at h <;> cases h
    · cases h
  · rename_i q hq
    split at h
    · cases hd : reg.deref q with
      | error e =>
        simp only [hd, bind, Except.bind] at h
        cases h
        exact reg.deref_not_outOfFuel q hd
      | ok f =>
        simp only [hd, bind, Except.bind, pure, Except.pure] at h
        split at h <;> cases h
    · cases h

theorem ProcessSingleOptionLocked_not_outOfFuel (libc : Libc) (psr : CommandLineFlagParser)
    (p : Nat) (v : CStr) :
    psr.ProcessSingleOptionLocked libc p (some v) .SET_FLAGS_VALUE ≠ .error .outOfFuel := by
  intro h
  cases hobj : psr.registry_.deref p with
  | error e =>
    simp only [CommandLineFlagParser.ProcessSingleOptionLocked, hobj, bind, Except.bind] at h
    cases h
    exact psr.registry_.deref_not_outOfFuel p hobj
  | ok obj =>
    obtain ⟨r, _, hq, _⟩ := ProcessSingleOptionLocked_value libc psr p v obj hobj
    rw [hq] at h
    cases h

/-- A pass through the body of the loop has no loop of its own to run out of passes. -/
theorem scanBody_not_outOfFuel (libc : Libc) (s : ScanState) :
    scanBody libc s ≠ .error .outOfFuel := by
  intro h
  unfold scanBody at h
  split at h
  · cases h
  · rename_i arg harg
    split at h
    · cases h
    · simp only [] at h
      split at h
      · cases h
      · cases hs : s.psr.registry_.SplitArgumentLocked (stripDashes arg) with
        | error e =>
          simp only [hs, bind, Except.bind] at h
          cases h
          exact SplitArgumentLocked_not_outOfFuel _ _ hs
        | ok r =>
          simp only [hs, bind, Except.bind, pure, Except.pure] at h
          split at h
          · cases h
          · rename_i p hflag
            split at h
            · cases hd : s.psr.registry_.deref p with
              | error e =>
                simp only [hd] at h
                cases h
                exact s.psr.registry_.deref_not_outOfFuel p hd
              | ok obj =>
                simp only [hd] at h
                split at h
                · cases h
                · split at h
                  · cases h
                  · split at h
                    · cases h
                    · rename_i value hvalue
                      cases hq : s.psr.ProcessSingleOptionLocked libc p (some value)
                          .SET_FLAGS_VALUE with
                      | error e =>
                        simp only [hq] at h
                        cases h
                        exact ProcessSingleOptionLocked_not_outOfFuel libc _ p value hq
                      | ok q =>
                        simp only [hq] at h
                        cases h
            · rename_i value hv
              cases hq : s.psr.ProcessSingleOptionLocked libc p (some value)
                  .SET_FLAGS_VALUE with
              | error e =>
                simp only [hq] at h
                cases h
                exact ProcessSingleOptionLocked_not_outOfFuel libc _ p value hq
              | ok q =>
                simp only [hq] at h
                cases h

/-- The loop of the scan, entered within bounds with as many passes as slots are left
before the boundary, never runs out of passes. -/
theorem scanLoop_not_outOfFuel (libc : Libc) :
    ∀ (fuel : Nat) (s : ScanState), s.InBounds → s.first_nonopt - s.i ≤ fuel →
      scanLoop libc fuel s ≠ .error .outOfFuel := by
  intro fuel
  induction fuel with
  | zero =>
    intro s _ hfuel
    rw [scanLoop_done libc 0 s (by omega)]
    intro h; cases h
  | succ fuel ih =>
    intro s hb hfuel
    by_cases hi : s.i < s.first_nonopt
    · cases hbody : scanBody libc s with
      | error e =>
        simp only [scanLoop, hi, if_true, hbody, bind, Except.bind]
        intro h
        cases h
        exact scanBody_not_outOfFuel libc s hbody
      | ok r =>
        obtain ⟨b, s1⟩ := r
        cases b with
        | true =>
          rw [scanLoop_break libc fuel s s1 hi hbody]
          intro h; cases h
        | false =>
          rw [scanLoop_pass libc fuel s s1 hi hbody]
          obtain ⟨hb1, _, hm⟩ := scanBody_pass_bounds libc s s1 hi hb hbody
          exact ih s1 hb1 (by omega)
    · rw [scanLoop_done libc (fuel + 1) s hi]
      intro h; cases h

/-- The method `ParseNewCommandLineFlags` never runs out of passes. -/
theorem parse_not_outOfFuel (libc : Libc) (self : CommandLineFlagParser) (prog : CStr)
    (rest : List CStr) (remove_flags : Bool) :
    self.ParseNewCommandLineFlags libc (prog :: rest) remove_flags ≠ .error .outOfFuel := by
  have hloop := scanLoop_not_outOfFuel libc (prog :: rest).length
    (ScanState.init self (prog :: rest)) (ScanState.init_inBounds self prog rest)
    (by simp [ScanState.init])
  unfold CommandLineFlagParser.ParseNewCommandLineFlags
  cases hs : scanLoop libc (prog :: rest).length (ScanState.init self (prog :: rest)) with
  | error e =>
    simp only [bind, Except.bind]
    intro h
    cases h
    exact hloop hs
  | ok s =>
    simp only [bind, Except.bind, pure, Except.pure]
    cases remove_flags with
    | false => intro h; cases h
    | true =>
      simp only [if_true]
      split
      · intro h; cases h
      · split <;> (intro h; cases h)

/-- On a well-formed registry `ParseNewCommandLineFlags` returns, with a boundary within
the vector it hands back. -/
theorem parse_total (libc : Libc) (self : CommandLineFlagParser) (prog : CStr)
    (rest : List CStr) (remove_flags : Bool) (hwf : self.registry_.WellFormed) :
    ∃ s1 out, scanLoop libc (prog :: rest).length (ScanState.init self (prog :: rest)) =
        .ok s1 ∧
      1 ≤ s1.first_nonopt ∧ s1.first_nonopt ≤ s1.argv.length ∧
      s1.argv.length = (prog :: rest).length ∧
      self.ParseNewCommandLineFlags libc (prog :: rest) remove_flags = .ok out ∧
      out.psr = s1.psr ∧ out.cout = s1.cout ∧
      (remove_flags = false → out.result = s1.first_nonopt ∧ out.argv = s1.argv) := by
  obtain ⟨s1, h1, c1, c2, c3, _⟩ := scanLoop_total libc (prog :: rest).length
    (ScanState.init self (prog :: rest)) (ScanState.init_inBounds self prog rest) hwf
    (by simp [ScanState.init])
  obtain ⟨out, ho, h2, h3, h4⟩ := parse_of_loop libc self (prog :: rest) remove_flags s1 h1
    ⟨c1, c2⟩
  exact ⟨s1, out, h1, c1, c2, c3, ho, h2, h3, h4⟩

/-! ## Lemmas on the vector during the scan -/

/-- What a pass that stays in the loop does to the vector and the boundary: nothing, or it
moves the program argument at the index behind the end and lowers the boundary by one,
leaving the index where it is. -/
theorem scanBody_pass_argv (libc : Libc) (s s1 : ScanState)
    (h : scanBody libc s = .ok (false, s1)) :
    (s1.argv = s.argv ∧ s1.first_nonopt = s.first_nonopt ∧ s.i < s1.i) ∨
      ∃ arg, s.argv[s.i]? = some arg ∧ isProgramArgument arg = true ∧
        s1.argv = s.argv.eraseIdx s.i ++ [arg] ∧ s1.first_nonopt = s.first_nonopt - 1 ∧
        s1.i = s.i := by
  unfold scanBody at h
  split at h
  · cases h
  · rename_i arg harg
    split at h
    · rename_i hp
      cases h
      exact Or.inr ⟨arg, harg, hp, rfl, rfl, rfl⟩
    · simp only [] at h
      split at h
      · cases h
      · cases hs : s.psr.registry_.SplitArgumentLocked (stripDashes arg) with
        | error e => simp [hs, bind, Except.bind] at h
        | ok r =>
          simp only [hs, bind, Except.bind, pure, Except.pure] at h
          split at h
          · cases h
            exact Or.inl ⟨rfl, rfl, by simp only; omega⟩
          · split at h
            · split at h
              · cases h
              · split at h
                · cases h
                · split at h
                  · cases h
                  · split at h
                    · cases h
                    · split at h
                      · cases h
                      · cases h
                        exact Or.inl ⟨rfl, rfl, by simp only; omega⟩
            · split at h
              · cases h
              · cases h
                exact Or.inl ⟨rfl, rfl, by simp only; omega⟩

/-- The two ways in which a pass leaves the loop: at the token `--`, or at an option token
that resolves to a flag, carries no value, and is the last token before the boundary. -/
theorem scanBody_break_cases (libc : Libc) (s s1 : ScanState)
    (h : scanBody libc s = .ok (true, s1)) :
    (s.argv[s.i]? = some "--".toList ∧ s1 = { s with first_nonopt := s.i + 1 }) ∨
      ∃ (tok : CStr) (r : SplitResult) (p : Nat) (obj : CommandLineFlag),
        s.argv[s.i]? = some tok ∧ isProgramArgument tok = false ∧ tok ≠ "--".toList ∧
        s.psr.registry_.SplitArgumentLocked (stripDashes tok) = .ok r ∧
        r.flag = some p ∧ r.v = none ∧ s.psr.registry_.deref p = .ok obj ∧
        obj.Type_ ≠ .FV_BOOL ∧ s.first_nonopt ≤ s.i + 1 ∧
        s1 = { s with psr := { s.psr with
          error_flags_ := s.psr.error_flags_.assign r.key
            (missingArgumentMessage tok obj.help) } } := by
  unfold scanBody at h
  split at h
  · cases h
  · rename_i arg harg
    split at h
    · cases h
    · rename_i hp
      have hp2 : isProgramArgument arg = false := by simpa using hp
      simp only [] at h
      split at h
      · rename_i hnil
        cases h
        exact Or.inl ⟨by rw [harg, (stripDashes_eq_nil arg hp2).1 hnil], rfl⟩
      · rename_i hnil
        have hne : arg ≠ "--".toList := fun hx => hnil ((stripDashes_eq_nil arg hp2).2 hx)
        cases hs : s.psr.registry_.SplitArgumentLocked (stripDashes arg) with
        | error e => simp [hs, bind, Except.bind] at h
        | ok r =>
          simp only [hs, bind, Except.bind, pure, Except.pure] at h
          split at h
          · cases h
          · rename_i p hflag
            split at h
            · rename_i hv
              split at h
              · cases h
              · rename_i obj hobj
                split at h
                · cases h
                · rename_i hnb
                  split at h
                  · rename_i hlast
                    cases h
                    exact Or.inr ⟨arg, r, p, obj, harg, hp2, hne, hs, hflag, hv, hobj, hnb,
                      hlast, rfl⟩
                  · split at h
                    · cases h
                    · split at h
                      · cases h
                      · cases h
            · split at h
              · cases h
              · cases h

theorem eraseIdx_head (α : Type) (l : List α) (i : Nat) (hi : 1 ≤ i) (x : α) (hne : l ≠ []) :
    (l.eraseIdx i ++ [x])[0]? = l[0]? := by
  cases l with
  | nil => exact absurd rfl hne
  | cons a as =>
    obtain ⟨j, rfl⟩ : ∃ j, i = j + 1 := ⟨i - 1, by omega⟩
    simp

theorem drop_eraseIdx (α : Type) (l : List α) (i n : Nat) (hi : i < n) (hn : n ≤ l.length) :
    (l.eraseIdx i).drop (n - 1) = l.drop n := by
  induction l generalizing i n with
  | nil => simp
  | cons a as ih =>
    cases n with
    | zero => omega
    | succ n =>
      cases i with
      | zero => simp
      | succ i =>
        simp only [List.length_cons] at hn
        cases n with
        | zero => omega
        | succ n =>
          simp only [List.eraseIdx_cons_succ, Nat.add_sub_cancel, List.drop_succ_cons]
          have := ih i (n + 1) (by omega) (by omega)
          simpa using this

theorem perm_eraseIdx_append (α : Type) (l : List α) (i : Nat) (x : α) (h : l[i]? = some x) :
    (l.eraseIdx i ++ [x]).Perm l := by
  induction l generalizing i with
  | nil => simp at h
  | cons a as ih =>
    cases i with
    | zero =>
      simp only [List.getElem?_cons_zero, Option.some.injEq] at h
      subst h
      simp only [List.eraseIdx_cons_zero]
      exact List.perm_append_singleton _ _
    | succ i =>
      simp only [List.getElem?_cons_succ] at h
      simp only [List.eraseIdx_cons_succ, List.cons_append]
      exact List.Perm.cons a (ih i h)

/-- Every state the scan reaches holds the tokens it started with, the program name in
slot 0, and program arguments only from the boundary on, when it started so. -/
theorem ScanReaches.vector (libc : Libc) (s0 s : ScanState) (h : ScanReaches libc s0 s)
    (hb : s0.InBounds) (htail : ∀ t ∈ s0.argv.drop s0.first_nonopt, isProgramArgument t = true) :
    s.argv.Perm s0.argv ∧ s.argv[0]? = s0.argv[0]? ∧
      ∀ t ∈ s.argv.drop s.first_nonopt, isProgramArgument t = true := by
  induction h with
  | start => exact ⟨List.Perm.refl _, rfl, htail⟩
  | pass s s1 hr hi hbody ih =>
    obtain ⟨ih1, ih2, ih3⟩ := ih
    obtain ⟨⟨b1, b2, b3⟩, _, _⟩ := ScanReaches.loop_eq libc s0 s hr hb
      (s0.first_nonopt - s0.i) (Nat.le_refl _)
    rcases scanBody_pass_argv libc s s1 hbody with ⟨h1, h2, _⟩ | ⟨arg, h1, h2, h3, h4, _⟩
    · rw [h1, h2]
      exact ⟨ih1, ih2, ih3⟩
    · rw [h3, h4]
      refine ⟨(perm_eraseIdx_append _ s.argv s.i arg h1).trans ih1, ?_, ?_⟩
      · have hne : s.argv ≠ [] := by
          intro hx
          rw [hx] at b3
          simp at b3
          omega
        rw [eraseIdx_head _ s.argv s.i b1 arg hne, ← ih2]
      · intro t ht
        have hlen : s.first_nonopt - 1 ≤ (s.argv.eraseIdx s.i).length := by
          rw [List.length_eraseIdx]
          split <;> omega
        rw [List.drop_append_of_le_length hlen, drop_eraseIdx _ s.argv s.i s.first_nonopt hi b3]
          at ht
        rcases List.mem_append.1 ht with h5 | h5
        · exact ih3 t h5
        · simp only [List.mem_singleton] at h5
          rw [h5]; exact h2

/-- The vector at the start of the scan has no token behind the boundary. -/
theorem ScanState.init_tail (self : CommandLineFlagParser) (argv : List CStr) :
    ∀ t ∈ (ScanState.init self argv).argv.drop (ScanState.init self argv).first_nonopt,
      isProgramArgument t = true := by
  intro t ht
  simp [ScanState.init] at ht

/-- The scan over a stretch of tokens none of which is `--` or takes its value from the
next slot, with `k` more slots before the boundary: it reaches the state in which the
option tokens of the stretch stand where the stretch began, its program arguments stand
behind the end of the vector, in their order, and the parser is the one that `applyToken`,
applied to the option tokens from left to right, leaves. -/
theorem scanReaches_partition (libc : Libc) (prog : CStr) (psr0 : CommandLineFlagParser)
    (hwf0 : psr0.registry_.WellFormed) (k : Nat) :
    ∀ (todo done tail : List CStr) (psr : CommandLineFlagParser) (cout : CStr),
      psr0.registry_.SameFlags psr.registry_ →
      (∀ t ∈ todo, t ≠ "--".toList) →
      (∀ t ∈ todo, isProgramArgument t = false → psr0.registry_.needsSeparateValue t = false) →
      ∃ psr1, ScanReaches libc
          ⟨prog :: (done ++ todo ++ tail), 1 + done.length, 1 + done.length + todo.length + k,
            psr, cout⟩
          ⟨prog :: ((done ++ optionTokens todo) ++ (tail ++ todo.filter isProgramArgument)),
            1 + (done ++ optionTokens todo).length,
            1 + (done ++ optionTokens todo).length + k, psr1, cout⟩ ∧
        (optionTokens todo).foldlM
          (fun (q : CommandLineFlagParser) (t : CStr) => q.applyToken libc t) psr = .ok psr1 ∧
        psr0.registry_.SameFlags psr1.registry_ := by
  intro todo
  induction todo with
  | nil =>
    intro done tail psr cout hs _ _
    refine ⟨psr, ?_, rfl, hs⟩
    have e : (⟨prog :: ((done ++ optionTokens []) ++
        (tail ++ ([] : List CStr).filter isProgramArgument)),
        1 + (done ++ optionTokens []).length, 1 + (done ++ optionTokens []).length + k, psr,
        cout⟩ : ScanState) =
        ⟨prog :: (done ++ [] ++ tail), 1 + done.length,
          1 + done.length + ([] : List CStr).length + k, psr, cout⟩ := by
      simp [optionTokens]
    rw [e]
    exact ScanReaches.start
  | cons t todo ih =>
    intro done tail psr cout hs hdd hsep
    have hlt : 1 + done.length < 1 + done.length + (t :: todo).length + k := by
      simp only [List.length_cons]; omega
    have hget := getElem?_middle prog done todo t tail
    by_cases hp : isProgramArgument t = true
    · have hb := scanBody_positional libc
        ⟨prog :: (done ++ t :: todo ++ tail), 1 + done.length,
          1 + done.length + (t :: todo).length + k, psr, cout⟩ t hget hp
      simp only [eraseIdx_middle] at hb
      have hfn : 1 + done.length + (t :: todo).length + k - 1 =
          1 + done.length + todo.length + k := by
        simp only [List.length_cons]; omega
      rw [hfn] at hb
      obtain ⟨psr1, h1, h2, h3⟩ := ih done (tail ++ [t]) psr cout hs
        (fun x hx => hdd x (List.mem_cons_of_mem _ hx))
        (fun x hx => hsep x (List.mem_cons_of_mem _ hx))
      refine ⟨psr1, ?_, ?_, h3⟩
      · have hstep := ScanReaches.pass _ _ (@ScanReaches.start libc
          ⟨prog :: (done ++ t :: todo ++ tail), 1 + done.length,
            1 + done.length + (t :: todo).length + k, psr, cout⟩) hlt hb
        have e : (⟨prog :: ((done ++ optionTokens (t :: todo)) ++
            (tail ++ (t :: todo).filter isProgramArgument)),
            1 + (done ++ optionTokens (t :: todo)).length,
            1 + (done ++ optionTokens (t :: todo)).length + k, psr1, cout⟩ : ScanState) =
            ⟨prog :: ((done ++ optionTokens todo) ++
              ((tail ++ [t]) ++ todo.filter isProgramArgument)),
              1 + (done ++ optionTokens todo).length,
              1 + (done ++ optionTokens todo).length + k, psr1, cout⟩ := by
          simp [optionTokens, List.filter_cons, hp]
        rw [e]
        exact ScanReaches.append libc _ _ _ hstep h1
      · simpa [optionTokens, List.filter_cons, hp] using h2
    · have hp2 : isProgramArgument t = false := by simpa using hp
      have hwf := hs.wellFormed hwf0
      have hns : psr.registry_.needsSeparateValue t = false := by
        rw [hs.needsSeparateValue]; exact hsep t (List.mem_cons_self _ _) hp2
      obtain ⟨psr2, hb, happ, hsame⟩ := scanBody_inline_eq libc
        ⟨prog :: (done ++ t :: todo ++ tail), 1 + done.length,
          1 + done.length + (t :: todo).length + k, psr, cout⟩ t hget hp2
        (hdd t (List.mem_cons_self _ _)) hwf hns
      obtain ⟨psr1, h1, h2, h3⟩ := ih (done ++ [t]) tail psr2 cout (hs.trans hsame)
        (fun x hx => hdd x (List.mem_cons_of_mem _ hx))
        (fun x hx => hsep x (List.mem_cons_of_mem _ hx))
      have hstep := ScanReaches.pass _ _ (@ScanReaches.start libc
        ⟨prog :: (done ++ t :: todo ++ tail), 1 + done.length,
          1 + done.length + (t :: todo).length + k, psr, cout⟩) hlt hb
      have e1 : (⟨prog :: (done ++ t :: todo ++ tail), 1 + done.length + 1,
          1 + done.length + (t :: todo).length + k, psr2, cout⟩ : ScanState) =
          ⟨prog :: (done ++ [t] ++ todo ++ tail), 1 + (done ++ [t]).length,
            1 + (done ++ [t]).length + todo.length + k, psr2, cout⟩ := by
        simp; omega
      have e2 : optionTokens (t :: todo) = t :: optionTokens todo := by
        simp [optionTokens, List.filter_cons, hp2]
      have e3 : (t :: todo).filter isProgramArgument = todo.filter isProgramArgument := by
        simp [List.filter_cons, hp2]
      refine ⟨psr1, ?_, ?_, h3⟩
      · simp only at hstep
        rw [e1] at hstep
        have e : (⟨prog :: ((done ++ optionTokens (t :: todo)) ++
            (tail ++ (t :: todo).filter isProgramArgument)),
            1 + (done ++ optionTokens (t :: todo)).length,
            1 + (done ++ optionTokens (t :: todo)).length + k, psr1, cout⟩ : ScanState) =
            ⟨prog :: ((done ++ [t] ++ optionTokens todo) ++
              (tail ++ todo.filter isProgramArgument)),
              1 + (done ++ [t] ++ optionTokens todo).length,
              1 + (done ++ [t] ++ optionTokens todo).length + k, psr1, cout⟩ := by
          rw [e2, e3]
          simp
        rw [e]
        exact ScanReaches.append libc _ _ _ hstep h1
      · rw [e2, List.foldlM_cons]
        simp only at happ
        rw [happ]
        exact h2

/-! ## The properties of the specification -/

/-- C1: when `SetFlagLocked` returns false, in whatever mode and for whatever text, the
current-value box of the flag, and so the text `current_value()`, is the one from before the call. -/
theorem C1_SetFlagLocked_false_keeps_current_value (libc : Libc) (flag : CommandLineFlag)
    (value : CStr) (set_mode : FlagSettingMode) (msg : Option CStr) (r : SetFlagResult)
    (h : FlagRegistry.SetFlagLocked libc flag value set_mode msg = .ok r) (hfalse : r.ok = false) :
    r.flag.current_ = flag.current_ ∧ r.flag.current_value libc = flag.current_value libc := by
  have key : r.flag.current_ = flag.current_ := by
    unfold FlagRegistry.SetFlagLocked at h
    cases set_mode with
    | SET_FLAGS_VALUE =>
      obtain ⟨t, ht, _⟩ := TryParseLocked_eq libc flag.UpdateModifiedBit
        flag.UpdateModifiedBit.current_ value msg
      simp only [ht, bind, Except.bind, pure, Except.pure] at h
      by_cases hk : t.ok = true
      · simp [hk] at h; subst h; simp at hfalse
      · have hk2 : t.ok = false := by simpa using hk
        simp [hk2] at h; subst h
        simp [TryParseLocked_fail _ _ _ _ _ _ ht hk2, CommandLineFlag.UpdateModifiedBit_current]
    | SET_FLAG_IF_DEFAULT =>
      obtain ⟨t, ht, _⟩ := TryParseLocked_eq libc flag.UpdateModifiedBit
        flag.UpdateModifiedBit.current_ value msg
      by_cases hm : flag.UpdateModifiedBit.modified_ = true
      · simp only [hm] at h
        cases msg with
        | none => simp at h
        | some m => simp at h; subst h; simp at hfalse
      · have hm2 : flag.UpdateModifiedBit.modified_ = false := by simpa using hm
        simp only [hm2, ht, bind, Except.bind, pure, Except.pure] at h
        by_cases hk : t.ok = true
        · simp [hk] at h; subst h; simp at hfalse
        · have hk2 : t.ok = false := by simpa using hk
          simp [hk2] at h; subst h
          simp [TryParseLocked_fail _ _ _ _ _ _ ht hk2, CommandLineFlag.UpdateModifiedBit_current]
    | SET_FLAGS_DEFAULT =>
      obtain ⟨t, ht, _⟩ := TryParseLocked_eq libc flag.UpdateModifiedBit
        flag.UpdateModifiedBit.defvalue_ value msg
      simp only [ht, bind, Except.bind, pure, Except.pure] at h
      by_cases hk : t.ok = true
      · exfalso
        simp only [hk, Bool.not_true, Bool.false_eq_true, if_false] at h
        split at h
        · split at h
          · cases h
          · cases h; simp at hfalse
        · cases h; simp at hfalse
      · have hk2 : t.ok = false := by simpa using hk
        simp [hk2] at h; subst h
        simp [CommandLineFlag.UpdateModifiedBit_current]
  exact ⟨key, by simp [CommandLineFlag.current_value, key]⟩

/-- C1 on the flag `timeout` and the text `-3`, which its validator rejects. -/
theorem C1_witness :
    FlagRegistry.SetFlagLocked exampleLibc timeoutFlag "-3".toList .SET_FLAGS_VALUE (some []) =
        .ok ⟨false, timeoutFlag,
          some "ERROR: failed validation of new value '-3' for flag 'timeout'\n".toList⟩ ∧
      (⟨false, timeoutFlag, none⟩ : SetFlagResult).flag.current_ = timeoutFlag.current_ ∧
      timeoutFlag.current_value exampleLibc = "0".toList :=
  ⟨rfl, (C1_SetFlagLocked_false_keeps_current_value exampleLibc timeoutFlag "-3".toList
    .SET_FLAGS_VALUE (some []) _ rfl rfl).1, rfl⟩

/-- C2: without removal, on a vector with no bare `--` in which no option token takes its
value from the next slot, `ParseNewCommandLineFlags` keeps `argc` and `argv[0]`, permutes the
vector, and returns the boundary `r` with `argv[1..r)` the option tokens (start with `-`,
longer than one character) and `argv[r..argc)` the positional tokens (do not start with `-`,
or are exactly `-`), both in their original order. -/
theorem C2_scan_partitions_options_before_positionals (libc : Libc)
    (self : CommandLineFlagParser) (prog : CStr) (rest : List CStr)
    (hwf : self.registry_.WellFormed)
    (hdd : ∀ t ∈ rest, t ≠ "--".toList)
    (hsep : ∀ t ∈ rest, t.head? = some '-' ∧ 1 < t.length →
      self.registry_.needsSeparateValue t = false) :
    ∃ out, self.ParseNewCommandLineFlags libc (prog :: rest) false = .ok out ∧
      out.argv.length = (prog :: rest).length ∧
      out.argv[0]? = some prog ∧
      out.argv.Perm (prog :: rest) ∧
      1 ≤ out.result ∧
      (out.argv.take out.result).drop 1 =
        rest.filter (fun t => decide (t.head? = some '-' ∧ 1 < t.length)) ∧
      out.argv.drop out.result =
        rest.filter (fun t => decide (t.head? ≠ some '-' ∨ t = "-".toList)) := by
  obtain ⟨psr1, h1, _⟩ := scanLoop_init_partition libc self prog rest hwf hdd
    (fun t ht hp => hsep t ht ((isProgramArgument_eq_false t).1 hp))
  unfold CommandLineFlagParser.ParseNewCommandLineFlags
  simp only [h1, bind, Except.bind, pure, Except.pure, Bool.false_eq_true, if_false]
  refine ⟨_, rfl, ?_, ?_, ?_, ?_, ?_, ?_⟩
  · simp only [List.length_cons, List.length_append, add_left_inj]
    have := List.length_eq_length_filter_add (l := rest) (fun t => !isProgramArgument t)
    simpa using this.symm
  · simp
  · refine List.Perm.cons _ ?_
    have := List.filter_append_perm (fun t => !isProgramArgument t) rest
    simpa using this
  · simp
  · rw [← filter_option_tokens]
    simp [Nat.add_comm 1, List.take_succ_cons]
  · rw [← filter_positional_tokens]
    simp [Nat.add_comm 1]

/-- C2 on the vector `[prog, --a=1, pos1, --b=2, pos2]` over the example registry. -/
theorem C2_witness :
    ∃ out, exampleParser.ParseNewCommandLineFlags exampleLibc ("prog".toList :: exampleArgs) false
        = .ok out ∧
      out.argv.length = ("prog".toList :: exampleArgs).length ∧
      out.argv[0]? = some "prog".toList ∧
      out.argv.Perm ("prog".toList :: exampleArgs) ∧
      1 ≤ out.result ∧
      (out.argv.take out.result).drop 1 =
        exampleArgs.filter (fun t => decide (t.head? = some '-' ∧ 1 < t.length)) ∧
      out.argv.drop out.result =
        exampleArgs.filter (fun t => decide (t.head? ≠ some '-' ∨ t = "-".toList)) :=
  C2_scan_partitions_options_before_positionals exampleLibc exampleParser "prog".toList
    exampleArgs (by decide) (by decide) (by decide)

/-- C3: with removal, under the same conditions, the caller's vector becomes the original
`argv[0]` followed by the positional tokens in their original order, and the count is one
more than the number of positional tokens. -/
theorem C3_removal_leaves_program_name_and_positionals (libc : Libc)
    (self : CommandLineFlagParser) (prog : CStr) (rest : List CStr)
    (hwf : self.registry_.WellFormed)
    (hdd : ∀ t ∈ rest, t ≠ "--".toList)
    (hsep : ∀ t ∈ rest, t.head? = some '-' ∧ 1 < t.length →
      self.registry_.needsSeparateValue t = false) :
    ∃ out, self.ParseNewCommandLineFlags libc (prog :: rest) true = .ok out ∧
      out.argv = prog :: rest.filter (fun t => decide (t.head? ≠ some '-' ∨ t = "-".toList)) ∧
      out.argv.length =
        1 + (rest.filter (fun t => decide (t.head? ≠ some '-' ∨ t = "-".toList))).length := by
  obtain ⟨out, h1, _, h3, _⟩ := parse_removal_partition libc self prog rest hwf hdd hsep
  exact ⟨out, h1, h3, by rw [h3, List.length_cons, Nat.add_comm]⟩

/-- C3 on the vector `[prog, --a=1, pos1, --b=2, pos2]`: it ends as `[prog, pos1, pos2]`,
with count 3. -/
theorem C3_witness :
    ∃ out, exampleParser.ParseNewCommandLineFlags exampleLibc ("prog".toList :: exampleArgs) true
        = .ok out ∧
      out.argv = ["prog".toList, "pos1".toList, "pos2".toList] ∧ out.argv.length = 3 := by
  obtain ⟨out, h1, h2, h3⟩ := C3_removal_leaves_program_name_and_positionals exampleLibc
    exampleParser "prog".toList exampleArgs (by decide) (by decide) (by decide)
  exact ⟨out, h1, h2.trans (by decide), h3.trans (by decide)⟩

/-- C4 (as the code has it): with removal requested, the boundary that
`ParseCommandLineFlags` returns is 1, the index of the first positional in the compacted
vector `[prog] + positionals`, whatever the vector; on a vector with no bare `--` in which no
option token takes its value from the next slot, the call returns and leaves that vector. -/
theorem C4_boundary_after_removal_is_one (libc : Libc) (g : Gflags) (registry : FlagRegistry)
    (prog : CStr) (rest : List CStr) (hwf : registry.WellFormed)
    (hdd : ∀ t ∈ rest, t ≠ "--".toList)
    (hsep : ∀ t ∈ rest, t.head? = some '-' ∧ 1 < t.length →
      registry.needsSeparateValue t = false) :
    (∃ out, g.ParseCommandLineFlags libc registry (prog :: rest) true = .ok out ∧
      out.result = 1 ∧
      out.argv = prog :: rest.filter (fun t => decide (t.head? ≠ some '-' ∨ t = "-".toList))) ∧
    (∀ argv out, g.ParseCommandLineFlags libc registry argv true = .ok out → out.result = 1) :=
  ⟨internal_removal_partition libc g registry prog rest hwf hdd hsep,
   fun argv out h => internal_removal_result libc g registry argv out h⟩

/-- C4 on the vector `[prog, --a=1, pos1, --b=2, pos2]`: the boundary returned is 1. -/
theorem C4_witness :
    ∃ out, Gflags.new.ParseCommandLineFlags exampleLibc exampleRegistry
        ("prog".toList :: exampleArgs) true = .ok out ∧
      out.result = 1 ∧ out.argv = ["prog".toList, "pos1".toList, "pos2".toList] := by
  obtain ⟨out, h1, h2, h3⟩ := (C4_boundary_after_removal_is_one exampleLibc Gflags.new
    exampleRegistry "prog".toList exampleArgs (by decide) (by decide) (by decide)).1
  exact ⟨out, h1, h2, h3.trans (by decide)⟩

/-- C4 as the specification states it fails: for `[prog, --a=1, pos1, --b=2, pos2]` with `a` and `b`
registered and removal requested, the call returns, and the boundary it returns is 1, not 3. -/
theorem C4_counterexample :
    (∃ out, Gflags.new.ParseCommandLineFlags exampleLibc exampleRegistry
        ("prog".toList :: exampleArgs) true = .ok out ∧ out.result = 1) ∧
    ¬ ∃ out, Gflags.new.ParseCommandLineFlags exampleLibc exampleRegistry
        ("prog".toList :: exampleArgs) true = .ok out ∧ out.result = 3 := by
  constructor
  · obtain ⟨out, h1, h2, _⟩ := internal_removal_partition exampleLibc Gflags.new
      exampleRegistry "prog".toList exampleArgs (by decide) (by decide) (by decide)
    exact ⟨out, h1, h2⟩
  · rintro ⟨out, h1, h2⟩
    have := internal_removal_result _ _ _ _ _ h1
    omega

/-- C5: when the scan reaches, at index `i`, an option token that resolves to a flag and
carries no value (the flag is then not boolean), and no slot is left before the positional
boundary, `ParseNewCommandLineFlags` returns; it has stored the missing-argument message
under the token's key and left every flag, this one included, as the scan had it on
reaching the token; and every pass over a token that carries a value has applied
`SetFlagLocked` to its flag at once. -/
theorem C5_missing_argument_recorded_earlier_flags_applied (libc : Libc)
    (self : CommandLineFlagParser) (prog : CStr) (rest : List CStr) (remove_flags : Bool)
    (s : ScanState) (tok : CStr) (r : SplitResult) (p : Nat) (obj : CommandLineFlag)
    (hreach : ScanReaches libc (ScanState.init self (prog :: rest)) s)
    (hi : s.i < s.first_nonopt) (hget : s.argv[s.i]? = some tok)
    (hopt : tok.head? = some '-' ∧ 1 < tok.length) (hne : tok ≠ "--".toList)
    (hsplit : s.psr.registry_.SplitArgumentLocked (stripDashes tok) = .ok r)
    (hflag : r.flag = some p) (hv : r.v = none)
    (hobj : s.psr.registry_.deref p = .ok obj)
    (hlast : s.first_nonopt ≤ s.i + 1) :
    obj.Type_ ≠ .FV_BOOL ∧
    (∃ out, self.ParseNewCommandLineFlags libc (prog :: rest) remove_flags = .ok out ∧
      out.psr.error_flags_ r.key = some (kError ++ "flag '".toList ++ tok ++
        "' is missing its argument".toList ++
        (if helpIsUseful obj.help then "; flag description: ".toList ++ obj.help else []) ++
        "\n".toList) ∧
      (∀ k, k ≠ r.key → out.psr.error_flags_ k = s.psr.error_flags_ k) ∧
      out.psr.registry_ = s.psr.registry_ ∧
      out.psr.registry_.deref p = .ok obj ∧
      (remove_flags = false → out.result = s.first_nonopt ∧ out.argv = s.argv)) ∧
    (∀ (s1 : ScanState) (tok1 : CStr) (r1 : SplitResult) (p1 : Nat) (v1 : CStr)
        (obj1 : CommandLineFlag),
      s1.argv[s1.i]? = some tok1 → (tok1.head? = some '-' ∧ 1 < tok1.length) →
      tok1 ≠ "--".toList →
      s1.psr.registry_.SplitArgumentLocked (stripDashes tok1) = .ok r1 →
      r1.flag = some p1 → r1.v = some v1 → s1.psr.registry_.deref p1 = .ok obj1 →
      ∃ res, FlagRegistry.SetFlagLocked libc obj1 v1 .SET_FLAGS_VALUE (some []) = .ok res ∧
        scanBody libc s1 = .ok (false, { s1 with i := s1.i + 1, psr :=
          ⟨s1.psr.registry_.store p1 res.flag,
           if res.ok then s1.psr.error_flags_
           else s1.psr.error_flags_.assign obj1.name (res.msg.getD []),
           s1.psr.undefined_names_⟩ })) := by
  have hopt2 := (isProgramArgument_eq_false tok).2 hopt
  refine ⟨split_without_value_not_bool _ _ r p obj hsplit hflag hv hobj, ?_, ?_⟩
  · obtain ⟨hb, hl, fuel1, hf1, heq⟩ := ScanReaches.loop_eq libc _ s hreach
      (ScanState.init_inBounds self prog rest) (prog :: rest).length
      (by simp [ScanState.init])
    have hbody := scanBody_missing_argument libc s tok r p obj hget hopt2 hne hsplit hflag hv
      hobj hlast
    cases fuel1 with
    | zero => omega
    | succ f2 =>
      rw [scanLoop_break libc f2 s _ hi hbody] at heq
      unfold CommandLineFlagParser.ParseNewCommandLineFlags
      simp only [heq, bind, Except.bind, pure, Except.pure]
      obtain ⟨b1, b2, b3⟩ := hb
      have hmsg : missingArgumentMessage tok obj.help = kError ++ "flag '".toList ++ tok ++
          "' is missing its argument".toList ++
          (if helpIsUseful obj.help then "; flag description: ".toList ++ obj.help else []) ++
          "\n".toList := by
        simp [missingArgumentMessage]
      cases remove_flags with
      | false =>
        refine ⟨_, rfl, ?_, ?_, rfl, hobj, fun _ => ⟨rfl, rfl⟩⟩
        · simp [StrMap.assign, hmsg]
        · intro k hk; simp [StrMap.assign, hk]
      | true =>
        have hlen : ¬ (s.first_nonopt = 0 ∨ s.argv.length < s.first_nonopt) := by omega
        have h0 : 0 < s.argv.length := by omega
        simp only [if_true, if_neg hlen, List.getElem?_eq_getElem h0]
        refine ⟨_, rfl, ?_, ?_, rfl, hobj, fun h => by cases h⟩
        · simp [StrMap.assign, hmsg]
        · intro k hk; simp [StrMap.assign, hk]
  · intro s1 tok1 r1 p1 v1 obj1 hget1 hopt1 hne1 hsplit1 hflag1 hv1 hobj1
    exact scanBody_apply libc s1 tok1 r1 p1 v1 obj1 hget1
      ((isProgramArgument_eq_false tok1).2 hopt1) hne1 hsplit1 hflag1 hv1 hobj1

/-- C5 on the vector `[prog, --a=1, --needs_value]`: the message is stored for
`needs_value`, and `a` holds 1. -/
theorem C5_witness :
    ScanReaches exampleLibc
      (ScanState.init exampleParser ["prog".toList, "--a=1".toList, "--needs_value".toList])
      exampleScanState ∧
    ∃ out, exampleParser.ParseNewCommandLineFlags exampleLibc
        ["prog".toList, "--a=1".toList, "--needs_value".toList] false = .ok out ∧
      out.psr.error_flags_ "needs_value".toList =
        some "ERROR: flag '--needs_value' is missing its argument\n".toList ∧
      out.psr.registry_ = exampleScanState.psr.registry_ ∧
      out.psr.registry_.deref 3 = .ok (defineFlag "needs_value" "main.cc" 106 (.string [])) ∧
      (out.psr.registry_.deref 0).map (fun f => (f.current_.cell, f.Modified)) =
        .ok (.int32 1, true) := by
  have hreach : ScanReaches exampleLibc
      (ScanState.init exampleParser ["prog".toList, "--a=1".toList, "--needs_value".toList])
      exampleScanState :=
    ScanReaches.pass _ _ ScanReaches.start (by decide) rfl
  obtain ⟨_, ⟨out, h1, h2, _, h4, h5, _⟩, _⟩ :=
    C5_missing_argument_recorded_earlier_flags_applied exampleLibc exampleParser "prog".toList
      ["--a=1".toList, "--needs_value".toList] false exampleScanState "--needs_value".toList
      ⟨some 3, "needs_value".toList, none, []⟩ 3
      (defineFlag "needs_value" "main.cc" 106 (.string [])) hreach (by decide) rfl
      (by decide) (by decide) rfl rfl rfl rfl (by decide)
  refine ⟨hreach, out, h1, h2, h4, h5, ?_⟩
  rw [h4]
  rfl

/-- C6: `RegisterFlag` on a flag whose name the (well-formed) registry already holds calls
the exit function with status 1, after a diagnostic that names the flag and both origin
files when they differ and reports the same-origin case otherwise; `flags_` still maps the
name to the flag registered first.  On a name the registry does not hold it reports
nothing, and the name then maps to the new flag. -/
theorem C6_duplicate_registration_is_fatal (reg : FlagRegistry) (flag : CommandLineFlag)
    (hwf : reg.WellFormed) :
    (∀ (p0 : Nat) (first : CommandLineFlag),
      mapFind StringCmp reg.flags_ flag.name = some p0 → reg.deref p0 = .ok first →
      ∃ out, reg.RegisterFlag flag = .ok out ∧
        out.report = some ⟨
          (if first.filename = flag.filename then
            "ERROR: something wrong with flag '".toList ++ flag.name ++ "' in file '".toList ++
              flag.filename ++ "'.  One possibility: file '".toList ++ flag.filename ++
              "' is being linked both statically and dynamically into this executable.\n".toList
          else
            "ERROR: flag '".toList ++ flag.name ++
              "' was defined more than once (in files '".toList ++ first.filename ++
              "' and '".toList ++ flag.filename ++ "').\n".toList),
          some 1⟩ ∧
        out.registry.flags_ = reg.flags_ ∧
        mapFind StringCmp out.registry.flags_ flag.name = some p0 ∧
        out.registry.deref p0 = .ok first) ∧
    (mapFind StringCmp reg.flags_ flag.name = none →
      ∃ out, reg.RegisterFlag flag = .ok out ∧ out.report = none ∧
        mapFind StringCmp out.registry.flags_ flag.name = some reg.objs.length ∧
        out.registry.deref reg.objs.length = .ok flag) := by
  constructor
  · intro p0 first hfind hfirst
    refine ⟨_, RegisterFlag_duplicate reg flag first p0 hwf.1 hfind hfirst, rfl, rfl, hfind, ?_⟩
    exact deref_append_old reg [flag] _ _ p0 first hfirst
  · intro hfind
    obtain ⟨out, h1, h2, _, h4, h5⟩ := RegisterFlag_fresh reg flag hfind
    exact ⟨out, h1, h2, h4, h5⟩

/-- C6 on the example registry: a second flag `b` from `other.cc`, and a new flag `c`. -/
theorem C6_witness :
    (∃ out, exampleRegistry.RegisterFlag (defineFlag "b" "other.cc" 200 (.bool false)) = .ok out ∧
      out.report = some ⟨
        "ERROR: flag 'b' was defined more than once (in files 'main.cc' and 'other.cc').\n".toList,
        some 1⟩ ∧
      mapFind StringCmp out.registry.flags_ "b".toList = some 1 ∧
      out.registry.deref 1 = .ok (defineFlag "b" "main.cc" 102 (.int32 0))) ∧
    (∃ out, exampleRegistry.RegisterFlag (defineFlag "c" "other.cc" 200 (.bool false)) = .ok out ∧
      out.report = none ∧ mapFind StringCmp out.registry.flags_ "c".toList = some 5) := by
  constructor
  · obtain ⟨out, h1, h2, _, h4, h5⟩ := (C6_duplicate_registration_is_fatal exampleRegistry
      (defineFlag "b" "other.cc" 200 (.bool false)) (by decide)).1 1
      (defineFlag "b" "main.cc" 102 (.int32 0)) (by decide) rfl
    exact ⟨out, h1, h2, h4, h5⟩
  · obtain ⟨out, h1, h2, h3, _⟩ := (C6_duplicate_registration_is_fatal exampleRegistry
      (defineFlag "c" "other.cc" 200 (.bool false)) (by decide)).2 (by decide)
    exact ⟨out, h1, h2, h3⟩

/-- C7 (as the code has it): for a registered boolean flag `x` with no validator, whose
name has no `=`, when `FindFlagLocked` finds nothing under `no`+`x` (neither that name nor
its dash-to-underscore form is registered), `SplitArgumentLocked("no"+x)` returns flag `x`
with key `x` and value `0`; the pass of the scan over the token `--no<x>`, and the parse of
`[prog, --no<x>]`, leave `x` with the current value false and `Modified()` true, whatever
its value before, and record no error. -/
theorem C7_negation_sets_boolean_flag_false (libc : Libc) (reg : FlagRegistry) (x : CStr)
    (p : Nat) (obj : CommandLineFlag) (hwf : reg.WellFormed)
    (hreg : mapFind StringCmp reg.flags_ x = some p) (hobj : reg.deref p = .ok obj)
    (hbool : obj.Type_ = .FV_BOOL) (hnoval : obj.validate_function = none)
    (hx : strchr_found x '=' = false)
    (hno : reg.FindFlagLocked ("no".toList ++ x) = none) :
    reg.SplitArgumentLocked ("no".toList ++ x) = .ok ⟨some p, x, some "0".toList, []⟩ ∧
    (∃ obj1 : CommandLineFlag,
      obj1.name = x ∧ obj1.current_.cell = .bool false ∧ obj1.Modified = true ∧
      obj1.current_value libc = "false".toList ∧
      (reg.store p obj1).deref p = .ok obj1 ∧
      (∀ s : ScanState, s.psr.registry_ = reg → s.argv[s.i]? = some ("--no".toList ++ x) →
        scanBody libc s = .ok (false, ⟨s.argv, s.i + 1, s.first_nonopt,
          ⟨reg.store p obj1, s.psr.error_flags_, s.psr.undefined_names_⟩, s.cout⟩)) ∧
      (∀ (self : CommandLineFlagParser) (prog : CStr), self.registry_ = reg →
        self.ParseNewCommandLineFlags libc [prog, "--no".toList ++ x] false =
          .ok ⟨2, [prog, "--no".toList ++ x],
            ⟨reg.store p obj1, self.error_flags_, self.undefined_names_⟩, []⟩)) := by
  have hsplit := split_negation_bool reg x p obj hx hno hreg hobj hbool
  refine ⟨hsplit, ?_⟩
  obtain ⟨f, hf, hname, hkind⟩ := hwf.ptr_valid x p (mapFind_eq_some _ _ _ hreg)
  rw [hobj] at hf; cases hf
  have hcur : obj.current_.Type_ = .FV_BOOL := by rw [hkind]; exact hbool
  obtain ⟨msg, hset⟩ := SetFlagLocked_bool_zero libc obj hcur hnoval
  have hplt : p < reg.objs.length :=
    (List.getElem?_eq_some_iff.1 ((FlagRegistry.deref_eq_ok _ _ _).1 hobj)).1
  have hbody : ∀ s : ScanState, s.psr.registry_ = reg →
      s.argv[s.i]? = some ("--no".toList ++ x) →
      scanBody libc s = .ok (false, ⟨s.argv, s.i + 1, s.first_nonopt,
        ⟨reg.store p { obj with current_ := { obj.current_ with cell := .bool false },
                                modified_ := true }, s.psr.error_flags_, s.psr.undefined_names_⟩,
        s.cout⟩) := by
    intro s hs hget
    subst hs
    obtain ⟨res, hres, hb⟩ := scanBody_apply libc s ("--no".toList ++ x)
      ⟨some p, x, some "0".toList, []⟩ p "0".toList obj hget (isProgramArgument_two _)
      (by simp) (by rw [show "--no".toList ++ x = '-' :: '-' :: ("no".toList ++ x) from rfl,
        stripDashes_two]; exact hsplit) rfl rfl hobj
    rw [hset] at hres
    cases hres
    exact hb
  refine ⟨{ obj with current_ := { obj.current_ with cell := .bool false }, modified_ := true },
    hname, rfl, rfl, rfl, FlagRegistry.deref_store_same reg p _ hplt, hbody, ?_⟩
  intro self prog hs
  have hb := hbody (ScanState.init self [prog, "--no".toList ++ x]) hs rfl
  exact parse_single_token libc self prog _ _ hb rfl rfl

/-- C7 as the specification states it fails: `dry-run` is a registered boolean flag with no validator
and no flag named `nodry-run` is registered, yet `SplitArgumentLocked("nodry-run")` returns
the flag `nodry_run` with no value, and the parse of `--nodry-run` leaves `dry-run` true and
unmodified. -/
theorem C7_counterexample :
    mapFind StringCmp dashRegistry.flags_ "dry-run".toList = some 0 ∧
    (dashRegistry.deref 0).map (fun f => (f.Type_, f.validate_function.isNone)) =
      .ok (.FV_BOOL, true) ∧
    mapFind StringCmp dashRegistry.flags_ "nodry-run".toList = none ∧
    dashRegistry.SplitArgumentLocked "nodry-run".toList =
      .ok ⟨some 1, "nodry-run".toList, none, []⟩ ∧
    dashRegistry.SplitArgumentLocked "nodry-run".toList ≠
      .ok ⟨some 0, "dry-run".toList, some "0".toList, []⟩ ∧
    ((CommandLineFlagParser.ParseNewCommandLineFlags exampleLibc
        ⟨dashRegistry, StrMap.empty, StrMap.empty⟩
        ["prog".toList, "--nodry-run".toList] false).map
      (fun out => (out.psr.registry_.deref 0).map (fun f => (f.current_.cell, f.Modified)))) =
      .ok (.ok (.bool true, false)) := by
  refine ⟨by decide, rfl, by decide, rfl, ?_, rfl⟩
  intro h
  have h2 : dashRegistry.SplitArgumentLocked "nodry-run".toList =
      .ok ⟨some 1, "nodry-run".toList, none, []⟩ := rfl
  rw [h2] at h
  have := Except.ok.inj h
  revert this
  decide

/-- C7 on the flag `verbose`, whose default is true, and the token `--noverbose`. -/
theorem C7_witness :
    exampleRegistry.SplitArgumentLocked "noverbose".toList =
        .ok ⟨some 4, "verbose".toList, some "0".toList, []⟩ ∧
    ∃ obj1 : CommandLineFlag,
      obj1.name = "verbose".toList ∧ obj1.current_.cell = .bool false ∧ obj1.Modified = true ∧
      exampleParser.ParseNewCommandLineFlags exampleLibc ["prog".toList, "--noverbose".toList]
          false =
        .ok ⟨2, ["prog".toList, "--noverbose".toList],
          ⟨exampleRegistry.store 4 obj1, StrMap.empty, StrMap.empty⟩, []⟩ := by
  obtain ⟨h1, obj1, h2, h3, h4, _, _, _, h8⟩ := C7_negation_sets_boolean_flag_false exampleLibc
    exampleRegistry "verbose".toList 4 (defineFlag "verbose" "main.cc" 108 (.bool true))
    (by decide) (by decide) rfl rfl rfl (by decide) (by decide)
  exact ⟨h1, obj1, h2, h3, h4, h8 exampleParser "prog".toList rfl⟩

/-- C8 (as the code has it): for a registered flag `x` that is not boolean, whose name has
no `=`, when `FindFlagLocked` finds nothing under `no`+`x`, `SplitArgumentLocked("no"+x)`
returns no flag and the message that a boolean value was specified for a flag of the type
of `x`; the pass of the scan over the token `--no<x>` stores that message under the key
`no`+`x` (and the key in `undefined_names_`), leaves the registry, so the current value and
modified bit of `x`, as they were, and goes on with the next token. -/
theorem C8_negation_of_non_boolean_flag_reports_type_mismatch (libc : Libc)
    (reg : FlagRegistry) (x : CStr) (p : Nat) (obj : CommandLineFlag)
    (hreg : mapFind StringCmp reg.flags_ x = some p) (hobj : reg.deref p = .ok obj)
    (hbool : obj.Type_ ≠ .FV_BOOL)
    (hx : strchr_found x '=' = false)
    (hno : reg.FindFlagLocked ("no".toList ++ x) = none) :
    reg.SplitArgumentLocked ("no".toList ++ x) =
      .ok ⟨none, "no".toList ++ x, none,
        "ERROR: boolean value (".toList ++ ("no".toList ++ x) ++ ") specified for ".toList ++
          obj.type_name ++ " command line flag\n".toList⟩ ∧
    (∀ s : ScanState, s.psr.registry_ = reg → s.argv[s.i]? = some ("--no".toList ++ x) →
      scanBody libc s = .ok (false, ⟨s.argv, s.i + 1, s.first_nonopt,
        ⟨reg,
         s.psr.error_flags_.assign ("no".toList ++ x)
           ("ERROR: boolean value (".toList ++ ("no".toList ++ x) ++ ") specified for ".toList ++
             obj.type_name ++ " command line flag\n".toList),
         s.psr.undefined_names_.assign ("no".toList ++ x) []⟩, s.cout⟩)) := by
  have hsplit := split_negation_not_bool reg x p obj hx hno hreg hobj hbool
  refine ⟨hsplit, ?_⟩
  intro s hs hget
  subst hs
  exact scanBody_unresolved libc s ("--no".toList ++ x) _ hget (isProgramArgument_two _)
    (by simp) (by rw [show "--no".toList ++ x = '-' :: '-' :: ("no".toList ++ x) from rfl,
      stripDashes_two]; exact hsplit) rfl

/-- C8 as the specification states it fails: `log-level` is a registered int32 flag and no flag named
`nolog-level` is registered, yet `SplitArgumentLocked("nolog-level")` returns a flag, the
boolean flag `nolog_level`, with the value `1` and no error message. -/
theorem C8_counterexample :
    mapFind StringCmp levelRegistry.flags_ "log-level".toList = some 0 ∧
    (levelRegistry.deref 0).map (fun f => f.Type_) = .ok .FV_INT32 ∧
    mapFind StringCmp levelRegistry.flags_ "nolog-level".toList = none ∧
    levelRegistry.SplitArgumentLocked "nolog-level".toList =
      .ok ⟨some 1, "nolog-level".toList, some "1".toList, []⟩ ∧
    ¬ ∃ msg, levelRegistry.SplitArgumentLocked "nolog-level".toList =
      .ok ⟨none, "nolog-level".toList, none, msg⟩ := by
  refine ⟨by decide, rfl, by decide, rfl, ?_⟩
  rintro ⟨msg, h⟩
  have h2 : levelRegistry.SplitArgumentLocked "nolog-level".toList =
      .ok ⟨some 1, "nolog-level".toList, some "1".toList, []⟩ := rfl
  rw [h2] at h
  have := Except.ok.inj h
  simp at this

/-- C8 on the int32 flag `a` and the token `--noa`. -/
theorem C8_witness :
    exampleRegistry.SplitArgumentLocked "noa".toList =
      .ok ⟨none, "noa".toList, none,
        "ERROR: boolean value (noa) specified for int32 command line flag\n".toList⟩ ∧
    scanBody exampleLibc (ScanState.init exampleParser ["prog".toList, "--noa".toList]) =
      .ok (false, ⟨["prog".toList, "--noa".toList], 2, 2,
        ⟨exampleRegistry,
         StrMap.empty.assign "noa".toList
           "ERROR: boolean value (noa) specified for int32 command line flag\n".toList,
         StrMap.empty.assign "noa".toList []⟩, []⟩) := by
  obtain ⟨h1, h2⟩ := C8_negation_of_non_boolean_flag_reports_type_mismatch exampleLibc
    exampleRegistry "a".toList 0 (defineFlag "a" "main.cc" 100 (.int32 0))
    (by decide) rfl (by decide) (by decide) (by decide)
  exact ⟨h1, h2 (ScanState.init exampleParser ["prog".toList, "--noa".toList]) rfl rfl⟩

/-- C9: `FindFlagLocked` returns on every name (its recursion satisfies the equation of
the source and never reaches the depth bound of the model): the flag registered under
exactly the name if there is one; otherwise, when the name has a dash, the result of the
exact lookup of the name with every dash replaced by an underscore; otherwise not-found.
Hence, when `my_flag` is registered and `my-flag` is not, the token `--my-flag=1` resolves
to the flag `my_flag` and the scan applies `SetFlagLocked` with the text `1` to it. -/
theorem C9_FindFlagLocked_is_exact_lookup_then_dash_replacement (libc : Libc)
    (reg : FlagRegistry) (name : CStr) :
    (reg.FindFlagLocked name =
      match mapFind StringCmp reg.flags_ name with
      | some p => some p
      | none =>
        if strchr_found name '-' then mapFind StringCmp reg.flags_ (replaceDashes name)
        else none) ∧
    (reg.FindFlagLocked name =
      match mapFind StringCmp reg.flags_ name with
      | none => if !strchr_found name '-' then none else reg.FindFlagLocked (replaceDashes name)
      | some p => some p) ∧
    (∀ p, mapFind StringCmp reg.flags_ name = some p → (name, p) ∈ reg.flags_) ∧
    (∀ (p : Nat) (obj : CommandLineFlag),
      mapFind StringCmp reg.flags_ "my_flag".toList = some p →
      mapFind StringCmp reg.flags_ "my-flag".toList = none →
      reg.deref p = .ok obj →
      reg.FindFlagLocked "my-flag".toList = some p ∧
      reg.SplitArgumentLocked "my-flag=1".toList =
        .ok ⟨some p, "my-flag".toList, some "1".toList, []⟩ ∧
      ∃ res, FlagRegistry.SetFlagLocked libc obj "1".toList .SET_FLAGS_VALUE (some []) = .ok res ∧
        ∀ (self : CommandLineFlagParser) (prog : CStr), self.registry_ = reg →
          self.ParseNewCommandLineFlags libc [prog, "--my-flag=1".toList] false =
            .ok ⟨2, [prog, "--my-flag=1".toList],
              ⟨reg.store p res.flag,
               if res.ok then self.error_flags_
               else self.error_flags_.assign obj.name (res.msg.getD []),
               self.undefined_names_⟩, []⟩) := by
  refine ⟨reg.FindFlagLocked_eq name, reg.FindFlagLocked_rec name,
    fun p h => mapFind_eq_some _ _ _ h, ?_⟩
  intro p obj h1 h2 hobj
  have hfind : reg.FindFlagLocked "my-flag".toList = some p := by
    rw [reg.FindFlagLocked_eq, h2]
    exact h1
  have hsplit : reg.SplitArgumentLocked "my-flag=1".toList =
      .ok ⟨some p, "my-flag".toList, some "1".toList, []⟩ :=
    split_inline reg "my-flag".toList "1".toList p (by decide) hfind
  obtain ⟨res, hres, _⟩ := SetFlagLocked_value_eq libc obj "1".toList (some [])
  refine ⟨hfind, hsplit, res, hres, ?_⟩
  intro self prog hs
  subst hs
  obtain ⟨res1, hres1, hb⟩ := scanBody_apply libc
    (ScanState.init self [prog, "--my-flag=1".toList]) "--my-flag=1".toList
    ⟨some p, "my-flag".toList, some "1".toList, []⟩ p "1".toList obj rfl rfl (by decide)
    hsplit rfl rfl hobj
  rw [hres] at hres1
  cases hres1
  exact parse_single_token libc self prog _ _ hb rfl rfl

/-- C9 on the example registry: `--my-flag=1` sets the flag `my_flag` to 1. -/
theorem C9_witness :
    exampleRegistry.FindFlagLocked "my-flag".toList = some 2 ∧
    exampleRegistry.SplitArgumentLocked "my-flag=1".toList =
      .ok ⟨some 2, "my-flag".toList, some "1".toList, []⟩ ∧
    ∃ res, FlagRegistry.SetFlagLocked exampleLibc (defineFlag "my_flag" "main.cc" 104 (.int32 0)) "1".toList
        .SET_FLAGS_VALUE (some []) = .ok res ∧
      res.ok = true ∧ res.flag.current_.cell = .int32 1 ∧ res.flag.Modified = true ∧
      exampleParser.ParseNewCommandLineFlags exampleLibc ["prog".toList, "--my-flag=1".toList]
          false =
        .ok ⟨2, ["prog".toList, "--my-flag=1".toList],
          ⟨exampleRegistry.store 2 res.flag, StrMap.empty, StrMap.empty⟩, []⟩ := by
  obtain ⟨h1, h2, res, h3, h4⟩ := (C9_FindFlagLocked_is_exact_lookup_then_dash_replacement
    exampleLibc exampleRegistry "my-flag".toList).2.2.2 2
    (defineFlag "my_flag" "main.cc" 104 (.int32 0)) (by decide) (by decide) rfl
  have h5 : FlagRegistry.SetFlagLocked exampleLibc (defineFlag "my_flag" "main.cc" 104 (.int32 0)) "1".toList
      .SET_FLAGS_VALUE (some []) = .ok ⟨true,
        { defineFlag "my_flag" "main.cc" 104 (.int32 0) with
          current_ := ⟨104, .int32 1, false⟩, modified_ := true },
        some "my_flag set to 1\n".toList⟩ := rfl
  rw [h5] at h3
  cases h3
  exact ⟨h1, h2, _, h5, rfl, rfl, rfl, h4 exampleParser "prog".toList rfl⟩

/-- C10: for a flag registered in a well-formed registry, the post-parse pass
`ValidateUnmodifiedFlags` returns and changes only `error_flags_`.  If the flag is not
modified and its validator rejects its current value, there is a message under the flag's
name afterwards: the one the pass stores, saying that the default value fails validation,
or the non-empty one that was there.  If the flag is modified, as it is after a successful
set, whose value the validator has accepted, the pass leaves the entry under its name as
it was, and so does it when the validator accepts the current value. -/
theorem C10_validation_pass_reports_unmodified_failing_flags (self : CommandLineFlagParser)
    (name : CStr) (p : Nat) (flag : CommandLineFlag) (hwf : self.registry_.WellFormed)
    (hreg : mapFind StringCmp self.registry_.flags_ name = some p)
    (hobj : self.registry_.deref p = .ok flag) :
    flag.name = name ∧
    (flag.ValidateCurrent = false → flag.validate_function ≠ none) ∧
    (∃ errors1, self.ValidateUnmodifiedFlags =
        .ok ⟨self.registry_, errors1, self.undefined_names_⟩ ∧
      (flag.Modified = false → flag.ValidateCurrent = false →
        errors1.at name ≠ [] ∧
        (self.error_flags_.at name = [] →
          errors1 name = some ("ERROR: --".toList ++ name ++
            " must be set on the commandline (default value fails validation)\n".toList))) ∧
      (flag.Modified = true → errors1 name = self.error_flags_ name) ∧
      (flag.ValidateCurrent = true → errors1 name = self.error_flags_ name)) ∧
    (∀ (libc : Libc) (f : CommandLineFlag) (v : CStr) (msg : Option CStr) (r : SetFlagResult),
      FlagRegistry.SetFlagLocked libc f v .SET_FLAGS_VALUE msg = .ok r → r.ok = true →
      r.flag.Modified = true ∧ r.flag.ValidateCurrent = true) := by
  have hmem := mapFind_eq_some _ _ _ hreg
  obtain ⟨f, hf, hname, _⟩ := hwf.ptr_valid name p hmem
  rw [hobj] at hf; cases hf
  refine ⟨hname, ?_, ?_, ?_⟩
  · intro hv hn
    simp [CommandLineFlag.ValidateCurrent, CommandLineFlag.Validate, hn] at hv
  · obtain ⟨errors1, h1, _, h3⟩ := ValidateFlags_spec self false hwf
    have h4 := h3 name p flag hmem hobj
    refine ⟨errors1, h1, ?_, ?_, ?_⟩
    · intro hm hv
      rw [hm, hv] at h4
      by_cases he : self.error_flags_.at name = []
      · simp only [he, Bool.false_or, Bool.not_false, List.isEmpty_nil, Bool.and_self,
          if_true] at h4
        constructor
        · simp [StrMap.at, h4, kError]
        · intro _
          rw [h4]
          simp [kError]
      · have hne : (self.error_flags_.at name).isEmpty = false := by
          cases hx : self.error_flags_.at name with
          | nil => exact absurd hx he
          | cons c cs => rfl
        simp only [hne, Bool.and_false, Bool.false_eq_true, if_false] at h4
        constructor
        · simpa [StrMap.at, h4] using he
        · intro hx; exact absurd hx he
    · intro hm
      rw [hm] at h4
      simpa using h4
    · intro hv
      rw [hv] at h4
      simpa using h4
  · intro libc f v msg r h hok
    obtain ⟨a, b, _⟩ := SetFlagLocked_value_success libc f v msg r h hok
    exact ⟨a, b⟩

/-- C10 on the flag `timeout` (validator `timeout > 0`, default 0): never set, and set to 5. -/
theorem C10_witness :
    (∃ errors1, CommandLineFlagParser.ValidateUnmodifiedFlags
          ⟨timeoutRegistry, StrMap.empty, StrMap.empty⟩ =
        .ok ⟨timeoutRegistry, errors1, StrMap.empty⟩ ∧
      errors1 "timeout".toList = some
        "ERROR: --timeout must be set on the commandline (default value fails validation)\n".toList) ∧
    (∃ errors1, CommandLineFlagParser.ValidateUnmodifiedFlags
          ⟨timeoutRegistry.store 0 timeoutFlagSet,
            StrMap.empty, StrMap.empty⟩ =
        .ok ⟨timeoutRegistry.store 0 timeoutFlagSet,
          errors1, StrMap.empty⟩ ∧
      errors1 "timeout".toList = none) ∧
    (Gflags.new.ParseCommandLineFlags exampleLibc timeoutRegistry ["prog".toList] false).map
        (fun out => out.psr.error_flags_ "timeout".toList) =
      .ok (some
        "ERROR: --timeout must be set on the commandline (default value fails validation)\n".toList) ∧
    (Gflags.new.ParseCommandLineFlags exampleLibc timeoutRegistry
          ["prog".toList, "--timeout=5".toList] false).map
        (fun out => (out.psr.error_flags_ "timeout".toList,
          (out.psr.registry_.deref 0).map (fun f => (f.current_.cell, f.Modified)))) =
      .ok (none, .ok (.int32 5, true)) := by
  refine ⟨?_, ?_, rfl, rfl⟩
  · obtain ⟨_, _, ⟨errors1, h1, h2, _, _⟩, _⟩ :=
      C10_validation_pass_reports_unmodified_failing_flags
        ⟨timeoutRegistry, StrMap.empty, StrMap.empty⟩ "timeout".toList 0 timeoutFlag
        (by decide) (by decide) rfl
    exact ⟨errors1, h1, (h2 rfl rfl).2 rfl⟩
  · obtain ⟨_, _, ⟨errors1, h1, _, h3, _⟩, _⟩ :=
      C10_validation_pass_reports_unmodified_failing_flags
        ⟨timeoutRegistry.store 0 timeoutFlagSet,
          StrMap.empty, StrMap.empty⟩ "timeout".toList 0
        timeoutFlagSet
        (by decide) (by decide) rfl
    exact ⟨errors1, h1, h3 rfl⟩

/-- C11: for every value `v` of the Bool, Int32, UInt32, Int64, UInt64 and String kinds (an
integer being one that its C++ type can hold), `ParseFrom(ToString(v))` on the zero-valued box
`v.New` of the same kind reports success, and the box then holds the cell of `v`, so that it is
`Equal` to `v`. -/
theorem C11_ParseFrom_of_ToString_round_trips (libc : Libc) (v : FlagValue)
    (hkind : v.Type_ ≠ .FV_DOUBLE) (hrange : v.cell.inRange = true) :
    (v.New.ParseFrom libc (v.ToString libc)).1 = true ∧
      (v.New.ParseFrom libc (v.ToString libc)).2.cell = v.cell ∧
      (v.New.ParseFrom libc (v.ToString libc)).2.Equal v = true := by
  cases v with
  | mk a c o =>
    cases c with
    | bool b => cases b <;> exact ⟨rfl, rfl, rfl⟩
    | int32 x =>
      have h : -(2 ^ 31 : Int) ≤ x ∧ x ≤ 2 ^ 31 - 1 := by simpa [Cell.inRange] using hrange
      simp [FlagValue.New, FlagValue.ToString, ParseFrom_printf_d_int32 libc 0 0 x true h,
        FlagValue.Equal]
    | uint32 x =>
      have h : x ≤ 2 ^ 32 - 1 := by simpa [Cell.inRange] using hrange
      simp [FlagValue.New, FlagValue.ToString, ParseFrom_printf_u_uint32 libc 0 0 x true h,
        FlagValue.Equal]
    | int64 x =>
      have h : -(2 ^ 63 : Int) ≤ x ∧ x ≤ 2 ^ 63 - 1 := by simpa [Cell.inRange] using hrange
      simp [FlagValue.New, FlagValue.ToString, ParseFrom_printf_d_int64 libc 0 0 x true h,
        FlagValue.Equal]
    | uint64 x =>
      have h : x ≤ 2 ^ 64 - 1 := by simpa [Cell.inRange] using hrange
      simp [FlagValue.New, FlagValue.ToString, ParseFrom_printf_u_uint64 libc 0 0 x true h,
        FlagValue.Equal]
    | double x => exact absurd rfl hkind
    | string s => simp [FlagValue.New, FlagValue.ToString, FlagValue.ParseFrom, FlagValue.Equal]

/-- C11 at the smallest 64-bit integer: `-9223372036854775808` is read back. -/
theorem C11_witness :
    (FlagValue.mk 100 (.int64 (-9223372036854775808)) false).Type_ ≠ .FV_DOUBLE ∧
      (FlagValue.mk 100 (.int64 (-9223372036854775808)) false).cell.inRange = true ∧
      (FlagValue.mk 100 (.int64 (-9223372036854775808)) false).ToString exampleLibc =
        "-9223372036854775808".toList ∧
      ((FlagValue.mk 100 (.int64 (-9223372036854775808)) false).New.ParseFrom exampleLibc
        ((FlagValue.mk 100 (.int64 (-9223372036854775808)) false).ToString exampleLibc)).2.Equal
          (FlagValue.mk 100 (.int64 (-9223372036854775808)) false) = true :=
  ⟨by decide, by decide, by decide,
    (C11_ParseFrom_of_ToString_round_trips exampleLibc
      (FlagValue.mk 100 (.int64 (-9223372036854775808)) false) (by decide) (by decide)).2.2⟩

/-- C12: when `SetFlagLocked` in `SET_FLAGS_VALUE` mode accepts a text for a flag (whose
validator, if any, is a function of the name and the value), `Modified()` is true afterwards,
and applying the same text to the flag a second time succeeds again, leaves the same stored
current value (indeed the same object) and `Modified()` true. -/
theorem C12_same_text_twice_gives_same_value (libc : Libc) (flag : CommandLineFlag)
    (text : CStr) (msg1 msg2 : Option CStr) (r1 : SetFlagResult)
    (h1 : FlagRegistry.SetFlagLocked libc flag text .SET_FLAGS_VALUE msg1 = .ok r1)
    (hok : r1.ok = true) :
    r1.flag.Modified = true ∧
      ∃ r2, FlagRegistry.SetFlagLocked libc r1.flag text .SET_FLAGS_VALUE msg2 = .ok r2 ∧
        r2.ok = true ∧ r2.flag.current_ = r1.flag.current_ ∧ r2.flag.Modified = true ∧
        r2.flag = r1.flag := by
  obtain ⟨hm, r2, h2, h3, h4⟩ := SetFlagLocked_value_twice libc flag text msg1 msg2 r1 h1 hok
  refine ⟨hm, r2, h2, h3, by rw [h4], ?_, h4⟩
  rw [h4]; exact hm

/-- C12 on the flag `timeout` of main.cc and the text `5`, applied twice. -/
theorem C12_witness :
    FlagRegistry.SetFlagLocked exampleLibc timeoutFlag "5".toList .SET_FLAGS_VALUE none =
        .ok ⟨true, timeoutFlagSet, none⟩ ∧
      timeoutFlagSet.Modified = true ∧
      ∃ r2, FlagRegistry.SetFlagLocked exampleLibc timeoutFlagSet "5".toList .SET_FLAGS_VALUE
          none = .ok r2 ∧
        r2.ok = true ∧ r2.flag.current_ = timeoutFlagSet.current_ ∧ r2.flag.Modified = true ∧
        r2.flag = timeoutFlagSet :=
  ⟨rfl, C12_same_text_twice_gives_same_value exampleLibc timeoutFlag "5".toList none none
    ⟨true, timeoutFlagSet, none⟩ rfl rfl⟩

/-- C13: `ParseFrom` on a Bool box succeeds if and only if the text equals, ignoring the case
of ASCII letters, one of `1`, `t`, `true`, `y`, `yes` (it then stores true) or one of `0`,
`f`, `false`, `n`, `no` (it then stores false); on every other text it fails and leaves the
box as it was, and so it does on the empty text and on `true` or `1` with a space before or
after. -/
theorem C13_bool_ParseFrom_accepts_exactly_the_ten_words (libc : Libc) (a : Nat) (b0 o : Bool)
    (text : CStr) :
    ((FlagValue.ParseFrom libc ⟨a, .bool b0, o⟩ text).1 = true ↔
        (∃ w ∈ kTrueWords, eqIgnoreCase text w = true) ∨
        (∃ w ∈ kFalseWords, eqIgnoreCase text w = true)) ∧
      ((∃ w ∈ kTrueWords, eqIgnoreCase text w = true) →
        FlagValue.ParseFrom libc ⟨a, .bool b0, o⟩ text = (true, ⟨a, .bool true, o⟩)) ∧
      ((∃ w ∈ kFalseWords, eqIgnoreCase text w = true) →
        FlagValue.ParseFrom libc ⟨a, .bool b0, o⟩ text = (true, ⟨a, .bool false, o⟩)) ∧
      ((FlagValue.ParseFrom libc ⟨a, .bool b0, o⟩ text).1 = false →
        (FlagValue.ParseFrom libc ⟨a, .bool b0, o⟩ text).2 = ⟨a, .bool b0, o⟩) ∧
      FlagValue.ParseFrom libc ⟨a, .bool b0, o⟩ [] = (false, ⟨a, .bool b0, o⟩) ∧
      FlagValue.ParseFrom libc ⟨a, .bool b0, o⟩ " true".toList = (false, ⟨a, .bool b0, o⟩) ∧
      FlagValue.ParseFrom libc ⟨a, .bool b0, o⟩ "true ".toList = (false, ⟨a, .bool b0, o⟩) ∧
      FlagValue.ParseFrom libc ⟨a, .bool b0, o⟩ " 1 ".toList = (false, ⟨a, .bool b0, o⟩) ∧
      FlagValue.ParseFrom libc ⟨a, .bool b0, o⟩ "YeS".toList = (true, ⟨a, .bool true, o⟩) ∧
      FlagValue.ParseFrom libc ⟨a, .bool b0, o⟩ "False".toList = (true, ⟨a, .bool false, o⟩) := by
  rw [eqIgnoreCase_kTrueWords, eqIgnoreCase_kFalseWords]
  refine ⟨?_, ?_, ?_, ?_, rfl, rfl, rfl, rfl, rfl, rfl⟩
  · rw [ParseFrom_bool]
    by_cases h1 : text.map Char.toLower ∈ kTrueWords
    · simp [h1]
    · by_cases h2 : text.map Char.toLower ∈ kFalseWords
      · simp [h1, h2]
      · simp [h1, h2]
  · intro h1
    rw [ParseFrom_bool, if_pos h1]
  · intro h2
    have h1 : ¬ text.map Char.toLower ∈ kTrueWords := by
      intro h1
      have hd : ∀ w ∈ kTrueWords, w ∉ kFalseWords := by decide
      exact hd _ h1 h2
    rw [ParseFrom_bool, if_neg h1, if_pos h2]
  · rw [ParseFrom_bool]
    by_cases h1 : text.map Char.toLower ∈ kTrueWords
    · simp [h1]
    · by_cases h2 : text.map Char.toLower ∈ kFalseWords
      · simp [h1, h2]
      · simp [h1, h2]

/-- C14: for the integer `n` written as the decimal numeral `text` (an optional `-`, then one
or more decimal digits, leading zeros allowed), `ParseFrom(text)` succeeds on an Int32 box iff
`-2^31 <= n <= 2^31-1`, on a UInt32 box iff the text has no `-` and `0 <= n <= 2^32-1`, on an
Int64 box iff `-2^63 <= n <= 2^63-1`, and on a UInt64 box iff the text has no `-` and
`0 <= n <= 2^64-1`; on success the box holds exactly `n`, and on failure it is as it was. -/
theorem C14_decimal_numeral_parses_iff_in_range (libc : Libc) (a : Nat) (o : Bool) (i0 : Int)
    (u0 : Nat) (neg : Bool) (ds : CStr) (hne : ds ≠ [])
    (hds : ∀ c ∈ ds, isDecimalDigit c = true) :
    (FlagValue.ParseFrom libc ⟨a, .int32 i0, o⟩ (decimalNumeral neg ds) =
        if -(2 ^ 31 : Int) ≤ decimalNumeralValue neg ds ∧ decimalNumeralValue neg ds ≤ 2 ^ 31 - 1
        then (true, ⟨a, .int32 (decimalNumeralValue neg ds), o⟩)
        else (false, ⟨a, .int32 i0, o⟩)) ∧
      (FlagValue.ParseFrom libc ⟨a, .uint32 u0, o⟩ (decimalNumeral neg ds) =
        if neg = false ∧ 0 ≤ decimalNumeralValue neg ds ∧ decimalNumeralValue neg ds ≤ 2 ^ 32 - 1
        then (true, ⟨a, .uint32 (decimalNumeralValue neg ds).toNat, o⟩)
        else (false, ⟨a, .uint32 u0, o⟩)) ∧
      (FlagValue.ParseFrom libc ⟨a, .int64 i0, o⟩ (decimalNumeral neg ds) =
        if -(2 ^ 63 : Int) ≤ decimalNumeralValue neg ds ∧ decimalNumeralValue neg ds ≤ 2 ^ 63 - 1
        then (true, ⟨a, .int64 (decimalNumeralValue neg ds), o⟩)
        else (false, ⟨a, .int64 i0, o⟩)) ∧
      (FlagValue.ParseFrom libc ⟨a, .uint64 u0, o⟩ (decimalNumeral neg ds) =
        if neg = false ∧ 0 ≤ decimalNumeralValue neg ds ∧ decimalNumeralValue neg ds ≤ 2 ^ 64 - 1
        then (true, ⟨a, .uint64 (decimalNumeralValue neg ds).toNat, o⟩)
        else (false, ⟨a, .uint64 u0, o⟩)) :=
  ParseFrom_decimalNumeral libc a o i0 u0 neg ds hne hds

/-- C14 on the numeral `-2147483648`: the smallest Int32, in range for Int64, refused by the
unsigned kinds. -/
theorem C14_witness :
    "2147483648".toList ≠ [] ∧ (∀ c ∈ "2147483648".toList, isDecimalDigit c = true) ∧
      decimalNumeral true "2147483648".toList = "-2147483648".toList ∧
      decimalNumeralValue true "2147483648".toList = -2147483648 ∧
      FlagValue.ParseFrom exampleLibc ⟨100, .int32 1, false⟩ "-2147483648".toList =
        (true, ⟨100, .int32 (-2147483648), false⟩) ∧
      FlagValue.ParseFrom exampleLibc ⟨100, .uint32 1, false⟩ "-2147483648".toList =
        (false, ⟨100, .uint32 1, false⟩) ∧
      FlagValue.ParseFrom exampleLibc ⟨100, .int64 1, false⟩ "-2147483648".toList =
        (true, ⟨100, .int64 (-2147483648), false⟩) ∧
      FlagValue.ParseFrom exampleLibc ⟨100, .uint64 1, false⟩ "-2147483648".toList =
        (false, ⟨100, .uint64 1, false⟩) :=
  ⟨by decide, by decide, rfl, by decide,
    (C14_decimal_numeral_parses_iff_in_range exampleLibc 100 false 1 1 true
      "2147483648".toList (by decide) (by decide)).1.trans rfl,
    (C14_decimal_numeral_parses_iff_in_range exampleLibc 100 false 1 1 true
      "2147483648".toList (by decide) (by decide)).2.1.trans rfl,
    (C14_decimal_numeral_parses_iff_in_range exampleLibc 100 false 1 1 true
      "2147483648".toList (by decide) (by decide)).2.2.1.trans rfl,
    (C14_decimal_numeral_parses_iff_in_range exampleLibc 100 false 1 1 true
      "2147483648".toList (by decide) (by decide)).2.2.2.trans rfl⟩

/-- C15: the base in which `ParseFrom` has `strtoll` or `strtoull` read an integer,
`parseBase text`, is 16 exactly when the text starts with `0x` or `0X`, and 10 otherwise.  On
each integral kind a text `0x` or `0X` followed by one or more hexadecimal digits stores the
base-16 value of the digits exactly when that value is in the range of the kind (and leaves
the box as it was otherwise), and a text of decimal digits with a leading `0` stores its
decimal value when it is in range: `010` is read as 10, not as the octal 8. -/
theorem C15_base_is_sixteen_exactly_behind_0x (libc : Libc) (a : Nat) (o : Bool)
    (i0 : Int) (u0 : Nat) (x : Char) (hs ds : CStr) (hx : x = 'x' ∨ x = 'X') (hne : hs ≠ [])
    (hhex : ∀ c ∈ hs, isHexDigit c = true) (hdec : ∀ c ∈ ds, isDecimalDigit c = true) :
    (∀ text, (parseBase text = 16 ↔ "0x".toList <+: text ∨ "0X".toList <+: text) ∧
        (parseBase text = 10 ↔ ¬ ("0x".toList <+: text ∨ "0X".toList <+: text))) ∧
      (FlagValue.ParseFrom libc ⟨a, .int32 i0, o⟩ ('0' :: x :: hs) =
        if hexValue hs ≤ 2 ^ 31 - 1 then (true, ⟨a, .int32 (hexValue hs), o⟩)
        else (false, ⟨a, .int32 i0, o⟩)) ∧
      (FlagValue.ParseFrom libc ⟨a, .uint32 u0, o⟩ ('0' :: x :: hs) =
        if hexValue hs ≤ 2 ^ 32 - 1 then (true, ⟨a, .uint32 (hexValue hs), o⟩)
        else (false, ⟨a, .uint32 u0, o⟩)) ∧
      (FlagValue.ParseFrom libc ⟨a, .int64 i0, o⟩ ('0' :: x :: hs) =
        if hexValue hs ≤ 2 ^ 63 - 1 then (true, ⟨a, .int64 (hexValue hs), o⟩)
        else (false, ⟨a, .int64 i0, o⟩)) ∧
      (FlagValue.ParseFrom libc ⟨a, .uint64 u0, o⟩ ('0' :: x :: hs) =
        if hexValue hs ≤ 2 ^ 64 - 1 then (true, ⟨a, .uint64 (hexValue hs), o⟩)
        else (false, ⟨a, .uint64 u0, o⟩)) ∧
      (FlagValue.ParseFrom libc ⟨a, .int32 i0, o⟩ ('0' :: ds) =
        if decimalValue ds ≤ 2 ^ 31 - 1 then (true, ⟨a, .int32 (decimalValue ds), o⟩)
        else (false, ⟨a, .int32 i0, o⟩)) ∧
      (FlagValue.ParseFrom libc ⟨a, .uint32 u0, o⟩ ('0' :: ds) =
        if decimalValue ds ≤ 2 ^ 32 - 1 then (true, ⟨a, .uint32 (decimalValue ds), o⟩)
        else (false, ⟨a, .uint32 u0, o⟩)) ∧
      (FlagValue.ParseFrom libc ⟨a, .int64 i0, o⟩ ('0' :: ds) =
        if decimalValue ds ≤ 2 ^ 63 - 1 then (true, ⟨a, .int64 (decimalValue ds), o⟩)
        else (false, ⟨a, .int64 i0, o⟩)) ∧
      (FlagValue.ParseFrom libc ⟨a, .uint64 u0, o⟩ ('0' :: ds) =
        if decimalValue ds ≤ 2 ^ 64 - 1 then (true, ⟨a, .uint64 (decimalValue ds), o⟩)
        else (false, ⟨a, .uint64 u0, o⟩)) ∧
      FlagValue.ParseFrom libc ⟨a, .int32 i0, o⟩ "010".toList = (true, ⟨a, .int32 10, o⟩) ∧
      FlagValue.ParseFrom libc ⟨a, .uint32 u0, o⟩ "010".toList = (true, ⟨a, .uint32 10, o⟩) ∧
      FlagValue.ParseFrom libc ⟨a, .int64 i0, o⟩ "010".toList = (true, ⟨a, .int64 10, o⟩) ∧
      FlagValue.ParseFrom libc ⟨a, .uint64 u0, o⟩ "010".toList = (true, ⟨a, .uint64 10, o⟩) := by
  obtain ⟨h1, h2, h3, h4⟩ := ParseFrom_hexNumeral libc a o i0 u0 x hs hx hne hhex
  have hd0 : ∀ c ∈ '0' :: ds, isDecimalDigit c = true := by
    intro c hc
    rcases List.mem_cons.1 hc with rfl | hc
    · decide
    · exact hdec c hc
  have hv : decimalValue ('0' :: ds) = decimalValue ds := by
    simp [decimalValue]
  obtain ⟨d1, d2, d3, d4⟩ := ParseFrom_decimalNumeral libc a o i0 u0 false ('0' :: ds)
    (by simp) hd0
  simp only [decimalNumeral, decimalNumeralValue, Bool.false_eq_true, if_false, hv]
    at d1 d2 d3 d4
  refine ⟨parseBase_eq, h1, h2, h3, h4, ?_, ?_, ?_, ?_, rfl, rfl, rfl, rfl⟩
  · rw [d1]
    by_cases h : decimalValue ds ≤ 2 ^ 31 - 1
    · rw [if_pos h, if_pos (by omega)]
    · rw [if_neg h, if_neg (by omega)]
  · rw [d2]
    by_cases h : decimalValue ds ≤ 2 ^ 32 - 1
    · rw [if_pos h, if_pos ⟨trivial, by omega, by omega⟩]; simp
    · rw [if_neg h, if_neg (by omega)]
  · rw [d3]
    by_cases h : decimalValue ds ≤ 2 ^ 63 - 1
    · rw [if_pos h, if_pos (by omega)]
    · rw [if_neg h, if_neg (by omega)]
  · rw [d4]
    by_cases h : decimalValue ds ≤ 2 ^ 64 - 1
    · rw [if_pos h, if_pos ⟨trivial, by omega, by omega⟩]; simp
    · rw [if_neg h, if_neg (by omega)]

/-- C15 on `0Xff` (255 in base 16) and on `010` (10 in base 10). -/
theorem C15_witness :
    ('X' = 'x' ∨ 'X' = 'X') ∧ "fF".toList ≠ [] ∧ (∀ c ∈ "fF".toList, isHexDigit c = true) ∧
      (∀ c ∈ "10".toList, isDecimalDigit c = true) ∧
      parseBase "0XfF".toList = 16 ∧ parseBase "010".toList = 10 ∧
      FlagValue.ParseFrom exampleLibc ⟨100, .int32 1, false⟩ "0XfF".toList =
        (true, ⟨100, .int32 255, false⟩) ∧
      FlagValue.ParseFrom exampleLibc ⟨100, .uint64 1, false⟩ "010".toList =
        (true, ⟨100, .uint64 10, false⟩) :=
  ⟨by decide, by decide, by decide, by decide, by decide, by decide,
    (C15_base_is_sixteen_exactly_behind_0x exampleLibc 100 false 1 1 'X' "fF".toList
      "10".toList (by decide) (by decide) (by decide) (by decide)).2.1.trans rfl,
    (C15_base_is_sixteen_exactly_behind_0x exampleLibc 100 false 1 1 'X' "fF".toList
      "10".toList (by decide) (by decide) (by decide) (by decide)).2.2.2.2.2.2.2.2.1.trans rfl⟩

/-- C16 at a text of spaces only: a UInt32 or UInt64 box on one or more spaces reports success
and stores 0, although no numeral was read and the text is all left over, while the Int32 and
Int64 boxes refuse the same text and stay as they were.  The empty text and the texts `12abc`,
`12 `, `1.5` and `0x` are refused by all four kinds.  On every text a failed `ParseFrom` leaves
the box as it was; a signed box succeeds only on a non-empty text that `strtoll` consumed in
full, an unsigned box only on a non-empty text of which `strtoull` consumed in full what
follows the leading spaces. -/
theorem C16_text_of_spaces_is_accepted_by_unsigned_kinds (libc : Libc) (a : Nat) (o : Bool)
    (i0 : Int) (u0 : Nat) (k : Nat) :
    FlagValue.ParseFrom libc ⟨a, .uint32 u0, o⟩ (List.replicate (k + 1) ' ') =
        (true, ⟨a, .uint32 0, o⟩) ∧
      FlagValue.ParseFrom libc ⟨a, .uint64 u0, o⟩ (List.replicate (k + 1) ' ') =
        (true, ⟨a, .uint64 0, o⟩) ∧
      FlagValue.ParseFrom libc ⟨a, .int32 i0, o⟩ (List.replicate (k + 1) ' ') =
        (false, ⟨a, .int32 i0, o⟩) ∧
      FlagValue.ParseFrom libc ⟨a, .int64 i0, o⟩ (List.replicate (k + 1) ' ') =
        (false, ⟨a, .int64 i0, o⟩) ∧
      (∀ text ∈ [[], "12abc".toList, "12 ".toList, "1.5".toList, "0x".toList],
        FlagValue.ParseFrom libc ⟨a, .int32 i0, o⟩ text = (false, ⟨a, .int32 i0, o⟩) ∧
        FlagValue.ParseFrom libc ⟨a, .uint32 u0, o⟩ text = (false, ⟨a, .uint32 u0, o⟩) ∧
        FlagValue.ParseFrom libc ⟨a, .int64 i0, o⟩ text = (false, ⟨a, .int64 i0, o⟩) ∧
        FlagValue.ParseFrom libc ⟨a, .uint64 u0, o⟩ text = (false, ⟨a, .uint64 u0, o⟩)) ∧
      (∀ (fv : FlagValue) (text : CStr), (fv.ParseFrom libc text).1 = false →
        (fv.ParseFrom libc text).2 = fv) ∧
      (∀ text : CStr,
        ((FlagValue.ParseFrom libc ⟨a, .int32 i0, o⟩ text).1 = true ∨
          (FlagValue.ParseFrom libc ⟨a, .int64 i0, o⟩ text).1 = true) →
        text ≠ [] ∧ (strtoll text (parseBase text)).endp = text.length) ∧
      (∀ text : CStr,
        ((FlagValue.ParseFrom libc ⟨a, .uint32 u0, o⟩ text).1 = true ∨
          (FlagValue.ParseFrom libc ⟨a, .uint64 u0, o⟩ text).1 = true) →
        text ≠ [] ∧
          (strtoull (skipSpaces text) (parseBase text)).endp = (skipSpaces text).length) := by
  obtain ⟨h1, h2, h3, h4⟩ := ParseFrom_spaces libc a o i0 u0 k
  refine ⟨h1, h2, h3, h4, ?_, fun fv text h => FlagValue.ParseFrom_false libc fv text h, ?_, ?_⟩
  · intro text ht
    simp only [List.mem_cons, List.mem_singleton, List.mem_nil_iff, or_false] at ht
    rcases ht with rfl | rfl | rfl | rfl | rfl <;> exact ⟨rfl, rfl, rfl, rfl⟩
  · intro text h
    obtain ⟨s1, s2⟩ := ParseFrom_signed_true libc a o i0 text
    rcases h with h | h
    · exact ⟨(s1 h).1, (s1 h).2.1⟩
    · exact ⟨(s2 h).1, (s2 h).2.1⟩
  · intro text h
    obtain ⟨s1, s2⟩ := ParseFrom_unsigned_true libc a o u0 text
    rcases h with h | h
    · exact ⟨(s1 h).1, (s1 h).2.1⟩
    · exact ⟨(s2 h).1, (s2 h).2.1⟩

/-- C17: `ParseFrom` on a UInt32 or UInt64 box fails on every text whose first character after
any number of leading space characters is `-`, and leaves the box as it was. -/
theorem C17_unsigned_ParseFrom_rejects_leading_minus (libc : Libc) (a : Nat) (v0 : Nat)
    (o : Bool) (k : Nat) (rest : CStr) :
    FlagValue.ParseFrom libc ⟨a, .uint32 v0, o⟩ (List.replicate k ' ' ++ '-' :: rest) =
        (false, ⟨a, .uint32 v0, o⟩) ∧
      FlagValue.ParseFrom libc ⟨a, .uint64 v0, o⟩ (List.replicate k ' ' ++ '-' :: rest) =
        (false, ⟨a, .uint64 v0, o⟩) := by
  have hm : (skipSpaces (List.replicate k ' ' ++ '-' :: rest)).head? = some '-' := by
    rw [skipSpaces_replicate k '-' rest (by decide)]; rfl
  exact ⟨ParseFrom_unsigned_minus libc _ _ (Or.inl rfl) hm,
    ParseFrom_unsigned_minus libc _ _ (Or.inr rfl) hm⟩

/-- C18: `ToString` is canonical.  A Bool box gives exactly `true` or `false`.  An Int32 or
Int64 box gives the decimal numeral of its value: `-` exactly when the value is negative, then
one or more decimal digits whose value is the absolute value, the first of them `0` only when
the digits are the single `0`: no leading zeros.  A UInt32 or UInt64 box gives such digits
with no sign.  No integer box gives a text with `+`, `x` or `X` in it.  A String box gives its
text verbatim.  The text depends on
the stored value only, so two texts that `ParseFrom` accepts to the same value give the same
`ToString`: `YES` and `1` both give `true`, `0x10` and `16` both give `16`. -/
theorem C18_ToString_is_canonical (libc : Libc) (a : Nat) (o : Bool) :
    (∀ b : Bool, FlagValue.ToString libc ⟨a, .bool b, o⟩ =
        if b then "true".toList else "false".toList) ∧
      (∀ v : Int, ∃ ds, FlagValue.ToString libc ⟨a, .int32 v, o⟩ =
          decimalNumeral (decide (v < 0)) ds ∧ ds ≠ [] ∧
        (∀ c ∈ ds, isDecimalDigit c = true) ∧ decimalNumeralValue (decide (v < 0)) ds = v ∧
        (ds.head? = some '0' → ds = ['0'])) ∧
      (∀ v : Int, ∃ ds, FlagValue.ToString libc ⟨a, .int64 v, o⟩ =
          decimalNumeral (decide (v < 0)) ds ∧ ds ≠ [] ∧
        (∀ c ∈ ds, isDecimalDigit c = true) ∧ decimalNumeralValue (decide (v < 0)) ds = v ∧
        (ds.head? = some '0' → ds = ['0'])) ∧
      (∀ v : Nat, FlagValue.ToString libc ⟨a, .uint32 v, o⟩ ≠ [] ∧
        (∀ c ∈ FlagValue.ToString libc ⟨a, .uint32 v, o⟩, isDecimalDigit c = true) ∧
        decimalValue (FlagValue.ToString libc ⟨a, .uint32 v, o⟩) = v ∧
        ((FlagValue.ToString libc ⟨a, .uint32 v, o⟩).head? = some '0' →
          FlagValue.ToString libc ⟨a, .uint32 v, o⟩ = ['0'])) ∧
      (∀ v : Nat, FlagValue.ToString libc ⟨a, .uint64 v, o⟩ ≠ [] ∧
        (∀ c ∈ FlagValue.ToString libc ⟨a, .uint64 v, o⟩, isDecimalDigit c = true) ∧
        decimalValue (FlagValue.ToString libc ⟨a, .uint64 v, o⟩) = v ∧
        ((FlagValue.ToString libc ⟨a, .uint64 v, o⟩).head? = some '0' →
          FlagValue.ToString libc ⟨a, .uint64 v, o⟩ = ['0'])) ∧
      (∀ fv : FlagValue, fv.Type_ = .FV_INT32 ∨ fv.Type_ = .FV_UINT32 ∨ fv.Type_ = .FV_INT64 ∨
          fv.Type_ = .FV_UINT64 →
        '+' ∉ fv.ToString libc ∧ 'x' ∉ fv.ToString libc ∧ 'X' ∉ fv.ToString libc) ∧
      (∀ s : CStr, FlagValue.ToString libc ⟨a, .string s, o⟩ = s) ∧
      (∀ (b1 b2 : FlagValue) (t1 t2 : CStr),
        (b1.ParseFrom libc t1).1 = true → (b2.ParseFrom libc t2).1 = true →
        (b1.ParseFrom libc t1).2.cell = (b2.ParseFrom libc t2).2.cell →
        (b1.ParseFrom libc t1).2.ToString libc = (b2.ParseFrom libc t2).2.ToString libc) ∧
      (∀ b : Bool,
        (FlagValue.ParseFrom libc ⟨a, .bool b, o⟩ "YES".toList).2.ToString libc = "true".toList ∧
        (FlagValue.ParseFrom libc ⟨a, .bool b, o⟩ "1".toList).2.ToString libc = "true".toList) ∧
      (∀ v : Int,
        (FlagValue.ParseFrom libc ⟨a, .int32 v, o⟩ "0x10".toList).2.ToString libc = "16".toList ∧
        (FlagValue.ParseFrom libc ⟨a, .int32 v, o⟩ "16".toList).2.ToString libc = "16".toList) := by
  refine ⟨?_, fun v => printf_d_canonical v, fun v => printf_d_canonical v,
    fun v => printf_u_canonical v, fun v => printf_u_canonical v, ?_, fun s => rfl, ?_, ?_, ?_⟩
  · intro b; cases b <;> rfl
  · intro fv hk
    have hc := integer_ToString_chars libc fv hk
    refine ⟨fun h => ?_, fun h => ?_, fun h => ?_⟩ <;>
      (rcases hc _ h with h2 | h2 <;> revert h2 <;> decide)
  · intro b1 b2 t1 t2 _ _ h
    exact FlagValue.ToString_congr libc _ _ h
  · intro b; exact ⟨rfl, rfl⟩
  · intro v; exact ⟨rfl, rfl⟩

/-- C19: after a successful `SetFlagLocked` in `SET_FLAGS_VALUE` mode on a flag with the
validator `fn` attached, the flag still carries `fn`, `fn` accepts the name and the current
value of the flag, and `ValidateCurrent()` is true.  And in no mode does a set operation
commit a value that the validator rejects: whatever the call returns, current storage is the
box from before the call or holds a value that the validator accepts. -/
theorem C19_successful_set_leaves_current_value_validated (libc : Libc)
    (flag : CommandLineFlag) (text : CStr) (msg : Option CStr) (r : SetFlagResult)
    (fn : ValidateFn)
    (h : FlagRegistry.SetFlagLocked libc flag text .SET_FLAGS_VALUE msg = .ok r)
    (hok : r.ok = true) (hfn : flag.validate_function = some fn) :
    r.flag.ValidateCurrent = true ∧ r.flag.validate_function = some fn ∧
      fn.fn r.flag.name r.flag.current_.cell = true ∧
      ∀ (set_mode : FlagSettingMode) (msg2 : Option CStr) (r2 : SetFlagResult),
        FlagRegistry.SetFlagLocked libc flag text set_mode msg2 = .ok r2 →
        r2.flag.current_ = flag.current_ ∨ r2.flag.ValidateCurrent = true := by
  obtain ⟨_, hv, _, _⟩ := SetFlagLocked_value_success libc flag text msg r h hok
  have hfn2 : r.flag.validate_function = some fn := by
    obtain ⟨r1, hr1, hc⟩ := SetFlagLocked_value_eq libc flag text msg
    rw [hr1] at h; cases h
    rcases hc with ⟨h2, _⟩ | ⟨_, h2, _, _⟩
    · rw [h2] at hok; cases hok
    · rw [h2]
      simpa [CommandLineFlag.validate_function, CommandLineFlag.UpdateModifiedBit_validate]
        using hfn
  refine ⟨hv, hfn2, ?_, fun set_mode msg2 r2 h2 =>
    SetFlagLocked_current_validated libc flag text set_mode msg2 r2 h2⟩
  simpa [CommandLineFlag.ValidateCurrent, CommandLineFlag.Validate, hfn2, FlagValue.Validate]
    using hv

/-- C19 on the flag `timeout` of main.cc, whose validator wants a positive value, and the
text `5`. -/
theorem C19_witness :
    FlagRegistry.SetFlagLocked exampleLibc timeoutFlag "5".toList .SET_FLAGS_VALUE (some []) =
        .ok ⟨true, timeoutFlagSet, some "timeout set to 5\n".toList⟩ ∧
      timeoutFlag.validate_function = some ValidateTimeout ∧
      timeoutFlagSet.ValidateCurrent = true ∧
      ValidateTimeout.fn timeoutFlagSet.name timeoutFlagSet.current_.cell = true :=
  ⟨rfl, rfl,
    (C19_successful_set_leaves_current_value_validated exampleLibc timeoutFlag "5".toList
      (some []) ⟨true, timeoutFlagSet, some "timeout set to 5\n".toList⟩ ValidateTimeout
      rfl rfl rfl).1,
    (C19_successful_set_leaves_current_value_validated exampleLibc timeoutFlag "5".toList
      (some []) ⟨true, timeoutFlagSet, some "timeout set to 5\n".toList⟩ ValidateTimeout
      rfl rfl rfl).2.2.1⟩

/-- C20, amended: when `SetFlagLocked` returns false, in any setting mode, the flag is left as
`UpdateModifiedBit` made it at the entry of the call: its current value, its default value,
its validator (and its name, help text and file) are the same as before the call, and its
modified bit is the one from before the call, except that a bit that was false is now true
when the current value is not `Equal` to the default value.  So a flag that was already
modified, or whose current value equals its default, is left unchanged as a whole. -/
theorem C20_false_return_leaves_flag_as_UpdateModifiedBit_made_it (libc : Libc)
    (flag : CommandLineFlag) (value : CStr) (set_mode : FlagSettingMode) (msg : Option CStr)
    (r : SetFlagResult)
    (h : FlagRegistry.SetFlagLocked libc flag value set_mode msg = .ok r)
    (hfalse : r.ok = false) :
    r.flag = flag.UpdateModifiedBit ∧
      r.flag.current_ = flag.current_ ∧ r.flag.defvalue_ = flag.defvalue_ ∧
      r.flag.validate_fn_proto_ = flag.validate_fn_proto_ ∧
      r.flag.name_ = flag.name_ ∧ r.flag.help_ = flag.help_ ∧ r.flag.file_ = flag.file_ ∧
      r.flag.modified_ = (flag.modified_ || !flag.current_.Equal flag.defvalue_) ∧
      (flag.modified_ = true ∨ flag.current_.Equal flag.defvalue_ = true → r.flag = flag) := by
  have key := SetFlagLocked_false_eq libc flag value set_mode msg r h hfalse
  rw [key]
  refine ⟨rfl, CommandLineFlag.UpdateModifiedBit_current flag,
    CommandLineFlag.UpdateModifiedBit_defvalue flag,
    CommandLineFlag.UpdateModifiedBit_validate flag,
    CommandLineFlag.UpdateModifiedBit_name flag,
    CommandLineFlag.UpdateModifiedBit_help flag,
    CommandLineFlag.UpdateModifiedBit_file flag,
    CommandLineFlag.UpdateModifiedBit_modified flag, ?_⟩
  intro hcase
  unfold CommandLineFlag.UpdateModifiedBit
  rcases hcase with hm | he
  · simp [hm]
  · simp [he]

/-- C20, amended, on the flag `timeout` of main.cc and the text `-3` that its validator
rejects, in `SET_FLAGS_DEFAULT` mode: the whole flag is as before. -/
theorem C20_witness :
    FlagRegistry.SetFlagLocked exampleLibc timeoutFlag "-3".toList .SET_FLAGS_DEFAULT none =
        .ok ⟨false, timeoutFlag, none⟩ ∧
      (timeoutFlag.modified_ = true ∨ timeoutFlag.current_.Equal timeoutFlag.defvalue_ = true) ∧
      (⟨false, timeoutFlag, none⟩ : SetFlagResult).flag = timeoutFlag :=
  ⟨rfl, Or.inr rfl,
    (C20_false_return_leaves_flag_as_UpdateModifiedBit_made_it exampleLibc timeoutFlag
      "-3".toList .SET_FLAGS_DEFAULT none ⟨false, timeoutFlag, none⟩ rfl rfl).2.2.2.2.2.2.2.2
      (Or.inr rfl)⟩

/-- C20 as the specification states it fails: the program has stored 5 into `FLAGS_a`, so the
flag `a` has a current value that differs from its default and a modified bit that is still
false; `SetFlagLocked` with the text `abc` returns false, and the modified bit is true
afterwards. -/
theorem C20_counterexample :
    bypassedFlag.Modified = false ∧
    FlagRegistry.SetFlagLocked exampleLibc bypassedFlag "abc".toList .SET_FLAGS_VALUE none =
      .ok ⟨false, { bypassedFlag with modified_ := true }, none⟩ ∧
    ¬ ∃ r, FlagRegistry.SetFlagLocked exampleLibc bypassedFlag "abc".toList .SET_FLAGS_VALUE
        none = .ok r ∧ r.ok = false ∧ r.flag.Modified = bypassedFlag.Modified := by
  refine ⟨rfl, rfl, ?_⟩
  rintro ⟨r, h1, _, h3⟩
  have h2 : FlagRegistry.SetFlagLocked exampleLibc bypassedFlag "abc".toList .SET_FLAGS_VALUE
      none = .ok ⟨false, { bypassedFlag with modified_ := true }, none⟩ := rfl
  rw [h2] at h1
  have h4 := Except.ok.inj h1
  rw [← h4] at h3
  exact absurd h3 (by decide)

/-- C21, amended: `UpdateModifiedBit` and `SetFlagLocked` in each of its modes never reset the
modified bit: on a flag whose `Modified()` is true they leave it true (and `SetFlagLocked`
returns, unless it is given a null `msg` in `SET_FLAG_IF_DEFAULT` mode).  The method
`CopyFrom` instead gives the flag the modified bit of its source, whatever its own bit was. -/
theorem C21_set_operations_never_reset_modified_bit (libc : Libc) (flag : CommandLineFlag)
    (hm : flag.Modified = true) :
    flag.UpdateModifiedBit.Modified = true ∧
      (∀ (text : CStr) (set_mode : FlagSettingMode) (msg : Option CStr) (r : SetFlagResult),
        FlagRegistry.SetFlagLocked libc flag text set_mode msg = .ok r →
        r.flag.Modified = true) ∧
      (∀ (text : CStr) (set_mode : FlagSettingMode) (msg : Option CStr),
        (set_mode = .SET_FLAG_IF_DEFAULT → msg ≠ none) →
        ∃ r, FlagRegistry.SetFlagLocked libc flag text set_mode msg = .ok r ∧
          r.flag.Modified = true) ∧
      (∀ src g : CommandLineFlag, flag.CopyFrom src = .ok g → g.Modified = src.Modified) := by
  refine ⟨CommandLineFlag.UpdateModifiedBit_mono flag hm, ?_, ?_, ?_⟩
  · intro text set_mode msg r h
    exact SetFlagLocked_modified_mono libc flag text set_mode msg r h hm
  · intro text set_mode msg hmsg
    obtain ⟨r, hr⟩ := SetFlagLocked_returns libc flag text set_mode msg (fun h1 _ => hmsg h1)
    exact ⟨r, hr, SetFlagLocked_modified_mono libc flag text set_mode msg r hr hm⟩
  · intro src g h
    exact CommandLineFlag.CopyFrom_modified flag src g h

/-- C21, amended, on the flag `timeout` after `--timeout=5`: a rejected text in
`SET_FLAGS_DEFAULT` mode leaves `Modified()` true. -/
theorem C21_witness :
    timeoutFlagSet.Modified = true ∧
      ∃ r, FlagRegistry.SetFlagLocked exampleLibc timeoutFlagSet "-3".toList .SET_FLAGS_DEFAULT
          none = .ok r ∧ r.flag.Modified = true :=
  ⟨rfl, (C21_set_operations_never_reset_modified_bit exampleLibc timeoutFlagSet rfl).2.2.1
    "-3".toList .SET_FLAGS_DEFAULT none (fun h => by cases h)⟩

/-- C21 as the specification states it fails: the flag `timeout` after `--timeout=5` has
`Modified()` true, and `CopyFrom` with the flag as it was defined as source leaves it with
`Modified()` false. -/
theorem C21_counterexample :
    timeoutFlagSet.Modified = true ∧
    timeoutFlagSet.CopyFrom timeoutFlag = .ok timeoutFlag ∧
    timeoutFlag.Modified = false ∧
    ¬ ∀ g : CommandLineFlag, timeoutFlagSet.CopyFrom timeoutFlag = .ok g → g.Modified = true := by
  refine ⟨rfl, rfl, rfl, fun h => ?_⟩
  have := h timeoutFlag rfl
  cases this

/-- C22, amended: after a sequence of calls of `RegisterFlag` on the empty registry none of
which reports an error, the flag objects are the registered flags in their order, and every
registered flag `d` is reachable by name: `FindFlagLocked(d.name())` returns `d`.  The lookup
`FindFlagViaPtrLocked(a)` returns the flag registered last among those whose current-value
storage is at `a`; so `FindFlagViaPtrLocked(d.flag_ptr())` returns `d` when no flag
registered after `d` has its storage at the same address, in particular when the storage
addresses of the flags are distinct. -/
theorem C22_registered_flags_are_reachable (fs : List CommandLineFlag) (reg : FlagRegistry)
    (h : registerAll FlagRegistry.empty fs = some reg) :
    reg.objs = fs ∧
      (∀ (i : Nat) (d : CommandLineFlag), fs[i]? = some d →
        reg.FindFlagLocked d.name = some i ∧ reg.deref i = .ok d) ∧
      (∀ (a i : Nat), reg.FindFlagViaPtrLocked a = some i ↔
        (fs[i]?.map CommandLineFlag.flag_ptr = some a ∧
          ∀ j, i < j → fs[j]?.map CommandLineFlag.flag_ptr ≠ some a)) ∧
      (∀ (i : Nat) (d : CommandLineFlag), fs[i]? = some d →
        (∀ j, i < j → fs[j]?.map CommandLineFlag.flag_ptr ≠ some d.flag_ptr) →
        reg.FindFlagViaPtrLocked d.flag_ptr = some i) ∧
      ((fs.map CommandLineFlag.flag_ptr).Nodup →
        ∀ (i : Nat) (d : CommandLineFlag), fs[i]? = some d →
          reg.FindFlagViaPtrLocked d.flag_ptr = some i) := by
  obtain ⟨h1, h2, h3, h4⟩ := registerAll_invariant fs FlagRegistry.empty reg h
    List.Pairwise.nil (fun i f hf => by simp [FlagRegistry.empty] at hf)
    (fun a i => by simp [FlagRegistry.empty, mapFind])
  have hobjs : reg.objs = fs := by rw [h1]; simp [FlagRegistry.empty]
  rw [hobjs] at h3 h4
  have hptr : ∀ (i : Nat) (d : CommandLineFlag), fs[i]? = some d →
      (∀ j, i < j → fs[j]?.map CommandLineFlag.flag_ptr ≠ some d.flag_ptr) →
      reg.FindFlagViaPtrLocked d.flag_ptr = some i := by
    intro i d hd hlater
    exact (h4 d.flag_ptr i).2 ⟨by rw [hd]; rfl, hlater⟩
  refine ⟨hobjs, ?_, h4, hptr, ?_⟩
  · intro i d hd
    refine ⟨?_, ?_⟩
    · exact reg.FindFlagLocked_of_find d.name i (mapFind_of_mem _ _ _ h2 (h3 i d hd))
    · rw [FlagRegistry.deref_eq_ok, hobjs]; exact hd
  · intro hnd i d hd
    refine hptr i d hd (fun j hj => ?_)
    cases hx : fs[j]? with
    | none => simp
    | some g =>
      have hlj := (List.getElem?_eq_some_iff.1 hx).1
      have := (List.nodup_iff_getElem?_ne_getElem?.1 hnd) i j hj (by simpa using hlj)
      rw [List.getElem?_map, List.getElem?_map, hd, hx] at this
      simpa using Ne.symm this

/-- C22, amended, on the five flags of the example registry. -/
theorem C22_witness :
    registerAll FlagRegistry.empty exampleRegistry.objs = some exampleRegistry ∧
      exampleRegistry.FindFlagLocked "needs_value".toList = some 3 ∧
      exampleRegistry.FindFlagViaPtrLocked 106 = some 3 ∧
      exampleRegistry.deref 3 = .ok (defineFlag "needs_value" "main.cc" 106 (.string [])) :=
  ⟨rfl,
    ((C22_registered_flags_are_reachable exampleRegistry.objs exampleRegistry rfl).2.1 3
      (defineFlag "needs_value" "main.cc" 106 (.string [])) rfl).1,
    (C22_registered_flags_are_reachable exampleRegistry.objs exampleRegistry rfl).2.2.2.2
      (by decide) 3 (defineFlag "needs_value" "main.cc" 106 (.string [])) rfl,
    ((C22_registered_flags_are_reachable exampleRegistry.objs exampleRegistry rfl).2.1 3
      (defineFlag "needs_value" "main.cc" 106 (.string [])) rfl).2⟩

/-- C22 as the specification states it fails: the flags `x` and `y` are registered, in this
order and with no error, over the same current-value storage at address 100; the flag `x` is
the registered descriptor 0 with `flag_ptr()` 100, and `FindFlagViaPtrLocked(100)` returns
the descriptor 1, the flag `y`. -/
theorem C22_counterexample :
    registerAll FlagRegistry.empty sharedStorageFlags = some sharedStorageRegistry ∧
    (sharedStorageRegistry.deref 0).map (fun d => (d.name, d.flag_ptr)) =
      .ok ("x".toList, 100) ∧
    sharedStorageRegistry.FindFlagLocked "x".toList = some 0 ∧
    sharedStorageRegistry.FindFlagViaPtrLocked 100 = some 1 ∧
    (sharedStorageRegistry.deref 1).map (fun d => (d.name, d.flag_ptr)) =
      .ok ("y".toList, 100) :=
  ⟨rfl, rfl, by decide, by decide, rfl⟩

/-- C23: in `SET_FLAG_IF_DEFAULT` mode, on a flag that is already modified or whose current
value differs from its default, `SetFlagLocked` called with a non-null `msg` returns true
and leaves the current value and the default value as they were, whatever the text; called
with a null `msg` it stores through the null pointer.  In this mode a call that returns
never changes the default value, and changes the current value only of a flag whose modified
bit is false and whose current value equals its default. -/
theorem C23_if_default_mode_leaves_modified_flag_alone (libc : Libc) (flag : CommandLineFlag)
    (text : CStr) :
    ((flag.Modified = true ∨ flag.current_.Equal flag.defvalue_ = false) →
        (∀ m : CStr, ∃ r, FlagRegistry.SetFlagLocked libc flag text .SET_FLAG_IF_DEFAULT
            (some m) = .ok r ∧
          r.ok = true ∧ r.flag.current_ = flag.current_ ∧ r.flag.defvalue_ = flag.defvalue_ ∧
          r.flag.Modified = true) ∧
        FlagRegistry.SetFlagLocked libc flag text .SET_FLAG_IF_DEFAULT none =
          .error .nullDeref) ∧
      (∀ (msg : Option CStr) (r : SetFlagResult),
        FlagRegistry.SetFlagLocked libc flag text .SET_FLAG_IF_DEFAULT msg = .ok r →
        r.flag.defvalue_ = flag.defvalue_ ∧
        (r.flag.current_ ≠ flag.current_ →
          flag.Modified = false ∧ flag.current_.Equal flag.defvalue_ = true)) := by
  have hbit := CommandLineFlag.UpdateModifiedBit_modified flag
  constructor
  · intro hcase
    have hm : flag.UpdateModifiedBit.modified_ = true := by
      rw [hbit]
      rcases hcase with h | h
      · have : flag.modified_ = true := h
        simp [this]
      · simp [h]
    constructor
    · intro m
      refine ⟨_, SetFlagLocked_if_default_modified libc flag text (some m) hm, rfl,
        CommandLineFlag.UpdateModifiedBit_current flag,
        CommandLineFlag.UpdateModifiedBit_defvalue flag, hm⟩
    · exact SetFlagLocked_if_default_modified libc flag text none hm
  · intro msg r h
    by_cases hm : flag.UpdateModifiedBit.modified_ = true
    · rw [SetFlagLocked_if_default_modified libc flag text msg hm] at h
      cases msg with
      | none => cases h
      | some m =>
        cases h
        exact ⟨CommandLineFlag.UpdateModifiedBit_defvalue flag,
          fun hx => absurd (CommandLineFlag.UpdateModifiedBit_current flag) hx⟩
    · have hm2 : flag.UpdateModifiedBit.modified_ = false := by simpa using hm
      rw [SetFlagLocked_if_default_unmodified libc flag text msg hm2] at h
      obtain ⟨r1, hr1, hc⟩ := SetFlagLocked_value_eq libc flag text msg
      rw [hr1] at h; cases h
      have hboth : flag.Modified = false ∧ flag.current_.Equal flag.defvalue_ = true := by
        rw [hbit] at hm2
        cases h1 : flag.modified_ <;> cases h2 : flag.current_.Equal flag.defvalue_ <;>
          simp [h1, h2, CommandLineFlag.Modified] at hm2 ⊢
      rcases hc with ⟨_, h2, _⟩ | ⟨_, h2, _, _⟩
      · rw [h2]
        exact ⟨CommandLineFlag.UpdateModifiedBit_defvalue flag, fun _ => hboth⟩
      · rw [h2]
        exact ⟨CommandLineFlag.UpdateModifiedBit_defvalue flag, fun _ => hboth⟩

/-- C24: on a flag whose two boxes have the same kind, `SetFlagLocked` in
`SET_FLAGS_DEFAULT` mode returns; when it returns true, the text has parsed and the default
box holds the parsed value; the current box holds the same value if the flag was not yet
modified (modified bit false and current equal to default), and is untouched if the flag was
modified (bit true, or current differing from default); and a modified bit that was false
with current equal to default is still false. -/
theorem C24_default_mode_sets_default_and_unmodified_current (libc : Libc)
    (flag : CommandLineFlag) (text : CStr) (msg : Option CStr) (r : SetFlagResult)
    (hkind : flag.current_.Type_ = flag.defvalue_.Type_)
    (h : FlagRegistry.SetFlagLocked libc flag text .SET_FLAGS_DEFAULT msg = .ok r)
    (hok : r.ok = true) :
    (flag.defvalue_.New.ParseFrom libc text).1 = true ∧
      r.flag.defvalue_ =
        { flag.defvalue_ with cell := (flag.defvalue_.New.ParseFrom libc text).2.cell } ∧
      (flag.Modified = false ∧ flag.current_.Equal flag.defvalue_ = true →
        r.flag.current_ =
          { flag.current_ with cell := (flag.defvalue_.New.ParseFrom libc text).2.cell } ∧
        r.flag.current_.cell = r.flag.defvalue_.cell ∧ r.flag.Modified = false) ∧
      (flag.Modified = true ∨ flag.current_.Equal flag.defvalue_ = false →
        r.flag.current_ = flag.current_ ∧ r.flag.Modified = true) ∧
      r.flag.validate_fn_proto_ = flag.validate_fn_proto_ ∧
      ∃ r2, FlagRegistry.SetFlagLocked libc flag text .SET_FLAGS_DEFAULT none = .ok r2 := by
  have hbit := CommandLineFlag.UpdateModifiedBit_modified flag
  obtain ⟨r1, hr1, hc⟩ := SetFlagLocked_default_eq libc flag text msg hkind
  rw [hr1] at h; cases h
  rcases hc with ⟨h1, _⟩ | ⟨_, h2, _, h4, h5, h6, h7, _, _, _, h11⟩
  · rw [h1] at hok; cases hok
  · refine ⟨h2, h4, ?_, ?_, h11, ?_⟩
    · rintro ⟨a, b⟩
      have hm : flag.UpdateModifiedBit.modified_ = false := by
        have a2 : flag.modified_ = false := a
        rw [hbit, a2, b]; rfl
      refine ⟨h5 hm, ?_, ?_⟩
      · rw [h5 hm, h4]
      · exact h7.trans hm
    · intro hcase
      have hm : flag.UpdateModifiedBit.modified_ = true := by
        rw [hbit]
        rcases hcase with a | b
        · have a2 : flag.modified_ = true := a
          simp [a2]
        · simp [b]
      exact ⟨h6 hm, h7.trans hm⟩
    · obtain ⟨r2, hr2, _⟩ := SetFlagLocked_default_eq libc flag text none hkind
      exact ⟨r2, hr2⟩

/-- C24 on the flag `timeout` as defined, and on the flag after `--timeout=5`, with the
text `7`: the default becomes 7 in both; the current value becomes 7 in the first and stays 5
in the second. -/
theorem C24_witness :
    FlagRegistry.SetFlagLocked exampleLibc timeoutFlag "7".toList .SET_FLAGS_DEFAULT none =
        .ok ⟨true,
          { timeoutFlag with defvalue_ := ⟨101, .int32 7, false⟩, current_ := ⟨100, .int32 7, false⟩ },
          none⟩ ∧
      FlagRegistry.SetFlagLocked exampleLibc timeoutFlagSet "7".toList .SET_FLAGS_DEFAULT none =
        .ok ⟨true, { timeoutFlagSet with defvalue_ := ⟨101, .int32 7, false⟩ }, none⟩ ∧
      (timeoutFlag.defvalue_.New.ParseFrom exampleLibc "7".toList).1 = true :=
  ⟨rfl, rfl,
    (C24_default_mode_sets_default_and_unmodified_current exampleLibc timeoutFlag "7".toList
      none ⟨true,
        { timeoutFlag with defvalue_ := ⟨101, .int32 7, false⟩, current_ := ⟨100, .int32 7, false⟩ },
        none⟩ rfl rfl rfl).1⟩

/-- C25: on a registry whose map `flags_by_ptr_` is in order, `RegisterFlagValidator` returns,
and: it returns false and leaves the registry as it was when no flag has its current-value
storage at the given address; for the flag that `FindFlagViaPtrLocked` finds at the address,
it returns true and leaves the registry as it was when the given function is the flag's
validator (both null, or the same address); it returns false and leaves the registry as it
was when the two differ and neither is null; and otherwise it stores the given function as
the validator of the flag, changing nothing else, and returns true. -/
theorem C25_RegisterFlagValidator_installs_or_refuses (showPtr : Nat → CStr)
    (registry : FlagRegistry) (flag_ptr : Nat) (validate_fn : Option ValidateFn)
    (hp : registry.PtrIndexed) :
    ∃ out, Gflags.RegisterFlagValidator showPtr registry flag_ptr validate_fn = .ok out ∧
      ((∀ f ∈ registry.objs, f.flag_ptr ≠ flag_ptr) →
        out.ok = false ∧ out.registry = registry) ∧
      (∀ (p : Nat) (flag : CommandLineFlag),
        registry.FindFlagViaPtrLocked flag_ptr = some p → registry.deref p = .ok flag →
        flag.flag_ptr = flag_ptr ∧
        (sameValidateFn validate_fn flag.validate_function = true →
          out.ok = true ∧ out.registry = registry) ∧
        (sameValidateFn validate_fn flag.validate_function = false →
          validate_fn ≠ none → flag.validate_function ≠ none →
          out.ok = false ∧ out.registry = registry ∧
            (out.registry.deref p).map CommandLineFlag.validate_function =
              .ok flag.validate_function) ∧
        (sameValidateFn validate_fn flag.validate_function = false →
          (validate_fn = none ∨ flag.validate_function = none) →
          out.ok = true ∧
            out.registry = registry.store p { flag with validate_fn_proto_ := validate_fn } ∧
            out.registry.deref p = .ok { flag with validate_fn_proto_ := validate_fn } ∧
            (∀ q, q ≠ p → out.registry.deref q = registry.deref q))) := by
  unfold Gflags.RegisterFlagValidator
  cases hfind : registry.FindFlagViaPtrLocked flag_ptr with
  | none =>
    refine ⟨_, rfl, fun _ => ⟨rfl, rfl⟩, fun p flag h => by cases h⟩
  | some p0 =>
    obtain ⟨f0, hf0, ha0⟩ := hp.lookup_valid flag_ptr p0 hfind
    have hsome : ¬ ∀ f ∈ registry.objs, f.flag_ptr ≠ flag_ptr := by
      intro hall
      rw [(hp.find_none flag_ptr).2 hall] at hfind
      cases hfind
    simp only [hf0, bind, Except.bind, pure, Except.pure]
    by_cases hsame : sameValidateFn validate_fn f0.validate_function = true
    · rw [if_pos hsame]
      refine ⟨_, rfl, fun h => absurd h hsome, ?_⟩
      intro p flag h1 h2
      cases h1
      rw [hf0] at h2; cases h2
      refine ⟨ha0, fun _ => ⟨rfl, rfl⟩, fun h => ?_, fun h => ?_⟩
      · rw [hsame] at h; cases h
      · rw [hsame] at h; cases h
    · rw [if_neg hsame]
      by_cases hboth : (validate_fn.isSome && f0.validate_function.isSome) = true
      · rw [if_pos hboth]
        refine ⟨_, rfl, fun h => absurd h hsome, ?_⟩
        intro p flag h1 h2
        cases h1
        rw [hf0] at h2; cases h2
        refine ⟨ha0, fun h => absurd h hsame, fun _ _ _ => ⟨rfl, rfl, ?_⟩, fun _ h => ?_⟩
        · simp only [hf0]; rfl
        · rcases h with h | h
          · rw [h] at hboth; simp at hboth
          · rw [h] at hboth; simp at hboth
      · rw [if_neg hboth]
        refine ⟨_, rfl, fun h => absurd h hsome, ?_⟩
        intro p flag h1 h2
        cases h1
        rw [hf0] at h2; cases h2
        refine ⟨ha0, fun h => absurd h hsame, fun _ h3 h4 => ?_, fun _ _ => ⟨rfl, rfl, ?_, ?_⟩⟩
        · exfalso
          apply hboth
          cases hv : validate_fn with
          | none => exact absurd hv h3
          | some v =>
            cases hw : f0.validate_function with
            | none => exact absurd hw h4
            | some w => simp
        · exact FlagRegistry.deref_store_same registry p0 _
            ((List.getElem?_eq_some_iff.1 ((FlagRegistry.deref_eq_ok _ _ _).1 hf0)).1)
        · intro q hq
          exact FlagRegistry.deref_store_other registry p0 q _ (Ne.symm hq)

/-- C25 on the registry whose one flag `timeout`, at address 100, carries
`ValidateTimeout`: another validator is refused and the registry stays; at address 101 there
is no flag; `ValidateTimeout` again is accepted with no change; and a null function is
stored, which leaves the flag without validator. -/
theorem C25_witness :
    timeoutRegistry.PtrIndexed ∧
      (∃ out, Gflags.RegisterFlagValidator exampleShowPtr timeoutRegistry 100
          (some ValidateAnything) = .ok out ∧ out.ok = false ∧ out.registry = timeoutRegistry) ∧
      (Gflags.RegisterFlagValidator exampleShowPtr timeoutRegistry 101
          (some ValidateAnything)).map (fun out => (out.ok, out.registry.objs.length)) =
        .ok (false, 1) ∧
      (Gflags.RegisterFlagValidator exampleShowPtr timeoutRegistry 100
          (some ValidateTimeout)).map (fun out => out.ok) = .ok true ∧
      (Gflags.RegisterFlagValidator exampleShowPtr timeoutRegistry 100 none).map
          (fun out => (out.ok, (out.registry.deref 0).map
            (fun f => f.validate_function.isNone))) = .ok (true, .ok true) := by
  refine ⟨by decide, ?_, rfl, rfl, rfl⟩
  obtain ⟨out, h1, _, h3⟩ := C25_RegisterFlagValidator_installs_or_refuses exampleShowPtr
    timeoutRegistry 100 (some ValidateAnything) (by decide)
  obtain ⟨_, _, h5, _⟩ := h3 0 timeoutFlag (by decide) rfl
  obtain ⟨h6, h7, _⟩ := h5 rfl (by simp) (by simp [timeoutFlag, CommandLineFlag.validate_function])
  exact ⟨out, h1, h6, h7⟩

/-- C26: on a well-formed registry, `GetCommandLineOption(name, out)` with a non-null `name`
and a non-null `out` returns; it returns true if and only if `FindFlagLocked(name)` finds a
flag, which is the flag registered under the name or, when there is none and the name has a
`-`, the flag registered under the name with every `-` replaced by `_`; when it returns true
`*out` is the `ToString` text of the current value of that flag, and when it returns false
`*out` is as it was.  With a null `name` it returns false and leaves `*out` as it was. -/
theorem C26_GetCommandLineOption_looks_up_by_name (libc : Libc) (registry : FlagRegistry)
    (name out : CStr) (hwf : registry.WellFormed) :
    (∃ res, Gflags.GetCommandLineOption libc registry (some name) (some out) = .ok res ∧
      (res.1 = true ↔ ∃ p, registry.FindFlagLocked name = some p) ∧
      (∀ (p : Nat) (flag : CommandLineFlag), registry.FindFlagLocked name = some p →
        registry.deref p = .ok flag →
        res = (true, some (flag.current_.ToString libc))) ∧
      (res.1 = false → res.2 = some out)) ∧
    registry.FindFlagLocked name =
      (match mapFind StringCmp registry.flags_ name with
        | some p => some p
        | none =>
          if strchr_found name '-' then mapFind StringCmp registry.flags_ (replaceDashes name)
          else none) ∧
    (∀ value : Option CStr,
      Gflags.GetCommandLineOption libc registry none value = .ok (false, value)) := by
  refine ⟨?_, registry.FindFlagLocked_eq name, fun value => rfl⟩
  cases hfind : registry.FindFlagLocked name with
  | none =>
    have he : Gflags.GetCommandLineOption libc registry (some name) (some out) =
        .ok (false, some out) := by
      simp only [Gflags.GetCommandLineOption, hfind]
    refine ⟨_, he, ?_, (fun p flag h => by cases h), fun _ => rfl⟩
    simp
  | some p0 =>
    obtain ⟨f0, hf0, _⟩ := hwf.find_valid name p0 hfind
    have he : Gflags.GetCommandLineOption libc registry (some name) (some out) =
        .ok (true, some (f0.current_.ToString libc)) := by
      simp only [Gflags.GetCommandLineOption, hfind, hf0, bind, Except.bind, pure, Except.pure,
        CommandLineFlag.current_value]
    refine ⟨_, he, ?_, ?_, fun h => by cases h⟩
    · simp
    · intro p flag h1 h2
      cases h1
      rw [hf0] at h2; cases h2
      rfl

/-- C26 on the registry with the flags `dry-run` and `nodry_run`: the name `nodry-run` finds
the flag `nodry_run` through the replacement of dashes, and the name `dry_run` finds nothing. -/
theorem C26_witness :
    dashRegistry.WellFormed ∧
      Gflags.GetCommandLineOption exampleLibc dashRegistry (some "nodry-run".toList)
        (some "old".toList) = .ok (true, some "0".toList) ∧
      Gflags.GetCommandLineOption exampleLibc dashRegistry (some "dry_run".toList)
        (some "old".toList) = .ok (false, some "old".toList) ∧
      ∃ res, Gflags.GetCommandLineOption exampleLibc dashRegistry (some "dry-run".toList)
          (some "old".toList) = .ok res ∧ res = (true, some "true".toList) := by
  refine ⟨by decide, rfl, rfl, ?_⟩
  obtain ⟨⟨res, h1, _, h3, _⟩, _⟩ := C26_GetCommandLineOption_looks_up_by_name exampleLibc
    dashRegistry "dry-run".toList "old".toList (by decide)
  exact ⟨res, h1, h3 0 (defineFlag "dry-run" "main.cc" 100 (.bool true)) (by decide) rfl⟩

/-- C27, amended: the checksum that the first call of `SetArgv` captures is the sum, modulo
`2^32`, of the characters (as signed `char`s) of the space-joined command line.  It depends on
the joined line only, and not on the order of its characters: two vectors that hold the same
tokens in a different order, and more generally two vectors whose joined lines hold the same
characters, get the same checksum. -/
theorem C27_checksum_is_sum_of_characters (g1 g2 : Gflags) (argv1 argv2 : List CStr)
    (h1 : g1.called_set_argv = false) (h2 : g2.called_set_argv = false)
    (hne1 : argv1 ≠ []) (hne2 : argv2 ≠ []) :
    ∃ a b, g1.SetArgv argv1 = .ok a ∧ g2.SetArgv argv2 = .ok b ∧
      a.cmdline = joinArgv argv1 ∧ b.cmdline = joinArgv argv2 ∧
      a.argv_sum = (((joinArgv argv1).map charAsInt).sum % (2 ^ 32 : Int)).toNat ∧
      b.argv_sum = (((joinArgv argv2).map charAsInt).sum % (2 ^ 32 : Int)).toNat ∧
      (joinArgv argv1 = joinArgv argv2 → a.argv_sum = b.argv_sum) ∧
      (argv1.Perm argv2 → a.argv_sum = b.argv_sum) ∧
      ((joinArgv argv1).Perm (joinArgv argv2) → a.argv_sum = b.argv_sum) := by
  obtain ⟨a, ha, ha1, ha2, _⟩ := SetArgv_first g1 argv1 h1 hne1
  obtain ⟨b, hb, hb1, hb2, _⟩ := SetArgv_first g2 argv2 h2 hne2
  refine ⟨a, b, ha, hb, ha1, hb1, ?_, ?_, ?_, ?_, ?_⟩
  · rw [ha2, sumChars_eq]
  · rw [hb2, sumChars_eq]
  · intro h; rw [ha2, hb2, h]
  · intro h; rw [ha2, hb2]; exact sumChars_perm _ _ (joinArgv_perm _ _ h)
  · intro h; rw [ha2, hb2]; exact sumChars_perm _ _ h

/-- C27, amended, on the vectors `[prog, a, b]` and `[prog, b, a]`. -/
theorem C27_witness :
    ["prog".toList, "a".toList, "b".toList].Perm ["prog".toList, "b".toList, "a".toList] ∧
      ∃ a b, Gflags.new.SetArgv ["prog".toList, "a".toList, "b".toList] = .ok a ∧
        Gflags.new.SetArgv ["prog".toList, "b".toList, "a".toList] = .ok b ∧
        a.cmdline = "prog a b".toList ∧ b.cmdline = "prog b a".toList ∧
        a.argv_sum = b.argv_sum := by
  have hp : ["prog".toList, "a".toList, "b".toList].Perm
      ["prog".toList, "b".toList, "a".toList] := List.Perm.cons _ (List.Perm.swap _ _ _)
  obtain ⟨a, b, h1, h2, h3, h4, _, _, _, h8, _⟩ := C27_checksum_is_sum_of_characters
    Gflags.new Gflags.new ["prog".toList, "a".toList, "b".toList]
    ["prog".toList, "b".toList, "a".toList] rfl rfl (by decide) (by decide)
  exact ⟨hp, a, b, h1, h2, h3, h4, h8 hp⟩

/-- C27 as the specification states it fails: the vectors `[prog, a, b]` and `[prog, b, a]`
hold the same tokens in a different order, their joined command lines differ, and `SetArgv`
captures the same checksum, 699, for both. -/
theorem C27_counterexample :
    joinArgv ["prog".toList, "a".toList, "b".toList] ≠
      joinArgv ["prog".toList, "b".toList, "a".toList] ∧
    (Gflags.new.SetArgv ["prog".toList, "a".toList, "b".toList]).map
      (fun g => (g.cmdline, g.argv_sum)) = .ok ("prog a b".toList, 699) ∧
    (Gflags.new.SetArgv ["prog".toList, "b".toList, "a".toList]).map
      (fun g => (g.cmdline, g.argv_sum)) = .ok ("prog b a".toList, 699) :=
  ⟨by decide, rfl, rfl⟩

/-- C28 as the specification states it fails for a later token behind `--` and for a later token that
is taken as the value of the flag before it: over the example registry `zzz` resolves to no
flag and `b` is a registered int32 flag, yet after the scan of `[prog, --zzz=1, --, --b=2]`
and after the scan of `[prog, --zzz=1, --needs_value, --b=2]` the flag `b` still holds 0 and
is unmodified (in the second scan `--b=2` has become the value of `needs_value`). -/
theorem C28_counterexample :
    exampleRegistry.FindFlagLocked "zzz".toList = none ∧
    exampleRegistry.FindFlagLocked "b".toList = some 1 ∧
    (exampleParser.ParseNewCommandLineFlags exampleLibc
        ["prog".toList, "--zzz=1".toList, "--".toList, "--b=2".toList] false).map
      (fun out => (out.result, out.psr.undefined_names_ "zzz".toList,
        (out.psr.registry_.deref 1).map (fun f => (f.current_.cell, f.Modified)))) =
      .ok (3, some [], .ok (.int32 0, false)) ∧
    (exampleParser.ParseNewCommandLineFlags exampleLibc
        ["prog".toList, "--zzz=1".toList, "--needs_value".toList, "--b=2".toList] false).map
      (fun out => (out.result, out.psr.undefined_names_ "zzz".toList,
        (out.psr.registry_.deref 1).map (fun f => (f.current_.cell, f.Modified)),
        (out.psr.registry_.deref 3).map (fun f => f.current_.cell))) =
      .ok (4, some [], .ok (.int32 0, false), .ok (.string "--b=2".toList)) :=
  ⟨by decide, by decide, rfl, rfl⟩

/-- C28, amended: when the scan reaches, at index `i`, an option token other than `--`
whose key (the text between the leading dashes and the first `=`) `FindFlagLocked` resolves
to no flag, neither as it stands or with dashes replaced, nor, when it begins with `no`,
without these two letters, the pass stores the key in `undefined_names_` and the
unknown-flag message under the key in `error_flags_`, leaves the registry as it was, and
stays in the loop; `ParseNewCommandLineFlags` returns, and the two records are there when
it does.  Every later pass of the scan that stands at a token `--name=value` whose name
resolves to a flag applies `SetFlagLocked` in `SET_FLAGS_VALUE` mode to that flag and goes
on.  When none of the tokens still to visit is `--` or takes its value from the next slot,
the scan visits every later option token: the parser it leaves is the one that the passes
over the later option tokens, taken from left to right, make of the parser with the two
records. -/
theorem C28_unknown_flag_is_recorded_and_scan_goes_on (libc : Libc)
    (self : CommandLineFlagParser) (prog : CStr) (rest : List CStr) (remove_flags : Bool)
    (s : ScanState) (tok : CStr)
    (hwf : self.registry_.WellFormed)
    (hreach : ScanReaches libc (ScanState.init self (prog :: rest)) s)
    (hi : s.i < s.first_nonopt) (hget : s.argv[s.i]? = some tok)
    (hopt : tok.head? = some '-' ∧ 1 < tok.length) (hne : tok ≠ "--".toList)
    (hdirect : self.registry_.FindFlagLocked (tokenKey tok) = none)
    (hneg : ∀ x, tokenKey tok = 'n' :: 'o' :: x → self.registry_.FindFlagLocked x = none) :
    scanBody libc s = .ok (false, { s with i := s.i + 1, psr :=
      ⟨s.psr.registry_,
       s.psr.error_flags_.assign (tokenKey tok) (unknownFlagMessage (tokenKey tok)),
       s.psr.undefined_names_.assign (tokenKey tok) []⟩ }) ∧
    (∃ out, self.ParseNewCommandLineFlags libc (prog :: rest) remove_flags = .ok out ∧
      out.psr.undefined_names_ (tokenKey tok) = some [] ∧
      out.psr.error_flags_ (tokenKey tok) = some (unknownFlagMessage (tokenKey tok)) ∧
      ((∀ t ∈ ScanState.window { s with i := s.i + 1 }, t ≠ "--".toList) →
       (∀ t ∈ ScanState.window { s with i := s.i + 1 }, t.head? = some '-' ∧ 1 < t.length →
          self.registry_.needsSeparateValue t = false) →
        (optionTokens (ScanState.window { s with i := s.i + 1 })).foldlM
            (fun (q : CommandLineFlagParser) (t : CStr) => q.applyToken libc t)
            (⟨s.psr.registry_,
             s.psr.error_flags_.assign (tokenKey tok) (unknownFlagMessage (tokenKey tok)),
             s.psr.undefined_names_.assign (tokenKey tok) []⟩ : CommandLineFlagParser) =
          .ok out.psr)) ∧
    (∀ (s2 : ScanState) (name value : CStr) (p : Nat) (obj : CommandLineFlag),
      ScanReaches libc { s with i := s.i + 1, psr :=
        ⟨s.psr.registry_,
         s.psr.error_flags_.assign (tokenKey tok) (unknownFlagMessage (tokenKey tok)),
         s.psr.undefined_names_.assign (tokenKey tok) []⟩ } s2 →
      s2.i < s2.first_nonopt →
      s2.argv[s2.i]? = some ('-' :: '-' :: (name ++ '=' :: value)) →
      strchr_found name '=' = false →
      self.registry_.FindFlagLocked name = some p → s2.psr.registry_.deref p = .ok obj →
      ∃ res, FlagRegistry.SetFlagLocked libc obj value .SET_FLAGS_VALUE (some []) = .ok res ∧
        scanBody libc s2 = .ok (false, { s2 with i := s2.i + 1, psr :=
          ⟨s2.psr.registry_.store p res.flag,
           if res.ok then s2.psr.error_flags_
           else s2.psr.error_flags_.assign obj.name (res.msg.getD []),
           s2.psr.undefined_names_⟩ })) := by
  have hopt2 := (isProgramArgument_eq_false tok).2 hopt
  have hsame0 : self.registry_.SameFlags s.psr.registry_ :=
    ScanReaches.sameFlags libc _ s hreach
  have hfl := hsame0.1
  have hwfs := hsame0.wellFormed hwf
  have hdirect1 : s.psr.registry_.FindFlagLocked (tokenKey tok) = none := by
    rw [FlagRegistry.FindFlagLocked_congr _ _ hfl]; exact hdirect
  have hneg1 : ∀ x, tokenKey tok = 'n' :: 'o' :: x → s.psr.registry_.FindFlagLocked x = none := by
    intro x hx
    rw [FlagRegistry.FindFlagLocked_congr _ _ hfl]; exact hneg x hx
  obtain ⟨v, hsplit⟩ := split_unknown s.psr.registry_ (stripDashes tok) hdirect1 hneg1
  have hbody : scanBody libc s = .ok (false, { s with i := s.i + 1, psr :=
      ⟨s.psr.registry_,
       s.psr.error_flags_.assign (tokenKey tok) (unknownFlagMessage (tokenKey tok)),
       s.psr.undefined_names_.assign (tokenKey tok) []⟩ }) :=
    scanBody_unresolved libc s tok _ hget hopt2 hne hsplit rfl
  obtain ⟨hb, hl, fuel1, hf1, heq⟩ := ScanReaches.loop_eq libc _ s hreach
    (ScanState.init_inBounds self prog rest) (prog :: rest).length (by simp [ScanState.init])
  obtain ⟨b1, b2, b3⟩ := hb
  refine ⟨hbody, ?_, ?_⟩
  · cases fuel1 with
    | zero => omega
    | succ f2 =>
      rw [scanLoop_pass libc f2 s _ hi hbody] at heq
      obtain ⟨s3, h3, c1, c2, _, hor⟩ := scanLoop_total libc f2
        { s with i := s.i + 1, psr :=
          ⟨s.psr.registry_,
           s.psr.error_flags_.assign (tokenKey tok) (unknownFlagMessage (tokenKey tok)),
           s.psr.undefined_names_.assign (tokenKey tok) []⟩ }
        ⟨by simp only; omega, by simp only; omega, b3⟩ hwfs (by simp only; omega)
      rw [h3] at heq
      obtain ⟨out, ho, hpsr, _, _⟩ := parse_of_loop libc self (prog :: rest) remove_flags s3 heq
        ⟨c1, c2⟩
      have hkeep : s3.psr.undefined_names_ (tokenKey tok) = some [] ∧
          s3.psr.error_flags_ (tokenKey tok) = some (unknownFlagMessage (tokenKey tok)) := by
        rcases hor with ⟨hr, _⟩ | ⟨s4, hr, _, hb4⟩
        · exact ScanReaches.keeps_unknown libc _ s3 (tokenKey tok) hr hwfs hdirect1 hneg1
            (by simp [StrMap.assign]) (by simp [StrMap.assign])
        · have h4 := ScanReaches.keeps_unknown libc _ s4 (tokenKey tok) hr hwfs hdirect1 hneg1
            (by simp [StrMap.assign]) (by simp [StrMap.assign])
          have hsame4 := ScanReaches.sameFlags libc _ s4 hr
          have hfl4 := hsame4.1
          refine scanBody_keeps_unknown libc s4 s3 true (tokenKey tok) (hsame4.wellFormed hwfs)
            ?_ ?_ hb4 h4.1 h4.2
          · rw [FlagRegistry.FindFlagLocked_congr _ _ hfl4]; exact hdirect1
          · intro x hx
            rw [FlagRegistry.FindFlagLocked_congr _ _ hfl4]; exact hneg1 x hx
      refine ⟨out, ho, by rw [hpsr]; exact hkeep.1, by rw [hpsr]; exact hkeep.2, ?_⟩
      intro hdd hsep
      obtain ⟨s5, h5, h6, _⟩ := scanLoop_fold_from libc
        { s with i := s.i + 1, psr :=
          ⟨s.psr.registry_,
           s.psr.error_flags_.assign (tokenKey tok) (unknownFlagMessage (tokenKey tok)),
           s.psr.undefined_names_.assign (tokenKey tok) []⟩ }
        ⟨by simp only; omega, by simp only; omega, b3⟩ hwfs hdd
        (fun t ht hp => by
          show s.psr.registry_.needsSeparateValue t = false
          rw [hsame0.needsSeparateValue]
          exact hsep t ht ((isProgramArgument_eq_false t).1 hp))
        f2 (by simp only; omega)
      rw [h3] at h5
      cases h5
      rw [hpsr]
      exact h6
  · intro s2 name value p obj hr2 _ hget2 hname hfind hobj2
    have hsame2 : s.psr.registry_.SameFlags s2.psr.registry_ :=
      ScanReaches.sameFlags libc { s with i := s.i + 1, psr :=
        ⟨s.psr.registry_,
         s.psr.error_flags_.assign (tokenKey tok) (unknownFlagMessage (tokenKey tok)),
         s.psr.undefined_names_.assign (tokenKey tok) []⟩ } s2 hr2
    have hfind2 : s2.psr.registry_.FindFlagLocked name = some p := by
      rw [FlagRegistry.FindFlagLocked_congr _ _ hsame2.1,
        FlagRegistry.FindFlagLocked_congr _ _ hfl]
      exact hfind
    have hne2 : ('-' :: '-' :: (name ++ '=' :: value)) ≠ "--".toList := by simp
    exact scanBody_apply libc s2 _ ⟨some p, name, some value, []⟩ p value obj hget2
      (isProgramArgument_two _) hne2
      (by rw [stripDashes_two]; exact split_inline _ name value p hname hfind2) rfl rfl hobj2

/-- C28 on the vector `[prog, --zzz=1, pos, --b=2]` over the example registry: `zzz` is
recorded as undefined with its message, and `b` holds 2 when the scan returns. -/
theorem C28_witness :
    exampleRegistry.WellFormed ∧
    exampleRegistry.FindFlagLocked "zzz".toList = none ∧
    ∃ out, exampleParser.ParseNewCommandLineFlags exampleLibc
        ["prog".toList, "--zzz=1".toList, "pos".toList, "--b=2".toList] false = .ok out ∧
      out.psr.undefined_names_ "zzz".toList = some [] ∧
      out.psr.error_flags_ "zzz".toList =
        some "ERROR: unknown command line flag 'zzz'\n".toList ∧
      (out.psr.registry_.deref 1).map (fun f => (f.current_.cell, f.Modified)) =
        .ok (.int32 2, true) := by
  obtain ⟨_, h, _⟩ := C28_unknown_flag_is_recorded_and_scan_goes_on exampleLibc exampleParser
    "prog".toList ["--zzz=1".toList, "pos".toList, "--b=2".toList] false
    (ScanState.init exampleParser
      ["prog".toList, "--zzz=1".toList, "pos".toList, "--b=2".toList])
    "--zzz=1".toList (by decide) ScanReaches.start (by decide) rfl (by decide) (by decide)
    (by decide)
    (fun x hx => by
      have h0 : "zzz".toList = 'n' :: 'o' :: x := hx
      simp at h0)
  obtain ⟨out, h1, h2, h3, h4⟩ := h
  refine ⟨by decide, by decide, out, h1, h2, h3, ?_⟩
  have h5 : out.psr = _ := Except.ok.inj ((h4 (by decide) (by decide)).symm.trans rfl)
  rw [h5]
  rfl

/-- C29: when the scan reaches the token `--` at index `i`, the pass sets the boundary to
`i + 1` and leaves the loop, so `ParseNewCommandLineFlags` returns at once: the parser,
with every flag and every record, and the output are as they were when the scan reached
the token, and without removal the returned boundary is `i + 1` and the vector is the one
the scan had at that moment, so that no token behind the `--` has been looked at. -/
theorem C29_double_dash_ends_option_scanning (libc : Libc) (self : CommandLineFlagParser)
    (prog : CStr) (rest : List CStr) (remove_flags : Bool) (s : ScanState)
    (hreach : ScanReaches libc (ScanState.init self (prog :: rest)) s)
    (hi : s.i < s.first_nonopt) (hget : s.argv[s.i]? = some "--".toList) :
    scanBody libc s = .ok (true, { s with first_nonopt := s.i + 1 }) ∧
    ∃ out, self.ParseNewCommandLineFlags libc (prog :: rest) remove_flags = .ok out ∧
      out.psr = s.psr ∧ out.cout = s.cout ∧
      (remove_flags = false → out.result = s.i + 1 ∧ out.argv = s.argv) := by
  have hbody := scanBody_double_dash libc s hget
  refine ⟨hbody, ?_⟩
  obtain ⟨hb, hl, fuel1, hf1, heq⟩ := ScanReaches.loop_eq libc _ s hreach
    (ScanState.init_inBounds self prog rest) (prog :: rest).length (by simp [ScanState.init])
  obtain ⟨b1, b2, b3⟩ := hb
  cases fuel1 with
  | zero => omega
  | succ f2 =>
    rw [scanLoop_break libc f2 s _ hi hbody] at heq
    exact parse_of_loop libc self (prog :: rest) remove_flags _ heq
      ⟨by simp only; omega, by simp only; omega⟩

/-- C29 on the vector `[prog, --a=1, --, --b=2]` over the example registry: the boundary is
3, the vector is unchanged, `a` holds 1, and `b`, a registered flag, still holds 0 and is
unmodified. -/
theorem C29_witness :
    ScanReaches exampleLibc
      (ScanState.init exampleParser
        ["prog".toList, "--a=1".toList, "--".toList, "--b=2".toList])
      doubleDashScanState ∧
    exampleRegistry.FindFlagLocked "b".toList = some 1 ∧
    ∃ out, exampleParser.ParseNewCommandLineFlags exampleLibc
        ["prog".toList, "--a=1".toList, "--".toList, "--b=2".toList] false = .ok out ∧
      out.result = 3 ∧
      out.argv = ["prog".toList, "--a=1".toList, "--".toList, "--b=2".toList] ∧
      (out.psr.registry_.deref 0).map (fun f => (f.current_.cell, f.Modified)) =
        .ok (.int32 1, true) ∧
      (out.psr.registry_.deref 1).map (fun f => (f.current_.cell, f.Modified)) =
        .ok (.int32 0, false) := by
  have hreach : ScanReaches exampleLibc
      (ScanState.init exampleParser
        ["prog".toList, "--a=1".toList, "--".toList, "--b=2".toList])
      doubleDashScanState :=
    ScanReaches.pass _ _ ScanReaches.start (by decide) rfl
  obtain ⟨_, out, h1, h2, _, h4⟩ := C29_double_dash_ends_option_scanning exampleLibc
    exampleParser "prog".toList ["--a=1".toList, "--".toList, "--b=2".toList] false
    doubleDashScanState hreach (by decide) rfl
  obtain ⟨h5, h6⟩ := h4 rfl
  refine ⟨hreach, by decide, out, h1, h5, h6, ?_, ?_⟩
  · rw [h2]; rfl
  · rw [h2]; rfl

/-- C30: on a well-formed registry `ValidateFlags(all)` returns and changes `error_flags_`
only, and there only under the names of registered flags.  Under the name of a flag it
stores a message exactly when `ValidateCurrent()` fails, `all` is true or the flag is not
`Modified()`, and the message recorded so far under that name is empty or absent: so a
changed entry means that validation failed and that `all` holds or the flag is unmodified,
and a non-empty message is never overwritten.  The message stored is
`ERROR: --<name> must be set on the commandline`, followed for a flag that is not
`Modified()` by ` (default value fails validation)`, and by the line end. -/
theorem C30_ValidateFlags_records_only_failures (self : CommandLineFlagParser) (all : Bool)
    (hwf : self.registry_.WellFormed) :
    ∃ errors1, self.ValidateFlags all = .ok { self with error_flags_ := errors1 } ∧
      (∀ k, (∀ e ∈ self.registry_.flags_, e.1 ≠ k) → errors1 k = self.error_flags_ k) ∧
      (∀ k p f, (k, p) ∈ self.registry_.flags_ → self.registry_.deref p = .ok f →
        f.name = k ∧
        (errors1 k ≠ self.error_flags_ k ↔
          f.ValidateCurrent = false ∧ (all = true ∨ f.Modified = false) ∧
            self.error_flags_.at k = []) ∧
        (self.error_flags_.at k ≠ [] → errors1 k = self.error_flags_ k) ∧
        (errors1 k ≠ self.error_flags_ k → f.Modified = false →
          errors1 k = some ("ERROR: --".toList ++ k ++
            " must be set on the commandline (default value fails validation)\n".toList)) ∧
        (errors1 k ≠ self.error_flags_ k → f.Modified = true →
          errors1 k = some ("ERROR: --".toList ++ k ++
            " must be set on the commandline\n".toList))) := by
  obtain ⟨errors1, h1, h2, h3⟩ := ValidateFlags_spec self all hwf
  refine ⟨errors1, h1, h2, ?_⟩
  intro k p f hk hf
  have hname : f.name = k := by
    obtain ⟨g, hg, hn, _⟩ := hwf.ptr_valid k p hk
    rw [hf] at hg
    cases hg
    exact hn
  have hval := h3 k p f hk hf
  refine ⟨hname, ?_, ?_, ?_, ?_⟩
  · rw [hval]
    constructor
    · intro hne
      split at hne
      · rename_i hc
        simp only [Bool.and_eq_true, Bool.or_eq_true, Bool.not_eq_true', List.isEmpty_iff] at hc
        exact ⟨hc.1.2, hc.1.1, hc.2⟩
      · exact absurd rfl hne
    · rintro ⟨c1, c2, c3⟩
      have hc : ((all || !f.Modified) && !f.ValidateCurrent &&
          (self.error_flags_.at k).isEmpty) = true := by
        simp only [Bool.and_eq_true, Bool.or_eq_true, Bool.not_eq_true', List.isEmpty_iff]
        exact ⟨⟨c2, c1⟩, c3⟩
      rw [if_pos hc]
      intro heq
      have : self.error_flags_.at k ≠ [] := by
        unfold StrMap.at
        rw [← heq]
        simp [kError]
      exact this c3
  · intro hne
    rw [hval, if_neg]
    simp only [Bool.and_eq_true, List.isEmpty_iff, not_and]
    exact fun _ => hne
  · intro hne hm
    rw [hval] at hne ⊢
    split at hne
    · rename_i hc
      rw [if_pos hc]
      simp [hm, kError]
    · exact absurd rfl hne
  · intro hne hm
    rw [hval] at hne ⊢
    split at hne
    · rename_i hc
      rw [if_pos hc]
      simp [hm, kError]
    · exact absurd rfl hne

/-- C30 on the flag `timeout` with `ValidateTimeout`: with the default 0 and unmodified,
`ValidateFlags(false)` stores the message with the note on the default value; modified and
holding -1, `ValidateFlags(false)` stores nothing and `ValidateFlags(true)` stores the
message without the note; and a message already stored stays. -/
theorem C30_witness :
    timeoutRegistry.WellFormed ∧ (timeoutRegistry.store 0 timeoutFlagBad).WellFormed ∧
    ((⟨timeoutRegistry, StrMap.empty, StrMap.empty⟩ : CommandLineFlagParser).ValidateFlags
        false).map (fun q => q.error_flags_ "timeout".toList) =
      .ok (some ("ERROR: --timeout must be set on the commandline " ++
        "(default value fails validation)\n").toList) ∧
    ((⟨timeoutRegistry.store 0 timeoutFlagBad, StrMap.empty, StrMap.empty⟩ :
        CommandLineFlagParser).ValidateFlags false).map
        (fun q => q.error_flags_ "timeout".toList) = .ok none ∧
    ((⟨timeoutRegistry.store 0 timeoutFlagBad, StrMap.empty, StrMap.empty⟩ :
        CommandLineFlagParser).ValidateFlags true).map
        (fun q => q.error_flags_ "timeout".toList) =
      .ok (some "ERROR: --timeout must be set on the commandline\n".toList) ∧
    ((⟨timeoutRegistry, StrMap.empty.assign "timeout".toList "earlier".toList, StrMap.empty⟩ :
        CommandLineFlagParser).ValidateFlags true).map
        (fun q => q.error_flags_ "timeout".toList) = .ok (some "earlier".toList) := by
  obtain ⟨e1, h1, _, h3⟩ := C30_ValidateFlags_records_only_failures
    ⟨timeoutRegistry, StrMap.empty, StrMap.empty⟩ false (by decide)
  obtain ⟨e2, h2, _, h4⟩ := C30_ValidateFlags_records_only_failures
    ⟨timeoutRegistry.store 0 timeoutFlagBad, StrMap.empty, StrMap.empty⟩ true (by decide)
  refine ⟨by decide, by decide, ?_, rfl, ?_, rfl⟩
  · rw [h1]
    obtain ⟨_, hiff, _, hmsg, _⟩ := h3 "timeout".toList 0 timeoutFlag (by decide) rfl
    have hne := hiff.2 ⟨by decide, Or.inr (by decide), rfl⟩
    exact congrArg Except.ok ((hmsg hne (by decide)).trans rfl)
  · rw [h2]
    obtain ⟨_, hiff, _, _, hmsg⟩ := h4 "timeout".toList 0 timeoutFlagBad (by decide) rfl
    have hne := hiff.2 ⟨by decide, Or.inl rfl, rfl⟩
    exact congrArg Except.ok ((hmsg hne (by decide)).trans rfl)

/-- C31: `SplitArgumentLocked` cuts its argument at the first `=` only.  For a name without
`=` that `FindFlagLocked` resolves to a flag, and every text `rest`, the argument
`name=rest` gives that flag, the name as key and `rest` as value, whatever `rest` is, also
when it is empty and when it holds further `=` characters; and every argument with a `=` is
of this form in one way, the name being its text before the first `=`.  The argument `name`
alone gives the flag and the key with the value `1` when the flag is boolean, and with no
value when it is not. -/
theorem C31_SplitArgumentLocked_cuts_at_first_equals (reg : FlagRegistry) (name : CStr)
    (p : Nat) (obj : CommandLineFlag) (hname : strchr_found name '=' = false)
    (hfind : reg.FindFlagLocked name = some p) (hobj : reg.deref p = .ok obj) :
    (∀ rest : CStr,
      reg.SplitArgumentLocked (name ++ '=' :: rest) = .ok ⟨some p, name, some rest, []⟩ ∧
      (name ++ '=' :: rest).takeWhile (fun c => c ≠ '=') = name) ∧
    reg.SplitArgumentLocked (name ++ "=".toList) = .ok ⟨some p, name, some [], []⟩ ∧
    (∀ rest1 rest2 : CStr,
      reg.SplitArgumentLocked (name ++ '=' :: (rest1 ++ '=' :: rest2)) =
        .ok ⟨some p, name, some (rest1 ++ '=' :: rest2), []⟩) ∧
    (∀ arg : CStr, strchr_found arg '=' = true →
      ∃ name1 rest, arg = name1 ++ '=' :: rest ∧ strchr_found name1 '=' = false) ∧
    (obj.Type_ = .FV_BOOL →
      reg.SplitArgumentLocked name = .ok ⟨some p, name, some "1".toList, []⟩) ∧
    (obj.Type_ ≠ .FV_BOOL → reg.SplitArgumentLocked name = .ok ⟨some p, name, none, []⟩) := by
  have hnv := split_no_value reg name p obj hname hfind hobj
  refine ⟨fun rest => ⟨split_inline reg name rest p hname hfind, takeWhile_inline name rest hname⟩,
    split_inline reg name [] p hname hfind,
    fun rest1 rest2 => split_inline reg name _ p hname hfind,
    cut_at_first_equals, ?_, ?_⟩
  · intro hb
    rw [hnv, if_pos hb]
  · intro hb
    rw [hnv, if_neg hb]

/-- C31 on the example registry: `a=1=2` gives the flag `a` with the value `1=2`, `a=` the
empty value, `a` alone no value, and `verbose` alone, a boolean flag, the value `1`. -/
theorem C31_witness :
    exampleRegistry.FindFlagLocked "a".toList = some 0 ∧
    exampleRegistry.SplitArgumentLocked "a=1=2".toList =
      .ok ⟨some 0, "a".toList, some "1=2".toList, []⟩ ∧
    exampleRegistry.SplitArgumentLocked "a=".toList = .ok ⟨some 0, "a".toList, some [], []⟩ ∧
    exampleRegistry.SplitArgumentLocked "a".toList = .ok ⟨some 0, "a".toList, none, []⟩ ∧
    exampleRegistry.SplitArgumentLocked "verbose".toList =
      .ok ⟨some 4, "verbose".toList, some "1".toList, []⟩ :=
  ⟨by decide,
   ((C31_SplitArgumentLocked_cuts_at_first_equals exampleRegistry "a".toList 0
      (defineFlag "a" "main.cc" 100 (.int32 0)) (by decide) (by decide) rfl).1 "1=2".toList).1,
   (C31_SplitArgumentLocked_cuts_at_first_equals exampleRegistry "a".toList 0
      (defineFlag "a" "main.cc" 100 (.int32 0)) (by decide) (by decide) rfl).2.1,
   (C31_SplitArgumentLocked_cuts_at_first_equals exampleRegistry "a".toList 0
      (defineFlag "a" "main.cc" 100 (.int32 0)) (by decide) (by decide) rfl).2.2.2.2.2
      (by decide),
   (C31_SplitArgumentLocked_cuts_at_first_equals exampleRegistry "verbose".toList 4
      (defineFlag "verbose" "main.cc" 108 (.bool true)) (by decide) (by decide) rfl).2.2.2.2.1
      (by decide)⟩

/-- C32: the scan loop of `ParseNewCommandLineFlags` comes to an end on every vector
`prog :: rest`.  Every pass that stays in the loop hands the next pass a state in which the
distance from the index to the boundary `first_nonopt` is strictly smaller; this holds for
the pass over a program argument, which leaves the index where it is and lowers the
boundary by one.  The distance is at most `argc - 1` in every state the scan reaches, and
the `argc` passes that the loop is given are never used up; on a well-formed registry
`ParseNewCommandLineFlags` returns. -/
theorem C32_scan_loop_terminates (libc : Libc) (self : CommandLineFlagParser) (prog : CStr)
    (rest : List CStr) (remove_flags : Bool) :
    (∀ s s1 : ScanState, ScanReaches libc (ScanState.init self (prog :: rest)) s →
      s.i < s.first_nonopt → scanBody libc s = .ok (false, s1) →
      s1.first_nonopt - s1.i < s.first_nonopt - s.i) ∧
    (∀ (s : ScanState) (arg : CStr),
      ScanReaches libc (ScanState.init self (prog :: rest)) s → s.i < s.first_nonopt →
      s.argv[s.i]? = some arg → isProgramArgument arg = true →
      ∃ s1, scanBody libc s = .ok (false, s1) ∧ s1.i = s.i ∧
        s1.first_nonopt = s.first_nonopt - 1 ∧
        s1.first_nonopt - s1.i < s.first_nonopt - s.i) ∧
    (∀ s : ScanState, ScanReaches libc (ScanState.init self (prog :: rest)) s →
      s.first_nonopt - s.i ≤ (prog :: rest).length - 1) ∧
    self.ParseNewCommandLineFlags libc (prog :: rest) remove_flags ≠ .error .outOfFuel ∧
    (self.registry_.WellFormed →
      ∃ out, self.ParseNewCommandLineFlags libc (prog :: rest) remove_flags = .ok out) := by
  have hin : ∀ s : ScanState, ScanReaches libc (ScanState.init self (prog :: rest)) s →
      s.InBounds ∧ s.argv.length = (prog :: rest).length := by
    intro s hr
    obtain ⟨hb, hl, _⟩ := ScanReaches.loop_eq libc _ s hr
      (ScanState.init_inBounds self prog rest) (prog :: rest).length (by simp [ScanState.init])
    exact ⟨hb, hl⟩
  refine ⟨?_, ?_, ?_, parse_not_outOfFuel libc self prog rest remove_flags, ?_⟩
  · intro s s1 hr hi hbody
    exact (scanBody_pass_bounds libc s s1 hi (hin s hr).1 hbody).2.2
  · intro s arg hr hi hget hp
    refine ⟨_, scanBody_positional libc s arg hget hp, rfl, rfl, ?_⟩
    simp only
    omega
  · intro s hr
    obtain ⟨⟨b1, b2, b3⟩, hl⟩ := hin s hr
    omega
  · intro hwf
    obtain ⟨_, out, _, _, _, _, ho, _⟩ := parse_total libc self prog rest remove_flags hwf
    exact ⟨out, ho⟩

/-- C33: on a well-formed registry and a vector `prog :: rest` of `argc` tokens, every state
in which the scan stands at the head of its loop has `1 <= i <= first_nonopt <= argc`, a
vector of `argc` tokens and the program name in slot 0.  When a pass is entered
(`i < first_nonopt`), the slot `i` it reads is within the vector, the rotation shifts
`argc - (i + 1) >= 0` slots, the slot `i + 1` is within the vector when a value is read from
it (`i + 1 < first_nonopt`), and the pass returns.  The loop ends with
`1 <= first_nonopt <= argc`; so the removal step writes within the vector and hands back
`argc - (first_nonopt - 1) >= 1` tokens, the program name first. -/
theorem C33_scan_indices_stay_in_bounds (libc : Libc) (self : CommandLineFlagParser)
    (prog : CStr) (rest : List CStr) (hwf : self.registry_.WellFormed) :
    (∀ s : ScanState, ScanReaches libc (ScanState.init self (prog :: rest)) s →
      1 ≤ s.i ∧ s.i ≤ s.first_nonopt ∧ s.first_nonopt ≤ s.argv.length ∧
      s.argv.length = (prog :: rest).length ∧ s.argv[0]? = some prog ∧
      (s.i < s.first_nonopt →
        (∃ arg, s.argv[s.i]? = some arg) ∧ s.i + 1 ≤ s.argv.length ∧
        (s.i + 1 < s.first_nonopt → ∃ value, s.argv[s.i + 1]? = some value) ∧
        ∃ b s1, scanBody libc s = .ok (b, s1) ∧ 1 ≤ s1.first_nonopt ∧
          s1.first_nonopt ≤ s1.argv.length ∧ s1.argv.length = s.argv.length)) ∧
    (∃ s1, scanLoop libc (prog :: rest).length (ScanState.init self (prog :: rest)) = .ok s1 ∧
      1 ≤ s1.first_nonopt ∧ s1.first_nonopt ≤ s1.argv.length ∧
      s1.argv.length = (prog :: rest).length ∧
      (∃ out, self.ParseNewCommandLineFlags libc (prog :: rest) false = .ok out ∧
        out.result = s1.first_nonopt ∧ out.argv = s1.argv) ∧
      (∃ out, self.ParseNewCommandLineFlags libc (prog :: rest) true = .ok out ∧
        out.result = 1 ∧
        out.argv = (s1.argv.set (s1.first_nonopt - 1) prog).drop (s1.first_nonopt - 1) ∧
        out.argv.length = (prog :: rest).length - (s1.first_nonopt - 1) ∧
        1 ≤ out.argv.length ∧ out.argv[0]? = some prog)) := by
  have hb0 := ScanState.init_inBounds self prog rest
  have hvec : ∀ s : ScanState, ScanReaches libc (ScanState.init self (prog :: rest)) s →
      s.argv[0]? = some prog := by
    intro s hr
    have h0 := (ScanReaches.vector libc _ s hr hb0
      (ScanState.init_tail self (prog :: rest))).2.1
    rw [h0]
    simp [ScanState.init]
  constructor
  · intro s hr
    obtain ⟨⟨b1, b2, b3⟩, hl, _⟩ := ScanReaches.loop_eq libc _ s hr hb0 (prog :: rest).length
      (by simp [ScanState.init])
    refine ⟨b1, b2, b3, hl, hvec s hr, ?_⟩
    intro hi
    have hwfs := (ScanReaches.sameFlags libc _ s hr).wellFormed hwf
    refine ⟨⟨_, List.getElem?_eq_getElem (by omega)⟩, by omega,
      fun h1 => ⟨_, List.getElem?_eq_getElem (by omega)⟩,
      scanBody_total libc s ⟨b1, b2, b3⟩ hi hwfs⟩
  · obtain ⟨s1, h1, c1, c2, c3, hor⟩ := scanLoop_total libc (prog :: rest).length
      (ScanState.init self (prog :: rest)) hb0 hwf (by simp [ScanState.init])
    have hhead : s1.argv[0]? = some prog := by
      rcases hor with ⟨hr, _⟩ | ⟨s2, hr, _, hbreak⟩
      · exact hvec s1 hr
      · have h2 := hvec s2 hr
        rcases scanBody_break_cases libc s2 s1 hbreak with ⟨_, he⟩ | ⟨_, _, _, _, _, _, _, _, _,
          _, _, _, _, he⟩
        · rw [he]; exact h2
        · rw [he]; exact h2
    refine ⟨s1, h1, c1, c2, c3, ?_, ?_⟩
    · refine ⟨⟨s1.first_nonopt, s1.argv, s1.psr, s1.cout⟩, ?_, rfl, rfl⟩
      simp only [CommandLineFlagParser.ParseNewCommandLineFlags, h1, bind, Except.bind, pure,
        Except.pure, Bool.false_eq_true, if_false]
    · have hlen : ¬ (s1.first_nonopt = 0 ∨ s1.argv.length < s1.first_nonopt) := by omega
      refine ⟨⟨1, (s1.argv.set (s1.first_nonopt - 1) prog).drop (s1.first_nonopt - 1), s1.psr,
        s1.cout⟩, ?_, rfl, rfl, ?_, ?_, ?_⟩
      · simp only [CommandLineFlagParser.ParseNewCommandLineFlags, h1, bind, Except.bind, pure,
          Except.pure, if_true, if_neg hlen, hhead]
      · simp only [List.length_drop, List.length_set]
        rw [c3]
        rfl
      · simp only [List.length_drop, List.length_set]
        omega
      · simp only [List.getElem?_drop, Nat.add_zero]
        rw [List.getElem?_set_eq_of_lt _ (by omega)]

/-- C33 on the vector `[prog, --a=1, pos1, --b=2, pos2]` over the example registry, with
removal: the call returns 1 and hands back at least one token, the program name first. -/
theorem C33_witness :
    exampleRegistry.WellFormed ∧
    ∃ out, exampleParser.ParseNewCommandLineFlags exampleLibc ("prog".toList :: exampleArgs)
        true = .ok out ∧
      out.result = 1 ∧ 1 ≤ out.argv.length ∧ out.argv[0]? = some "prog".toList := by
  obtain ⟨_, s1, _, _, _, _, _, out, h1, h2, _, _, h5, h6⟩ :=
    C33_scan_indices_stay_in_bounds exampleLibc exampleParser "prog".toList exampleArgs
      (by decide)
  exact ⟨by decide, out, h1, h2, h5, h6⟩

/-- C34: when the scan reaches a state whose pass leaves the loop at a token other than
`--`, the token is an option token that resolves to a flag and carries no value, the pass
has stored the missing-argument message under its key and changed nothing else, and the
token stands in the last slot before the boundary (`i + 1 = first_nonopt`): it is the one
token the scan had yet to visit.  The vector holds the tokens of the call, the program name
in slot 0, and from the boundary on only program arguments, which the scan has moved there.
Had the pass gone on with the loop instead, the loop would have ended at once in the state
that differs in the index only; and what `ParseNewCommandLineFlags` returns does not depend
on the index. -/
theorem C34_missing_argument_stops_at_last_option_token (libc : Libc)
    (self : CommandLineFlagParser) (prog : CStr) (rest : List CStr) (remove_flags : Bool)
    (s s1 : ScanState)
    (hreach : ScanReaches libc (ScanState.init self (prog :: rest)) s)
    (hi : s.i < s.first_nonopt) (hbreak : scanBody libc s = .ok (true, s1))
    (hnd : s.argv[s.i]? ≠ some "--".toList) :
    (∃ (tok : CStr) (r : SplitResult) (p : Nat) (obj : CommandLineFlag),
      s.argv[s.i]? = some tok ∧ (tok.head? = some '-' ∧ 1 < tok.length) ∧
      s.psr.registry_.SplitArgumentLocked (stripDashes tok) = .ok r ∧
      r.flag = some p ∧ r.v = none ∧ s.psr.registry_.deref p = .ok obj ∧
      s1 = { s with psr := { s.psr with
        error_flags_ := s.psr.error_flags_.assign r.key
          (missingArgumentMessage tok obj.help) } } ∧
      s.window = [tok]) ∧
    s.i = s.first_nonopt - 1 ∧ s.i + 1 = s.first_nonopt ∧
    s.argv.Perm (prog :: rest) ∧ s.argv[0]? = some prog ∧
    (∀ t ∈ s.argv.drop s.first_nonopt, isProgramArgument t = true) ∧
    (∀ fuel : Nat,
      scanLoop libc fuel ⟨s1.argv, s1.i + 1, s1.first_nonopt, s1.psr, s1.cout⟩ =
        .ok ⟨s1.argv, s1.i + 1, s1.first_nonopt, s1.psr, s1.cout⟩) ∧
    (∃ out, self.ParseNewCommandLineFlags libc (prog :: rest) remove_flags = .ok out ∧
      out.psr = s1.psr ∧ out.cout = s1.cout ∧
      (remove_flags = false → out.result = s1.first_nonopt ∧ out.argv = s1.argv) ∧
      (remove_flags = true → out.result = 1 ∧
        out.argv = (s1.argv.set (s1.first_nonopt - 1) prog).drop (s1.first_nonopt - 1))) := by
  have hb0 := ScanState.init_inBounds self prog rest
  obtain ⟨⟨b1, b2, b3⟩, hl, fuel1, hf1, heq⟩ := ScanReaches.loop_eq libc _ s hreach hb0
    (prog :: rest).length (by simp [ScanState.init])
  obtain ⟨v1, v2, v3⟩ := ScanReaches.vector libc _ s hreach hb0
    (ScanState.init_tail self (prog :: rest))
  have v2a : s.argv[0]? = some prog := by rw [v2]; simp [ScanState.init]
  rcases scanBody_break_cases libc s s1 hbreak with ⟨hx, _⟩ |
    ⟨tok, r, p, obj, h1, h2, h3, h4, h5, h6, h7, _, h9, h10⟩
  · exact absurd hx hnd
  · have hlast : s.i + 1 = s.first_nonopt := by omega
    have hwin : s.window = [tok] := by
      unfold ScanState.window
      have hlt : s.i < s.argv.length := by omega
      have hd : s.argv.drop s.i = tok :: s.argv.drop (s.i + 1) := by
        rw [List.drop_eq_getElem_cons hlt]
        congr 1
        rw [List.getElem?_eq_getElem hlt] at h1
        exact Option.some.inj h1
      rw [hd, show s.first_nonopt - s.i = 1 from by omega]
      simp
    have hs1 : s1.argv = s.argv ∧ s1.i = s.i ∧ s1.first_nonopt = s.first_nonopt ∧
        s1.cout = s.cout := by
      rw [h10]; exact ⟨rfl, rfl, rfl, rfl⟩
    obtain ⟨e1, e2, e3, e4⟩ := hs1
    refine ⟨⟨tok, r, p, obj, h1, (isProgramArgument_eq_false tok).1 h2, h4, h5, h6, h7, h10,
      hwin⟩, by omega, hlast, v1, v2a, v3, ?_, ?_⟩
    · intro fuel
      exact scanLoop_done libc fuel _ (by simp only; omega)
    · cases fuel1 with
      | zero => omega
      | succ f2 =>
        rw [scanLoop_break libc f2 s s1 hi hbreak] at heq
        have hhead : s1.argv[0]? = some prog := by rw [e1]; exact v2a
        have hlen : ¬ (s1.first_nonopt = 0 ∨ s1.argv.length < s1.first_nonopt) := by
          rw [e1, e3]; omega
        cases remove_flags with
        | false =>
          refine ⟨⟨s1.first_nonopt, s1.argv, s1.psr, s1.cout⟩, ?_, rfl, rfl,
            fun _ => ⟨rfl, rfl⟩, fun h => by cases h⟩
          simp only [CommandLineFlagParser.ParseNewCommandLineFlags, heq, bind, Except.bind,
            pure, Except.pure, Bool.false_eq_true, if_false]
        | true =>
          refine ⟨⟨1, (s1.argv.set (s1.first_nonopt - 1) prog).drop (s1.first_nonopt - 1),
            s1.psr, s1.cout⟩, ?_, rfl, rfl, (fun h => by cases h), fun _ => ⟨rfl, rfl⟩⟩
          simp only [CommandLineFlagParser.ParseNewCommandLineFlags, heq, bind, Except.bind,
            pure, Except.pure, if_true, if_neg hlen, hhead]

/-- C34 on the vector `[prog, pos, --needs_value]` over the example registry: after the
pass over `pos` the token `--needs_value` stands at index 1 with the boundary at 2, the
scan stops there, and `pos` is the one token behind the boundary. -/
theorem C34_witness :
    ScanReaches exampleLibc
      (ScanState.init exampleParser
        ["prog".toList, "pos".toList, "--needs_value".toList])
      missingArgumentScanState ∧
    missingArgumentScanState.i + 1 = missingArgumentScanState.first_nonopt ∧
    missingArgumentScanState.window = ["--needs_value".toList] ∧
    ∃ out, exampleParser.ParseNewCommandLineFlags exampleLibc
        ["prog".toList, "pos".toList, "--needs_value".toList] false = .ok out ∧
      out.result = 2 ∧
      out.argv = ["prog".toList, "--needs_value".toList, "pos".toList] ∧
      out.psr.error_flags_ "needs_value".toList =
        some "ERROR: flag '--needs_value' is missing its argument\n".toList := by
  have hreach : ScanReaches exampleLibc
      (ScanState.init exampleParser
        ["prog".toList, "pos".toList, "--needs_value".toList])
      missingArgumentScanState :=
    ScanReaches.pass _ _ ScanReaches.start (by decide) rfl
  obtain ⟨_, _, h3, _, _, _, _, out, h8, h9, _, h11, _⟩ :=
    C34_missing_argument_stops_at_last_option_token exampleLibc exampleParser "prog".toList
      ["pos".toList, "--needs_value".toList] false missingArgumentScanState
      ⟨missingArgumentScanState.argv, 1, 2,
        ⟨exampleRegistry, StrMap.empty.assign "needs_value".toList
          "ERROR: flag '--needs_value' is missing its argument\n".toList, StrMap.empty⟩, []⟩
      hreach (by decide) rfl (by decide)
  obtain ⟨h12, h13⟩ := h11 rfl
  refine ⟨hreach, h3, by decide, out, h8, h12, h13, ?_⟩
  rw [h9]
  simp [StrMap.assign]

/-- C35: on a well-formed registry and a vector `prog :: (A ++ "--" :: B)` in which no
token of `A` is `--` and no option token of `A` takes its value from the next slot,
`ParseNewCommandLineFlags` without removal returns the vector
`prog :: (options(A) ++ "--" :: (B ++ positionals(A)))` and the boundary
`1 + |options(A)| + 1`, the index behind the `--`; the parser is the one that the passes
over the option tokens of `A`, from left to right, leave.  So the tokens behind the
boundary are those of `B`, untouched and in their order, followed by the program arguments
of `A` in their order: every program argument of `A` stands behind every token of `B`. -/
theorem C35_positionals_before_double_dash_move_behind_rest (libc : Libc)
    (self : CommandLineFlagParser) (prog : CStr) (A B : List CStr)
    (hwf : self.registry_.WellFormed)
    (hdd : ∀ t ∈ A, t ≠ "--".toList)
    (hsep : ∀ t ∈ A, t.head? = some '-' ∧ 1 < t.length →
      self.registry_.needsSeparateValue t = false) :
    ∃ out, self.ParseNewCommandLineFlags libc (prog :: (A ++ "--".toList :: B)) false =
        .ok out ∧
      out.argv = prog :: (optionTokens A ++ "--".toList :: (B ++ A.filter isProgramArgument)) ∧
      out.result = 1 + (optionTokens A).length + 1 ∧
      out.argv.drop out.result = B ++ A.filter isProgramArgument ∧
      out.argv.take out.result = prog :: (optionTokens A ++ ["--".toList]) ∧
      (optionTokens A).foldlM
        (fun (q : CommandLineFlagParser) (t : CStr) => q.applyToken libc t) self =
        .ok out.psr := by
  obtain ⟨psr1, hreach, hfold, _⟩ := scanReaches_partition libc prog self hwf (1 + B.length)
    A [] ("--".toList :: B) self [] (FlagRegistry.SameFlags.refl _) hdd
    (fun t ht hp => hsep t ht ((isProgramArgument_eq_false t).1 hp))
  have e0 : ScanState.init self (prog :: (A ++ "--".toList :: B)) =
      ⟨prog :: ([] ++ A ++ "--".toList :: B), 1 + ([] : List CStr).length,
        1 + ([] : List CStr).length + A.length + (1 + B.length), self, []⟩ := by
    simp [ScanState.init]
    omega
  have e1 : (⟨prog :: (([] ++ optionTokens A) ++
      ("--".toList :: B ++ A.filter isProgramArgument)),
      1 + ([] ++ optionTokens A).length, 1 + ([] ++ optionTokens A).length + (1 + B.length),
      psr1, []⟩ : ScanState) =
      ⟨prog :: (optionTokens A ++ "--".toList :: B ++ A.filter isProgramArgument),
        1 + (optionTokens A).length, 1 + (optionTokens A).length + (1 + B.length), psr1, []⟩ := by
    simp
  rw [← e0, e1] at hreach
  have hget := getElem?_middle prog (optionTokens A) B "--".toList (A.filter isProgramArgument)
  have hbody := scanBody_double_dash libc
    ⟨prog :: (optionTokens A ++ "--".toList :: B ++ A.filter isProgramArgument),
      1 + (optionTokens A).length, 1 + (optionTokens A).length + (1 + B.length), psr1, []⟩ hget
  obtain ⟨_, _, fuel1, hf1, heq⟩ := ScanReaches.loop_eq libc _ _ hreach
    (ScanState.init_inBounds self prog (A ++ "--".toList :: B))
    (prog :: (A ++ "--".toList :: B)).length (by simp [ScanState.init])
  cases fuel1 with
  | zero => simp only at hf1; omega
  | succ f2 =>
    rw [scanLoop_break libc f2 _ _ (by simp only; omega) hbody] at heq
    refine ⟨⟨1 + (optionTokens A).length + 1,
      prog :: (optionTokens A ++ "--".toList :: B ++ A.filter isProgramArgument), psr1, []⟩,
      ?_, ?_, rfl, ?_, ?_, hfold⟩
    · simp only [CommandLineFlagParser.ParseNewCommandLineFlags, heq, bind, Except.bind, pure,
        Except.pure, Bool.false_eq_true, if_false]
    · simp
    · have : 1 + (optionTokens A).length + 1 = (optionTokens A ++ ["--".toList]).length + 1 := by
        simp; omega
      simp only [this, List.drop_succ_cons]
      have e : optionTokens A ++ "--".toList :: B ++ A.filter isProgramArgument =
          (optionTokens A ++ ["--".toList]) ++ (B ++ A.filter isProgramArgument) := by simp
      rw [e, List.drop_left]
    · have : 1 + (optionTokens A).length + 1 = (optionTokens A ++ ["--".toList]).length + 1 := by
        simp; omega
      simp only [this, List.take_succ_cons]
      have e : optionTokens A ++ "--".toList :: B ++ A.filter isProgramArgument =
          (optionTokens A ++ ["--".toList]) ++ (B ++ A.filter isProgramArgument) := by simp
      rw [e, List.take_left]

/-- C35 on the vector `[prog, pos1, --a=1, --, --b=2, pos2]` over the example registry: the
vector becomes `[prog, --a=1, --, --b=2, pos2, pos1]` with the boundary 3, so that `pos1`,
which came first, stands behind `pos2`; `a` holds 1 and `b` still holds 0. -/
theorem C35_witness :
    exampleRegistry.WellFormed ∧
    ∃ out, exampleParser.ParseNewCommandLineFlags exampleLibc
        ["prog".toList, "pos1".toList, "--a=1".toList, "--".toList, "--b=2".toList,
          "pos2".toList] false = .ok out ∧
      out.argv = ["prog".toList, "--a=1".toList, "--".toList, "--b=2".toList, "pos2".toList,
          "pos1".toList] ∧
      out.result = 3 ∧
      out.argv.drop out.result = ["--b=2".toList, "pos2".toList, "pos1".toList] ∧
      (out.psr.registry_.deref 0).map (fun f => f.current_.cell) = .ok (.int32 1) ∧
      (out.psr.registry_.deref 1).map (fun f => f.current_.cell) = .ok (.int32 0) := by
  obtain ⟨out, h1, h2, h3, h4, _, h6⟩ :=
    C35_positionals_before_double_dash_move_behind_rest exampleLibc exampleParser
      "prog".toList ["pos1".toList, "--a=1".toList] ["--b=2".toList, "pos2".toList]
      (by decide) (by decide) (by decide)
  have h7 : out.psr = _ := Except.ok.inj (h6.symm.trans rfl)
  refine ⟨by decide, out, h1, h2, h3, h4, ?_, ?_⟩
  · rw [h7]; rfl
  · rw [h7]; rfl

/-- C36 as the specification states it fails, in three ways.  With the boolean flag `dry-run` and the
int32 flag `nodry_run` registered, no flag is named `nodry-run`, yet
`SplitArgumentLocked("nodry-run=false")` returns the flag `nodry_run` with the value
`false`.  With the boolean flag `k=v` registered and no flag named `nok=v`,
`SplitArgumentLocked("nok=v=t")` returns no flag.  And for the boolean flag `strict`, whose
validator accepts only true, the scan of `[prog, --nostrict=true]` leaves `strict` true and
unmodified and records an error. -/
theorem C36_counterexample :
    (mapFind StringCmp dashRegistry.flags_ "dry-run".toList = some 0 ∧
      (dashRegistry.deref 0).map (fun f => f.Type_) = .ok .FV_BOOL ∧
      mapFind StringCmp dashRegistry.flags_ "nodry-run".toList = none ∧
      dashRegistry.SplitArgumentLocked "nodry-run=false".toList =
        .ok ⟨some 1, "nodry-run".toList, some "false".toList, []⟩) ∧
    (mapFind StringCmp negationRegistry.flags_ "k=v".toList = some 0 ∧
      (negationRegistry.deref 0).map (fun f => f.Type_) = .ok .FV_BOOL ∧
      mapFind StringCmp negationRegistry.flags_ "nok=v".toList = none ∧
      negationRegistry.FindFlagLocked "nok=v".toList = none ∧
      negationRegistry.SplitArgumentLocked "nok=v=t".toList =
        .ok ⟨none, "nok".toList, some "v=t".toList,
          "ERROR: unknown command line flag 'nok'\n".toList⟩) ∧
    (negationRegistry.FindFlagLocked "nostrict".toList = none ∧
      negationRegistry.SplitArgumentLocked "nostrict=true".toList =
        .ok ⟨some 1, "strict".toList, some "0".toList, []⟩ ∧
      (CommandLineFlagParser.ParseNewCommandLineFlags exampleLibc
          ⟨negationRegistry, StrMap.empty, StrMap.empty⟩
          ["prog".toList, "--nostrict=true".toList] false).map
        (fun out => ((out.psr.registry_.deref 1).map (fun f => (f.current_.cell, f.Modified)),
          out.psr.error_flags_ "strict".toList)) =
        .ok (.ok (.bool true, false),
          some "ERROR: failed validation of new value 'false' for flag 'strict'\n".toList)) :=
  ⟨⟨by decide, rfl, by decide, rfl⟩, ⟨by decide, rfl, by decide, by decide, rfl⟩,
    ⟨by decide, rfl, rfl⟩⟩

/-- C36, amended: for a registered boolean flag `x` whose name has no `=`, when
`FindFlagLocked` finds nothing under `no`+`x` (neither that name nor its
dash-to-underscore form is registered), `SplitArgumentLocked("no"+x+"="+t)` returns flag
`x` with key `x` and value `0` for every text `t`.  When `x` has no validator, or one that
accepts the value false, the pass of the scan over the token `--no<x>=<t>` sets `x` to
false, leaves it `Modified()`, and records no error, whatever `t` is. -/
theorem C36_negation_ignores_inline_value (libc : Libc) (reg : FlagRegistry) (x : CStr)
    (p : Nat) (obj : CommandLineFlag) (hwf : reg.WellFormed)
    (hreg : mapFind StringCmp reg.flags_ x = some p) (hobj : reg.deref p = .ok obj)
    (hbool : obj.Type_ = .FV_BOOL) (hx : strchr_found x '=' = false)
    (hno : reg.FindFlagLocked ("no".toList ++ x) = none) :
    (∀ t : CStr, reg.SplitArgumentLocked ("no".toList ++ x ++ '=' :: t) =
      .ok ⟨some p, x, some "0".toList, []⟩) ∧
    (obj.Validate ⟨0, .bool false, true⟩ = true →
      ∃ obj1 : CommandLineFlag,
        obj1.name = x ∧ obj1.current_.cell = .bool false ∧ obj1.Modified = true ∧
        obj1.current_value libc = "false".toList ∧
        (reg.store p obj1).deref p = .ok obj1 ∧
        (∀ (t : CStr) (s : ScanState), s.psr.registry_ = reg →
          s.argv[s.i]? = some ("--no".toList ++ x ++ '=' :: t) →
          scanBody libc s = .ok (false, ⟨s.argv, s.i + 1, s.first_nonopt,
            ⟨reg.store p obj1, s.psr.error_flags_, s.psr.undefined_names_⟩, s.cout⟩)) ∧
        (∀ (t : CStr) (self : CommandLineFlagParser) (prog : CStr), self.registry_ = reg →
          self.ParseNewCommandLineFlags libc [prog, "--no".toList ++ x ++ '=' :: t] false =
            .ok ⟨2, [prog, "--no".toList ++ x ++ '=' :: t],
              ⟨reg.store p obj1, self.error_flags_, self.undefined_names_⟩, []⟩)) := by
  have hsplit : ∀ t : CStr, reg.SplitArgumentLocked ("no".toList ++ x ++ '=' :: t) =
      .ok ⟨some p, x, some "0".toList, []⟩ :=
    fun t => split_negation_inline reg x t p obj hx hno hreg hobj hbool
  refine ⟨hsplit, ?_⟩
  intro hval
  obtain ⟨f, hf, hname, hkind⟩ := hwf.ptr_valid x p (mapFind_eq_some _ _ _ hreg)
  rw [hobj] at hf; cases hf
  have hcur : obj.current_.Type_ = .FV_BOOL := by rw [hkind]; exact hbool
  obtain ⟨msg, hset⟩ := SetFlagLocked_bool_zero_valid libc obj hcur hval
  have hplt : p < reg.objs.length :=
    (List.getElem?_eq_some_iff.1 ((FlagRegistry.deref_eq_ok _ _ _).1 hobj)).1
  have hbody : ∀ (t : CStr) (s : ScanState), s.psr.registry_ = reg →
      s.argv[s.i]? = some ("--no".toList ++ x ++ '=' :: t) →
      scanBody libc s = .ok (false, ⟨s.argv, s.i + 1, s.first_nonopt,
        ⟨reg.store p { obj with current_ := { obj.current_ with cell := .bool false },
                                modified_ := true }, s.psr.error_flags_, s.psr.undefined_names_⟩,
        s.cout⟩) := by
    intro t s hs hget
    subst hs
    obtain ⟨res, hres, hb⟩ := scanBody_apply libc s ("--no".toList ++ x ++ '=' :: t)
      ⟨some p, x, some "0".toList, []⟩ p "0".toList obj hget (isProgramArgument_two _)
      (by simp) (by
        rw [show "--no".toList ++ x ++ '=' :: t = '-' :: '-' :: ("no".toList ++ x ++ '=' :: t)
          from rfl, stripDashes_two]
        exact hsplit t) rfl rfl hobj
    rw [hset] at hres
    cases hres
    exact hb
  refine ⟨{ obj with current_ := { obj.current_ with cell := .bool false }, modified_ := true },
    hname, rfl, rfl, rfl, FlagRegistry.deref_store_same reg p _ hplt, hbody, ?_⟩
  intro t self prog hs
  have hb := hbody t (ScanState.init self [prog, "--no".toList ++ x ++ '=' :: t]) hs rfl
  exact parse_single_token libc self prog _ _ hb rfl rfl

/-- C36, amended, on the flag `verbose` of the example registry: `noverbose=true` and
`noverbose=zzz` both give the flag with the value `0`, and the scan of
`[prog, --noverbose=zzz]` leaves `verbose` false and modified, with no error recorded. -/
theorem C36_witness :
    exampleRegistry.SplitArgumentLocked "noverbose=true".toList =
        .ok ⟨some 4, "verbose".toList, some "0".toList, []⟩ ∧
    exampleRegistry.SplitArgumentLocked "noverbose=zzz".toList =
        .ok ⟨some 4, "verbose".toList, some "0".toList, []⟩ ∧
    ∃ obj1 : CommandLineFlag,
      obj1.name = "verbose".toList ∧ obj1.current_.cell = .bool false ∧ obj1.Modified = true ∧
      exampleParser.ParseNewCommandLineFlags exampleLibc
          ["prog".toList, "--noverbose=zzz".toList] false =
        .ok ⟨2, ["prog".toList, "--noverbose=zzz".toList],
          ⟨exampleRegistry.store 4 obj1, StrMap.empty, StrMap.empty⟩, []⟩ := by
  obtain ⟨h1, h2⟩ := C36_negation_ignores_inline_value exampleLibc
    exampleRegistry "verbose".toList 4 (defineFlag "verbose" "main.cc" 108 (.bool true))
    (by decide) (by decide) rfl rfl (by decide) (by decide)
  obtain ⟨obj1, h3, h4, h5, _, _, _, h8⟩ := h2 rfl
  exact ⟨h1 "true".toList, h1 "zzz".toList, obj1, h3, h4, h5,
    h8 "zzz".toList exampleParser "prog".toList rfl⟩

/-- C37 as the specification states it fails: the double flag `scale`, unmodified with the default
0.0 and without validator, is given the text `nan` in `SET_FLAGS_DEFAULT` mode, which
`strtod` converts to a NaN; the call returns true, the modified bit is still false, both
boxes hold the NaN, and `Equal`, the C `==`, says that the current value is not equal to
the default value. -/
theorem C37_counterexample :
    scaleFlag.Modified = false ∧ scaleFlag.current_.Equal scaleFlag.defvalue_ = true ∧
    quietNaN.isNaN = true ∧
    (FlagRegistry.SetFlagLocked nanLibc scaleFlag "nan".toList .SET_FLAGS_DEFAULT (some [])).map
      (fun r => (r.ok, r.flag.Modified, r.flag.current_.Equal r.flag.defvalue_,
        r.flag.current_.cell, r.flag.defvalue_.cell)) =
      .ok (true, false, false, .double quietNaN, .double quietNaN) :=
  ⟨rfl, by decide, by decide, rfl⟩

/-- C37, amended: when a call of `SetFlagLocked` returns, whatever the mode, the text and
the return value, and the flag's modified bit is then false, its current value is `Equal`
to its default value, with one exception: a successful call in `SET_FLAGS_DEFAULT` mode
whose text parses to a double NaN leaves that NaN in both boxes, and `Equal` is false on
it.  So the current value is `Equal` to the default value for every flag that is not of
kind double, and for every text that does not parse to a NaN.  (A validator is a function
of the flag name and the value in this development.) -/
theorem C37_unmodified_flag_has_default_value (libc : Libc) (flag : CommandLineFlag)
    (text : CStr) (set_mode : FlagSettingMode) (msg : Option CStr) (r : SetFlagResult)
    (h : FlagRegistry.SetFlagLocked libc flag text set_mode msg = .ok r)
    (hm : r.flag.Modified = false) :
    (r.flag.current_.Equal r.flag.defvalue_ = true ∨
      (set_mode = .SET_FLAGS_DEFAULT ∧ r.ok = true ∧
        ∃ d, r.flag.current_.cell = .double d ∧ r.flag.defvalue_.cell = .double d ∧
          d.isNaN = true ∧ (flag.defvalue_.New.ParseFrom libc text).2.cell = .double d)) ∧
    (r.flag.Type_ ≠ .FV_DOUBLE → r.flag.current_.Equal r.flag.defvalue_ = true) ∧
    ((∀ d, (flag.defvalue_.New.ParseFrom libc text).2.cell = .double d → d.isNaN = false) →
      r.flag.current_.Equal r.flag.defvalue_ = true) := by
  have hmain := SetFlagLocked_unmodified_equal libc flag text set_mode msg r h hm
  refine ⟨hmain, ?_, ?_⟩
  · intro hk
    rcases hmain with h1 | ⟨_, _, d, _, h2, _⟩
    · exact h1
    · exact absurd (by simp [CommandLineFlag.Type_, FlagValue.Type_, h2]) hk
  · intro hn
    rcases hmain with h1 | ⟨_, _, d, _, _, h2, h3⟩
    · exact h1
    · rw [hn d h3] at h2
      cases h2

/-- C37, amended, on the flag `timeout` as defined: the text `7` in `SET_FLAGS_DEFAULT` mode
is accepted, the modified bit stays false, and current and default value are both 7; the
text `abc` in `SET_FLAGS_VALUE` mode is refused, and current and default value are both
still 0. -/
theorem C37_witness :
    (∃ r, FlagRegistry.SetFlagLocked exampleLibc timeoutFlag "7".toList .SET_FLAGS_DEFAULT
        none = .ok r ∧ r.ok = true ∧ r.flag.Modified = false ∧
      r.flag.current_.cell = .int32 7 ∧ r.flag.defvalue_.cell = .int32 7 ∧
      r.flag.current_.Equal r.flag.defvalue_ = true) ∧
    (∃ r, FlagRegistry.SetFlagLocked exampleLibc timeoutFlag "abc".toList .SET_FLAGS_VALUE
        none = .ok r ∧ r.ok = false ∧ r.flag.Modified = false ∧
      r.flag.current_.Equal r.flag.defvalue_ = true) :=
  ⟨⟨_, rfl, rfl, rfl, rfl, rfl,
      (C37_unmodified_flag_has_default_value exampleLibc timeoutFlag "7".toList
        .SET_FLAGS_DEFAULT none _ rfl rfl).2.1 (by decide)⟩,
   ⟨_, rfl, rfl, rfl,
      (C37_unmodified_flag_has_default_value exampleLibc timeoutFlag "abc".toList
        .SET_FLAGS_VALUE none _ rfl rfl).2.1 (by decide)⟩⟩

/-- C38: `ParseFrom` on an unsigned box refuses a text whose first character behind the
leading spaces is `-`, but not a negative numeral behind a tab: the UInt64 box accepts the
text of a tab and `-1` and stores 18446744073709551615, and the UInt32 box accepts the text
of a tab and `-18446744073709551615` and stores 1.  An unsigned box accepts a text that
holds a `-` only in this way, when the text goes on behind its leading spaces with a
white-space character other than the space; so a text it accepts in which every white-space
character is a space holds no `-`. -/
theorem C38_unsigned_kinds_accept_minus_behind_tab :
    (∀ libc : Libc,
      FlagValue.ParseFrom libc ⟨0, .uint64 0, true⟩ "\t-1".toList =
        (true, ⟨0, .uint64 18446744073709551615, true⟩) ∧
      FlagValue.ParseFrom libc ⟨0, .uint32 0, true⟩ "\t-18446744073709551615".toList =
        (true, ⟨0, .uint32 1, true⟩) ∧
      FlagValue.ParseFrom libc ⟨0, .uint64 0, true⟩ " -1".toList =
        (false, ⟨0, .uint64 0, true⟩)) ∧
    (∀ (libc : Libc) (fv : FlagValue) (text : CStr),
      fv.Type_ = .FV_UINT32 ∨ fv.Type_ = .FV_UINT64 →
      (fv.ParseFrom libc text).1 = true →
      ('-' ∈ text → ∃ c rest, skipSpaces text = c :: rest ∧ isspace c = true ∧ c ≠ ' ') ∧
      ((∀ c ∈ text, isspace c = true → c = ' ') → '-' ∉ text)) := by
  refine ⟨fun libc => ⟨rfl, rfl, rfl⟩, ?_⟩
  intro libc fv text hk h
  refine ⟨ParseFrom_unsigned_minus_accepted libc fv text hk h, ?_⟩
  intro hsp hmem
  obtain ⟨c, rest, hs, hc1, hc2⟩ := ParseFrom_unsigned_minus_accepted libc fv text hk h hmem
  have hin : c ∈ text := by
    have : c ∈ skipSpaces text := by rw [hs]; exact List.mem_cons_self _ _
    unfold skipSpaces at this
    exact (List.dropWhile_sublist _).subset this
  exact hc2 (hsp c hin hc1)

end gflags
